import Mathlib

/-!
The Redis wire-protocol parser of twemproxy (`src/nc_parse.c`)

A shallow embedding of `parse_request` and `parse_response` together with
the parts of `struct msg` (`src/nc_message.h`) that the two functions read
and write.

Conventions of the embedding.

* A byte is a natural number; the filled region of the tail buffer is a
  `List Nat`.
* A pointer into the tail buffer is the offset from the start of that
  buffer; a pointer that may be `NULL` is an `Option Nat`.
* The `uint32_t` counters `narg`, `rnarg` and `rlen` are natural numbers and
  every arithmetic update is reduced modulo `2 ^ 32`.
* The local variable `state` of the two functions is a value of the
  enumeration declared inside the function; `r->state` is the `int` stored
  in the message.
-/

namespace NcParse

/-! ## Data model -/

/-- The enumeration `msg_type_t` of `nc_message.h`. -/
inductive msg_type_t
  | MSG_UNKNOWN
  | MSG_REQ_REDIS_APPEND
  | MSG_REQ_REDIS_DECR
  | MSG_REQ_REDIS_DEL
  | MSG_REQ_REDIS_DECRBY
  | MSG_REQ_REDIS_EXISTS
  | MSG_REQ_REDIS_EXPIRE
  | MSG_REQ_REDIS_EXPIREAT
  | MSG_REQ_REDIS_GET
  | MSG_REQ_REDIS_GETBIT
  | MSG_REQ_REDIS_GETRANGE
  | MSG_REQ_REDIS_GETSET
  | MSG_REQ_REDIS_HDEL
  | MSG_REQ_REDIS_HEXISTS
  | MSG_REQ_REDIS_HGET
  | MSG_REQ_REDIS_HGETALL
  | MSG_REQ_REDIS_HINCRBY
  | MSG_REQ_REDIS_HKEYS
  | MSG_REQ_REDIS_HLEN
  | MSG_REQ_REDIS_HMGET
  | MSG_REQ_REDIS_HMSET
  | MSG_REQ_REDIS_HSET
  | MSG_REQ_REDIS_HSETNX
  | MSG_REQ_REDIS_HVALS
  | MSG_REQ_REDIS_INCR
  | MSG_REQ_REDIS_INCRBY
  | MSG_REQ_REDIS_LINDEX
  | MSG_REQ_REDIS_LINSERT
  | MSG_REQ_REDIS_LLEN
  | MSG_REQ_REDIS_LPOP
  | MSG_REQ_REDIS_LPUSH
  | MSG_REQ_REDIS_LPUSHX
  | MSG_REQ_REDIS_LRANGE
  | MSG_REQ_REDIS_LREM
  | MSG_REQ_REDIS_LSET
  | MSG_REQ_REDIS_LTRIM
  | MSG_REQ_REDIS_MOVE
  | MSG_REQ_REDIS_PERSIST
  | MSG_REQ_REDIS_RPOP
  | MSG_REQ_REDIS_RPUSH
  | MSG_REQ_REDIS_RPUSHX
  | MSG_REQ_REDIS_SADD
  | MSG_REQ_REDIS_SCARD
  | MSG_REQ_REDIS_SET
  | MSG_REQ_REDIS_SETBIT
  | MSG_REQ_REDIS_SETEX
  | MSG_REQ_REDIS_SETNX
  | MSG_REQ_REDIS_SETRANGE
  | MSG_REQ_REDIS_SISMEMBER
  | MSG_REQ_REDIS_SMEMBERS
  | MSG_REQ_REDIS_SPOP
  | MSG_REQ_REDIS_SRANDMEMBER
  | MSG_REQ_REDIS_SREM
  | MSG_REQ_REDIS_STRLEN
  | MSG_REQ_REDIS_TTL
  | MSG_REQ_REDIS_TYPE
  | MSG_REQ_REDIS_MGET
  | MSG_RSP_REDIS_STATUS
  | MSG_RSP_REDIS_ERROR
  | MSG_RSP_REDIS_INTEGER
  | MSG_RSP_REDIS_BULK
  | MSG_RSP_REDIS_MULTIBULK
  | MSG_SENTINEL
  deriving DecidableEq, Repr

open msg_type_t

/-- Modelled from the spec: the verdict constants `PARSE_OK`, `PARSE_ERROR`,
`PARSE_REPAIR`, `PARSE_FRAGMENT` and `PARSE_AGAIN` are declared in
`nc_parse.h`, which is not part of the sources at hand; the spec (section 6)
lists the five result values. -/
inductive parse_result
  | PARSE_OK
  | PARSE_ERROR
  | PARSE_REPAIR
  | PARSE_FRAGMENT
  | PARSE_AGAIN
  deriving DecidableEq, Repr

open parse_result

/-- The fields of `struct msg` that the parser reads or writes. -/
structure msg where
  /-- The field `int state`: current parser state. -/
  state : Nat
  /-- The field `uint8_t *pos`: parser position marker. -/
  pos : Nat
  /-- The field `uint8_t *token`: contiguous token marker. -/
  token : Option Nat
  /-- The field `int result`: message parsing result. -/
  result : parse_result
  /-- The field `msg_type_t type`. -/
  type : msg_type_t
  /-- The field `uint8_t *key_start`. -/
  key_start : Option Nat
  /-- The field `uint8_t *key_end`. -/
  key_end : Option Nat
  /-- The field `uint8_t *narg_start`. -/
  narg_start : Option Nat
  /-- The field `uint8_t *narg_end`. -/
  narg_end : Option Nat
  /-- The field `uint32_t narg`. -/
  narg : Nat
  /-- The field `uint32_t rnarg`. -/
  rnarg : Nat
  /-- The field `uint32_t rlen`. -/
  rlen : Nat
  deriving DecidableEq, Repr

/-- Modelled from the spec: `struct mbuf` is declared in `nc_mbuf.h`, which is
not part of the sources at hand. Per the spec (section 3) a buffer has a fixed
capacity and exposes `pos`, `last` and `end`. Here `data` holds the filled
bytes, so that `last` is `data.length`, and `size` is the capacity, so that
`end` is `size`; both are offsets from the start of the buffer. -/
structure mbuf where
  /-- The bytes between the start of the buffer and `last`. -/
  data : List Nat
  /-- The capacity of the buffer: the offset of `end`. -/
  size : Nat
  deriving DecidableEq, Repr

/-- The position `b->last`: one past the last filled byte. -/
def mbuf.last (b : mbuf) : Nat := b.data.length

/-- The byte `*p` for a pointer `p` into the buffer. -/
def mbuf.at (b : mbuf) (p : Nat) : Nat := b.data.getD p 0

/-- The test `b->last == b->end`: the buffer is physically full. -/
def mbuf.full (b : mbuf) : Bool := b.last == b.size

/-- What the switch body of one loop iteration does: it either reaches the
end of the body (`break`), after which the loop header increments the cursor,
or jumps to one of the labels `done`, `fragment` and `error`. -/
inductive flow (σ : Type)
  /-- The body ended with `break`; `p` is the cursor after the `p++` of the
  loop header, with which the next iteration starts. -/
  | next (p : Nat) (state : σ) (r : msg)
  /-- The body jumped to `done` with cursor `p`. -/
  | done (p : Nat) (state : σ) (r : msg)
  /-- The body jumped to `fragment` with cursor `p`. -/
  | fragment (p : Nat) (state : σ) (r : msg)
  /-- The body jumped to `error`. -/
  | error (state : σ) (r : msg)

/-- The function `isdigit` of `ctype.h` on a byte. -/
def isdigit (ch : Nat) : Bool := decide (48 ≤ ch) && decide (ch ≤ 57)

/-- One step of `x = x * 10 + (uint32_t)(ch - '0')` on a `uint32_t`. -/
def accum (x ch : Nat) : Nat := (x * 10 + (ch - 48)) % 2 ^ 32

/-- The update `rlen -= (uint32_t)(b->last - p)` on a `uint32_t`. -/
def sub32 (x d : Nat) : Nat := (x + 2 ^ 32 - d % 2 ^ 32) % 2 ^ 32

/-- The ASCII lower-case form of a byte. -/
def tolower (c : Nat) : Nat := if 65 ≤ c ∧ c ≤ 90 then c + 32 else c

/-- Modelled from the spec: the macros `str3icmp` ... `str11icmp` are defined
in a header that is not part of the sources at hand. Per the spec (sections 2
and 4.1) they are the "fixed-length case-insensitive equality" of the bytes
at `m` "against fixed byte tuples": byte `i` at `m` equals the `i`-th given
character up to ASCII letter case. Bytes are compared from left to right. -/
def stricmp (b : mbuf) (m : Nat) : List Char → Bool
  | [] => true
  | c :: cs => (tolower (b.at m) == tolower c.toNat) && stricmp b (m + 1) cs

/-! ## The arity predicates -/

/-- The function `parse_arg1`. -/
def parse_arg1 (r : msg) : Bool :=
  match r.type with
  | MSG_REQ_REDIS_GET
  | MSG_REQ_REDIS_TTL
  | MSG_REQ_REDIS_DECR
  | MSG_REQ_REDIS_HLEN
  | MSG_REQ_REDIS_INCR
  | MSG_REQ_REDIS_LLEN
  | MSG_REQ_REDIS_LPOP
  | MSG_REQ_REDIS_RPOP
  | MSG_REQ_REDIS_SPOP
  | MSG_REQ_REDIS_TYPE
  | MSG_REQ_REDIS_HKEYS
  | MSG_REQ_REDIS_HVALS
  | MSG_REQ_REDIS_SCARD
  | MSG_REQ_REDIS_EXISTS
  | MSG_REQ_REDIS_STRLEN
  | MSG_REQ_REDIS_HGETALL
  | MSG_REQ_REDIS_PERSIST
  | MSG_REQ_REDIS_SMEMBERS
  | MSG_REQ_REDIS_SRANDMEMBER => true
  | _ => false

/-- The function `parse_arg2`. -/
def parse_arg2 (r : msg) : Bool :=
  match r.type with
  | MSG_REQ_REDIS_SET
  | MSG_REQ_REDIS_HGET
  | MSG_REQ_REDIS_MOVE
  | MSG_REQ_REDIS_SETNX
  | MSG_REQ_REDIS_APPEND
  | MSG_REQ_REDIS_DECRBY
  | MSG_REQ_REDIS_EXPIRE
  | MSG_REQ_REDIS_GETBIT
  | MSG_REQ_REDIS_GETSET
  | MSG_REQ_REDIS_INCRBY
  | MSG_REQ_REDIS_LINDEX
  | MSG_REQ_REDIS_LPUSHX
  | MSG_REQ_REDIS_RPUSHX
  | MSG_REQ_REDIS_HEXISTS
  | MSG_REQ_REDIS_EXPIREAT
  | MSG_REQ_REDIS_SISMEMBER => true
  | _ => false

/-- The function `parse_arg3`. -/
def parse_arg3 (r : msg) : Bool :=
  match r.type with
  | MSG_REQ_REDIS_HSET
  | MSG_REQ_REDIS_LREM
  | MSG_REQ_REDIS_LSET
  | MSG_REQ_REDIS_LTRIM
  | MSG_REQ_REDIS_SETEX
  | MSG_REQ_REDIS_HSETNX
  | MSG_REQ_REDIS_LRANGE
  | MSG_REQ_REDIS_SETBIT
  | MSG_REQ_REDIS_HINCRBY
  | MSG_REQ_REDIS_GETRANGE
  | MSG_REQ_REDIS_SETRANGE => true
  | _ => false

/-- The function `parse_arg4`. -/
def parse_arg4 (r : msg) : Bool :=
  match r.type with
  | MSG_REQ_REDIS_LINSERT => true
  | _ => false

/-- The function `parse_argn`. -/
def parse_argn (r : msg) : Bool :=
  match r.type with
  | MSG_REQ_REDIS_HDEL
  | MSG_REQ_REDIS_SADD
  | MSG_REQ_REDIS_SREM
  | MSG_REQ_REDIS_HMGET
  | MSG_REQ_REDIS_HMSET
  | MSG_REQ_REDIS_LPUSH
  | MSG_REQ_REDIS_RPUSH => true
  | _ => false

/-- The function `parse_argx`. -/
def parse_argx (r : msg) : Bool :=
  match r.type with
  | MSG_REQ_REDIS_MGET
  | MSG_REQ_REDIS_DEL => true
  | _ => false

/-! ## The request machine -/

/-- The enumeration of states declared inside `parse_request`. -/
inductive req_sw
  | SW_START
  | SW_NARG
  | SW_NARG_LF
  | SW_REQ_TYPE_LEN
  | SW_REQ_TYPE_LEN_LF
  | SW_REQ_TYPE
  | SW_REQ_TYPE_LF
  | SW_KEY_LEN
  | SW_KEY_LEN_LF
  | SW_KEY
  | SW_KEY_LF
  | SW_ARG1_LEN
  | SW_ARG1_LEN_LF
  | SW_ARG1
  | SW_ARG1_LF
  | SW_ARG2_LEN
  | SW_ARG2_LEN_LF
  | SW_ARG2
  | SW_ARG2_LF
  | SW_ARGN_LEN
  | SW_ARGN_LEN_LF
  | SW_ARGN
  | SW_ARGN_LF
  | SW_FRAGMENT
  | SW_SENTINEL
  deriving DecidableEq, Repr

open req_sw

/-- The integer value of a state of `parse_request`, as stored by
`r->state = state`. -/
def req_sw.to_int : req_sw → Nat
  | SW_START => 0
  | SW_NARG => 1
  | SW_NARG_LF => 2
  | SW_REQ_TYPE_LEN => 3
  | SW_REQ_TYPE_LEN_LF => 4
  | SW_REQ_TYPE => 5
  | SW_REQ_TYPE_LF => 6
  | SW_KEY_LEN => 7
  | SW_KEY_LEN_LF => 8
  | SW_KEY => 9
  | SW_KEY_LF => 10
  | SW_ARG1_LEN => 11
  | SW_ARG1_LEN_LF => 12
  | SW_ARG1 => 13
  | SW_ARG1_LF => 14
  | SW_ARG2_LEN => 15
  | SW_ARG2_LEN_LF => 16
  | SW_ARG2 => 17
  | SW_ARG2_LF => 18
  | SW_ARGN_LEN => 19
  | SW_ARGN_LEN_LF => 20
  | SW_ARGN => 21
  | SW_ARGN_LF => 22
  | SW_FRAGMENT => 23
  | SW_SENTINEL => 24

/-- The state of `parse_request` with a given integer value, as read by
`state = r->state`. The function asserts `state < SW_SENTINEL`; a value outside
the enumeration takes the `default` branch of the switch, which it shares with
`SW_SENTINEL`. -/
def req_sw.of_int : Nat → req_sw
  | 0 => SW_START
  | 1 => SW_NARG
  | 2 => SW_NARG_LF
  | 3 => SW_REQ_TYPE_LEN
  | 4 => SW_REQ_TYPE_LEN_LF
  | 5 => SW_REQ_TYPE
  | 6 => SW_REQ_TYPE_LF
  | 7 => SW_KEY_LEN
  | 8 => SW_KEY_LEN_LF
  | 9 => SW_KEY
  | 10 => SW_KEY_LF
  | 11 => SW_ARG1_LEN
  | 12 => SW_ARG1_LEN_LF
  | 13 => SW_ARG1
  | 14 => SW_ARG1_LF
  | 15 => SW_ARG2_LEN
  | 16 => SW_ARG2_LEN_LF
  | 17 => SW_ARG2
  | 18 => SW_ARG2_LF
  | 19 => SW_ARGN_LEN
  | 20 => SW_ARGN_LEN_LF
  | 21 => SW_ARGN
  | 22 => SW_ARGN_LF
  | 23 => SW_FRAGMENT
  | _ => SW_SENTINEL

/-- The command switch of state `SW_REQ_TYPE` (`switch (p - m)`, lines
326-634): the tag of the `len` bytes at `m`, or `MSG_UNKNOWN`. Case 9 has no
closing `break` and falls through into the comparison of case 11. -/
def req_type (b : mbuf) (m len : Nat) : msg_type_t :=
  match len with
  | 3 =>
    if stricmp b m ['g', 'e', 't'] then MSG_REQ_REDIS_GET else
    if stricmp b m ['s', 'e', 't'] then MSG_REQ_REDIS_SET else
    if stricmp b m ['t', 't', 'l'] then MSG_REQ_REDIS_TTL else
    if stricmp b m ['d', 'e', 'l'] then MSG_REQ_REDIS_DEL else
    MSG_UNKNOWN
  | 4 =>
    if stricmp b m ['d', 'e', 'c', 'r'] then MSG_REQ_REDIS_DECR else
    if stricmp b m ['h', 'd', 'e', 'l'] then MSG_REQ_REDIS_HDEL else
    if stricmp b m ['h', 'g', 'e', 't'] then MSG_REQ_REDIS_HGET else
    if stricmp b m ['h', 'l', 'e', 'n'] then MSG_REQ_REDIS_HLEN else
    if stricmp b m ['h', 's', 'e', 't'] then MSG_REQ_REDIS_HSET else
    if stricmp b m ['i', 'n', 'c', 'r'] then MSG_REQ_REDIS_INCR else
    if stricmp b m ['l', 'l', 'e', 'n'] then MSG_REQ_REDIS_LLEN else
    if stricmp b m ['l', 'p', 'o', 'p'] then MSG_REQ_REDIS_LPOP else
    if stricmp b m ['l', 'r', 'e', 'm'] then MSG_REQ_REDIS_LREM else
    if stricmp b m ['l', 's', 'e', 't'] then MSG_REQ_REDIS_LSET else
    if stricmp b m ['m', 'o', 'v', 'e'] then MSG_REQ_REDIS_MOVE else
    if stricmp b m ['r', 'p', 'o', 'p'] then MSG_REQ_REDIS_RPOP else
    if stricmp b m ['s', 'a', 'd', 'd'] then MSG_REQ_REDIS_SADD else
    if stricmp b m ['s', 'p', 'o', 'p'] then MSG_REQ_REDIS_SPOP else
    if stricmp b m ['s', 'r', 'e', 'm'] then MSG_REQ_REDIS_SREM else
    if stricmp b m ['t', 'y', 'p', 'e'] then MSG_REQ_REDIS_TYPE else
    if stricmp b m ['m', 'g', 'e', 't'] then MSG_REQ_REDIS_MGET else
    MSG_UNKNOWN
  | 5 =>
    if stricmp b m ['h', 'k', 'e', 'y', 's'] then MSG_REQ_REDIS_HKEYS else
    if stricmp b m ['h', 'm', 'g', 'e', 't'] then MSG_REQ_REDIS_HMGET else
    if stricmp b m ['h', 'm', 's', 'e', 't'] then MSG_REQ_REDIS_HMSET else
    if stricmp b m ['h', 'v', 'a', 'l', 's'] then MSG_REQ_REDIS_HVALS else
    if stricmp b m ['l', 'p', 'u', 's', 'h'] then MSG_REQ_REDIS_LPUSH else
    if stricmp b m ['l', 't', 'r', 'i', 'm'] then MSG_REQ_REDIS_LTRIM else
    if stricmp b m ['r', 'p', 'u', 's', 'h'] then MSG_REQ_REDIS_RPUSH else
    if stricmp b m ['s', 'c', 'a', 'r', 'd'] then MSG_REQ_REDIS_SCARD else
    if stricmp b m ['s', 'e', 't', 'e', 'x'] then MSG_REQ_REDIS_SETEX else
    if stricmp b m ['s', 'e', 't', 'n', 'x'] then MSG_REQ_REDIS_SETNX else
    MSG_UNKNOWN
  | 6 =>
    if stricmp b m ['a', 'p', 'p', 'e', 'n', 'd'] then MSG_REQ_REDIS_APPEND else
    if stricmp b m ['d', 'e', 'c', 'r', 'b', 'y'] then MSG_REQ_REDIS_DECRBY else
    if stricmp b m ['e', 'x', 'i', 's', 't', 's'] then MSG_REQ_REDIS_EXISTS else
    if stricmp b m ['e', 'x', 'p', 'i', 'r', 'e'] then MSG_REQ_REDIS_EXPIRE else
    if stricmp b m ['g', 'e', 't', 'b', 'i', 't'] then MSG_REQ_REDIS_GETBIT else
    if stricmp b m ['g', 'e', 't', 's', 'e', 't'] then MSG_REQ_REDIS_GETSET else
    if stricmp b m ['h', 's', 'e', 't', 'n', 'x'] then MSG_REQ_REDIS_HSETNX else
    if stricmp b m ['i', 'n', 'c', 'r', 'b', 'y'] then MSG_REQ_REDIS_INCRBY else
    if stricmp b m ['l', 'i', 'n', 'd', 'e', 'x'] then MSG_REQ_REDIS_LINDEX else
    if stricmp b m ['l', 'p', 'u', 's', 'h', 'x'] then MSG_REQ_REDIS_LPUSHX else
    if stricmp b m ['l', 'r', 'a', 'n', 'g', 'e'] then MSG_REQ_REDIS_LRANGE else
    if stricmp b m ['r', 'p', 'u', 's', 'h', 'x'] then MSG_REQ_REDIS_RPUSHX else
    if stricmp b m ['s', 'e', 't', 'b', 'i', 't'] then MSG_REQ_REDIS_SETBIT else
    if stricmp b m ['s', 't', 'r', 'l', 'e', 'n'] then MSG_REQ_REDIS_STRLEN else
    MSG_UNKNOWN
  | 7 =>
    if stricmp b m ['h', 'e', 'x', 'i', 's', 't', 's'] then MSG_REQ_REDIS_HEXISTS else
    if stricmp b m ['h', 'g', 'e', 't', 'a', 'l', 'l'] then MSG_REQ_REDIS_HGETALL else
    if stricmp b m ['h', 'i', 'n', 'c', 'r', 'b', 'y'] then MSG_REQ_REDIS_HINCRBY else
    if stricmp b m ['l', 'i', 'n', 's', 'e', 'r', 't'] then MSG_REQ_REDIS_LINSERT else
    if stricmp b m ['p', 'e', 'r', 's', 'i', 's', 't'] then MSG_REQ_REDIS_PERSIST else
    MSG_UNKNOWN
  | 8 =>
    if stricmp b m ['e', 'x', 'p', 'i', 'r', 'e', 'a', 't'] then MSG_REQ_REDIS_EXPIREAT else
    if stricmp b m ['g', 'e', 't', 'r', 'a', 'n', 'g', 'e'] then MSG_REQ_REDIS_GETRANGE else
    if stricmp b m ['s', 'e', 't', 'r', 'a', 'n', 'g', 'e'] then MSG_REQ_REDIS_SETRANGE else
    if stricmp b m ['s', 'm', 'e', 'm', 'b', 'e', 'r', 's'] then MSG_REQ_REDIS_SMEMBERS else
    MSG_UNKNOWN
  | 9 =>
    if stricmp b m ['s', 'i', 's', 'm', 'e', 'm', 'b', 'e', 'r'] then MSG_REQ_REDIS_SISMEMBER else
    if stricmp b m ['s', 'r', 'a', 'n', 'd', 'm', 'e', 'm', 'b', 'e', 'r'] then MSG_REQ_REDIS_SRANDMEMBER else
    MSG_UNKNOWN
  | 11 =>
    if stricmp b m ['s', 'r', 'a', 'n', 'd', 'm', 'e', 'm', 'b', 'e', 'r'] then MSG_REQ_REDIS_SRANDMEMBER else
    MSG_UNKNOWN
  | _ => MSG_UNKNOWN

/-- The code after the loop of `parse_request` and of `parse_response` (the
same text in both): the cursor and the state are stored, and the verdict is
`PARSE_REPAIR` when the buffer is full and a token is open, `PARSE_AGAIN`
otherwise. `state` is the integer value of the local state. -/
def label_again (b : mbuf) (p state : Nat) (r : msg) : msg :=
  match r.token with
  | some t =>
    if b.full then { r with pos := t, state := state, token := none, result := PARSE_REPAIR }
    else { r with pos := p, state := state, result := PARSE_AGAIN }
  | none => { r with pos := p, state := state, result := PARSE_AGAIN }

/-- The label `fragment` of `parse_request`. -/
def label_fragment (state : Nat) (r : msg) : msg :=
  match r.token with
  | some t => { r with pos := t, token := none, state := state, result := PARSE_FRAGMENT }
  | none => { r with state := state, result := PARSE_FRAGMENT }

/-- The label `done` of `parse_request` and of `parse_response`; the stored
state is `SW_START`, whose value is 0 in both functions. -/
def label_done (p : Nat) (r : msg) : msg :=
  { r with pos := p + 1, state := 0, token := none, result := PARSE_OK }

/-- The label `error` of `parse_request` and of `parse_response`. -/
def label_error (state : Nat) (r : msg) : msg :=
  { r with result := PARSE_ERROR, state := state }

/-- The states `SW_REQ_TYPE_LEN` and `SW_KEY_LEN`, whose code differs only in
the state that follows the `CR`. -/
def req_len (p ch : Nat) (state next : req_sw) (r : msg) : flow req_sw :=
  match r.token with
  | none =>
    if ch ≠ 36 then .error state r
    else .next (p + 1) state { r with token := some p, rlen := 0 }
  | some _ =>
    if isdigit ch then .next (p + 1) state { r with rlen := accum r.rlen ch }
    else if ch = 13 then
      if r.rlen = 0 ∨ r.rnarg = 0 then .error state r
      else .next (p + 1) next { r with rnarg := r.rnarg - 1, token := none }
    else .error state r

/-- The states `SW_ARG1_LEN`, `SW_ARG2_LEN` and `SW_ARGN_LEN`, whose code
differs only in the state that follows the `CR`. -/
def req_arg_len (p ch : Nat) (state next : req_sw) (r : msg) : flow req_sw :=
  match r.token with
  | none =>
    if ch ≠ 36 then .error state r
    else .next (p + 1) state { r with rlen := 0, token := some p }
  | some t =>
    if isdigit ch then .next (p + 1) state { r with rlen := accum r.rlen ch }
    else if ch = 13 then
      if p - t ≤ 1 ∨ r.rnarg = 0 then .error state r
      else .next (p + 1) next { r with rnarg := r.rnarg - 1, token := none }
    else .error state r

/-- The states `SW_ARG1`, `SW_ARG2` and `SW_ARGN`, whose code differs only in
the state that follows the `CR`. -/
def req_arg (b : mbuf) (p : Nat) (state next : req_sw) (r : msg) : flow req_sw :=
  let m := p + r.rlen
  if m ≥ b.last then
    .next (b.last - 1 + 1) state { r with rlen := sub32 r.rlen (b.last - p) }
  else if b.at m ≠ 13 then .error state r
  else .next (m + 1) next { r with rlen := 0 }

/-- The states that accept only `LF` and then move on. -/
def req_lf (p ch : Nat) (state next : req_sw) (r : msg) : flow req_sw :=
  if ch = 10 then .next (p + 1) next r else .error state r

/-- The body of the loop of `parse_request`: the switch on `state` for the
byte at `p`, where `p < b->last`. -/
def req_step (b : mbuf) (p : Nat) (state : req_sw) (r : msg) : flow req_sw :=
  let ch := b.at p
  match state with
  | SW_START | SW_NARG =>
    match r.token with
    | none =>
      if ch ≠ 42 then .error state r
      else .next (p + 1) SW_NARG { r with token := some p, narg_start := some (p + 1), rnarg := 0 }
    | some _ =>
      if isdigit ch then .next (p + 1) state { r with rnarg := accum r.rnarg ch }
      else if ch = 13 then
        if r.rnarg = 0 then .error state r
        else .next (p + 1) SW_NARG_LF
          { r with narg := r.rnarg, narg_end := some p, token := none }
      else .error state r
  | SW_NARG_LF => req_lf p ch state SW_REQ_TYPE_LEN r
  | SW_REQ_TYPE_LEN => req_len p ch state SW_REQ_TYPE_LEN_LF r
  | SW_REQ_TYPE_LEN_LF => req_lf p ch state SW_REQ_TYPE r
  | SW_REQ_TYPE =>
    let tok := match r.token with
      | none => p
      | some t => t
    let r := { r with token := some tok }
    let m := p + r.rlen
    if m ≥ b.last then .next (b.last - 1 + 1) state r
    else if b.at m ≠ 13 then .error state r
    else
      let r := { r with rlen := 0, token := none, type := req_type b tok (m - tok) }
      if r.type = MSG_UNKNOWN then .error state r
      else .next (m + 1) SW_REQ_TYPE_LF r
  | SW_REQ_TYPE_LF => req_lf p ch state SW_KEY_LEN r
  | SW_KEY_LEN => req_len p ch state SW_KEY_LEN_LF r
  | SW_KEY_LEN_LF => req_lf p ch state SW_KEY r
  | SW_KEY =>
    let tok := match r.token with
      | none => p
      | some t => t
    let r := { r with token := some tok }
    let m := p + r.rlen
    if m ≥ b.last then .next (b.last - 1 + 1) state r
    else if b.at m ≠ 13 then .error state r
    else
      .next (p + r.rlen + 1) SW_KEY_LF
        { r with rlen := 0, token := none, key_start := some tok, key_end := some (p + r.rlen) }
  | SW_KEY_LF =>
    if ch = 10 then
      if parse_arg1 r then
        if r.rnarg ≠ 0 then .error state r else .done p state r
      else if parse_arg2 r then
        if r.rnarg ≠ 1 then .error state r else .next (p + 1) SW_ARG1_LEN r
      else if parse_arg3 r then
        if r.rnarg ≠ 2 then .error state r else .next (p + 1) SW_ARG1_LEN r
      else if parse_argn r then
        if r.rnarg < 1 then .error state r else .next (p + 1) SW_ARG1_LEN r
      else if parse_argx r then
        if r.rnarg = 0 then .done p state r else .next (p + 1) SW_FRAGMENT r
      else .error state r
    else .error state r
  | SW_FRAGMENT => .fragment p state { r with token := some p }
  | SW_ARG1_LEN => req_arg_len p ch state SW_ARG1_LEN_LF r
  | SW_ARG1_LEN_LF => req_lf p ch state SW_ARG1 r
  | SW_ARG1 => req_arg b p state SW_ARG1_LF r
  | SW_ARG1_LF =>
    if ch = 10 then
      if parse_arg2 r then
        if r.rnarg ≠ 0 then .error state r else .done p state r
      else if parse_arg3 r then
        if r.rnarg ≠ 1 then .error state r else .next (p + 1) SW_ARG2_LEN r
      else if parse_argn r then
        if r.rnarg = 0 then .done p state r else .next (p + 1) SW_ARGN_LEN r
      else .error state r
    else .error state r
  | SW_ARG2_LEN => req_arg_len p ch state SW_ARG2_LEN_LF r
  | SW_ARG2_LEN_LF => req_lf p ch state SW_ARG2 r
  | SW_ARG2 => req_arg b p state SW_ARG2_LF r
  | SW_ARG2_LF =>
    if ch = 10 then
      if parse_arg3 r then
        if r.rnarg ≠ 0 then .error state r else .done p state r
      else if parse_argn r then
        if r.rnarg = 0 then .done p state r else .next (p + 1) SW_ARGN_LEN r
      else .error state r
    else .error state r
  | SW_ARGN_LEN => req_arg_len p ch state SW_ARGN_LEN_LF r
  | SW_ARGN_LEN_LF => req_lf p ch state SW_ARGN r
  | SW_ARGN => req_arg b p state SW_ARGN_LF r
  | SW_ARGN_LF =>
    if ch = 10 then
      if parse_argn r then
        if r.rnarg = 0 then .done p state r else .next (p + 1) SW_ARGN_LEN r
      else .error state r
    else .error state r
  | SW_SENTINEL => .next (p + 1) state r

/-- The loop `for (p = r->pos; p < b->last; p++)` of `parse_request` together
with the code it exits to. The first argument bounds the number of iterations;
every iteration moves the cursor forward, so `b.last - p` iterations are
enough (`req_loop_fuel`). -/
def req_loop : Nat → mbuf → Nat → req_sw → msg → msg
  | 0, b, p, state, r => label_again b p state.to_int r
  | fuel + 1, b, p, state, r =>
    if p < b.last then
      match req_step b p state r with
      | .next p' state' r' => req_loop fuel b p' state' r'
      | .done p' _ r' => label_done p' r'
      | .fragment _ state' r' => label_fragment state'.to_int r'
      | .error state' r' => label_error state'.to_int r'
    else label_again b p state.to_int r

/-- The function `parse_request`, on the message `r` whose tail buffer is
`b`. -/
def parse_request (r : msg) (b : mbuf) : msg :=
  req_loop (b.last - r.pos) b r.pos (req_sw.of_int r.state) r

/-! ## The response machine -/

/-- The enumeration of states declared inside `parse_response`. -/
inductive rsp_sw
  | SW_START
  | SW_STATUS
  | SW_ERROR
  | SW_INTEGER
  | SW_BULK
  | SW_BULK_LF
  | SW_BULK_ARG
  | SW_BULK_ARG_LF
  | SW_MULTIBULK
  | SW_MULTIBULK_NARG_LF
  | SW_MULTIBULK_ARGN_LEN
  | SW_MULTIBULK_ARGN_LEN_LF
  | SW_MULTIBULK_ARGN
  | SW_MULTIBULK_ARGN_LF
  | SW_RUNTO_CRLF
  | SW_ALMOST_DONE
  | SW_SENTINEL
  deriving DecidableEq, Repr

/-- The integer value of a state of `parse_response`, as stored by
`r->state = state`. -/
def rsp_sw.to_int : rsp_sw → Nat
  | .SW_START => 0
  | .SW_STATUS => 1
  | .SW_ERROR => 2
  | .SW_INTEGER => 3
  | .SW_BULK => 4
  | .SW_BULK_LF => 5
  | .SW_BULK_ARG => 6
  | .SW_BULK_ARG_LF => 7
  | .SW_MULTIBULK => 8
  | .SW_MULTIBULK_NARG_LF => 9
  | .SW_MULTIBULK_ARGN_LEN => 10
  | .SW_MULTIBULK_ARGN_LEN_LF => 11
  | .SW_MULTIBULK_ARGN => 12
  | .SW_MULTIBULK_ARGN_LF => 13
  | .SW_RUNTO_CRLF => 14
  | .SW_ALMOST_DONE => 15
  | .SW_SENTINEL => 16

/-- The state of `parse_response` with a given integer value, as read by
`state = r->state`. The function asserts `state < SW_SENTINEL`; a value outside
the enumeration takes the `default` branch of the switch, which it shares with
`SW_SENTINEL`. -/
def rsp_sw.of_int : Nat → rsp_sw
  | 0 => .SW_START
  | 1 => .SW_STATUS
  | 2 => .SW_ERROR
  | 3 => .SW_INTEGER
  | 4 => .SW_BULK
  | 5 => .SW_BULK_LF
  | 6 => .SW_BULK_ARG
  | 7 => .SW_BULK_ARG_LF
  | 8 => .SW_MULTIBULK
  | 9 => .SW_MULTIBULK_NARG_LF
  | 10 => .SW_MULTIBULK_ARGN_LEN
  | 11 => .SW_MULTIBULK_ARGN_LEN_LF
  | 12 => .SW_MULTIBULK_ARGN
  | 13 => .SW_MULTIBULK_ARGN_LF
  | 14 => .SW_RUNTO_CRLF
  | 15 => .SW_ALMOST_DONE
  | _ => .SW_SENTINEL

/-- The body of the loop of `parse_response`: the switch on `state` for the
byte at `p`, where `p < b->last`. In state `SW_START` the body ends with
`p = p - 1` and the loop header then increments `p`, so the next iteration
starts at the same `p`. -/
def rsp_step (b : mbuf) (p : Nat) (state : rsp_sw) (r : msg) : flow rsp_sw :=
  let ch := b.at p
  match state with
  | .SW_START =>
    let r := { r with type := MSG_UNKNOWN }
    if ch = 43 then .next p .SW_STATUS { r with type := MSG_RSP_REDIS_STATUS }
    else if ch = 45 then .next p .SW_ERROR { r with type := MSG_RSP_REDIS_ERROR }
    else if ch = 58 then .next p .SW_INTEGER { r with type := MSG_RSP_REDIS_INTEGER }
    else if ch = 36 then .next p .SW_BULK { r with type := MSG_RSP_REDIS_BULK }
    else if ch = 42 then .next p .SW_MULTIBULK { r with type := MSG_RSP_REDIS_MULTIBULK }
    else .error state r
  | .SW_STATUS => .next (p + 1) .SW_RUNTO_CRLF r
  | .SW_ERROR => .next (p + 1) .SW_RUNTO_CRLF r
  | .SW_INTEGER => .next (p + 1) .SW_RUNTO_CRLF r
  | .SW_RUNTO_CRLF =>
    if ch = 13 then .next (p + 1) .SW_ALMOST_DONE r else .next (p + 1) state r
  | .SW_ALMOST_DONE =>
    if ch = 10 then .done p state r else .error state r
  | .SW_BULK =>
    match r.token with
    | none =>
      if ch ≠ 36 then .error state r
      else .next (p + 1) state { r with token := some p, rlen := 0 }
    | some t =>
      if ch = 45 then .next (p + 1) .SW_RUNTO_CRLF r
      else if isdigit ch then .next (p + 1) state { r with rlen := accum r.rlen ch }
      else if ch = 13 then
        if p - t ≤ 1 then .error state r
        else .next (p + 1) .SW_BULK_LF { r with token := none }
      else .error state r
  | .SW_BULK_LF =>
    if ch = 10 then .next (p + 1) .SW_BULK_ARG r else .error state r
  | .SW_BULK_ARG =>
    let m := p + r.rlen
    if m ≥ b.last then
      .next (b.last - 1 + 1) state { r with rlen := sub32 r.rlen (b.last - p) }
    else if b.at m ≠ 13 then .error state r
    else .next (m + 1) .SW_BULK_ARG_LF { r with rlen := 0 }
  | .SW_BULK_ARG_LF =>
    if ch = 10 then .done p state r else .error state r
  | .SW_MULTIBULK =>
    match r.token with
    | none =>
      if ch ≠ 42 then .error state r
      else .next (p + 1) state { r with token := some p, narg_start := some (p + 1), rnarg := 0 }
    | some t =>
      if isdigit ch then .next (p + 1) state { r with rnarg := accum r.rnarg ch }
      else if ch = 13 then
        if p - t ≤ 1 then .error state r
        else .next (p + 1) .SW_MULTIBULK_NARG_LF
          { r with narg := r.rnarg, narg_end := some p, token := none }
      else .error state r
  | .SW_MULTIBULK_NARG_LF =>
    if ch = 10 then
      if r.rnarg = 0 then .done p state r
      else .next (p + 1) .SW_MULTIBULK_ARGN_LEN r
    else .error state r
  | .SW_MULTIBULK_ARGN_LEN =>
    match r.token with
    | none =>
      if ch ≠ 36 then .error state r
      else .next (p + 1) state { r with token := some p, rlen := 0 }
    | some t =>
      if isdigit ch then .next (p + 1) state { r with rlen := accum r.rlen ch }
      else if ch = 45 then .next (p + 1) state r
      else if ch = 13 then
        if p - t ≤ 1 ∨ r.rnarg = 0 then .error state r
        else if r.rlen = 1 ∧ p - t = 3 then
          .next (p + 1) .SW_MULTIBULK_ARGN_LF
            { r with rlen := 0, rnarg := r.rnarg - 1, token := none }
        else
          .next (p + 1) .SW_MULTIBULK_ARGN_LEN_LF
            { r with rnarg := r.rnarg - 1, token := none }
      else .error state r
  | .SW_MULTIBULK_ARGN_LEN_LF =>
    if ch = 10 then .next (p + 1) .SW_MULTIBULK_ARGN r else .error state r
  | .SW_MULTIBULK_ARGN =>
    let m := p + r.rlen
    if m ≥ b.last then
      .next (b.last - 1 + 1) state { r with rlen := sub32 r.rlen (b.last - p) }
    else if b.at m ≠ 13 then .error state r
    else .next (p + r.rlen + 1) .SW_MULTIBULK_ARGN_LF { r with rlen := 0 }
  | .SW_MULTIBULK_ARGN_LF =>
    if ch = 10 then
      if r.rnarg = 0 then .done p state r
      else .next (p + 1) .SW_MULTIBULK_ARGN_LEN r
    else .error state r
  | .SW_SENTINEL => .next (p + 1) state r

/-- The loop `for (p = r->pos; p < b->last; p++)` of `parse_response` together
with the code it exits to. The first argument bounds the number of iterations;
only an iteration in state `SW_START` leaves the cursor where it is, and it
leaves that state for good, so `b.last - p + 1` iterations are enough
(`rsp_loop_fuel`). -/
def rsp_loop : Nat → mbuf → Nat → rsp_sw → msg → msg
  | 0, b, p, state, r => label_again b p state.to_int r
  | fuel + 1, b, p, state, r =>
    if p < b.last then
      match rsp_step b p state r with
      | .next p' state' r' => rsp_loop fuel b p' state' r'
      | .done p' _ r' => label_done p' r'
      | .fragment _ state' r' => label_fragment state'.to_int r'
      | .error state' r' => label_error state'.to_int r'
    else label_again b p state.to_int r

/-- The function `parse_response`, on the message `r` whose tail buffer is
`b`. -/
def parse_response (r : msg) (b : mbuf) : msg :=
  rsp_loop (b.last - r.pos + 1) b r.pos (rsp_sw.of_int r.state) r

/-! ## Auxiliary definitions used in the statements -/

/-- The loop of `parse_request` entered with cursor `p`, local state `state`
and message `r`, with as many iterations as the unread bytes allow. -/
def req_run (b : mbuf) (p : Nat) (state : req_sw) (r : msg) : msg :=
  req_loop (b.last - p) b p state r

/-- The loop of `parse_response` entered with cursor `p`, local state `state`
and message `r`, with as many iterations as the unread bytes allow. -/
def rsp_run (b : mbuf) (p : Nat) (state : rsp_sw) (r : msg) : msg :=
  rsp_loop (b.last - p + 1) b p state r

/-- The bytes of `l` between the offsets `s` (included) and `e` (excluded). -/
def slice (l : List Nat) (s e : Nat) : List Nat := (l.drop s).take (e - s)

/-- The bytes in `[key_start, key_end)` of the buffer with contents `data`;
`none` while one of the two pointers is `NULL`. -/
def key_bytes (data : List Nat) (r : msg) : Option (List Nat) :=
  match r.key_start, r.key_end with
  | some s, some e => some (slice data s e)
  | _, _ => none

/-- The bytes of an ASCII string. -/
def ascii (s : String) : List Nat := s.toList.map Char.toNat

/-- Every byte of the list is an ASCII digit. -/
def all_digits (l : List Nat) : Prop := ∀ d ∈ l, isdigit d = true

/-- The value of a string of ASCII digits read in base ten, continuing from
the value `x` of the digits read before. -/
def dec_fold (x : Nat) (l : List Nat) : Nat := l.foldl (fun a d => a * 10 + (d - 48)) x

/-- The value of a string of ASCII digits read in base ten. -/
def dec_value (l : List Nat) : Nat := dec_fold 0 l

/-- The digits of `n` in base ten before the digits `acc`; the first argument
bounds the number of digits. -/
def decimal_aux : Nat → Nat → List Nat → List Nat
  | 0, _, acc => acc
  | fuel + 1, n, acc =>
    if n < 10 then (48 + n) :: acc
    else decimal_aux fuel (n / 10) ((48 + n % 10) :: acc)

/-- The decimal form of `n` in ASCII digits, without leading zeros. -/
def decimal (n : Nat) : List Nat := decimal_aux (n + 1) n []

/-- The encoding `$<len>\r\n<bytes>\r\n` of one bulk element. -/
def bulk (x : List Nat) : List Nat := 36 :: (decimal x.length ++ 13 :: 10 :: (x ++ [13, 10]))

/-- The encodings of a list of bulk elements, one after the other. -/
def bulks : List (List Nat) → List Nat
  | [] => []
  | x :: xs => bulk x ++ bulks xs

/-- The encoding `*<narg>\r\n` followed by one bulk element per entry: the
request grammar of the spec (section 6). -/
def request (elems : List (List Nat)) : List Nat :=
  42 :: (decimal elems.length ++ 13 :: 10 :: bulks elems)

/-- The header `*<digits>\r\n` of a request or of a multibulk reply, for any
string of digits. -/
def header (D : List Nat) : List Nat := 42 :: (D ++ [13, 10])

/-- A bulk element `$<digits>\r\n<bytes>\r\n` with any string of digits in
its length field. -/
def element (L x : List Nat) : List Nat := 36 :: (L ++ 13 :: 10 :: (x ++ [13, 10]))

/-- The states of `parse_request` that follow `SW_KEY`. -/
def past_key (s : req_sw) : Bool := decide (10 ≤ s.to_int) && decide (s.to_int ≤ 23)

/-- The states of `parse_request` that expect the `LF` after the `CR` of a key
or of a trailing argument. -/
def payload_lf (s : req_sw) : Bool :=
  s == SW_KEY_LF || s == SW_ARG1_LF || s == SW_ARG2_LF || s == SW_ARGN_LF

/-- The message `r` with the three fields that only the exits of the two
functions write (`pos`, `state`, `result`) taken from `q`. -/
def retag (q r : msg) : msg := { r with pos := q.pos, state := q.state, result := q.result }

/-- The outcome of an iteration with `f` applied to its message. -/
def flow.map {σ : Type} (f : msg → msg) : flow σ → flow σ
  | .next p s r => .next p s (f r)
  | .done p s r => .done p s (f r)
  | .fragment p s r => .fragment p s (f r)
  | .error s r => .error s (f r)

/-- The common form of the states `SW_BULK_ARG` and `SW_MULTIBULK_ARGN`, which
skip a payload up to its `CR` and differ in the state that follows. -/
def rsp_skip (b : mbuf) (p : Nat) (s t : rsp_sw) (r : msg) : flow rsp_sw :=
  if p + r.rlen ≥ b.last then
    .next (b.last - 1 + 1) s { r with rlen := sub32 r.rlen (b.last - p) }
  else if b.at (p + r.rlen) ≠ 13 then .error s r
  else .next (p + r.rlen + 1) t { r with rlen := 0 }

/-- The pointer `x` into a buffer and the pointer `y` into the copy of that
buffer from offset `t` on point to the same byte, or both are `NULL`. -/
def tok_rel (t : Nat) : Option Nat → Option Nat → Prop
  | none, none => True
  | some x, some y => x = y + t
  | _, _ => False

/-- The key ranges of a message of the one-call parse and of a message of the
parse after a repair at offset `t`: when the key was recorded before the
repair (`k` is true) the two ranges are the same pointers into the first
buffer; otherwise, from the state `SW_KEY_LF` on, both are set and the second
is the first moved by `t`. -/
def key_rel (t : Nat) (k : Bool) (s : req_sw) (r r' : msg) : Prop :=
  if k = true then r'.key_start = r.key_start ∧ r'.key_end = r.key_end
  else past_key s = true →
    ∃ x y, r'.key_start = some x ∧ r'.key_end = some y ∧
      r.key_start = some (x + t) ∧ r.key_end = some (y + t)

/-- The message `r` of the one-call parse and the message `r'` of the parse
after a repair at offset `t` agree on what the machine reads and on what the
claims compare. -/
def repair_rel (t : Nat) (k : Bool) (s : req_sw) (r r' : msg) : Prop :=
  r'.type = r.type ∧ r'.narg = r.narg ∧ r'.rnarg = r.rnarg ∧ r'.rlen = r.rlen ∧
    tok_rel t r.token r'.token ∧ key_rel t k s r r'

/-- The outcomes of one iteration of the one-call parse and of the parse after
a repair at offset `t` correspond. -/
def flow_rel (t : Nat) (k : Bool) : flow req_sw → flow req_sw → Prop
  | .next q s r, .next q' s' r' =>
    q = q' + t ∧ s' = s ∧ repair_rel t k s r r' ∧ (k = true → past_key s = true)
  | .done q s r, .done q' s' r' =>
    q = q' + t ∧ s' = s ∧ repair_rel t k s r r' ∧ past_key s = true
  | .fragment _ _ _, .fragment _ _ _ => True
  | .error _ _, .error _ _ => True
  | _, _ => False

/-- The states of `parse_request` that read the length field of a bulk
element. -/
def len_state (s : req_sw) : Bool :=
  s == SW_REQ_TYPE_LEN || s == SW_KEY_LEN || s == SW_ARG1_LEN || s == SW_ARG2_LEN ||
    s == SW_ARGN_LEN

/-- The states of `parse_request` in which a token can be open when the loop
runs out of input. -/
def opens_token (s : req_sw) : Bool :=
  s == SW_NARG || len_state s || s == SW_REQ_TYPE || s == SW_KEY

/-- The message `r` reached in state `s` while a token is open, against the
message `ra` with which the machine stood at the first byte of that token:
the token so far has changed the running count of `SW_NARG` or the running
length of a length state and nothing else of what the machine reads. -/
def entry_rel (s : req_sw) (ra r : msg) : Prop :=
  opens_token s = true ∧ ra.token = none ∧ r.type = ra.type ∧ r.narg = ra.narg ∧
    r.key_start = ra.key_start ∧ r.key_end = ra.key_end ∧
    (s = SW_NARG ∨ r.rnarg = ra.rnarg) ∧ (len_state s = true ∨ r.rlen = ra.rlen)

/-- Modelled from the spec: the caller's side of a repair is in
`nc_message.c`, which is not part of the sources at hand. Per the spec
(section 4.4), after `PARSE_REPAIR` "the suffix `[token, last)` is an
unfinished token; the I/O layer must copy those bytes into a new, empty buffer
and re-enter the parser", and the call has stored the token in `pos`. Here
`data` is the content of the full buffer, `out` the message that the call
returned, `more` the bytes read into the new buffer after the copy and `size`
the capacity of the new buffer. -/
def repair_buf (data : List Nat) (out : msg) (more : List Nat) (size : Nat) : mbuf :=
  ⟨data.drop out.pos ++ more, size⟩

/-- Modelled from the spec: the message with which the caller re-enters the
parser after a repair (`nc_message.c`, not part of the sources at hand): `pos`
is the start of the new buffer, every other field is as the call left it. -/
def repair_msg (out : msg) : msg := { out with pos := 0 }

/-- A run of `2 ^ 32 - 2` zero bytes. -/
def long_pad : List Nat := List.replicate 4294967294 0

/-- A key of `2 ^ 32 + 1` bytes that starts with `k\r\n`. -/
def long_key : List Nat := 107 :: 13 :: 10 :: long_pad

/-- A list of `2 ^ 32` empty payloads. -/
def long_args : List (List Nat) := List.replicate 4294967296 []

/-- A run of `2 ^ 32 - 9` zero bytes. -/
def name_pad : List Nat := List.replicate 4294967287 0

/-- A command name of `2 ^ 32 + 3` bytes that starts with `GET\r\n$1\r\nk\r\n`. -/
def long_name : List Nat :=
  71 :: 69 :: 84 :: 13 :: 10 :: 36 :: 49 :: 13 :: 10 :: 107 :: 13 :: 10 :: name_pad

/-- The encoding of one element of a reply: `$-1\r\n` for a nil element,
`$<len>\r\n<bytes>\r\n` for a payload, with `len` in decimal without leading
zeros. -/
def reply_elem : Option (List Nat) → List Nat
  | none => [36, 45, 49, 13, 10]
  | some x => bulk x

/-- The encodings of a list of elements of a reply, one after the other. -/
def reply_elems : List (Option (List Nat)) → List Nat
  | [] => []
  | x :: xs => reply_elem x ++ reply_elems xs

/-- The encoding `*<n>\r\n` followed by one element encoding per entry: a
multibulk reply. -/
def multibulk (xs : List (Option (List Nat))) : List Nat :=
  42 :: (decimal xs.length ++ 13 :: 10 :: reply_elems xs)

/-- A payload of `2 ^ 32` zero bytes. -/
def long_payload : List Nat := 0 :: 0 :: long_pad

/-- The configurations (cursor, local state, message) that the loop of
`parse_request` passes through at the head of an iteration when entered with
cursor `p0`, state `s0` and message `r0`. -/
inductive req_reach (b : mbuf) (p0 : Nat) (s0 : req_sw) (r0 : msg) :
    Nat → req_sw → msg → Prop
  /-- The configuration on entry. -/
  | start : req_reach b p0 s0 r0 p0 s0 r0
  /-- One more iteration whose body ends with `break`. -/
  | step {p : Nat} {s : req_sw} {r : msg} {p1 : Nat} {s1 : req_sw} {r1 : msg} :
    req_reach b p0 s0 r0 p s r → p < b.last → req_step b p s r = .next p1 s1 r1 →
    req_reach b p0 s0 r0 p1 s1 r1

/-- The configurations (cursor, local state, message) that the loop of
`parse_response` passes through at the head of an iteration when entered with
cursor `p0`, state `s0` and message `r0`. -/
inductive rsp_reach (b : mbuf) (p0 : Nat) (s0 : rsp_sw) (r0 : msg) :
    Nat → rsp_sw → msg → Prop
  /-- The configuration on entry. -/
  | start : rsp_reach b p0 s0 r0 p0 s0 r0
  /-- One more iteration whose body ends with `break`. -/
  | step {p : Nat} {s : rsp_sw} {r : msg} {p1 : Nat} {s1 : rsp_sw} {r1 : msg} :
    rsp_reach b p0 s0 r0 p s r → p < b.last → rsp_step b p s r = .next p1 s1 r1 →
    rsp_reach b p0 s0 r0 p1 s1 r1

/-- What the code after the loop of `parse_request` and of `parse_response`
is said to do (spec, section 4.4) with the local state `s` and the message
`r` when the loop has examined every byte of the buffer `b`, giving `out`: the
state is stored; the verdict is `PARSE_REPAIR` exactly when the buffer is full
and the token is non-null, and then `pos` is the token and the token is
cleared; in every other case the verdict is `PARSE_AGAIN`, `pos` is `last` and
the token is as it was. No other field changes. -/
def end_of_input (b : mbuf) (s : Nat) (r out : msg) : Prop :=
  out.state = s ∧
  (out.result = PARSE_REPAIR ↔ (b.full = true ∧ r.token ≠ none)) ∧
  (b.full = true → ∀ t, r.token = some t →
    out = { r with pos := t, token := none, state := s, result := PARSE_REPAIR }) ∧
  (¬ (b.full = true ∧ r.token ≠ none) →
    out = { r with pos := b.last, state := s, result := PARSE_AGAIN })

/-- The relation between `narg` and `rnarg` (and the value of `rlen`) that
holds whenever the loop of a call of `parse_request` entered in `SW_START`
stands in state `s`: `narg - rnarg` is the number of length fields of bulk
elements read so far. -/
def narg_inv (s : req_sw) (r : msg) : Prop :=
  match s with
  | SW_START | SW_NARG | SW_FRAGMENT | SW_SENTINEL => True
  | SW_NARG_LF | SW_REQ_TYPE_LEN => r.narg = r.rnarg
  | SW_REQ_TYPE_LEN_LF | SW_REQ_TYPE | SW_REQ_TYPE_LF | SW_KEY_LEN => r.narg = r.rnarg + 1
  | SW_KEY_LEN_LF | SW_KEY | SW_ARG1_LEN => r.narg = r.rnarg + 2
  | SW_KEY_LF => r.narg = r.rnarg + 2 ∧ r.rlen = 0
  | SW_ARG1_LEN_LF | SW_ARG1 | SW_ARG2_LEN => r.narg = r.rnarg + 3
  | SW_ARG1_LF => r.narg = r.rnarg + 3 ∧ r.rlen = 0
  | SW_ARG2_LEN_LF | SW_ARG2 => r.narg = r.rnarg + 4
  | SW_ARG2_LF => r.narg = r.rnarg + 4 ∧ r.rlen = 0
  | SW_ARGN_LEN => r.rnarg + 3 ≤ r.narg
  | SW_ARGN_LEN_LF | SW_ARGN => r.rnarg + 4 ≤ r.narg
  | SW_ARGN_LF => r.rnarg + 4 ≤ r.narg ∧ r.rlen = 0

/-- The encodings `$<len>\r\n<bytes>\r\n` of a list of bulk elements, each
given by its length field and its payload. -/
def elements : List (List Nat × List Nat) → List Nat
  | [] => []
  | e :: es => element e.1 e.2 ++ elements es

/-- A bulk element as the machine reads it: the length field is a non-empty
string of digits and the payload has as many bytes as the value of the field
in a `uint32_t`. -/
def elem_ok (e : List Nat × List Nat) : Prop :=
  all_digits e.1 ∧ e.1 ≠ [] ∧ e.2.length = dec_value e.1 % 2 ^ 32

/-- The bytes from `pos0` up to the cursor `p` are a header `*<D>\r\n`, whole
bulk elements and the beginning `part` of one more element; `k` is 1 when the
length field of that element has been counted in `rnarg`, else 0. -/
def read_so_far (b : mbuf) (pos0 p k narg rnarg : Nat) (part : List Nat) : Prop :=
  ∃ D es, all_digits D ∧ D ≠ [] ∧ (∀ e ∈ es, elem_ok e) ∧ narg = dec_value D % 2 ^ 32 ∧
    narg = es.length + k + rnarg ∧
    b.data.drop pos0 = header D ++ (elements es ++ (part ++ b.data.drop p))

/-- The kinds of states of `parse_request`, by what the machine is reading. -/
inductive req_phase
  | start
  | narg
  | narg_lf
  | len
  | len_lf
  | payload
  | payload_lf
  | off
  deriving DecidableEq, Repr

/-- The kind of a state of `parse_request`. -/
def req_sw.phase : req_sw → req_phase
  | SW_START => .start
  | SW_NARG => .narg
  | SW_NARG_LF => .narg_lf
  | SW_REQ_TYPE_LEN | SW_KEY_LEN | SW_ARG1_LEN | SW_ARG2_LEN | SW_ARGN_LEN => .len
  | SW_REQ_TYPE_LEN_LF | SW_KEY_LEN_LF | SW_ARG1_LEN_LF | SW_ARG2_LEN_LF | SW_ARGN_LEN_LF =>
    .len_lf
  | SW_REQ_TYPE | SW_KEY | SW_ARG1 | SW_ARG2 | SW_ARGN => .payload
  | SW_REQ_TYPE_LF | SW_KEY_LF | SW_ARG1_LF | SW_ARG2_LF | SW_ARGN_LF => .payload_lf
  | SW_FRAGMENT | SW_SENTINEL => .off

/-- What a call of `parse_request` entered at `pos0` in `SW_START` with no
token open has read when its loop stands at `p` in a state of the given kind
with the given `token`, `rlen`, `narg` and `rnarg`. -/
def phase_inv (b : mbuf) (pos0 p : Nat) (tok : Option Nat) (rlen narg rnarg : Nat) :
    req_phase → Prop
  | .start => p = pos0 ∧ tok = none
  | .narg => ∃ t D, tok = some t ∧ all_digits D ∧ rnarg = dec_value D % 2 ^ 32 ∧
      b.data.drop pos0 = 42 :: (D ++ b.data.drop p)
  | .narg_lf => tok = none ∧ ∃ D, all_digits D ∧ D ≠ [] ∧ narg = dec_value D % 2 ^ 32 ∧
      narg = rnarg ∧ b.data.drop pos0 = 42 :: (D ++ 13 :: b.data.drop p)
  | .len => (tok = none ∧ read_so_far b pos0 p 0 narg rnarg []) ∨
      ∃ t L, tok = some t ∧ all_digits L ∧ rlen = dec_value L % 2 ^ 32 ∧ t + 1 + L.length = p ∧
        read_so_far b pos0 p 0 narg rnarg (36 :: L)
  | .len_lf => tok = none ∧ ∃ L, all_digits L ∧ L ≠ [] ∧ rlen = dec_value L % 2 ^ 32 ∧
      read_so_far b pos0 p 1 narg rnarg (36 :: (L ++ [13]))
  | .payload => tok = none ∧ ∃ L, all_digits L ∧ L ≠ [] ∧ rlen = dec_value L % 2 ^ 32 ∧
      read_so_far b pos0 p 1 narg rnarg (36 :: (L ++ [13, 10]))
  | .payload_lf => tok = none ∧ ∃ L B, all_digits L ∧ L ≠ [] ∧
      B.length = dec_value L % 2 ^ 32 ∧
      read_so_far b pos0 p 1 narg rnarg (36 :: (L ++ 13 :: 10 :: (B ++ [13])))
  | .off => True

/-- The invariant of the loop of a call of `parse_request` entered at `pos0`
in `SW_START` with no token open: the input is used up, or the bytes read so
far follow the request grammar. -/
def grammar_inv (b : mbuf) (pos0 p : Nat) (s : req_sw) (r : msg) : Prop :=
  b.last ≤ p ∨ phase_inv b pos0 p r.token r.rlen r.narg r.rnarg s.phase

/-- The cursor, the state and the message with which the loop of
`parse_request` stands after `n` iterations that all end with `break`; `none`
when the loop ends before that. -/
def req_iter (b : mbuf) : Nat → Nat → req_sw → msg → Option (Nat × req_sw × msg)
  | 0, p, s, r => some (p, s, r)
  | n + 1, p, s, r =>
    if p < b.last then
      match req_step b p s r with
      | .next p' s' r' => req_iter b n p' s' r'
      | _ => none
    else none

/-- The value of an enumerator of `msg_type_t`: the enumerators are numbered
from 0 in the order of their declaration. -/
def msg_type_t.to_int (t : msg_type_t) : Nat := t.toCtorIdx

/-- Modelled from the spec: the message that earlier calls of `parse_request`
leave behind. The caller is not part of the sources at hand; per the spec
(sections 3 and 4.4) it appends buffers and places `pos` in the tail buffer
between calls. Every element of the list is one call: the tail buffer that the
call is given and the value of `pos` with which it is entered. -/
def req_calls (r : msg) : List (mbuf × Nat) → msg
  | [] => r
  | c :: cs => req_calls (parse_request { r with pos := c.2 } c.1) cs

/-- The cursor, the state and the message with which the loop of
`parse_response` stands after `n` iterations that all end with `break`; `none`
when the loop ends before that. -/
def rsp_iter (b : mbuf) : Nat → Nat → rsp_sw → msg → Option (Nat × rsp_sw × msg)
  | 0, p, s, r => some (p, s, r)
  | n + 1, p, s, r =>
    if p < b.last then
      match rsp_step b p s r with
      | .next p' s' r' => rsp_iter b n p' s' r'
      | _ => none
    else none

/-- The value that the state `SW_MULTIBULK_ARGN_LEN` leaves in `rlen` after
the bytes `H` of an element header, from the value `a`: a digit is accumulated
(`rlen = rlen * 10 + (ch - '0')`) and any other byte that the state accepts,
which is `-`, is passed over. -/
def header_rlen (a : Nat) (H : List Nat) : Nat :=
  H.foldl (fun v x => if isdigit x then accum v x else v) a

/-! ## The command vocabulary of the spec -/

/-- The arity classes of the spec (section 4.1). -/
inductive arity_class
  | Arg1
  | Arg2
  | Arg3
  | Arg4
  | ArgN
  | ArgX
  deriving DecidableEq, Repr

/-- A row of the command table: a command name as the spec spells it, the tag
of `msg_type_t` that carries that name, and the arity class under which the
spec lists the name. -/
structure command where
  /-- The name of the command. -/
  name : String
  /-- The tag `MSG_REQ_REDIS_<name>`. -/
  tag : msg_type_t
  /-- The arity class of the spec. -/
  arity : arity_class
  deriving DecidableEq, Repr

/-- The command table as the spec lists it (section 4.1): the 56 command
names by arity class. It follows the spec's words and is what the command
switch `req_type` and the arity predicates are compared with. -/
def command_table : List command := [
  ⟨"GET", MSG_REQ_REDIS_GET, .Arg1⟩,
  ⟨"TTL", MSG_REQ_REDIS_TTL, .Arg1⟩,
  ⟨"DECR", MSG_REQ_REDIS_DECR, .Arg1⟩,
  ⟨"HLEN", MSG_REQ_REDIS_HLEN, .Arg1⟩,
  ⟨"INCR", MSG_REQ_REDIS_INCR, .Arg1⟩,
  ⟨"LLEN", MSG_REQ_REDIS_LLEN, .Arg1⟩,
  ⟨"LPOP", MSG_REQ_REDIS_LPOP, .Arg1⟩,
  ⟨"RPOP", MSG_REQ_REDIS_RPOP, .Arg1⟩,
  ⟨"SPOP", MSG_REQ_REDIS_SPOP, .Arg1⟩,
  ⟨"TYPE", MSG_REQ_REDIS_TYPE, .Arg1⟩,
  ⟨"HKEYS", MSG_REQ_REDIS_HKEYS, .Arg1⟩,
  ⟨"HVALS", MSG_REQ_REDIS_HVALS, .Arg1⟩,
  ⟨"SCARD", MSG_REQ_REDIS_SCARD, .Arg1⟩,
  ⟨"EXISTS", MSG_REQ_REDIS_EXISTS, .Arg1⟩,
  ⟨"STRLEN", MSG_REQ_REDIS_STRLEN, .Arg1⟩,
  ⟨"HGETALL", MSG_REQ_REDIS_HGETALL, .Arg1⟩,
  ⟨"PERSIST", MSG_REQ_REDIS_PERSIST, .Arg1⟩,
  ⟨"SMEMBERS", MSG_REQ_REDIS_SMEMBERS, .Arg1⟩,
  ⟨"SRANDMEMBER", MSG_REQ_REDIS_SRANDMEMBER, .Arg1⟩,
  ⟨"SET", MSG_REQ_REDIS_SET, .Arg2⟩,
  ⟨"HGET", MSG_REQ_REDIS_HGET, .Arg2⟩,
  ⟨"MOVE", MSG_REQ_REDIS_MOVE, .Arg2⟩,
  ⟨"SETNX", MSG_REQ_REDIS_SETNX, .Arg2⟩,
  ⟨"APPEND", MSG_REQ_REDIS_APPEND, .Arg2⟩,
  ⟨"DECRBY", MSG_REQ_REDIS_DECRBY, .Arg2⟩,
  ⟨"EXPIRE", MSG_REQ_REDIS_EXPIRE, .Arg2⟩,
  ⟨"GETBIT", MSG_REQ_REDIS_GETBIT, .Arg2⟩,
  ⟨"GETSET", MSG_REQ_REDIS_GETSET, .Arg2⟩,
  ⟨"INCRBY", MSG_REQ_REDIS_INCRBY, .Arg2⟩,
  ⟨"LINDEX", MSG_REQ_REDIS_LINDEX, .Arg2⟩,
  ⟨"LPUSHX", MSG_REQ_REDIS_LPUSHX, .Arg2⟩,
  ⟨"RPUSHX", MSG_REQ_REDIS_RPUSHX, .Arg2⟩,
  ⟨"HEXISTS", MSG_REQ_REDIS_HEXISTS, .Arg2⟩,
  ⟨"EXPIREAT", MSG_REQ_REDIS_EXPIREAT, .Arg2⟩,
  ⟨"SISMEMBER", MSG_REQ_REDIS_SISMEMBER, .Arg2⟩,
  ⟨"HSET", MSG_REQ_REDIS_HSET, .Arg3⟩,
  ⟨"LREM", MSG_REQ_REDIS_LREM, .Arg3⟩,
  ⟨"LSET", MSG_REQ_REDIS_LSET, .Arg3⟩,
  ⟨"LTRIM", MSG_REQ_REDIS_LTRIM, .Arg3⟩,
  ⟨"SETEX", MSG_REQ_REDIS_SETEX, .Arg3⟩,
  ⟨"HSETNX", MSG_REQ_REDIS_HSETNX, .Arg3⟩,
  ⟨"LRANGE", MSG_REQ_REDIS_LRANGE, .Arg3⟩,
  ⟨"SETBIT", MSG_REQ_REDIS_SETBIT, .Arg3⟩,
  ⟨"HINCRBY", MSG_REQ_REDIS_HINCRBY, .Arg3⟩,
  ⟨"GETRANGE", MSG_REQ_REDIS_GETRANGE, .Arg3⟩,
  ⟨"SETRANGE", MSG_REQ_REDIS_SETRANGE, .Arg3⟩,
  ⟨"LINSERT", MSG_REQ_REDIS_LINSERT, .Arg4⟩,
  ⟨"HDEL", MSG_REQ_REDIS_HDEL, .ArgN⟩,
  ⟨"SADD", MSG_REQ_REDIS_SADD, .ArgN⟩,
  ⟨"SREM", MSG_REQ_REDIS_SREM, .ArgN⟩,
  ⟨"HMGET", MSG_REQ_REDIS_HMGET, .ArgN⟩,
  ⟨"HMSET", MSG_REQ_REDIS_HMSET, .ArgN⟩,
  ⟨"LPUSH", MSG_REQ_REDIS_LPUSH, .ArgN⟩,
  ⟨"RPUSH", MSG_REQ_REDIS_RPUSH, .ArgN⟩,
  ⟨"MGET", MSG_REQ_REDIS_MGET, .ArgX⟩,
  ⟨"DEL", MSG_REQ_REDIS_DEL, .ArgX⟩]

/-- The byte string `v` is the name `name` up to ASCII letter case. -/
def same_name (v : List Nat) (name : String) : Prop :=
  v.map tolower = (ascii name).map tolower

instance (v : List Nat) (name : String) : Decidable (same_name v name) := by
  unfold same_name
  infer_instance

/-- A message that carries the type `t` and nothing else of interest. -/
def msg_of_type (t : msg_type_t) : msg :=
  ⟨0, 0, none, PARSE_OK, t, none, none, none, none, 0, 0, 0⟩

/-- The arity class that the arity predicates of the source give a tag, tried
in the order `parse_arg1`, `parse_arg2`, `parse_arg3`, `parse_arg4`,
`parse_argn`, `parse_argx`. -/
def arity_of (t : msg_type_t) : Option arity_class :=
  if parse_arg1 (msg_of_type t) then some .Arg1
  else if parse_arg2 (msg_of_type t) then some .Arg2
  else if parse_arg3 (msg_of_type t) then some .Arg3
  else if parse_arg4 (msg_of_type t) then some .Arg4
  else if parse_argn (msg_of_type t) then some .ArgN
  else if parse_argx (msg_of_type t) then some .ArgX
  else none

/-- The number of trailing arguments (bulk elements after the key) that a
command of the given class takes: none for `Arg1`, one for `Arg2`, two for
`Arg3`, one or more for `ArgN`. The classes `Arg4` and `ArgX` are not among
the four classes of fixed shape that the claims on framing speak of. -/
def arity_admits : arity_class → Nat → Bool
  | .Arg1, n => n == 0
  | .Arg2, n => n == 1
  | .Arg3, n => n == 2
  | .ArgN, n => decide (1 ≤ n)
  | .Arg4, _ => false
  | .ArgX, _ => false

/-! ## The loops: enough iterations, and one-step unfolding -/

theorem req_step_next_bounds {b : mbuf} {p : Nat} {s : req_sw} {r : msg} {p' : Nat} {s' : req_sw}
    {r' : msg} (hp : p < b.last) (h : req_step b p s r = .next p' s' r') :
    p < p' ∧ p' ≤ b.last := by
  cases s <;> simp only [req_step, req_len, req_arg_len, req_arg, req_lf] at h <;>
    (repeat' split at h) <;> simp_all <;> omega

theorem req_loop_fuel_aux : ∀ (f1 f2 : Nat) (b : mbuf) (p : Nat) (s : req_sw) (r : msg),
    b.last - p ≤ f1 → b.last - p ≤ f2 → req_loop f1 b p s r = req_loop f2 b p s r := by
  intro f1
  induction f1 with
  | zero =>
    intro f2 b p s r h1 _
    have hp : ¬ p < b.last := by omega
    cases f2 <;> simp [req_loop, hp]
  | succ n ih =>
    intro f2 b p s r h1 h2
    cases f2 with
    | zero =>
      have hp : ¬ p < b.last := by omega
      simp [req_loop, hp]
    | succ k =>
      by_cases hp : p < b.last
      · simp only [req_loop, hp, if_true]
        cases hstep : req_step b p s r with
        | next p' s' r' =>
          have hb := req_step_next_bounds hp hstep
          simp only
          exact ih k b p' s' r' (by omega) (by omega)
        | done => rfl
        | fragment => rfl
        | error => rfl
      · simp [req_loop, hp]

/-- Any number of iterations from `b.last - p` on gives the result of
`req_run`: the bound of `req_loop` is never what ends the loop. -/
theorem req_loop_fuel (fuel : Nat) (b : mbuf) (p : Nat) (s : req_sw) (r : msg)
    (h : b.last - p ≤ fuel) : req_loop fuel b p s r = req_run b p s r :=
  req_loop_fuel_aux fuel (b.last - p) b p s r h (Nat.le_refl _)

theorem parse_request_eq (r : msg) (b : mbuf) :
    parse_request r b = req_run b r.pos (req_sw.of_int r.state) r := rfl

theorem req_run_end {b : mbuf} {p : Nat} (s : req_sw) (r : msg) (hp : b.last ≤ p) :
    req_run b p s r = label_again b p s.to_int r := by
  have h0 : b.last - p = 0 := by omega
  simp [req_run, h0, req_loop]

theorem req_run_eq {b : mbuf} {p : Nat} (s : req_sw) (r : msg) (hp : p < b.last) :
    req_run b p s r =
      match req_step b p s r with
      | .next p' s' r' => req_run b p' s' r'
      | .done p' _ r' => label_done p' r'
      | .fragment _ s' r' => label_fragment s'.to_int r'
      | .error s' r' => label_error s'.to_int r' := by
  obtain ⟨k, hk⟩ : ∃ k, b.last - p = k + 1 := ⟨b.last - p - 1, by omega⟩
  simp only [req_run, hk, req_loop, hp, if_true]
  cases hstep : req_step b p s r with
  | next p' s' r' =>
    have hb := req_step_next_bounds hp hstep
    simp only
    exact req_loop_fuel_aux _ _ b p' s' r' (by omega) (Nat.le_refl _)
  | done => rfl
  | fragment => rfl
  | error => rfl

theorem rsp_step_next_bounds {b : mbuf} {p : Nat} {s : rsp_sw} {r : msg} {p' : Nat} {s' : rsp_sw}
    {r' : msg} (hp : p < b.last) (h : rsp_step b p s r = .next p' s' r') :
    s' ≠ .SW_START ∧ p ≤ p' ∧ (s ≠ .SW_START → p < p') ∧ p' ≤ b.last := by
  cases s <;> simp only [rsp_step] at h <;>
    (repeat' split at h) <;> cases h <;> simp <;> omega

/-- The number of iterations that `parse_response` still needs at most. -/
theorem rsp_loop_fuel_aux : ∀ (f1 f2 : Nat) (b : mbuf) (p : Nat) (s : rsp_sw) (r : msg),
    (b.last - p) + (if s = .SW_START then 1 else 0) ≤ f1 →
    (b.last - p) + (if s = .SW_START then 1 else 0) ≤ f2 →
    rsp_loop f1 b p s r = rsp_loop f2 b p s r := by
  intro f1
  induction f1 with
  | zero =>
    intro f2 b p s r h1 _
    have hp : ¬ p < b.last := by omega
    cases f2 <;> simp [rsp_loop, hp]
  | succ n ih =>
    intro f2 b p s r h1 h2
    by_cases hp : p < b.last
    · cases f2 with
      | zero => omega
      | succ k =>
        simp only [rsp_loop, hp, if_true]
        cases hstep : rsp_step b p s r with
        | next p' s' r' =>
          have hb := rsp_step_next_bounds hp hstep
          simp only
          have hs' : (if s' = rsp_sw.SW_START then 1 else 0) = 0 := by simp [hb.1]
          by_cases hs : s = .SW_START
          · simp only [hs, if_true] at h1 h2
            exact ih k b p' s' r' (by omega) (by omega)
          · simp only [hs, if_false] at h1 h2
            have := hb.2.2.1 hs
            exact ih k b p' s' r' (by omega) (by omega)
        | done => rfl
        | fragment => rfl
        | error => rfl
    · cases f2 <;> simp [rsp_loop, hp]

/-- Any number of iterations from `b.last - p + 1` on gives the result of
`rsp_run`: the bound of `rsp_loop` is never what ends the loop. -/
theorem rsp_loop_fuel (fuel : Nat) (b : mbuf) (p : Nat) (s : rsp_sw) (r : msg)
    (h : b.last - p + 1 ≤ fuel) : rsp_loop fuel b p s r = rsp_run b p s r := by
  apply rsp_loop_fuel_aux <;> split <;> omega

theorem parse_response_eq (r : msg) (b : mbuf) :
    parse_response r b = rsp_run b r.pos (rsp_sw.of_int r.state) r := rfl

theorem rsp_run_end {b : mbuf} {p : Nat} (s : rsp_sw) (r : msg) (hp : b.last ≤ p) :
    rsp_run b p s r = label_again b p s.to_int r := by
  have hp' : ¬ p < b.last := by omega
  simp [rsp_run, rsp_loop, hp']

theorem rsp_run_eq {b : mbuf} {p : Nat} (s : rsp_sw) (r : msg) (hp : p < b.last) :
    rsp_run b p s r =
      match rsp_step b p s r with
      | .next p' s' r' => rsp_run b p' s' r'
      | .done p' _ r' => label_done p' r'
      | .fragment _ s' r' => label_fragment s'.to_int r'
      | .error s' r' => label_error s'.to_int r' := by
  have h1 : rsp_run b p s r = rsp_loop (b.last - p + 1) b p s r := rfl
  rw [h1, rsp_loop]
  simp only [hp, if_true]
  cases hstep : rsp_step b p s r with
  | next p' s' r' =>
    have hb := rsp_step_next_bounds hp hstep
    simp only
    have hs' : (if s' = rsp_sw.SW_START then 1 else 0) = 0 := by simp [hb.1]
    refine rsp_loop_fuel_aux _ (b.last - p' + 1) b p' s' r' ?_ ?_
    · by_cases hs : s = .SW_START
      · omega
      · have := hb.2.2.1 hs
        omega
    · omega
  | done => rfl
  | fragment => rfl
  | error => rfl

/-! ## Reading the buffer at a cursor -/

theorem view_cons : ∀ {l : List Nat} {p x : Nat} {rest : List Nat}, l.drop p = x :: rest →
    p < l.length ∧ l.getD p 0 = x ∧ l.drop (p + 1) = rest
  | [], p, x, rest, h => by simp at h
  | a :: l, 0, x, rest, h => by
    simp only [List.drop_zero, List.cons.injEq] at h
    simp [h.1, h.2]
  | a :: l, p + 1, x, rest, h => by
    simp only [List.drop_succ_cons] at h
    have := view_cons h
    simpa using this

theorem view_append {l : List Nat} {p : Nat} {K rest : List Nat} (h : l.drop p = K ++ rest) :
    l.drop (p + K.length) = rest := by
  rw [← List.drop_drop, h, List.drop_left]

theorem buf_cons {b : mbuf} {p x : Nat} {rest : List Nat} (h : b.data.drop p = x :: rest) :
    p < b.last ∧ b.at p = x ∧ b.data.drop (p + 1) = rest := view_cons h

theorem buf_jump {b : mbuf} {p x : Nat} {K rest : List Nat} (h : b.data.drop p = K ++ x :: rest) :
    p + K.length < b.last ∧ b.at (p + K.length) = x ∧ b.data.drop (p + K.length + 1) = rest :=
  buf_cons (view_append h)

/-- The accumulation of a digit string in a `uint32_t`. -/
theorem foldl_accum_mod (ds : List Nat) : ∀ x : Nat,
    ds.foldl accum (x % 2 ^ 32) = dec_fold x ds % 2 ^ 32 := by
  induction ds with
  | nil => intro x; simp [dec_fold]
  | cons d ds ih =>
    intro x
    have h : accum (x % 2 ^ 32) d = (x * 10 + (d - 48)) % 2 ^ 32 := by
      unfold accum; omega
    simp only [List.foldl_cons, h, ih, dec_fold]

theorem foldl_accum_zero (ds : List Nat) : ds.foldl accum 0 = dec_value ds % 2 ^ 32 := by
  simpa using foldl_accum_mod ds 0

/-- Digits in a state that accumulates them: the run moves over the digit string. -/
theorem req_run_digits {b : mbuf} {s : req_sw} {u : msg → Nat → msg} {I : msg → Prop}
    (hstep : ∀ p r d, I r → isdigit d = true → b.at p = d →
      req_step b p s r = .next (p + 1) s (u r d))
    (hI : ∀ r d, I r → I (u r d)) :
    ∀ (ds : List Nat) (rest : List Nat) (p : Nat) (r : msg), I r → all_digits ds →
      b.data.drop p = ds ++ rest →
      req_run b p s r = req_run b (p + ds.length) s (ds.foldl u r) := by
  intro ds
  induction ds with
  | nil => intro rest p r _ _ _; rfl
  | cons d ds ih =>
    intro rest p r hr hd h
    obtain ⟨hp, hat, h'⟩ := buf_cons h
    have hd0 : isdigit d = true := hd d (List.mem_cons_self _ _)
    rw [req_run_eq _ _ hp, hstep p r d hr hd0 hat]
    simp only [List.foldl_cons, List.length_cons]
    rw [ih rest (p + 1) (u r d) (hI r d hr) (fun x hx => hd x (List.mem_cons_of_mem _ hx)) h']
    congr 1
    omega



theorem foldl_rnarg (ds : List Nat) : ∀ r : msg,
    ds.foldl (fun r d => { r with rnarg := accum r.rnarg d }) r =
      { r with rnarg := ds.foldl accum r.rnarg } := by
  induction ds with
  | nil => intro r; rfl
  | cons d ds ih => intro r; simp only [List.foldl_cons, ih]

theorem foldl_rlen (ds : List Nat) : ∀ r : msg,
    ds.foldl (fun r d => { r with rlen := accum r.rlen d }) r =
      { r with rlen := ds.foldl accum r.rlen } := by
  induction ds with
  | nil => intro r; rfl
  | cons d ds ih => intro r; simp only [List.foldl_cons, ih]

theorem isdigit_13 : isdigit 13 = false := by decide

/-- The header `*<digits>\r\n` read from state `SW_START`. -/
theorem req_run_header {b : mbuf} {p : Nat} {r : msg} {D rest : List Nat}
    (ht : r.token = none) (hD : all_digits D)
    (h : b.data.drop p = 42 :: (D ++ 13 :: 10 :: rest))
    (hn : dec_value D % 2 ^ 32 ≠ 0) :
    req_run b p SW_START r =
      req_run b (p + D.length + 3) SW_REQ_TYPE_LEN
        { r with token := none, narg_start := some (p + 1), rnarg := dec_value D % 2 ^ 32,
                 narg := dec_value D % 2 ^ 32, narg_end := some (p + 1 + D.length) } := by
  obtain ⟨hp, hat, h1⟩ := buf_cons h
  rw [req_run_eq _ _ hp]
  simp only [req_step, hat, ht]
  simp only [ne_eq, not_true_eq_false, if_false]
  rw [req_run_digits (s := SW_NARG) (I := fun r => r.token ≠ none)
    (u := fun r d => { r with rnarg := accum r.rnarg d }) ?_ ?_ D _ (p + 1) _ ?_ hD h1]
  · obtain ⟨hp2, hat2, h2⟩ := buf_jump h1
    obtain ⟨hp3, hat3, h3⟩ := buf_cons h2
    rw [req_run_eq _ _ hp2]
    simp only [req_step, hat2, foldl_rnarg, foldl_accum_zero, isdigit_13]
    simp only [hn, if_false, Bool.false_eq_true]
    simp only [if_true]
    rw [req_run_eq _ _ hp3]
    simp only [req_step, req_lf, hat3, if_true]
    congr 1
    omega
  · intro p r d hr hd hat
    cases htok : r.token with
    | none => exact absurd htok hr
    | some t => simp [req_step, hat, htok, hd]
  · intro r d hr; exact hr
  · simp



/-- A length header `$<digits>\r\n` read in `SW_REQ_TYPE_LEN` or `SW_KEY_LEN`. -/
theorem req_run_len {b : mbuf} {s l g : req_sw}
    (hs : ∀ p r, req_step b p s r = req_len p (b.at p) s l r)
    (hlf : ∀ p r, req_step b p l r = req_lf p (b.at p) l g r)
    {p : Nat} {r : msg} {L rest : List Nat}
    (ht : r.token = none) (hL : all_digits L)
    (h : b.data.drop p = 36 :: (L ++ 13 :: 10 :: rest))
    (hn : dec_value L % 2 ^ 32 ≠ 0) (hr : r.rnarg ≠ 0) :
    req_run b p s r =
      req_run b (p + L.length + 3) g
        { r with rlen := dec_value L % 2 ^ 32, rnarg := r.rnarg - 1, token := none } := by
  obtain ⟨hp, hat, h1⟩ := buf_cons h
  rw [req_run_eq _ _ hp]
  simp only [hs, req_len, hat, ht]
  simp only [ne_eq, not_true_eq_false, if_false]
  rw [req_run_digits (s := s) (I := fun r => r.token ≠ none)
    (u := fun r d => { r with rlen := accum r.rlen d }) ?_ ?_ L _ (p + 1) _ ?_ hL h1]
  · obtain ⟨hp2, hat2, h2⟩ := buf_jump h1
    obtain ⟨hp3, hat3, h3⟩ := buf_cons h2
    rw [req_run_eq _ _ hp2]
    simp only [hs, req_len, hat2, foldl_rlen, foldl_accum_zero, isdigit_13]
    simp only [hn, hr, if_false, Bool.false_eq_true, or_self]
    simp only [if_true]
    rw [req_run_eq _ _ hp3]
    simp only [hlf, req_lf, hat3, if_true]
    congr 1
    omega
  · intro p r d hr hd hat
    cases htok : r.token with
    | none => exact absurd htok hr
    | some t => simp [hs, req_len, hat, htok, hd]
  · intro r d hr; exact hr
  · simp

/-- A length header `$<digits>\r\n` read in `SW_ARG1_LEN`, `SW_ARG2_LEN` or
`SW_ARGN_LEN`. -/
theorem req_run_arg_len {b : mbuf} {s l g : req_sw}
    (hs : ∀ p r, req_step b p s r = req_arg_len p (b.at p) s l r)
    (hlf : ∀ p r, req_step b p l r = req_lf p (b.at p) l g r)
    {p : Nat} {r : msg} {L rest : List Nat}
    (ht : r.token = none) (hL : all_digits L)
    (h : b.data.drop p = 36 :: (L ++ 13 :: 10 :: rest))
    (hn : L ≠ []) (hr : r.rnarg ≠ 0) :
    req_run b p s r =
      req_run b (p + L.length + 3) g
        { r with rlen := dec_value L % 2 ^ 32, rnarg := r.rnarg - 1, token := none } := by
  obtain ⟨hp, hat, h1⟩ := buf_cons h
  rw [req_run_eq _ _ hp]
  simp only [hs, req_arg_len, hat, ht]
  simp only [ne_eq, not_true_eq_false, if_false]
  rw [req_run_digits (s := s) (I := fun r => r.token = some p)
    (u := fun r d => { r with rlen := accum r.rlen d }) ?_ ?_ L _ (p + 1) _ ?_ hL h1]
  · obtain ⟨hp2, hat2, h2⟩ := buf_jump h1
    obtain ⟨hp3, hat3, h3⟩ := buf_cons h2
    have hlen : 0 < L.length := List.length_pos.mpr hn
    have hle : ¬ (p + 1 + L.length - p ≤ 1) := by omega
    rw [req_run_eq _ _ hp2]
    simp only [hs, req_arg_len, hat2, foldl_rlen, foldl_accum_zero, isdigit_13]
    simp only [hle, hr, if_false, Bool.false_eq_true, or_self]
    simp only [if_true]
    rw [req_run_eq _ _ hp3]
    simp only [hlf, req_lf, hat3, if_true]
    congr 1
    omega
  · intro p' r d hr hd hat
    simp [hs, req_arg_len, hat, hr, hd]
  · intro r d hr; exact hr
  · simp

/-- The payload of a trailing argument skipped in `SW_ARG1`, `SW_ARG2` or
`SW_ARGN`, up to its `CR`. -/
theorem req_run_arg {b : mbuf} {s l : req_sw}
    (hs : ∀ p r, req_step b p s r = req_arg b p s l r)
    {p : Nat} {r : msg} {a rest : List Nat}
    (hlen : r.rlen = a.length)
    (h : b.data.drop p = a ++ 13 :: rest) :
    req_run b p s r = req_run b (p + a.length + 1) l { r with rlen := 0 } := by
  obtain ⟨hp2, hat2, _⟩ := buf_jump h
  have hp : p < b.last := by omega
  rw [req_run_eq _ _ hp]
  simp only [hs, req_arg, hlen, hat2]
  have : ¬ (p + a.length ≥ b.last) := by omega
  simp only [this, if_false, ne_eq, not_true_eq_false]

/-- The key skipped in `SW_KEY`, up to its `CR`. -/
theorem req_run_key {b : mbuf} {p : Nat} {r : msg} {K rest : List Nat}
    (ht : r.token = none) (hlen : r.rlen = K.length)
    (h : b.data.drop p = K ++ 13 :: rest) :
    req_run b p SW_KEY r =
      req_run b (p + K.length + 1) SW_KEY_LF
        { r with rlen := 0, token := none, key_start := some p,
                 key_end := some (p + K.length) } := by
  obtain ⟨hp2, hat2, _⟩ := buf_jump h
  have hp : p < b.last := by omega
  rw [req_run_eq _ _ hp]
  simp only [req_step, ht, hlen, hat2]
  have : ¬ (p + K.length ≥ b.last) := by omega
  simp only [this, if_false, ne_eq, not_true_eq_false]

/-- The command name read in `SW_REQ_TYPE`, up to its `CR`, and the `LF`
after it. -/
theorem req_run_type {b : mbuf} {p : Nat} {r : msg} {v rest : List Nat}
    (ht : r.token = none) (hlen : r.rlen = v.length)
    (h : b.data.drop p = v ++ 13 :: 10 :: rest)
    (hty : req_type b p v.length ≠ MSG_UNKNOWN) :
    req_run b p SW_REQ_TYPE r =
      req_run b (p + v.length + 2) SW_KEY_LEN
        { r with rlen := 0, token := none, type := req_type b p v.length } := by
  obtain ⟨hp2, hat2, h2⟩ := buf_jump h
  obtain ⟨hp3, hat3, _⟩ := buf_cons h2
  have hp : p < b.last := by omega
  rw [req_run_eq _ _ hp]
  simp only [req_step, ht, hlen, hat2]
  have : ¬ (p + v.length ≥ b.last) := by omega
  simp only [this, if_false, ne_eq, not_true_eq_false, Nat.add_sub_cancel_left, hty]
  rw [req_run_eq _ _ hp3]
  simp only [req_step, req_lf, hat3, if_true]

/-! ## The command table and the command switch -/

theorem tolower_idem (c : Nat) : tolower (tolower c) = tolower c := by
  unfold tolower; split <;> (simp; try omega)

theorem at_eq_headD (b : mbuf) (m : Nat) : b.at m = (b.data.drop m).headD 0 := by
  unfold mbuf.at
  induction b.data generalizing m with
  | nil => simp
  | cons a l ih =>
    cases m with
    | zero => simp
    | succ k => simp

theorem stricmp_drop (cs : List Char) : ∀ (b : mbuf) (m : Nat),
    stricmp b m cs = stricmp ⟨b.data.drop m, 0⟩ 0 cs := by
  induction cs with
  | nil => intro b m; rfl
  | cons c cs ih =>
    intro b m
    simp only [stricmp]
    rw [ih b (m + 1), ih ⟨b.data.drop m, 0⟩ (0 + 1), at_eq_headD b m,
      at_eq_headD ⟨b.data.drop m, 0⟩ 0]
    simp [Nat.add_comm]

theorem req_type_drop (b : mbuf) (m len : Nat) :
    req_type b m len = req_type ⟨b.data.drop m, 0⟩ 0 len := by
  unfold req_type
  simp only [stricmp_drop _ b m]



theorem req_type_long (b : mbuf) (m len : Nat) (h : 12 ≤ len) : req_type b m len = MSG_UNKNOWN := by
  unfold req_type
  split <;> first | omega | rfl

theorem req_type_fold_aux (v rest : List Nat) :
    req_type ⟨v ++ 13 :: rest, 0⟩ 0 v.length = req_type ⟨v.map tolower ++ [13], 0⟩ 0 v.length := by
  by_cases hlen : 12 ≤ v.length
  · rw [req_type_long _ _ _ hlen, req_type_long _ _ _ hlen]
  · rcases v with _ | ⟨a0, _ | ⟨a1, _ | ⟨a2, _ | ⟨a3, _ | ⟨a4, _ | ⟨a5, _ | ⟨a6, _ | ⟨a7, _ |
      ⟨a8, _ | ⟨a9, _ | ⟨a10, _ | ⟨a11, v⟩⟩⟩⟩⟩⟩⟩⟩⟩⟩⟩⟩
    case neg.cons.cons.cons.cons.cons.cons.cons.cons.cons.cons.cons.cons =>
      simp at hlen
    all_goals simp [req_type, stricmp, mbuf.at, tolower_idem, (by decide : ¬ (tolower 13 = tolower 101))]

theorem req_type_table : ∀ e ∈ command_table,
    req_type ⟨(ascii e.name).map tolower ++ [13], 0⟩ 0 (ascii e.name).length = e.tag := by
  decide

theorem arity_table : ∀ e ∈ command_table, arity_of e.tag = some e.arity := by
  decide

/-! ## Decimal numerals -/

theorem decimal_aux_append : ∀ (fuel n : Nat) (acc : List Nat),
    decimal_aux fuel n acc = decimal_aux fuel n [] ++ acc := by
  intro fuel
  induction fuel with
  | zero => intro n acc; rfl
  | succ f ih =>
    intro n acc
    simp only [decimal_aux]
    split
    · rfl
    · rw [ih (n / 10) ((48 + n % 10) :: acc), ih (n / 10) [48 + n % 10]]
      simp

theorem dec_fold_append (x : Nat) (l : List Nat) (d : Nat) :
    dec_fold x (l ++ [d]) = dec_fold x l * 10 + (d - 48) := by
  simp [dec_fold, List.foldl_append]

theorem decimal_aux_spec : ∀ (fuel n : Nat), n < fuel →
    dec_value (decimal_aux fuel n []) = n ∧ all_digits (decimal_aux fuel n []) ∧
      decimal_aux fuel n [] ≠ [] := by
  intro fuel
  induction fuel with
  | zero => intro n h; omega
  | succ f ih =>
    intro n h
    simp only [decimal_aux]
    split
    · refine ⟨?_, ?_, by simp⟩
      · simp [dec_value, dec_fold]
      · intro d hd
        simp only [List.mem_singleton] at hd
        subst hd
        simp [isdigit]
        omega
    · rename_i h10
      obtain ⟨h1, h2, _⟩ := ih (n / 10) (by omega)
      rw [decimal_aux_append]
      refine ⟨?_, ?_, by simp⟩
      · unfold dec_value at h1 ⊢
        rw [dec_fold_append, h1]
        omega
      · intro d hd
        simp only [List.mem_append, List.mem_singleton] at hd
        rcases hd with hd | hd
        · exact h2 d hd
        · subst hd
          simp [isdigit]
          omega

theorem dec_value_decimal (n : Nat) : dec_value (decimal n) = n :=
  (decimal_aux_spec (n + 1) n (Nat.lt_succ_self n)).1

theorem all_digits_decimal (n : Nat) : all_digits (decimal n) :=
  (decimal_aux_spec (n + 1) n (Nat.lt_succ_self n)).2.1

theorem decimal_ne_nil (n : Nat) : decimal n ≠ [] :=
  (decimal_aux_spec (n + 1) n (Nat.lt_succ_self n)).2.2

/-! ## Forward execution of the request machine -/

theorem view_skip3 {l : List Nat} {p x y z : Nat} {D rest : List Nat}
    (h : l.drop p = x :: (D ++ y :: z :: rest)) : l.drop (p + D.length + 3) = rest := by
  have h1 := (view_cons h).2.2
  have h2 := view_append h1
  have h3 := (view_cons h2).2.2
  have h4 := (view_cons h3).2.2
  rw [← h4]; congr 1; omega

theorem view_skip1 {l : List Nat} {p x : Nat} {a rest : List Nat}
    (h : l.drop p = a ++ x :: rest) : l.drop (p + a.length + 1) = rest :=
  (view_cons (view_append h)).2.2

theorem view_skip2 {l : List Nat} {p x y : Nat} {a rest : List Nat}
    (h : l.drop p = a ++ x :: y :: rest) : l.drop (p + a.length + 2) = rest :=
  (view_cons (view_skip1 h)).2.2

/-- The command switch on a name followed by `CR` depends on the name up to
letter case only. -/
theorem req_type_fold {b : mbuf} {p : Nat} {v rest : List Nat}
    (h : b.data.drop p = v ++ 13 :: rest) :
    req_type b p v.length = req_type ⟨v.map tolower ++ [13], 0⟩ 0 v.length := by
  rw [req_type_drop, h, req_type_fold_aux]

/-- From `SW_START` over the header, the command name and the key, up to the
`LF` that ends the key. -/
theorem req_run_to_key_lf {b : mbuf} {p : Nat} {r : msg} {D L1 v L2 K rest : List Nat}
    (ht : r.token = none) (hD : all_digits D) (hL1 : all_digits L1) (hL2 : all_digits L2)
    (h : b.data.drop p = 42 :: (D ++ 13 :: 10 :: 36 :: (L1 ++ 13 :: 10 :: (v ++ 13 :: 10 :: 36 ::
      (L2 ++ 13 :: 10 :: (K ++ 13 :: rest))))))
    (hn : 2 ≤ dec_value D % 2 ^ 32)
    (hv : dec_value L1 % 2 ^ 32 = v.length) (hv0 : v ≠ [])
    (hK : dec_value L2 % 2 ^ 32 = K.length) (hK0 : K ≠ [])
    (hty : req_type ⟨v.map tolower ++ [13], 0⟩ 0 v.length ≠ MSG_UNKNOWN) :
    req_run b p SW_START r =
      req_run b (p + D.length + L1.length + v.length + L2.length + K.length + 12) SW_KEY_LF
        { r with token := none, narg_start := some (p + 1), narg_end := some (p + 1 + D.length),
                 narg := dec_value D % 2 ^ 32, rnarg := dec_value D % 2 ^ 32 - 2, rlen := 0,
                 type := req_type ⟨v.map tolower ++ [13], 0⟩ 0 v.length,
                 key_start := some (p + D.length + L1.length + v.length + L2.length + 11),
                 key_end := some (p + D.length + L1.length + v.length + L2.length + 11 + K.length) }
      ∧ b.data.drop (p + D.length + L1.length + v.length + L2.length + K.length + 12) = rest := by
  have h1 := view_skip3 h
  have h2 := view_skip3 h1
  have h3 := view_skip2 h2
  have h4 := view_skip3 h3
  have h5 := view_skip1 h4
  have hvlen : 0 < v.length := List.length_pos.mpr hv0
  have hKlen : 0 < K.length := List.length_pos.mpr hK0
  refine ⟨?_, by rw [← h5]; congr 1; omega⟩
  rw [req_run_header ht hD h (by omega)]
  rw [req_run_len (s := SW_REQ_TYPE_LEN) (l := SW_REQ_TYPE_LEN_LF) (g := SW_REQ_TYPE)
    (fun _ _ => rfl) (fun _ _ => rfl) rfl hL1 h1 (by omega) (by simp only; omega)]
  rw [req_run_type rfl (by simp only; omega) h2 (by rw [req_type_fold h2]; exact hty)]
  rw [req_run_len (s := SW_KEY_LEN) (l := SW_KEY_LEN_LF) (g := SW_KEY)
    (fun _ _ => rfl) (fun _ _ => rfl) rfl hL2 h3 (by omega) (by simp only; omega)]
  rw [req_run_key rfl (by simp only; omega) h4]
  rw [req_type_fold h2]
  congr 1
  · omega
  · simp only [msg.mk.injEq, true_and, Option.some.injEq]
    refine ⟨by omega, by omega, by omega, trivial⟩

theorem parse_arg_of_arity (t : msg_type_t) :
    (arity_of t = some .Arg1 → parse_arg1 (msg_of_type t) = true) ∧
    (arity_of t = some .Arg2 → parse_arg1 (msg_of_type t) = false ∧
      parse_arg2 (msg_of_type t) = true) ∧
    (arity_of t = some .Arg3 → parse_arg1 (msg_of_type t) = false ∧
      parse_arg2 (msg_of_type t) = false ∧ parse_arg3 (msg_of_type t) = true) ∧
    (arity_of t = some .ArgN → parse_arg1 (msg_of_type t) = false ∧
      parse_arg2 (msg_of_type t) = false ∧ parse_arg3 (msg_of_type t) = false ∧
      parse_argn (msg_of_type t) = true) ∧
    (arity_of t = some .ArgX → parse_arg1 (msg_of_type t) = false ∧
      parse_arg2 (msg_of_type t) = false ∧ parse_arg3 (msg_of_type t) = false ∧
      parse_argn (msg_of_type t) = false ∧ parse_argx (msg_of_type t) = true) ∧
    (arity_of t = some .Arg4 → parse_arg1 (msg_of_type t) = false ∧
      parse_arg2 (msg_of_type t) = false ∧ parse_arg3 (msg_of_type t) = false ∧
      parse_argn (msg_of_type t) = false ∧ parse_argx (msg_of_type t) = false) := by
  cases t <;> decide

theorem parse_arg1_type (r : msg) : parse_arg1 r = parse_arg1 (msg_of_type r.type) := rfl
theorem parse_arg2_type (r : msg) : parse_arg2 r = parse_arg2 (msg_of_type r.type) := rfl
theorem parse_arg3_type (r : msg) : parse_arg3 r = parse_arg3 (msg_of_type r.type) := rfl
theorem parse_arg4_type (r : msg) : parse_arg4 r = parse_arg4 (msg_of_type r.type) := rfl
theorem parse_argn_type (r : msg) : parse_argn r = parse_argn (msg_of_type r.type) := rfl
theorem parse_argx_type (r : msg) : parse_argx r = parse_argx (msg_of_type r.type) := rfl

theorem view_elem {l : List Nat} {p x y z w : Nat} {L a rest : List Nat}
    (h : l.drop p = x :: (L ++ y :: z :: (a ++ w :: rest))) :
    l.drop (p + L.length + a.length + 4) = rest := by
  have h2 := view_skip1 (view_skip3 h)
  rw [← h2]; congr 1; omega

/-- One trailing argument: its length header and its payload, up to the `LF`
that ends it. -/
theorem req_run_elem {b : mbuf} {s l g k : req_sw}
    (hs : ∀ p r, req_step b p s r = req_arg_len p (b.at p) s l r)
    (hlf : ∀ p r, req_step b p l r = req_lf p (b.at p) l g r)
    (htgt : ∀ p r, req_step b p g r = req_arg b p g k r)
    {p : Nat} {r : msg} {L a rest : List Nat}
    (ht : r.token = none) (hL : all_digits L) (hL0 : L ≠ [])
    (hval : dec_value L % 2 ^ 32 = a.length) (hr : r.rnarg ≠ 0)
    (h : b.data.drop p = 36 :: (L ++ 13 :: 10 :: (a ++ 13 :: rest))) :
    req_run b p s r =
      req_run b (p + L.length + a.length + 4) k
        { r with rlen := 0, rnarg := r.rnarg - 1, token := none }
      ∧ b.data.drop (p + L.length + a.length + 4) = rest := by
  have h1 := view_skip3 h
  have h2 := view_skip1 h1
  refine ⟨?_, by rw [← h2]; congr 1; omega⟩
  rw [req_run_arg_len hs hlf ht hL h hL0 hr, req_run_arg htgt (by simp only; omega) h1]
  congr 1
  omega



theorem bulk_append (a rest : List Nat) :
    bulk a ++ rest = 36 :: (decimal a.length ++ 13 :: 10 :: (a ++ 13 :: 10 :: rest)) := by
  simp [bulk]

theorem bulks_cons_append (a : List Nat) (args : List (List Nat)) (post : List Nat) :
    bulks (a :: args) ++ post =
      36 :: (decimal a.length ++ 13 :: 10 :: (a ++ 13 :: 10 :: (bulks args ++ post))) := by
  simp [bulks, bulk]

theorem bulk_length (a : List Nat) : (bulk a).length = (decimal a.length).length + a.length + 5 := by
  simp [bulk]; omega

theorem bulks_cons_length (a : List Nat) (args : List (List Nat)) :
    (bulks (a :: args)).length = (decimal a.length).length + a.length + 5 + (bulks args).length := by
  simp [bulks, bulk_length]

theorem mod_of_lt {n : Nat} (h : n < 2 ^ 32) : dec_value (decimal n) % 2 ^ 32 = n := by
  rw [dec_value_decimal]; exact Nat.mod_eq_of_lt h

/-- The trailing arguments of an `ArgN` command from the second one on. -/
theorem req_run_argn {b : mbuf} (post : List Nat) : ∀ (args : List (List Nat)) (p : Nat) (r : msg),
    parse_argn r = true → r.token = none → r.rnarg = args.length → args ≠ [] →
    (∀ a ∈ args, a.length < 2 ^ 32) → b.data.drop p = bulks args ++ post →
    req_run b p SW_ARGN_LEN r =
      label_done (p + (bulks args).length - 1) { r with rlen := 0, rnarg := 0, token := none } := by
  intro args
  induction args with
  | nil => intro p r _ _ _ h; exact absurd rfl h
  | cons a args ih =>
    intro p r hn ht hr _ hlen h
    have ha : a.length < 2 ^ 32 := hlen a (List.mem_cons_self _ _)
    rw [bulks_cons_append] at h
    obtain ⟨e1, h1⟩ := req_run_elem (s := SW_ARGN_LEN) (l := SW_ARGN_LEN_LF) (g := SW_ARGN)
      (k := SW_ARGN_LF) (fun _ _ => rfl) (fun _ _ => rfl) (fun _ _ => rfl) ht
      (all_digits_decimal _) (decimal_ne_nil _) (mod_of_lt ha)
      (by rw [hr]; simp) h
    obtain ⟨hp, hat, h2⟩ := buf_cons h1
    rw [e1, req_run_eq _ _ hp]
    simp only [req_step, hat, if_true]
    rw [parse_argn_type] at hn ⊢
    simp only [hn, if_true, hr, List.length_cons, Nat.add_sub_cancel]
    cases args with
    | nil =>
      simp only [List.length_nil, if_true, bulks, List.append_nil, bulk_length]
      congr 1
      omega
    | cons a' args' =>
      simp only [List.length_cons, Nat.add_one_ne_zero, if_false]
      refine (ih _ _ (by rw [parse_argn_type]; exact hn) rfl rfl (by simp)
        (fun x hx => hlen x (List.mem_cons_of_mem _ hx)) h2).trans ?_
      rw [bulks_cons_length a (a' :: args')]
      have : 0 < (bulks (a' :: args')).length := by rw [bulks_cons_length]; omega
      congr 1
      omega


/-- From the `LF` that ends the key to the end of the request, for a command
of class Arg1, Arg2, Arg3 or ArgN with as many trailing arguments as its
class admits. -/
theorem req_run_tail {b : mbuf} {q : Nat} {r : msg} {c : arity_class}
    {args : List (List Nat)} {post : List Nat}
    (hcls : arity_of r.type = some c) (hadm : arity_admits c args.length = true)
    (ht : r.token = none) (hrl : r.rlen = 0) (hrn : r.rnarg = args.length)
    (hlen : ∀ a ∈ args, a.length < 2 ^ 32)
    (h : b.data.drop q = 10 :: (bulks args ++ post)) :
    req_run b q SW_KEY_LF r = label_done (q + (bulks args).length) { r with rnarg := 0 } := by
  obtain ⟨hp, hat, h1⟩ := buf_cons h
  obtain ⟨c1, c2, c3, cn, _, _⟩ := parse_arg_of_arity r.type
  have hr0 : r = { r with rlen := 0, token := none } := by
    cases r; simp only at ht hrl; simp [ht, hrl]
  rw [req_run_eq _ _ hp]
  simp only [req_step, hat, if_true]
  rw [parse_arg1_type, parse_arg2_type, parse_arg3_type, parse_argn_type]
  cases c with
  | Arg1 =>
    have hargs : args = [] := by
      cases args with
      | nil => rfl
      | cons _ _ => simp [arity_admits] at hadm
    subst hargs
    simp only [c1 hcls, if_true, hrn, List.length_nil, ne_eq, not_true_eq_false, if_false, bulks,
      Nat.add_zero]
    congr 1
    cases r; simp only at hrn; simp [hrn]
  | Arg2 =>
    obtain ⟨a, rfl⟩ : ∃ a, args = [a] := by
      match args, hadm with
      | [a], _ => exact ⟨a, rfl⟩
    obtain ⟨n1, n2⟩ := c2 hcls
    simp only [n1, n2, if_true, hrn, List.length_singleton, ne_eq, not_true_eq_false, if_false,
      Bool.false_eq_true]
    rw [bulks_cons_append] at h1
    obtain ⟨e1, h2⟩ := req_run_elem (s := SW_ARG1_LEN) (l := SW_ARG1_LEN_LF) (g := SW_ARG1)
      (k := SW_ARG1_LF) (fun _ _ => rfl) (fun _ _ => rfl) (fun _ _ => rfl) ht
      (all_digits_decimal _) (decimal_ne_nil _) (mod_of_lt (hlen a (List.mem_cons_self _ _)))
      (by rw [hrn]; simp) h1
    obtain ⟨hp3, hat3, _⟩ := buf_cons h2
    rw [e1, req_run_eq _ _ hp3]
    simp only [req_step, hat3, if_true]
    rw [parse_arg2_type]
    simp only [n2, if_true, hrn, List.length_singleton, Nat.sub_self, ne_eq, not_true_eq_false,
      if_false]
    simp only [bulks, List.append_nil, bulk_length]
    congr 1 <;> first | omega | simp only [ht, hrl]
  | Arg3 =>
    obtain ⟨a1, a2, rfl⟩ : ∃ a1 a2, args = [a1, a2] := by
      match args, hadm with
      | [a1, a2], _ => exact ⟨a1, a2, rfl⟩
    obtain ⟨n1, n2, n3⟩ := c3 hcls
    have hrn2 : r.rnarg = 2 := hrn
    simp only [n1, n2, n3, if_true, hrn2, ne_eq, not_true_eq_false, if_false, Bool.false_eq_true]
    rw [bulks_cons_append] at h1
    obtain ⟨e1, h2⟩ := req_run_elem (s := SW_ARG1_LEN) (l := SW_ARG1_LEN_LF) (g := SW_ARG1)
      (k := SW_ARG1_LF) (fun _ _ => rfl) (fun _ _ => rfl) (fun _ _ => rfl) ht
      (all_digits_decimal _) (decimal_ne_nil _) (mod_of_lt (hlen a1 (List.mem_cons_self _ _)))
      (by rw [hrn2]; simp) h1
    obtain ⟨hp3, hat3, h3⟩ := buf_cons h2
    rw [e1, req_run_eq _ _ hp3]
    simp only [req_step, hat3, if_true]
    rw [parse_arg2_type, parse_arg3_type]
    simp only [n2, n3, if_true, hrn2, ne_eq, not_true_eq_false, if_false, Bool.false_eq_true]
    rw [bulks_cons_append] at h3
    have h4 := view_elem h3
    obtain ⟨hp5, hat5, _⟩ := buf_cons h4
    refine (req_run_elem (s := SW_ARG2_LEN) (l := SW_ARG2_LEN_LF) (g := SW_ARG2)
      (k := SW_ARG2_LF) (fun _ _ => rfl) (fun _ _ => rfl) (fun _ _ => rfl) ?_
      (all_digits_decimal _) (decimal_ne_nil _)
      (mod_of_lt (hlen a2 (List.mem_cons_of_mem _ (List.mem_cons_self _ _))))
      ?_ h3).1.trans ?_
    · rfl
    · simp
    rw [req_run_eq _ _ hp5]
    simp only [req_step, hat5, if_true]
    rw [parse_arg3_type]
    simp only [n3, if_true, ne_eq, not_true_eq_false, if_false]
    simp only [bulks, List.append_nil, bulk_length, List.length_append]
    congr 1 <;> first | omega | simp only [ht, hrl]
  | ArgN =>
    obtain ⟨a, args', rfl⟩ : ∃ a args', args = a :: args' := by
      cases args with
      | nil => simp [arity_admits] at hadm
      | cons a args' => exact ⟨a, args', rfl⟩
    obtain ⟨n1, n2, n3, n4⟩ := cn hcls
    have hrn1 : ¬ r.rnarg < 1 := by rw [hrn]; simp
    simp only [n1, n2, n3, n4, if_true, hrn1, if_false, Bool.false_eq_true]
    rw [bulks_cons_append] at h1
    obtain ⟨e1, h2⟩ := req_run_elem (s := SW_ARG1_LEN) (l := SW_ARG1_LEN_LF) (g := SW_ARG1)
      (k := SW_ARG1_LF) (fun _ _ => rfl) (fun _ _ => rfl) (fun _ _ => rfl) ht
      (all_digits_decimal _) (decimal_ne_nil _) (mod_of_lt (hlen a (List.mem_cons_self _ _)))
      (by rw [hrn]; simp) h1
    obtain ⟨hp3, hat3, h3⟩ := buf_cons h2
    rw [e1, req_run_eq _ _ hp3]
    simp only [req_step, hat3, if_true]
    rw [parse_arg2_type, parse_arg3_type, parse_argn_type]
    simp only [n2, n3, n4, if_true, if_false, Bool.false_eq_true, hrn, List.length_cons,
      Nat.add_sub_cancel]
    cases args' with
    | nil =>
      simp only [List.length_nil, if_true, bulks, List.append_nil, bulk_length]
      congr 1 <;> first | omega | simp only [ht, hrl]
    | cons a' args'' =>
      simp only [List.length_cons, Nat.add_one_ne_zero, if_false]
      refine (req_run_argn post (a' :: args'') _ _ (by rw [parse_argn_type]; exact n4) rfl rfl
        (by simp) (fun x hx => hlen x (List.mem_cons_of_mem _ hx)) h3).trans ?_
      rw [bulks_cons_length a (a' :: args'')]
      have : 0 < (bulks (a' :: args'')).length := by rw [bulks_cons_length]; omega
      congr 1 <;> first | omega | simp only [ht, hrl]
  | Arg4 => simp [arity_admits] at hadm
  | ArgX => simp [arity_admits] at hadm

theorem request_append (v K : List Nat) (args : List (List Nat)) (post : List Nat) :
    request (v :: K :: args) ++ post =
      42 :: (decimal (args.length + 2) ++ 13 :: 10 :: 36 :: (decimal v.length ++ 13 :: 10 ::
        (v ++ 13 :: 10 :: 36 :: (decimal K.length ++ 13 :: 10 :: (K ++ 13 :: 10 ::
          (bulks args ++ post)))))) := by
  simp [request, bulks, bulk]

theorem request_length (v K : List Nat) (args : List (List Nat)) :
    (request (v :: K :: args)).length =
      (decimal (args.length + 2)).length + (decimal v.length).length + v.length +
        (decimal K.length).length + K.length + 13 + (bulks args).length := by
  rw [← List.append_nil (request (v :: K :: args)), request_append]
  simp only [List.length_cons, List.length_append, List.length_nil]
  omega

theorem table_facts : ∀ e ∈ command_table,
    e.tag ≠ MSG_UNKNOWN ∧ 0 < (ascii e.name).length ∧ (ascii e.name).length ≤ 11 := by
  decide

theorem same_name_length {v : List Nat} {name : String} (h : same_name v name) :
    v.length = (ascii name).length := by
  have := congrArg List.length h
  simpa using this

/-- The command switch gives a name of the table, in any letter case, its
tag. -/
theorem req_type_same_name {e : command} (he : e ∈ command_table) {v : List Nat}
    (hv : same_name v e.name) :
    req_type ⟨v.map tolower ++ [13], 0⟩ 0 v.length = e.tag := by
  rw [same_name_length hv, hv]
  exact req_type_table e he

/-- A whole request of class Arg1, Arg2, Arg3 or ArgN, whatever follows it in
the buffer: the run from `SW_START` ends at the label `done` on the last `LF`
of the request. -/
theorem req_run_request {b : mbuf} {p : Nat} {r : msg} {e : command} (he : e ∈ command_table)
    {v K : List Nat} {args : List (List Nat)} {post : List Nat}
    (hv : same_name v e.name) (hK : K ≠ []) (hadm : arity_admits e.arity args.length = true)
    (hKlen : K.length < 2 ^ 32) (hargs : ∀ a ∈ args, a.length < 2 ^ 32)
    (hn : args.length + 2 < 2 ^ 32) (ht : r.token = none)
    (h : b.data.drop p = request (v :: K :: args) ++ post) :
    req_run b p SW_START r =
      label_done (p + (request (v :: K :: args)).length - 1)
        { r with token := none, narg_start := some (p + 1),
                 narg_end := some (p + 1 + (decimal (args.length + 2)).length),
                 narg := args.length + 2, rnarg := 0, rlen := 0, type := e.tag,
                 key_start := some (p + (decimal (args.length + 2)).length +
                   (decimal v.length).length + v.length + (decimal K.length).length + 11),
                 key_end := some (p + (decimal (args.length + 2)).length +
                   (decimal v.length).length + v.length + (decimal K.length).length + 11 +
                   K.length) } := by
  obtain ⟨htag, hpos, hle⟩ := table_facts e he
  have hvl := same_name_length hv
  have hv0 : v ≠ [] := List.length_pos.mp (by omega)
  have hty := req_type_same_name he hv
  rw [request_append] at h
  obtain ⟨e1, h1⟩ := req_run_to_key_lf (r := r) ht (all_digits_decimal _) (all_digits_decimal _)
    (all_digits_decimal _) h (by rw [mod_of_lt hn]; omega)
    (mod_of_lt (by omega)) hv0 (mod_of_lt hKlen) hK (by rw [hty]; exact htag)
  rw [e1, hty, mod_of_lt hn]
  rw [req_run_tail (c := e.arity) (by exact arity_table e he)
    hadm rfl rfl (by simp) hargs h1]
  rw [request_length]
  congr 1
  omega

/-! ## Requests that the machine rejects -/

theorem req_digits_narg {b : mbuf} {p t : Nat} {r : msg} {D rest : List Nat}
    (ht : r.token = some t) (hD : all_digits D) (h : b.data.drop p = D ++ rest) :
    req_run b p SW_NARG r =
      req_run b (p + D.length) SW_NARG { r with rnarg := D.foldl accum r.rnarg } := by
  rw [req_run_digits (s := SW_NARG) (I := fun r => r.token ≠ none)
    (u := fun r d => { r with rnarg := accum r.rnarg d }) ?_ ?_ D _ p _ ?_ hD h, foldl_rnarg]
  · intro p r d hr hd hat
    cases htok : r.token with
    | none => exact absurd htok hr
    | some t => simp [req_step, hat, htok, hd]
  · intro r d hr; exact hr
  · simp [ht]

/-- A header `*<digits>\r` whose value is zero in 32 bits is rejected at its `CR`. -/
theorem req_run_header_error {b : mbuf} {p : Nat} {r : msg} {D rest : List Nat}
    (ht : r.token = none) (hD : all_digits D)
    (h : b.data.drop p = 42 :: (D ++ 13 :: rest))
    (hn : dec_value D % 2 ^ 32 = 0) :
    (req_run b p SW_START r).result = PARSE_ERROR := by
  obtain ⟨hp, hat, h1⟩ := buf_cons h
  rw [req_run_eq _ _ hp]
  simp only [req_step, hat, ht]
  simp only [ne_eq, not_true_eq_false, if_false]
  rw [req_digits_narg rfl hD h1]
  obtain ⟨hp2, hat2, _⟩ := buf_jump h1
  rw [req_run_eq _ _ hp2]
  simp only [req_step, hat2, foldl_accum_zero, isdigit_13, hn]
  simp [label_error]

theorem req_digits_len {b : mbuf} {s l : req_sw}
    (hs : ∀ p r, req_step b p s r = req_len p (b.at p) s l r)
    {p t : Nat} {r : msg} {L rest : List Nat}
    (ht : r.token = some t) (hL : all_digits L) (h : b.data.drop p = L ++ rest) :
    req_run b p s r = req_run b (p + L.length) s { r with rlen := L.foldl accum r.rlen } := by
  rw [req_run_digits (s := s) (I := fun r => r.token ≠ none)
    (u := fun r d => { r with rlen := accum r.rlen d }) ?_ ?_ L _ p _ ?_ hL h, foldl_rlen]
  · intro p r d hr hd hat
    cases htok : r.token with
    | none => exact absurd htok hr
    | some t => simp [hs, req_len, hat, htok, hd]
  · intro r d hr; exact hr
  · simp [ht]

/-- In `SW_REQ_TYPE_LEN` and `SW_KEY_LEN` a length header `$<digits>\r` is
rejected at its `CR` when its value is zero in 32 bits or no element is
left to read. -/
theorem req_run_len_error {b : mbuf} {s l : req_sw}
    (hs : ∀ p r, req_step b p s r = req_len p (b.at p) s l r)
    {p : Nat} {r : msg} {L rest : List Nat}
    (ht : r.token = none) (hL : all_digits L)
    (h : b.data.drop p = 36 :: (L ++ 13 :: rest))
    (hn : dec_value L % 2 ^ 32 = 0 ∨ r.rnarg = 0) :
    (req_run b p s r).result = PARSE_ERROR := by
  obtain ⟨hp, hat, h1⟩ := buf_cons h
  rw [req_run_eq _ _ hp]
  simp only [hs, req_len, hat, ht]
  simp only [ne_eq, not_true_eq_false, if_false]
  rw [req_digits_len hs rfl hL h1]
  obtain ⟨hp2, hat2, _⟩ := buf_jump h1
  rw [req_run_eq _ _ hp2]
  simp only [hs, req_len, hat2, foldl_accum_zero, isdigit_13, hn]
  simp [label_error]

/-- A command name that the command switch does not know is rejected at the
`CR` that ends it. -/
theorem req_run_type_error {b : mbuf} {p : Nat} {r : msg} {v rest : List Nat}
    (ht : r.token = none) (hlen : r.rlen = v.length)
    (h : b.data.drop p = v ++ 13 :: rest)
    (hty : req_type b p v.length = MSG_UNKNOWN) :
    (req_run b p SW_REQ_TYPE r).result = PARSE_ERROR := by
  obtain ⟨hp2, hat2, _⟩ := buf_jump h
  have hp : p < b.last := by omega
  rw [req_run_eq _ _ hp]
  simp only [req_step, ht, hlen, hat2]
  have : ¬ (p + v.length ≥ b.last) := by omega
  simp only [this, if_false, ne_eq, not_true_eq_false, Nat.add_sub_cancel_left, hty]
  simp [label_error]



/-! ## Invariants of a run -/

/-- An invariant of the loop of `parse_request` that every iteration keeps
holds for the message that the loop leaves behind. -/
theorem req_run_induct {b : mbuf} (P : Nat → req_sw → msg → Prop) (Q : msg → Prop)
    (hnext : ∀ p s r p' s' r', P p s r → p < b.last →
      req_step b p s r = .next p' s' r' → P p' s' r')
    (hdone : ∀ p s r p' s' r', P p s r → p < b.last →
      req_step b p s r = .done p' s' r' → Q (label_done p' r'))
    (hfrag : ∀ p s r p' s' r', P p s r → p < b.last →
      req_step b p s r = .fragment p' s' r' → Q (label_fragment s'.to_int r'))
    (herr : ∀ p s r s' r', P p s r → p < b.last →
      req_step b p s r = .error s' r' → Q (label_error s'.to_int r'))
    (hend : ∀ p s r, P p s r → b.last ≤ p → Q (label_again b p s.to_int r)) :
    ∀ (n p : Nat) (s : req_sw) (r : msg), b.last - p ≤ n → P p s r → Q (req_run b p s r) := by
  intro n
  induction n with
  | zero =>
    intro p s r hn hP
    rw [req_run_end _ _ (by omega)]
    exact hend p s r hP (by omega)
  | succ n ih =>
    intro p s r hn hP
    by_cases hp : p < b.last
    · rw [req_run_eq _ _ hp]
      cases hstep : req_step b p s r with
      | next p' s' r' =>
        have hb := req_step_next_bounds hp hstep
        exact ih p' s' r' (by omega) (hnext p s r p' s' r' hP hp hstep)
      | done p' s' r' => exact hdone p s r p' s' r' hP hp hstep
      | fragment p' s' r' => exact hfrag p s r p' s' r' hP hp hstep
      | error s' r' => exact herr p s r s' r' hP hp hstep
    · rw [req_run_end _ _ (by omega)]
      exact hend p s r hP (by omega)

theorem label_again_key (b : mbuf) (p s : Nat) (r : msg) :
    (label_again b p s r).key_start = r.key_start ∧ (label_again b p s r).key_end = r.key_end := by
  unfold label_again
  split
  · split <;> exact ⟨rfl, rfl⟩
  · exact ⟨rfl, rfl⟩

theorem label_fragment_key (s : Nat) (r : msg) :
    (label_fragment s r).key_start = r.key_start ∧ (label_fragment s r).key_end = r.key_end := by
  unfold label_fragment
  split <;> exact ⟨rfl, rfl⟩

theorem req_step_key_frame {b : mbuf} {p : Nat} {s : req_sw} {r : msg} (hs : past_key s = true) :
    (∀ p' s' r', req_step b p s r = .next p' s' r' →
      past_key s' = true ∧ r'.key_start = r.key_start ∧ r'.key_end = r.key_end) ∧
    (∀ p' s' r', req_step b p s r = .done p' s' r' →
      r'.key_start = r.key_start ∧ r'.key_end = r.key_end) ∧
    (∀ p' s' r', req_step b p s r = .fragment p' s' r' →
      r'.key_start = r.key_start ∧ r'.key_end = r.key_end) ∧
    (∀ s' r', req_step b p s r = .error s' r' →
      r'.key_start = r.key_start ∧ r'.key_end = r.key_end) := by
  refine ⟨?_, ?_, ?_, ?_⟩ <;> intros <;> rename_i h <;> revert hs <;>
    cases s <;> intro hs <;> (try exact absurd hs (by decide)) <;>
    simp only [req_step, req_arg_len, req_arg, req_lf] at h <;>
    (repeat' split at h) <;> cases h <;> first | exact ⟨rfl, rfl, rfl⟩ | exact ⟨rfl, rfl⟩

/-- Once the key is recorded the rest of the call leaves `key_start` and
`key_end` as they are. -/
theorem req_run_key_frame {b : mbuf} {p : Nat} {s : req_sw} {r : msg} (hs : past_key s = true) :
    (req_run b p s r).key_start = r.key_start ∧ (req_run b p s r).key_end = r.key_end := by
  refine req_run_induct (b := b)
    (fun _ s' r' => past_key s' = true ∧ r'.key_start = r.key_start ∧ r'.key_end = r.key_end)
    (fun out => out.key_start = r.key_start ∧ out.key_end = r.key_end) ?_ ?_ ?_ ?_ ?_
    (b.last - p) p s r (Nat.le_refl _) ⟨hs, rfl, rfl⟩
  · intro p s r1 p' s' r' ⟨h1, h2, h3⟩ _ h
    obtain ⟨e1, e2, e3⟩ := (req_step_key_frame h1).1 p' s' r' h
    exact ⟨e1, e2.trans h2, e3.trans h3⟩
  · intro p s r1 p' s' r' ⟨h1, h2, h3⟩ _ h
    obtain ⟨e2, e3⟩ := (req_step_key_frame h1).2.1 p' s' r' h
    exact ⟨e2.trans h2, e3.trans h3⟩
  · intro p s r1 p' s' r' ⟨h1, h2, h3⟩ _ h
    obtain ⟨e2, e3⟩ := (req_step_key_frame h1).2.2.1 p' s' r' h
    rw [(label_fragment_key _ _).1, (label_fragment_key _ _).2]
    exact ⟨e2.trans h2, e3.trans h3⟩
  · intro p s r1 s' r' ⟨h1, h2, h3⟩ _ h
    obtain ⟨e2, e3⟩ := (req_step_key_frame h1).2.2.2 s' r' h
    exact ⟨e2.trans h2, e3.trans h3⟩
  · intro p s r' ⟨_, h2, h3⟩ _
    rw [(label_again_key b p s.to_int r').1, (label_again_key b p s.to_int r').2]
    exact ⟨h2, h3⟩

theorem slice_of_view {l : List Nat} {s : Nat} {K rest : List Nat} (h : l.drop s = K ++ rest) :
    slice l s (s + K.length) = K := by
  simp [slice, h]

theorem first_two_append (D L1 N L2 K rest : List Nat) :
    header D ++ (element L1 N ++ (element L2 K ++ rest)) =
      42 :: (D ++ 13 :: 10 :: 36 :: (L1 ++ 13 :: 10 :: (N ++ 13 :: 10 :: 36 ::
        (L2 ++ 13 :: 10 :: (K ++ 13 :: 10 :: rest))))) := by
  simp [header, element]

/-- The key range after a call that got past the key: the run from `SW_START`
over a header and two bulk elements either ends in an error or records the
payload of the second element as the key. -/
theorem req_run_key_bytes {b : mbuf} {p : Nat} {r : msg} {D L1 N L2 K rest : List Nat}
    (ht : r.token = none) (hD : all_digits D) (hL1 : all_digits L1) (hL2 : all_digits L2)
    (hN : dec_value L1 % 2 ^ 32 = N.length) (hK : dec_value L2 % 2 ^ 32 = K.length)
    (hK0 : K ≠ [])
    (h : b.data.drop p = 42 :: (D ++ 13 :: 10 :: 36 :: (L1 ++ 13 :: 10 :: (N ++ 13 :: 10 :: 36 ::
      (L2 ++ 13 :: 10 :: (K ++ 13 :: 10 :: rest)))))) :
    (req_run b p SW_START r).result = PARSE_ERROR ∨
      key_bytes b.data (req_run b p SW_START r) = some K := by
  by_cases hn0 : dec_value D % 2 ^ 32 = 0
  · exact Or.inl (req_run_header_error ht hD h hn0)
  have h1 := view_skip3 h
  rw [req_run_header ht hD h hn0]
  by_cases hN0 : N = []
  · refine Or.inl (req_run_len_error (s := SW_REQ_TYPE_LEN) (l := SW_REQ_TYPE_LEN_LF)
      (fun _ _ => rfl) rfl hL1 h1 (Or.inl ?_))
    rw [hN, hN0]; rfl
  have hNpos : 0 < N.length := List.length_pos.mpr hN0
  have h2 := view_skip3 h1
  rw [req_run_len (s := SW_REQ_TYPE_LEN) (l := SW_REQ_TYPE_LEN_LF) (g := SW_REQ_TYPE)
    (fun _ _ => rfl) (fun _ _ => rfl) rfl hL1 h1 (by omega) hn0]
  by_cases hty : req_type b (p + D.length + 3 + L1.length + 3) N.length = MSG_UNKNOWN
  · exact Or.inl (req_run_type_error rfl hN h2 hty)
  have h3 := view_skip2 h2
  rw [req_run_type rfl hN h2 hty]
  by_cases hn1 : dec_value D % 2 ^ 32 - 1 = 0
  · exact Or.inl (req_run_len_error (s := SW_KEY_LEN) (l := SW_KEY_LEN_LF)
      (fun _ _ => rfl) rfl hL2 h3 (Or.inr hn1))
  have hKpos : 0 < K.length := List.length_pos.mpr hK0
  have h4 := view_skip3 h3
  rw [req_run_len (s := SW_KEY_LEN) (l := SW_KEY_LEN_LF) (g := SW_KEY)
    (fun _ _ => rfl) (fun _ _ => rfl) rfl hL2 h3 (by omega) hn1]
  rw [req_run_key rfl hK h4]
  right
  unfold key_bytes
  rw [(req_run_key_frame (s := SW_KEY_LF) (by decide)).1,
    (req_run_key_frame (s := SW_KEY_LF) (by decide)).2]
  simp only [Option.some.injEq]
  exact slice_of_view h4

/-! ## Inputs whose length fields wrap around in 32 bits -/

theorem long_pad_length : long_pad.length = 4294967294 := List.length_replicate _ _

theorem long_key_length : long_key.length = 4294967297 := by
  rw [long_key, List.length_cons, List.length_cons, List.length_cons, long_pad_length]

theorem long_key_ne : long_key ≠ [] := by
  rw [long_key]; exact List.cons_ne_nil _ _

theorem long_key_append (X : List Nat) : long_key ++ X = [107] ++ 13 :: (10 :: (long_pad ++ X)) := by
  rw [long_key]; rfl

theorem request_two (N K : List Nat) :
    request [N, K] =
      header (decimal 2) ++ (element (decimal N.length) N ++ (element (decimal K.length) K ++ [])) :=
  rfl

/-- From the `LF` that ends the key of a command of class Arg1 with no element
left to read: the request is framed there, whatever follows. -/
theorem req_run_tail_arg1 {b : mbuf} {q : Nat} {r : msg} {post : List Nat}
    (hcls : arity_of r.type = some .Arg1)
    (ht : r.token = none) (hrl : r.rlen = 0) (hrn : r.rnarg = 0)
    (h : b.data.drop q = 10 :: post) :
    req_run b q SW_KEY_LF r = label_done q { r with rnarg := 0 } := by
  have h' : b.data.drop q = 10 :: (bulks [] ++ post) := h
  have e := @req_run_tail b q r .Arg1 [] post hcls (by decide) ht hrl hrn (by simp) h'
  rw [e]
  rfl

/-! ## Bytes after the message do not matter -/

theorem at_append_left {d T : List Nat} {x y p : Nat} (hp : p < d.length) :
    (mbuf.mk (d ++ T) y).at p = (mbuf.mk d x).at p := by
  simp [mbuf.at, List.getElem?_append_left hp]

theorem drop_split {l : List Nat} {t k : Nat} (h : t + k < l.length) :
    l.drop t = (l.drop t).take k ++ l.getD (t + k) 0 :: l.drop (t + k + 1) := by
  have h1 : (l.drop t).drop k = l.getD (t + k) 0 :: l.drop (t + k + 1) := by
    rw [List.drop_drop, List.drop_eq_getElem_cons h]
    simp [List.getD_eq_getElem?_getD, List.getElem?_eq_getElem h]
  conv_lhs => rw [← List.take_append_drop k (l.drop t)]
  rw [h1]

theorem take_drop_length {l : List Nat} {t k : Nat} (h : t + k < l.length) :
    ((l.drop t).take k).length = k := by
  simp; omega

/-- The command switch reads the name and the `CR` after it only. -/
theorem req_type_ext {d T : List Nat} {x y tok m : Nat} (hm : m < d.length)
    (hcr : (mbuf.mk d x).at m = 13) :
    req_type (mbuf.mk (d ++ T) y) tok (m - tok) = req_type (mbuf.mk d x) tok (m - tok) := by
  by_cases htm : tok ≤ m
  · have hsplit := drop_split (l := d) (t := tok) (k := m - tok) (by omega)
    have e : tok + (m - tok) = m := by omega
    rw [e] at hsplit
    have hcr' : d.getD m 0 = 13 := hcr
    rw [hcr'] at hsplit
    have hlen := take_drop_length (l := d) (t := tok) (k := m - tok) (by omega)
    have h1 : (mbuf.mk d x).data.drop tok = (d.drop tok).take (m - tok) ++ 13 :: d.drop (m + 1) :=
      hsplit
    have h2 : (mbuf.mk (d ++ T) y).data.drop tok =
        (d.drop tok).take (m - tok) ++ 13 :: (d.drop (m + 1) ++ T) := by
      show (d ++ T).drop tok = _
      rw [List.drop_append_of_le_length (by omega)]
      conv_lhs => rw [hsplit]
      simp
    have f1 := req_type_fold h1
    have f2 := req_type_fold h2
    rw [hlen] at f1 f2
    rw [f1, f2]
  · have e : m - tok = 0 := by omega
    rw [e]
    rfl

/-- One iteration on a buffer and on the same buffer with more bytes after
`last`: the same, unless the shorter buffer ends inside the token or payload
that the iteration skips. -/
theorem req_step_ext {d T : List Nat} {x y p : Nat} (s : req_sw) (r : msg)
    (hp : p < d.length) :
    req_step (mbuf.mk (d ++ T) y) p s r = req_step (mbuf.mk d x) p s r ∨
      ∃ s' r', req_step (mbuf.mk d x) p s r = .next d.length s' r' := by
  have hat : (mbuf.mk (d ++ T) y).at p = (mbuf.mk d x).at p := at_append_left hp
  have hl1 : (mbuf.mk d x).last = d.length := rfl
  have hl2 : (mbuf.mk (d ++ T) y).last = d.length + T.length := by simp [mbuf.last]
  have hpin : d.length - 1 + 1 = d.length := by omega
  cases s
  case SW_REQ_TYPE =>
    by_cases hm : p + r.rlen < d.length
    · left
      have hatm : (mbuf.mk (d ++ T) y).at (p + r.rlen) = (mbuf.mk d x).at (p + r.rlen) :=
        at_append_left hm
      simp only [req_step, hl1, hl2, hatm]
      have n1 : ¬ (p + r.rlen ≥ d.length) := by omega
      have n2 : ¬ (p + r.rlen ≥ d.length + T.length) := by omega
      simp only [n1, n2, if_false]
      by_cases hcr : (mbuf.mk d x).at (p + r.rlen) = 13
      · simp only [hcr, ne_eq, not_true_eq_false, if_false]
        rw [req_type_ext (x := x) hm hcr]
      · simp only [hcr, ne_eq, not_false_eq_true, if_true]
    · right
      simp only [req_step, hl1]
      have n1 : p + r.rlen ≥ d.length := by omega
      simp only [n1, if_true, hpin]
      exact ⟨_, _, rfl⟩
  case SW_KEY =>
    by_cases hm : p + r.rlen < d.length
    · left
      have hatm : (mbuf.mk (d ++ T) y).at (p + r.rlen) = (mbuf.mk d x).at (p + r.rlen) :=
        at_append_left hm
      simp only [req_step, hl1, hl2, hatm]
      have n1 : ¬ (p + r.rlen ≥ d.length) := by omega
      have n2 : ¬ (p + r.rlen ≥ d.length + T.length) := by omega
      simp only [n1, n2, if_false]
    · right
      simp only [req_step, hl1]
      have n1 : p + r.rlen ≥ d.length := by omega
      simp only [n1, if_true, hpin]
      exact ⟨_, _, rfl⟩
  case SW_ARG1 | SW_ARG2 | SW_ARGN =>
    by_cases hm : p + r.rlen < d.length
    · left
      have hatm : (mbuf.mk (d ++ T) y).at (p + r.rlen) = (mbuf.mk d x).at (p + r.rlen) :=
        at_append_left hm
      simp only [req_step, req_arg, hl1, hl2, hatm]
      have n1 : ¬ (p + r.rlen ≥ d.length) := by omega
      have n2 : ¬ (p + r.rlen ≥ d.length + T.length) := by omega
      simp only [n1, n2, if_false]
    · right
      simp only [req_step, req_arg, hl1]
      have n1 : p + r.rlen ≥ d.length := by omega
      simp only [n1, if_true, hpin]
      exact ⟨_, _, rfl⟩
  all_goals (left; simp only [req_step, req_len, req_arg_len, req_lf, hat])



theorem label_again_not_ok (b : mbuf) (p s : Nat) (r : msg) :
    (label_again b p s r).result ≠ PARSE_OK := by
  unfold label_again
  split
  · split <;> simp
  · simp

theorem label_fragment_not_ok (s : Nat) (r : msg) : (label_fragment s r).result ≠ PARSE_OK := by
  unfold label_fragment
  split <;> simp

/-- A call that returns `PARSE_OK` returns the same message when more bytes
follow in the buffer. -/
theorem req_run_ext {d T : List Nat} {x y : Nat} : ∀ (n p : Nat) (s : req_sw) (r : msg),
    d.length - p ≤ n → (req_run (mbuf.mk d x) p s r).result = PARSE_OK →
    req_run (mbuf.mk (d ++ T) y) p s r = req_run (mbuf.mk d x) p s r := by
  intro n
  induction n with
  | zero =>
    intro p s r hn hok
    rw [req_run_end (b := mbuf.mk d x) _ _ (by simp only [mbuf.last]; omega)] at hok
    exact absurd hok (label_again_not_ok _ _ _ _)
  | succ n ih =>
    intro p s r hn hok
    by_cases hp : p < d.length
    · have hp1 : p < (mbuf.mk d x).last := hp
      have hp2 : p < (mbuf.mk (d ++ T) y).last := by simp [mbuf.last]; omega
      rw [req_run_eq _ _ hp1] at hok ⊢
      rw [req_run_eq _ _ hp2]
      rcases req_step_ext (T := T) (x := x) (y := y) s r hp with he | ⟨s', r', hpin⟩
      · rw [he]
        cases hstep : req_step (mbuf.mk d x) p s r with
        | next p' s' r' =>
          rw [hstep] at hok
          have hb := req_step_next_bounds hp1 hstep
          exact ih p' s' r' (by omega) hok
        | done => rfl
        | fragment => rfl
        | error => rfl
      · rw [hpin] at hok
        simp only at hok
        rw [req_run_end (b := mbuf.mk d x) (p := d.length) _ _ (Nat.le_refl _)] at hok
        exact absurd hok (label_again_not_ok _ _ _ _)
    · rw [req_run_end (b := mbuf.mk d x) _ _ (by simp only [mbuf.last]; omega)] at hok
      exact absurd hok (label_again_not_ok _ _ _ _)

theorem req_step_done_shape {b : mbuf} {p : Nat} {s : req_sw} {r : msg} {p' : Nat} {s' : req_sw}
    {r' : msg} (h : req_step b p s r = .done p' s' r') :
    payload_lf s = true ∧ p' = p ∧ b.at p = 10 := by
  cases s <;> simp only [req_step, req_len, req_arg_len, req_arg, req_lf] at h <;>
    (repeat' split at h) <;> cases h <;> first | exact ⟨rfl, rfl, by assumption⟩

theorem req_step_lf_shape {b : mbuf} {p : Nat} {s : req_sw} {r : msg} {p' : Nat} {s' : req_sw}
    {r' : msg} (h : req_step b p s r = .next p' s' r')
    (hs' : payload_lf s' = true) : 1 ≤ p' ∧ b.at (p' - 1) = 13 := by
  cases s <;> simp only [req_step, req_len, req_arg_len, req_arg, req_lf] at h <;>
    (repeat' split at h) <;> cases h <;> (try exact absurd hs' (by decide)) <;>
    (refine ⟨by omega, ?_⟩; simp only [Nat.add_sub_cancel]; simp_all)



/-- The shape of a call from `SW_START` that returns `PARSE_OK`. -/
theorem req_run_ok_shape {b : mbuf} {p0 : Nat} {r : msg}
    (hok : (req_run b p0 SW_START r).result = PARSE_OK) :
    (req_run b p0 SW_START r).state = 0 ∧ (req_run b p0 SW_START r).token = none ∧
    p0 + 2 ≤ (req_run b p0 SW_START r).pos ∧ (req_run b p0 SW_START r).pos ≤ b.last ∧
    b.at ((req_run b p0 SW_START r).pos - 1) = 10 ∧
    b.at ((req_run b p0 SW_START r).pos - 2) = 13 := by
  refine req_run_induct (b := b)
    (fun p s _ => p0 ≤ p ∧ (payload_lf s = true → p0 < p ∧ b.at (p - 1) = 13))
    (fun out => out.result = PARSE_OK → out.state = 0 ∧ out.token = none ∧ p0 + 2 ≤ out.pos ∧
      out.pos ≤ b.last ∧ b.at (out.pos - 1) = 10 ∧ b.at (out.pos - 2) = 13)
    ?_ ?_ ?_ ?_ ?_ (b.last - p0) p0 SW_START r (Nat.le_refl _)
    ⟨Nat.le_refl _, fun h => absurd h (by decide)⟩ hok
  · intro p s r1 p' s' r' ⟨h1, _⟩ hp h
    have hb := req_step_next_bounds hp h
    refine ⟨by omega, fun hs' => ⟨by omega, (req_step_lf_shape h hs').2⟩⟩
  · intro p s r1 p' s' r' ⟨_, h2⟩ hp h _
    obtain ⟨hs, rfl, h10⟩ := req_step_done_shape h
    obtain ⟨hlt, h13⟩ := h2 hs
    refine ⟨rfl, rfl, ?_, ?_, ?_, ?_⟩
    · show p0 + 2 ≤ p' + 1
      omega
    · show p' + 1 ≤ b.last
      omega
    · exact h10
    · show b.at (p' + 1 - 2) = 13
      have e : p' + 1 - 2 = p' - 1 := by omega
      rw [e]
      exact h13
  · intro p s r1 p' s' r' _ _ _ hok
    exact absurd hok (label_fragment_not_ok _ _)
  · intro p s r1 s' r' _ _ _ hok
    cases hok
  · intro p s r1 _ _ hok
    exact absurd hok (label_again_not_ok _ _ _ _)

/-! ## The response machine across two calls -/

/-- One iteration of `parse_response` on a buffer and on the same buffer with
more bytes after `last`: the same, unless the shorter buffer ends inside the
payload that the iteration skips. -/
theorem rsp_step_ext {d T : List Nat} {x y p : Nat} (s : rsp_sw) (r : msg)
    (hp : p < d.length) :
    rsp_step (mbuf.mk (d ++ T) y) p s r = rsp_step (mbuf.mk d x) p s r ∨
      (d.length ≤ p + r.rlen ∧ (s = .SW_BULK_ARG ∨ s = .SW_MULTIBULK_ARGN) ∧
        rsp_step (mbuf.mk d x) p s r =
          .next d.length s { r with rlen := sub32 r.rlen (d.length - p) }) := by
  have hat : (mbuf.mk (d ++ T) y).at p = (mbuf.mk d x).at p := at_append_left hp
  have hl1 : (mbuf.mk d x).last = d.length := rfl
  have hl2 : (mbuf.mk (d ++ T) y).last = d.length + T.length := by simp [mbuf.last]
  have hpin : d.length - 1 + 1 = d.length := by omega
  cases s
  case SW_BULK_ARG | SW_MULTIBULK_ARGN =>
    by_cases hm : p + r.rlen < d.length
    · left
      have hatm : (mbuf.mk (d ++ T) y).at (p + r.rlen) = (mbuf.mk d x).at (p + r.rlen) :=
        at_append_left hm
      simp only [rsp_step, hl1, hl2, hatm]
      have n1 : ¬ (p + r.rlen ≥ d.length) := by omega
      have n2 : ¬ (p + r.rlen ≥ d.length + T.length) := by omega
      simp only [n1, n2, if_false]
    · right
      refine ⟨by omega, by simp, ?_⟩
      simp only [rsp_step, hl1]
      have n1 : p + r.rlen ≥ d.length := by omega
      simp only [n1, if_true, hpin]
  all_goals (left; simp only [rsp_step, hat])



theorem rsp_step_retag (b : mbuf) (p : Nat) (s : rsp_sw) (q r : msg) :
    rsp_step b p s (retag q r) = (rsp_step b p s r).map (retag q) := by
  cases s <;> simp only [rsp_step, retag] <;> (repeat' split) <;> rfl

theorem label_done_retag (p : Nat) (q r : msg) : label_done p (retag q r) = label_done p r := rfl

/-- The fields `pos`, `state` and `result` of the message on entry do not
matter for a call that returns `PARSE_OK`. -/
theorem rsp_run_retag {b : mbuf} (q : msg) : ∀ (n p : Nat) (s : rsp_sw) (r : msg),
    (b.last - p) + (if s = .SW_START then 1 else 0) ≤ n →
    (rsp_run b p s r).result = PARSE_OK →
    rsp_run b p s (retag q r) = rsp_run b p s r := by
  intro n
  induction n with
  | zero =>
    intro p s r hn hok
    rw [rsp_run_end _ _ (by omega)] at hok
    exact absurd hok (label_again_not_ok _ _ _ _)
  | succ n ih =>
    intro p s r hn hok
    by_cases hp : p < b.last
    · rw [rsp_run_eq _ _ hp] at hok ⊢
      rw [rsp_run_eq _ _ hp, rsp_step_retag]
      cases hstep : rsp_step b p s r with
      | next p' s' r' =>
        rw [hstep] at hok
        have hb := rsp_step_next_bounds hp hstep
        have hs' : (if s' = rsp_sw.SW_START then 1 else 0) = 0 := by simp [hb.1]
        refine ih p' s' r' ?_ hok
        by_cases hs : s = .SW_START
        · simp only [hs, if_true] at hn
          omega
        · have := hb.2.2.1 hs
          omega
      | done => rfl
      | fragment p' s' r' =>
        rw [hstep] at hok
        exact absurd hok (label_fragment_not_ok _ _)
      | error s' r' =>
        rw [hstep] at hok
        cases hok
    · rw [rsp_run_end _ _ (by omega)] at hok
      exact absurd hok (label_again_not_ok _ _ _ _)

theorem accum_lt (x c : Nat) : accum x c < 2 ^ 32 := Nat.mod_lt _ (by decide)

theorem sub32_lt (x d : Nat) : sub32 x d < 2 ^ 32 := Nat.mod_lt _ (by decide)

/-- Every iteration of `parse_response` keeps `rlen` in the range of a
`uint32_t`. -/
theorem rsp_step_rlen {b : mbuf} {p : Nat} {s : rsp_sw} {r : msg} {p' : Nat} {s' : rsp_sw}
    {r' : msg} (hr : r.rlen < 2 ^ 32) (h : rsp_step b p s r = .next p' s' r') :
    r'.rlen < 2 ^ 32 := by
  cases s <;> simp only [rsp_step] at h <;> (repeat' split at h) <;> cases h <;>
    first | exact hr | exact accum_lt _ _ | exact sub32_lt _ _ | exact Nat.two_pow_pos 32



theorem rsp_of_int_to_int (s : rsp_sw) : rsp_sw.of_int s.to_int = s := by
  cases s <;> rfl

theorem label_again_spare {b : mbuf} (hb : b.full = false) (p st : Nat) (r : msg) :
    label_again b p st r = { r with pos := p, state := st, result := PARSE_AGAIN } := by
  unfold label_again
  split <;> simp [hb]

theorem sub32_eq {x d : Nat} (hx : x < 2 ^ 32) (hd : d ≤ x) : sub32 x d = x - d := by
  unfold sub32
  omega

theorem rsp_step_done_shape {b : mbuf} {p : Nat} {s : rsp_sw} {r : msg} {p' : Nat} {s' : rsp_sw}
    {r' : msg} (h : rsp_step b p s r = .done p' s' r') : p' = p := by
  cases s <;> simp only [rsp_step] at h <;> (repeat' split at h) <;> cases h <;> rfl

/-- A payload skip that the end of the first chunk cut short, resumed in the
second call where the first chunk ended, lands where the skip of the one-call
parse lands. -/
theorem rsp_resume_skip {b : mbuf} {s t : rsp_sw}
    (hstep : ∀ p r, rsp_step b p s r = rsp_skip b p s t r)
    {p q : Nat} {r : msg} (w : msg)
    (hpq : p ≤ q) (hq : q < b.last) (hr : r.rlen < 2 ^ 32) (hpin : q ≤ p + r.rlen)
    (hok : (rsp_run b p s r).result = PARSE_OK) :
    rsp_run b q s (retag w { r with rlen := sub32 r.rlen (q - p) }) = rsp_run b p s r := by
  have hp : p < b.last := by omega
  rw [rsp_run_eq _ _ hp, hstep] at hok ⊢
  rw [rsp_run_eq _ _ hq, rsp_step_retag, hstep]
  have hsub : sub32 r.rlen (q - p) = r.rlen - (q - p) := sub32_eq hr (by omega)
  have hm : q + (r.rlen - (q - p)) = p + r.rlen := by omega
  simp only [rsp_skip, hsub, hm] at hok ⊢
  by_cases h1 : p + r.rlen ≥ b.last
  · simp only [h1, if_true] at hok
    have hlast : b.last - 1 + 1 = b.last := by omega
    rw [hlast, rsp_run_end _ _ (Nat.le_refl _)] at hok
    exact absurd hok (label_again_not_ok _ _ _ _)
  · simp only [h1, if_false] at hok ⊢
    by_cases h2 : b.at (p + r.rlen) ≠ 13
    · rw [if_pos h2] at hok
      cases hok
    · simp only [if_neg h2, flow.map] at hok ⊢
      exact rsp_run_retag w _ _ _ _ (Nat.le_refl _) hok



/-- Chunking of a response: a reply that frames in one call, cut anywhere
before its last byte, frames in two calls on a buffer with spare capacity,
with the same message as result. -/
theorem rsp_resume {d T : List Nat} {x y : Nat} (hT : T ≠ []) (hspare : d.length < x) :
    ∀ (n p : Nat) (s : rsp_sw) (r : msg),
    (d.length - p) + (if s = .SW_START then 1 else 0) ≤ n → p ≤ d.length → r.rlen < 2 ^ 32 →
    (rsp_run ⟨d ++ T, y⟩ p s r).result = PARSE_OK →
    d.length < (rsp_run ⟨d ++ T, y⟩ p s r).pos →
    (rsp_run ⟨d, x⟩ p s r).result = PARSE_AGAIN ∧
    rsp_run ⟨d ++ T, y⟩ (rsp_run ⟨d, x⟩ p s r).pos
        (rsp_sw.of_int (rsp_run ⟨d, x⟩ p s r).state) (rsp_run ⟨d, x⟩ p s r) =
      rsp_run ⟨d ++ T, y⟩ p s r := by
  have hfull : (mbuf.mk d x).full = false := by
    simp only [mbuf.full, mbuf.last, beq_eq_false_iff_ne, ne_eq]
    omega
  have hTlen : 0 < T.length := List.length_pos.mpr hT
  have hl1 : (mbuf.mk d x).last = d.length := rfl
  have hl2 : (mbuf.mk (d ++ T) y).last = d.length + T.length := by simp [mbuf.last]
  have hend : ∀ (p : Nat) (s : rsp_sw) (r : msg), p = d.length →
      (rsp_run ⟨d ++ T, y⟩ p s r).result = PARSE_OK →
      (rsp_run ⟨d, x⟩ p s r).result = PARSE_AGAIN ∧
      rsp_run ⟨d ++ T, y⟩ (rsp_run ⟨d, x⟩ p s r).pos
          (rsp_sw.of_int (rsp_run ⟨d, x⟩ p s r).state) (rsp_run ⟨d, x⟩ p s r) =
        rsp_run ⟨d ++ T, y⟩ p s r := by
    intro p s r hp hok
    rw [rsp_run_end (b := mbuf.mk d x) _ _ (by rw [hl1, hp]), label_again_spare hfull]
    refine ⟨rfl, ?_⟩
    simp only [rsp_of_int_to_int]
    exact rsp_run_retag { r with pos := p, state := s.to_int, result := PARSE_AGAIN } _ _ _ _
      (Nat.le_refl _) hok
  intro n
  induction n with
  | zero =>
    intro p s r hn hp _ hok _
    exact hend p s r (by omega) hok
  | succ n ih =>
    intro p s r hn hple hr hok hpos
    by_cases hp : p < d.length
    · have hp1 : p < (mbuf.mk d x).last := hp
      have hp2 : p < (mbuf.mk (d ++ T) y).last := by rw [hl2]; omega
      rcases rsp_step_ext (T := T) (x := x) (y := y) s r hp with he | ⟨hpin, hs, hstep1⟩
      · rw [rsp_run_eq _ _ hp2, he] at hok hpos ⊢
        rw [rsp_run_eq _ _ hp1]
        cases hstep : rsp_step (mbuf.mk d x) p s r with
        | next p' s' r' =>
          rw [hstep] at hok hpos
          simp only at hok hpos ⊢
          have hb := rsp_step_next_bounds hp1 hstep
          have hs' : (if s' = rsp_sw.SW_START then 1 else 0) = 0 := by simp [hb.1]
          refine ih p' s' r' ?_ hb.2.2.2 (rsp_step_rlen hr hstep) hok hpos
          by_cases hs : s = .SW_START
          · simp only [hs, if_true] at hn
            omega
          · have := hb.2.2.1 hs
            omega
        | done p' s' r' =>
          rw [hstep] at hpos
          have := rsp_step_done_shape hstep
          simp only [label_done] at hpos
          omega
        | fragment p' s' r' =>
          rw [hstep] at hok
          exact absurd hok (label_fragment_not_ok _ _)
        | error s' r' =>
          rw [hstep] at hok
          cases hok
      · rw [rsp_run_eq _ _ hp1, hstep1]
        simp only
        rw [rsp_run_end (b := mbuf.mk d x) (p := d.length) _ _ (Nat.le_refl _),
          label_again_spare hfull]
        refine ⟨rfl, ?_⟩
        simp only [rsp_of_int_to_int]
        have hq : d.length < (mbuf.mk (d ++ T) y).last := by rw [hl2]; omega
        rcases hs with rfl | rfl
        · exact rsp_resume_skip (b := mbuf.mk (d ++ T) y) (s := .SW_BULK_ARG) (t := .SW_BULK_ARG_LF)
            (fun _ _ => rfl)
            { r with rlen := sub32 r.rlen (d.length - p), pos := d.length,
                     state := rsp_sw.SW_BULK_ARG.to_int, result := PARSE_AGAIN }
            (Nat.le_of_lt hp) hq hr hpin hok
        · exact rsp_resume_skip (b := mbuf.mk (d ++ T) y) (s := .SW_MULTIBULK_ARGN)
            (t := .SW_MULTIBULK_ARGN_LF) (fun _ _ => rfl)
            { r with rlen := sub32 r.rlen (d.length - p), pos := d.length,
                     state := rsp_sw.SW_MULTIBULK_ARGN.to_int, result := PARSE_AGAIN }
            (Nat.le_of_lt hp) hq hr hpin hok
    · exact hend p s r (by omega) hok

/-- The capacity of the buffer does not matter for a call of `parse_response`
that returns `PARSE_OK`. -/
theorem rsp_run_size {d : List Nat} {c c' : Nat} : ∀ (n p : Nat) (s : rsp_sw) (r : msg),
    (d.length - p) + (if s = .SW_START then 1 else 0) ≤ n →
    (rsp_run ⟨d, c⟩ p s r).result = PARSE_OK →
    rsp_run ⟨d, c'⟩ p s r = rsp_run ⟨d, c⟩ p s r := by
  intro n
  induction n with
  | zero =>
    intro p s r hn hok
    rw [rsp_run_end (b := mbuf.mk d c) _ _ (by simp only [mbuf.last]; omega)] at hok
    exact absurd hok (label_again_not_ok _ _ _ _)
  | succ n ih =>
    intro p s r hn hok
    by_cases hp : p < d.length
    · have hp1 : p < (mbuf.mk d c).last := hp
      have hp2 : p < (mbuf.mk d c').last := hp
      have hst : rsp_step (mbuf.mk d c') p s r = rsp_step (mbuf.mk d c) p s r := rfl
      rw [rsp_run_eq _ _ hp1] at hok ⊢
      rw [rsp_run_eq _ _ hp2, hst]
      cases hstep : rsp_step (mbuf.mk d c) p s r with
      | next p' s' r' =>
        rw [hstep] at hok
        have hb := rsp_step_next_bounds hp1 hstep
        have hs' : (if s' = rsp_sw.SW_START then 1 else 0) = 0 := by simp [hb.1]
        refine ih p' s' r' ?_ hok
        by_cases hs : s = .SW_START
        · simp only [hs, if_true] at hn
          omega
        · have := hb.2.2.1 hs
          omega
      | done => rfl
      | fragment => rfl
      | error => rfl
    · rw [rsp_run_end (b := mbuf.mk d c) _ _ (by simp only [mbuf.last]; omega)] at hok
      exact absurd hok (label_again_not_ok _ _ _ _)

/-! ## The request machine after a repair -/

theorem at_drop {b b' : mbuf} {t : Nat} (hb : b'.data = b.data.drop t) (p : Nat) :
    b.at (p + t) = b'.at p := by
  simp only [mbuf.at, hb, List.getD_eq_getElem?_getD, List.getElem?_drop]
  rw [Nat.add_comm]

theorem last_drop {b b' : mbuf} {t : Nat} (hb : b'.data = b.data.drop t) (ht : t ≤ b.last) :
    b.last = b'.last + t := by
  simp only [mbuf.last, hb, List.length_drop] at ht ⊢
  omega

theorem req_type_shift {b b' : mbuf} {t : Nat} (hb : b'.data = b.data.drop t) (tok len : Nat) :
    req_type b (tok + t) len = req_type b' tok len := by
  rw [req_type_drop b, req_type_drop b', hb, List.drop_drop, Nat.add_comm]

theorem key_rel_mono {t : Nat} {k : Bool} {s s1 : req_sw} {r r' r1 r1' : msg}
    (h : key_rel t k s r r') (h1 : r1.key_start = r.key_start) (h2 : r1.key_end = r.key_end)
    (h3 : r1'.key_start = r'.key_start) (h4 : r1'.key_end = r'.key_end)
    (hs : past_key s1 = true → past_key s = true) : key_rel t k s1 r1 r1' := by
  unfold key_rel at h ⊢
  rw [h1, h2, h3, h4]
  split
  · rw [if_pos (by assumption)] at h
    exact h
  · rw [if_neg (by assumption)] at h
    exact fun x => h (hs x)

theorem flow_rel_lf {t : Nat} {k : Bool} {s n : req_sw} {r r' : msg} (p ch : Nat)
    (h : repair_rel t k s r r') (hk : k = true → past_key n = true)
    (hs : past_key n = true → past_key s = true) :
    flow_rel t k (req_lf (p + t) ch s n r) (req_lf p ch s n r') := by
  unfold req_lf
  split
  · refine ⟨by omega, rfl, ?_, hk⟩
    obtain ⟨h1, h2, h3, h4, h5, h6⟩ := h
    exact ⟨h1, h2, h3, h4, h5, key_rel_mono h6 rfl rfl rfl rfl hs⟩
  · trivial

theorem flow_rel_len {t : Nat} {k : Bool} {s n : req_sw} {r r' : msg} (p ch : Nat)
    (h : repair_rel t k s r r') (hk : k = true → past_key s = true)
    (hs : past_key n = past_key s) :
    flow_rel t k (req_len (p + t) ch s n r) (req_len p ch s n r') := by
  obtain ⟨h1, h2, h3, h4, h5, h6⟩ := h
  unfold req_len
  cases hx : r.token <;> cases hy : r'.token <;> rw [hx, hy] at h5 <;>
    simp only [tok_rel] at h5 <;> simp only [h3, h4]
  · split
    · trivial
    · exact ⟨by omega, rfl, ⟨h1, h2, rfl, rfl, rfl, key_rel_mono h6 rfl rfl rfl rfl id⟩, hk⟩
  · split
    · exact ⟨by omega, rfl, ⟨h1, h2, rfl, rfl, h5,
        key_rel_mono h6 rfl rfl rfl rfl id⟩, hk⟩
    · split
      · split
        · trivial
        · exact ⟨by omega, rfl, ⟨h1, h2, rfl, rfl, trivial,
            key_rel_mono h6 rfl rfl rfl rfl (by rw [hs]; exact id)⟩, by rw [hs]; exact hk⟩
      · trivial

theorem flow_rel_arg_len {t : Nat} {k : Bool} {s n : req_sw} {r r' : msg} (p ch : Nat)
    (h : repair_rel t k s r r') (hk : k = true → past_key s = true)
    (hs : past_key n = past_key s) :
    flow_rel t k (req_arg_len (p + t) ch s n r) (req_arg_len p ch s n r') := by
  obtain ⟨h1, h2, h3, h4, h5, h6⟩ := h
  unfold req_arg_len
  cases hx : r.token <;> cases hy : r'.token <;> rw [hx, hy] at h5 <;>
    simp only [tok_rel] at h5 <;> simp only [h3, h4]
  · split
    · trivial
    · exact ⟨by omega, rfl, ⟨h1, h2, rfl, rfl, rfl, key_rel_mono h6 rfl rfl rfl rfl id⟩, hk⟩
  · subst h5
    have e : ∀ y : Nat, p + t - (y + t) = p - y := fun y => by omega
    simp only [e]
    split
    · exact ⟨by omega, rfl, ⟨h1, h2, rfl, rfl, rfl,
        key_rel_mono h6 rfl rfl rfl rfl id⟩, hk⟩
    · split
      · split
        · trivial
        · exact ⟨by omega, rfl, ⟨h1, h2, rfl, rfl, trivial,
            key_rel_mono h6 rfl rfl rfl rfl (by rw [hs]; exact id)⟩, by rw [hs]; exact hk⟩
      · trivial

theorem flow_rel_arg {b b' : mbuf} {t : Nat} (hb : b'.data = b.data.drop t) (ht : t ≤ b.last)
    {k : Bool} {s n : req_sw} {r r' : msg} (p : Nat)
    (h : repair_rel t k s r r') (hk : k = true → past_key s = true)
    (hs : past_key n = past_key s) (hp : p < b'.last) :
    flow_rel t k (req_arg b (p + t) s n r) (req_arg b' p s n r') := by
  obtain ⟨h1, h2, h3, h4, h5, h6⟩ := h
  unfold req_arg
  have hl := last_drop hb ht
  have e : p + t + r.rlen = p + r.rlen + t := by omega
  simp only [h4, e, at_drop hb, hl]
  by_cases hm : p + r.rlen ≥ b'.last
  · have hm' : p + r.rlen + t ≥ b'.last + t := by omega
    rw [if_pos hm, if_pos hm']
    refine ⟨by omega, rfl, ⟨h1, h2, h3, ?_, h5, key_rel_mono h6 rfl rfl rfl rfl id⟩, hk⟩
    show sub32 r.rlen _ = sub32 r.rlen _
    congr 1
    omega
  · have hm' : ¬ (p + r.rlen + t ≥ b'.last + t) := by omega
    rw [if_neg hm, if_neg hm']
    split
    · trivial
    · exact ⟨by omega, rfl, ⟨h1, h2, h3, rfl, h5,
        key_rel_mono h6 rfl rfl rfl rfl (by rw [hs]; exact id)⟩, by rw [hs]; exact hk⟩

set_option maxHeartbeats 1600000 in
theorem repair_step_lf {b b' : mbuf} {t : Nat} (hb : b'.data = b.data.drop t)
    {k : Bool} {s : req_sw} {r r' : msg} {p : Nat}
    (h : repair_rel t k s r r') (hs : payload_lf s = true) :
    flow_rel t k (req_step b (p + t) s r) (req_step b' p s r') := by
  have h' := h
  obtain ⟨h1, h2, h3, h4, h5, h6⟩ := h
  have e1 : parse_arg1 r' = parse_arg1 r := by simp only [parse_arg1, h1]
  have e2 : parse_arg2 r' = parse_arg2 r := by simp only [parse_arg2, h1]
  have e3 : parse_arg3 r' = parse_arg3 r := by simp only [parse_arg3, h1]
  have e4 : parse_argn r' = parse_argn r := by simp only [parse_argn, h1]
  have e5 : parse_argx r' = parse_argx r := by simp only [parse_argx, h1]
  have hpk : past_key s = true := by revert hs; cases s <;> decide
  have hn : ∀ n : req_sw, past_key n = true →
      flow_rel t k (.next (p + t + 1) n r) (.next (p + 1) n r') := fun n hn =>
    ⟨by omega, rfl, ⟨h1, h2, h3, h4, h5, key_rel_mono h6 rfl rfl rfl rfl (fun _ => hpk)⟩,
      fun _ => hn⟩
  have hd : flow_rel t k (.done (p + t) s r) (.done p s r') := ⟨rfl, rfl, h', hpk⟩
  cases s <;> first | exact absurd hs (by decide) | skip
  all_goals
    simp only [req_step, at_drop hb, e1, e2, e3, e4, e5, h3]
    split_ifs
    all_goals first
      | exact True.intro
      | exact hd
      | exact hn _ rfl

theorem repair_step_narg {b b' : mbuf} {t : Nat} (hb : b'.data = b.data.drop t)
    {k : Bool} {s : req_sw} {r r' : msg} {p : Nat}
    (h : repair_rel t k s r r') (hk : k = true → past_key s = true)
    (hs : s = SW_START ∨ s = SW_NARG) :
    flow_rel t k (req_step b (p + t) s r) (req_step b' p s r') := by
  have hk' : ¬ (k = true) := fun x => absurd (hk x) (by rcases hs with rfl | rfl <;> decide)
  have hps : past_key s = false := by rcases hs with rfl | rfl <;> rfl
  obtain ⟨h1, h2, h3, h4, h5, h6⟩ := h
  have hkey : ∀ {n : req_sw} {x x' : msg}, past_key n = false →
      x.key_start = r.key_start → x.key_end = r.key_end →
      x'.key_start = r'.key_start → x'.key_end = r'.key_end → key_rel t k n x x' := by
    intro n x x' hn a1 a2 a3 a4
    refine key_rel_mono h6 a1 a2 a3 a4 (fun y => ?_)
    rw [hn] at y
    exact absurd y (by decide)
  have e : ∀ (c : mbuf) (q : Nat) (x : msg), req_step c q s x =
      match x.token with
      | none =>
        if c.at q ≠ 42 then .error s x
        else .next (q + 1) SW_NARG
          { x with token := some q, narg_start := some (q + 1), rnarg := 0 }
      | some _ =>
        if isdigit (c.at q) then .next (q + 1) s { x with rnarg := accum x.rnarg (c.at q) }
        else if c.at q = 13 then
          if x.rnarg = 0 then .error s x
          else .next (q + 1) SW_NARG_LF
            { x with narg := x.rnarg, narg_end := some q, token := none }
        else .error s x := by
    intro c q x
    rcases hs with rfl | rfl <;> rfl
  rw [e, e, at_drop hb]
  cases hx : r.token <;> cases hy : r'.token <;> rw [hx, hy] at h5 <;>
    simp only [tok_rel] at h5 <;> simp only [h3]
  · split
    · exact True.intro
    · exact ⟨by omega, rfl, ⟨h1, h2, rfl, h4, rfl, hkey rfl rfl rfl rfl rfl⟩, fun x => absurd x hk'⟩
  · split
    · exact ⟨by omega, rfl, ⟨h1, h2, rfl, h4, h5, hkey hps rfl rfl rfl rfl⟩, fun x => absurd x hk'⟩
    · split
      · split
        · exact True.intro
        · exact ⟨by omega, rfl, ⟨h1, rfl, rfl, h4, True.intro, hkey rfl rfl rfl rfl rfl⟩,
            fun x => absurd x hk'⟩
      · exact True.intro

theorem repair_step_type {b b' : mbuf} {t : Nat} (hb : b'.data = b.data.drop t) (ht : t ≤ b.last)
    {k : Bool} {r r' : msg} {p : Nat}
    (h : repair_rel t k SW_REQ_TYPE r r') (hk : k = true → past_key SW_REQ_TYPE = true)
    (hp : p < b'.last) :
    flow_rel t k (req_step b (p + t) SW_REQ_TYPE r) (req_step b' p SW_REQ_TYPE r') := by
  have hk' : ¬ (k = true) := fun x => absurd (hk x) (by decide)
  have hl := last_drop hb ht
  obtain ⟨h1, h2, h3, h4, h5, h6⟩ := h
  have hkey : ∀ {n : req_sw} {x x' : msg}, past_key n = false →
      x.key_start = r.key_start → x.key_end = r.key_end →
      x'.key_start = r'.key_start → x'.key_end = r'.key_end → key_rel t k n x x' := by
    intro n x x' hn a1 a2 a3 a4
    refine key_rel_mono h6 a1 a2 a3 a4 (fun y => ?_)
    rw [hn] at y
    exact absurd y (by decide)
  have e : p + t + r.rlen = p + r.rlen + t := by omega
  have e2 : ∀ y : Nat, p + r.rlen + t - (y + t) = p + r.rlen - y := fun y => by omega
  cases hx : r.token <;> cases hy : r'.token <;> rw [hx, hy] at h5 <;>
    simp only [tok_rel] at h5 <;> (try subst h5) <;>
    simp only [req_step, h4, e, at_drop hb, hl, hx, hy, e2, req_type_shift hb]
  all_goals
    by_cases hm : p + r.rlen ≥ b'.last
    · have hm' : p + r.rlen + t ≥ b'.last + t := by omega
      rw [if_pos hm, if_pos hm']
      exact ⟨by omega, rfl, ⟨h1, h2, h3, rfl, rfl, hkey rfl rfl rfl rfl rfl⟩, hk⟩
    · have hm' : ¬ (p + r.rlen + t ≥ b'.last + t) := by omega
      rw [if_neg hm, if_neg hm']
      split
      · exact True.intro
      · split
        · exact True.intro
        · exact ⟨by omega, rfl, ⟨rfl, h2, h3, rfl, True.intro, hkey rfl rfl rfl rfl rfl⟩,
            fun x => absurd x hk'⟩

theorem repair_step_key {b b' : mbuf} {t : Nat} (hb : b'.data = b.data.drop t) (ht : t ≤ b.last)
    {k : Bool} {r r' : msg} {p : Nat}
    (h : repair_rel t k SW_KEY r r') (hk : k = true → past_key SW_KEY = true)
    (hp : p < b'.last) :
    flow_rel t k (req_step b (p + t) SW_KEY r) (req_step b' p SW_KEY r') := by
  have hk' : ¬ (k = true) := fun x => absurd (hk x) (by decide)
  have hl := last_drop hb ht
  obtain ⟨h1, h2, h3, h4, h5, h6⟩ := h
  have hkey : ∀ {n : req_sw} {x x' : msg}, past_key n = false →
      x.key_start = r.key_start → x.key_end = r.key_end →
      x'.key_start = r'.key_start → x'.key_end = r'.key_end → key_rel t k n x x' := by
    intro n x x' hn a1 a2 a3 a4
    refine key_rel_mono h6 a1 a2 a3 a4 (fun y => ?_)
    rw [hn] at y
    exact absurd y (by decide)
  have e : p + t + r.rlen = p + r.rlen + t := by omega
  cases hx : r.token <;> cases hy : r'.token <;> rw [hx, hy] at h5 <;>
    simp only [tok_rel] at h5 <;> (try subst h5) <;>
    simp only [req_step, h4, e, at_drop hb, hl, hx, hy]
  all_goals
    by_cases hm : p + r.rlen ≥ b'.last
    · have hm' : p + r.rlen + t ≥ b'.last + t := by omega
      rw [if_pos hm, if_pos hm']
      exact ⟨by omega, rfl, ⟨h1, h2, h3, rfl, rfl, hkey rfl rfl rfl rfl rfl⟩, hk⟩
    · have hm' : ¬ (p + r.rlen + t ≥ b'.last + t) := by omega
      rw [if_neg hm, if_neg hm']
      split
      · exact True.intro
      · refine ⟨by omega, rfl, ⟨h1, h2, h3, rfl, True.intro, ?_⟩, fun x => absurd x hk'⟩
        unfold key_rel
        rw [if_neg hk']
        exact fun _ => ⟨_, _, rfl, rfl, rfl, rfl⟩

theorem repair_step_sim {b b' : mbuf} {t : Nat} (hb : b'.data = b.data.drop t) (ht : t ≤ b.last)
    {k : Bool} {s : req_sw} {r r' : msg} {p : Nat}
    (h : repair_rel t k s r r') (hk : k = true → past_key s = true) (hp : p < b'.last) :
    flow_rel t k (req_step b (p + t) s r) (req_step b' p s r') := by
  have hl := last_drop hb ht
  cases s
  case SW_NARG_LF | SW_REQ_TYPE_LEN_LF | SW_REQ_TYPE_LF | SW_KEY_LEN_LF =>
    simp only [req_step, at_drop hb]
    exact flow_rel_lf _ _ h (fun x => absurd (hk x) (by decide)) (fun x => absurd x (by decide))
  case SW_ARG1_LEN_LF | SW_ARG2_LEN_LF | SW_ARGN_LEN_LF =>
    simp only [req_step, at_drop hb]
    exact flow_rel_lf _ _ h (fun _ => rfl) (fun _ => rfl)
  case SW_REQ_TYPE_LEN | SW_KEY_LEN =>
    simp only [req_step, at_drop hb]
    exact flow_rel_len _ _ h hk rfl
  case SW_ARG1_LEN | SW_ARG2_LEN | SW_ARGN_LEN =>
    simp only [req_step, at_drop hb]
    exact flow_rel_arg_len _ _ h hk rfl
  case SW_ARG1 | SW_ARG2 | SW_ARGN =>
    simp only [req_step]
    exact flow_rel_arg hb ht _ h hk rfl hp
  case SW_FRAGMENT => trivial
  case SW_SENTINEL => exact ⟨by omega, rfl, h, hk⟩
  case SW_KEY_LF | SW_ARG1_LF | SW_ARG2_LF | SW_ARGN_LF => exact repair_step_lf hb h rfl
  case SW_START => exact repair_step_narg hb h hk (Or.inl rfl)
  case SW_NARG => exact repair_step_narg hb h hk (Or.inr rfl)
  case SW_REQ_TYPE => exact repair_step_type hb ht h hk hp
  case SW_KEY => exact repair_step_key hb ht h hk hp


/-- The run of the one-call parse from `p + t` and the run after a repair at
`t` from `p` end alike. -/
theorem repair_run_sim {b b' : mbuf} {t : Nat} (hb : b'.data = b.data.drop t) (ht : t ≤ b.last)
    {k : Bool} : ∀ (n p : Nat) (s : req_sw) (r r' : msg), b'.last - p ≤ n →
      repair_rel t k s r r' → (k = true → past_key s = true) →
      (req_run b (p + t) s r).result = PARSE_OK →
      (req_run b' p s r').result = PARSE_OK ∧
        repair_rel t k SW_KEY_LF (req_run b (p + t) s r) (req_run b' p s r') := by
  have hl := last_drop hb ht
  intro n
  induction n with
  | zero =>
    intro p s r r' hn _ _ hok
    rw [req_run_end _ _ (by omega)] at hok
    exact absurd hok (label_again_not_ok _ _ _ _)
  | succ n ih =>
    intro p s r r' hn hrel hk hok
    by_cases hp : p < b'.last
    · have hp1 : p + t < b.last := by omega
      have hsim := repair_step_sim hb ht hrel hk hp
      rw [req_run_eq _ _ hp1] at hok ⊢
      rw [req_run_eq _ _ hp]
      cases h1 : req_step b (p + t) s r with
      | next q s1 r1 =>
        cases h2 : req_step b' p s r' with
        | next q' s1' r1' =>
          rw [h1, h2] at hsim
          obtain ⟨e1, e2, e3, e4⟩ := hsim
          subst e1 e2
          rw [h1] at hok
          have hbd := req_step_next_bounds hp h2
          exact ih q' s1' r1 r1' (by omega) e3 e4 hok
        | done => rw [h1, h2] at hsim; exact hsim.elim
        | fragment => rw [h1, h2] at hsim; exact hsim.elim
        | error => rw [h1, h2] at hsim; exact hsim.elim
      | done q s1 r1 =>
        cases h2 : req_step b' p s r' with
        | done q' s1' r1' =>
          rw [h1, h2] at hsim
          obtain ⟨e1, e2, ⟨a1, a2, a3, a4, _, a6⟩, e4⟩ := hsim
          exact ⟨rfl, a1, a2, a3, a4, True.intro, key_rel_mono a6 rfl rfl rfl rfl (fun _ => e4)⟩
        | next => rw [h1, h2] at hsim; exact hsim.elim
        | fragment => rw [h1, h2] at hsim; exact hsim.elim
        | error => rw [h1, h2] at hsim; exact hsim.elim
      | fragment q s1 r1 =>
        rw [h1] at hok
        exact absurd hok (label_fragment_not_ok _ _)
      | error s1 r1 =>
        rw [h1] at hok
        exact absurd hok (by simp [label_error])
    · rw [req_run_end _ _ (by omega)] at hok
      exact absurd hok (label_again_not_ok _ _ _ _)

theorem req_run_start_narg {b : mbuf} {p : Nat} {r : msg} (ht : r.token = none)
    (hok : (req_run b p SW_START r).result = PARSE_OK) :
    req_run b p SW_NARG r = req_run b p SW_START r := by
  by_cases hp : p < b.last
  · rw [req_run_eq _ _ hp] at hok ⊢
    rw [req_run_eq _ _ hp]
    simp only [req_step, ht] at hok ⊢
    by_cases h : b.at p ≠ 42
    · rw [if_pos h] at hok
      exact absurd hok (by simp [label_error])
    · rw [if_neg h, if_neg h]
  · rw [req_run_end _ _ (by omega)] at hok
    exact absurd hok (label_again_not_ok _ _ _ _)

/-- The first iteration after a repair: the machine re-reads the first byte of
the token, which resets the running count or length that the first call left
behind. -/
theorem repair_entry_sim {b b' : mbuf} {t : Nat} (hb : b'.data = b.data.drop t) (ht : t ≤ b.last)
    {s : req_sw} {ra r2 : msg} (h : entry_rel s ra r2) (h2 : r2.token = none)
    (hp : 0 < b'.last) :
    flow_rel t (past_key s) (req_step b (0 + t) s ra) (req_step b' 0 s r2) := by
  obtain ⟨ho, ha, e1, e2, e3, e4, e5, e6⟩ := h
  have hkey : ∀ {n : req_sw} {x x' : msg}, past_key n = past_key s →
      x.key_start = ra.key_start → x.key_end = ra.key_end →
      x'.key_start = r2.key_start → x'.key_end = r2.key_end →
      key_rel t (past_key s) n x x' := by
    intro n x x' hn a1 a2 a3 a4
    unfold key_rel
    split
    · rw [a1, a2, a3, a4]
      exact ⟨e3, e4⟩
    · rename_i hf
      rw [hn]
      exact fun y => absurd y hf
  have hstrict : r2.rnarg = ra.rnarg → r2.rlen = ra.rlen →
      flow_rel t (past_key s) (req_step b (0 + t) s ra) (req_step b' 0 s r2) := fun a b =>
    repair_step_sim hb ht ⟨e1, e2, a, b, by rw [ha, h2]; exact True.intro, hkey rfl rfl rfl rfl rfl⟩
      id hp
  cases s <;> first | exact absurd ho (by decide) | skip
  case SW_NARG =>
    have e6' : r2.rlen = ra.rlen := e6.resolve_left (by decide)
    simp only [req_step, at_drop hb, ha, h2]
    split
    · exact True.intro
    · exact ⟨by omega, rfl, ⟨e1, e2, rfl, e6', by simp [tok_rel], hkey rfl rfl rfl rfl rfl⟩, id⟩
  case SW_REQ_TYPE => exact hstrict (e5.resolve_left (by decide)) (e6.resolve_left (by decide))
  case SW_KEY => exact hstrict (e5.resolve_left (by decide)) (e6.resolve_left (by decide))
  all_goals
    have e5' : r2.rnarg = ra.rnarg := e5.resolve_left (by decide)
    simp only [req_step, req_len, req_arg_len, at_drop hb, ha, h2]
    split
    · exact True.intro
    · exact ⟨by omega, rfl, ⟨e1, e2, e5', rfl, by simp [tok_rel], hkey rfl rfl rfl rfl rfl⟩, id⟩


theorem req_step_key_enter {b : mbuf} {p : Nat} {s : req_sw} {r : msg} {p' : Nat} {s' : req_sw}
    {r' : msg} (h : req_step b p s r = .next p' s' r') (hs : past_key s = false)
    (hs' : past_key s' = true) :
    ∃ ks, r'.key_start = some ks ∧ r'.key_end = some (p' - 1) := by
  cases s <;> first | exact absurd hs (by decide) | skip
  all_goals
    simp only [req_step, req_len, req_lf] at h
    (repeat' split at h) <;> cases h <;> first | exact absurd hs' (by decide) | skip
  all_goals exact ⟨_, rfl, rfl⟩

theorem req_step_key_bound {b : mbuf} {p : Nat} {s : req_sw} {r : msg} {p' : Nat} {s' : req_sw}
    {r' : msg} (hp : p < b.last) (h : req_step b p s r = .next p' s' r')
    (hinv : past_key s = true → ∃ ks ke, r.key_start = some ks ∧ r.key_end = some ke ∧ ke ≤ p)
    (hs' : past_key s' = true) :
    ∃ ks ke, r'.key_start = some ks ∧ r'.key_end = some ke ∧ ke ≤ p' := by
  have hb := req_step_next_bounds hp h
  cases hs : past_key s
  · obtain ⟨ks, h1, h2⟩ := req_step_key_enter h hs hs'
    exact ⟨ks, p' - 1, h1, h2, by omega⟩
  · obtain ⟨ks, ke, h1, h2, h3⟩ := hinv hs
    obtain ⟨_, e2, e3⟩ := (req_step_key_frame hs).1 p' s' r' h
    exact ⟨ks, ke, e2.trans h1, e3.trans h2, by omega⟩

theorem req_step_token {b : mbuf} {p : Nat} {s : req_sw} {r : msg} {p' : Nat} {s' : req_sw}
    {r' : msg} (h : req_step b p s r = .next p' s' r') (x : Nat) (hx : r'.token = some x) :
    (r.token = none ∧ x = p ∧ (s' = s ∨ (s = SW_START ∧ s' = SW_NARG)) ∧ entry_rel s' r r') ∨
    (r.token = some x ∧ s' = s ∧ ∀ ra, entry_rel s ra r → entry_rel s ra r') ∨
    (r.token = some x ∧ opens_token s = false) := by
  cases s
  case SW_START =>
    simp only [req_step] at h
    (repeat' split at h) <;> cases h
    · rename_i h0 _
      cases hx
      exact Or.inl ⟨h0, rfl, Or.inr ⟨rfl, rfl⟩, rfl, h0, rfl, rfl, rfl, rfl, Or.inl rfl, Or.inr rfl⟩
    · exact Or.inr (Or.inr ⟨hx, rfl⟩)
    · cases hx
  case SW_NARG =>
    simp only [req_step] at h
    (repeat' split at h) <;> cases h
    · rename_i h0 _
      cases hx
      exact Or.inl ⟨h0, rfl, Or.inl rfl, rfl, h0, rfl, rfl, rfl, rfl, Or.inl rfl, Or.inr rfl⟩
    · refine Or.inr (Or.inl ⟨hx, rfl, ?_⟩)
      rintro ra ⟨a1, a2, a3, a4, a5, a6, a7, a8⟩
      exact ⟨a1, a2, a3, a4, a5, a6, Or.inl rfl, a8⟩
    · cases hx
  case SW_REQ_TYPE_LEN | SW_KEY_LEN | SW_ARG1_LEN | SW_ARG2_LEN | SW_ARGN_LEN =>
    simp only [req_step, req_len, req_arg_len] at h
    (repeat' split at h) <;> cases h
    · rename_i h0 _
      cases hx
      exact Or.inl ⟨h0, rfl, Or.inl rfl, rfl, h0, rfl, rfl, rfl, rfl, Or.inr rfl, Or.inl rfl⟩
    · refine Or.inr (Or.inl ⟨hx, rfl, ?_⟩)
      rintro ra ⟨a1, a2, a3, a4, a5, a6, a7, a8⟩
      exact ⟨a1, a2, a3, a4, a5, a6, a7, Or.inl rfl⟩
    · cases hx
  case SW_REQ_TYPE | SW_KEY =>
    simp only [req_step] at h
    (repeat' split at h) <;> cases h
    all_goals first
      | (cases hx; done)
      | (cases hx
         exact Or.inl ⟨‹r.token = none›, rfl, Or.inl rfl, rfl, ‹r.token = none›, rfl, rfl, rfl, rfl,
           Or.inr rfl, Or.inr rfl⟩)
      | (cases hx
         exact Or.inr (Or.inl ⟨‹r.token = some x›, rfl, fun ra q => q⟩))
  case SW_FRAGMENT => cases h
  all_goals
    simp only [req_step, req_arg, req_lf] at h
    (repeat' split at h) <;> cases h <;> exact Or.inr (Or.inr ⟨hx, rfl⟩)


theorem req_of_int_to_int (s : req_sw) : req_sw.of_int s.to_int = s := by
  cases s <;> rfl

theorem slice_append_left {d T : List Nat} {s e : Nat} (he : e ≤ d.length) :
    slice (d ++ T) s e = slice d s e := by
  unfold slice
  by_cases hs : s ≤ d.length
  · rw [List.drop_append_of_le_length hs, List.take_append_of_le_length]
    simp only [List.length_drop]
    omega
  · have e0 : e - s = 0 := by omega
    rw [e0, List.take_zero, List.take_zero]

theorem slice_drop (l : List Nat) (t s e : Nat) :
    slice (l.drop t) s e = slice l (s + t) (e + t) := by
  unfold slice
  have e1 : e + t - (s + t) = e - s := by omega
  rw [List.drop_drop, e1, Nat.add_comm t s]

theorem label_error_not_ok (s : Nat) (r : msg) : (label_error s r).result ≠ PARSE_OK := by
  simp [label_error]

/-- The second call of a repair, entered at the first byte of the open token,
ends as the one-call parse does from that byte on. -/
theorem repair_finish {d T : List Nat} {c c2 x : Nat} {s : req_sw} {ra r2 one : msg}
    (hx : x ≤ d.length) (hone : req_run ⟨d ++ T, c⟩ x s ra = one) (hok : one.result = PARSE_OK)
    (hrel : entry_rel s ra r2) (h2 : r2.token = none)
    (hkey : past_key s = true →
      ∃ ks ke, r2.key_start = some ks ∧ r2.key_end = some ke ∧ ke ≤ d.length) :
    (req_run ⟨d.drop x ++ T, c2⟩ 0 s r2).result = PARSE_OK ∧
    (req_run ⟨d.drop x ++ T, c2⟩ 0 s r2).type = one.type ∧
    (req_run ⟨d.drop x ++ T, c2⟩ 0 s r2).narg = one.narg ∧
    ∃ K, key_bytes (d ++ T) one = some K ∧
      key_bytes (if past_key s = true then d else d.drop x ++ T)
        (req_run ⟨d.drop x ++ T, c2⟩ 0 s r2) = some K := by
  have hb : (mbuf.mk (d.drop x ++ T) c2).data = (mbuf.mk (d ++ T) c).data.drop x := by
    show d.drop x ++ T = (d ++ T).drop x
    rw [List.drop_append_of_le_length hx]
  have ht : x ≤ (mbuf.mk (d ++ T) c).last := by
    simp only [mbuf.last, List.length_append]
    omega
  have hl := last_drop hb ht
  have hsim : (req_run ⟨d.drop x ++ T, c2⟩ 0 s r2).result = PARSE_OK ∧
      repair_rel x (past_key s) SW_KEY_LF one (req_run ⟨d.drop x ++ T, c2⟩ 0 s r2) := by
    by_cases hp : 0 < (mbuf.mk (d.drop x ++ T) c2).last
    · have hp1 : 0 + x < (mbuf.mk (d ++ T) c).last := by omega
      have hstep := repair_entry_sim hb ht hrel h2 hp
      have e0 : req_run ⟨d ++ T, c⟩ (0 + x) s ra = one := by rw [Nat.zero_add]; exact hone
      rw [← e0] at hok ⊢
      rw [req_run_eq _ _ hp1] at hok ⊢
      rw [req_run_eq _ _ hp]
      cases h1 : req_step ⟨d ++ T, c⟩ (0 + x) s ra with
      | next q s1 r1 =>
        cases h2 : req_step ⟨d.drop x ++ T, c2⟩ 0 s r2 with
        | next q' s1' r1' =>
          rw [h1, h2] at hstep
          obtain ⟨e1, e2, e3, e4⟩ := hstep
          subst e1 e2
          rw [h1] at hok
          exact repair_run_sim hb ht _ q' s1' r1 r1' (Nat.le_refl _) e3 e4 hok
        | done => rw [h1, h2] at hstep; exact hstep.elim
        | fragment => rw [h1, h2] at hstep; exact hstep.elim
        | error => rw [h1, h2] at hstep; exact hstep.elim
      | done q s1 r1 =>
        cases h2 : req_step ⟨d.drop x ++ T, c2⟩ 0 s r2 with
        | done q' s1' r1' =>
          rw [h1, h2] at hstep
          obtain ⟨e1, e2, ⟨a1, a2, a3, a4, _, a6⟩, e4⟩ := hstep
          exact ⟨rfl, a1, a2, a3, a4, True.intro, key_rel_mono a6 rfl rfl rfl rfl (fun _ => e4)⟩
        | next => rw [h1, h2] at hstep; exact hstep.elim
        | fragment => rw [h1, h2] at hstep; exact hstep.elim
        | error => rw [h1, h2] at hstep; exact hstep.elim
      | fragment q s1 r1 =>
        rw [h1] at hok
        exact absurd hok (label_fragment_not_ok _ _)
      | error s1 r1 =>
        rw [h1] at hok
        exact absurd hok (label_error_not_ok _ _)
    · rw [← hone, req_run_end _ _ (by omega)] at hok
      exact absurd hok (label_again_not_ok _ _ _ _)
  obtain ⟨hres, htype, hnarg, _, _, _, hk⟩ := hsim
  refine ⟨hres, htype, hnarg, ?_⟩
  unfold key_rel at hk
  cases hs : past_key s
  · rw [hs] at hk
    obtain ⟨x', y', k1, k2, k3, k4⟩ := hk rfl
    refine ⟨slice (d ++ T) (x' + x) (y' + x), ?_, ?_⟩
    · simp only [key_bytes, k3, k4]
    · simp only [key_bytes, k1, k2, Bool.false_eq_true, if_false]
      rw [← List.drop_append_of_le_length hx, slice_drop]
  · rw [hs] at hk
    obtain ⟨k1, k2⟩ := hk
    obtain ⟨ks, ke, g1, g2, g3⟩ := hkey hs
    obtain ⟨_, _, _, _, f1, f2, _, _⟩ := hrel
    have fr := req_run_key_frame (b := ⟨d ++ T, c⟩) (p := x) (r := ra) hs
    rw [hone] at fr
    refine ⟨slice d ks ke, ?_, ?_⟩
    · simp only [key_bytes, fr.1, fr.2, ← f1, ← f2, g1, g2]
      rw [slice_append_left g3]
    · simp only [key_bytes, k1, k2, fr.1, fr.2, ← f1, ← f2, g1, g2, if_true]


/-- The arity check of state `SW_KEY_LF` rejects a count of trailing arguments
that the class of the command does not admit. -/
theorem req_step_key_lf_reject {b : mbuf} {q : Nat} {r : msg} {c : arity_class}
    (hcls : arity_of r.type = some c)
    (hc : c = .Arg1 ∨ c = .Arg2 ∨ c = .Arg3 ∨ c = .ArgN)
    (hbad : arity_admits c r.rnarg = false) :
    ∃ s' r', req_step b q SW_KEY_LF r = .error s' r' := by
  obtain ⟨c1, c2, c3, cn, _, _⟩ := parse_arg_of_arity r.type
  simp only [req_step]
  rw [parse_arg1_type, parse_arg2_type, parse_arg3_type, parse_argn_type]
  by_cases h10 : b.at q = 10
  · rw [if_pos h10]
    rcases hc with rfl | rfl | rfl | rfl
    · have hr : r.rnarg ≠ 0 := by simpa [arity_admits] using hbad
      rw [c1 hcls, if_pos rfl, if_pos hr]
      exact ⟨_, _, rfl⟩
    · have hr : r.rnarg ≠ 1 := by simpa [arity_admits] using hbad
      rw [(c2 hcls).1, (c2 hcls).2, if_neg (by decide), if_pos rfl, if_pos hr]
      exact ⟨_, _, rfl⟩
    · have hr : r.rnarg ≠ 2 := by simpa [arity_admits] using hbad
      rw [(c3 hcls).1, (c3 hcls).2.1, (c3 hcls).2.2, if_neg (by decide), if_neg (by decide),
        if_pos rfl, if_pos hr]
      exact ⟨_, _, rfl⟩
    · have hr : r.rnarg < 1 := by simpa [arity_admits] using hbad
      rw [(cn hcls).1, (cn hcls).2.1, (cn hcls).2.2.1, (cn hcls).2.2.2, if_neg (by decide),
        if_neg (by decide), if_neg (by decide), if_pos rfl, if_pos hr]
      exact ⟨_, _, rfl⟩
  · rw [if_neg h10]
    exact ⟨_, _, rfl⟩

/-- From state `SW_KEY` with a running length that does not exceed the length
of the key payload (it is the length modulo `2 ^ 32`): the call ends in an
error at the byte it takes for the `CR`, at the byte after it, or at the arity
check. -/
theorem req_run_key_reject {b : mbuf} {q : Nat} {r : msg} {c : arity_class} {K rest : List Nat}
    (ht : r.token = none) (hlen : r.rlen ≤ K.length)
    (h : b.data.drop q = K ++ 13 :: 10 :: rest)
    (hcls : arity_of r.type = some c)
    (hc : c = .Arg1 ∨ c = .Arg2 ∨ c = .Arg3 ∨ c = .ArgN)
    (hbad : arity_admits c r.rnarg = false) :
    (req_run b q SW_KEY r).result = PARSE_ERROR := by
  have hlast : q + K.length + 2 ≤ b.last := by
    have := congrArg List.length h
    simp only [List.length_drop, List.length_append, List.length_cons] at this
    simp only [mbuf.last]
    omega
  have hq : q < b.last := by omega
  rw [req_run_eq _ _ hq]
  simp only [req_step, ht]
  rw [if_neg (by omega)]
  by_cases h13 : b.at (q + r.rlen) ≠ 13
  · rw [if_pos h13]
    rfl
  · have hq2 : q + r.rlen + 1 < b.last := by omega
    rw [if_neg h13]
    simp only
    rw [req_run_eq _ _ hq2]
    obtain ⟨s', r', he⟩ := req_step_key_lf_reject (b := b) (q := q + r.rlen + 1)
      (r := { r with token := none, rlen := 0, key_start := some q,
                     key_end := some (q + r.rlen) }) hcls hc hbad
    rw [he]
    rfl


/-- A header and two bulk elements whose count of elements, read modulo
`2 ^ 32`, is not what the class of the command admits: the call ends in an
error, whatever the length field of the second element says (it is at most
the length of the payload, being that length modulo `2 ^ 32`). -/
theorem req_run_arity_reject {b : mbuf} {p : Nat} {r : msg} {D L1 v L2 K rest : List Nat}
    {c : arity_class}
    (ht : r.token = none) (hD : all_digits D) (hL1 : all_digits L1) (hL2 : all_digits L2)
    (h : b.data.drop p = 42 :: (D ++ 13 :: 10 :: 36 :: (L1 ++ 13 :: 10 :: (v ++ 13 :: 10 :: 36 ::
      (L2 ++ 13 :: 10 :: (K ++ 13 :: 10 :: rest))))))
    (hn : 2 ≤ dec_value D % 2 ^ 32)
    (hv : dec_value L1 % 2 ^ 32 = v.length) (hv0 : v ≠ [])
    (hK : dec_value L2 % 2 ^ 32 ≤ K.length)
    (hty : req_type ⟨v.map tolower ++ [13], 0⟩ 0 v.length ≠ MSG_UNKNOWN)
    (hcls : arity_of (req_type ⟨v.map tolower ++ [13], 0⟩ 0 v.length) = some c)
    (hc : c = .Arg1 ∨ c = .Arg2 ∨ c = .Arg3 ∨ c = .ArgN)
    (hbad : arity_admits c (dec_value D % 2 ^ 32 - 2) = false) :
    (req_run b p SW_START r).result = PARSE_ERROR := by
  have h1 := view_skip3 h
  have h2 := view_skip3 h1
  have h3 := view_skip2 h2
  have hvlen : 0 < v.length := List.length_pos.mpr hv0
  rw [req_run_header ht hD h (by omega)]
  rw [req_run_len (s := SW_REQ_TYPE_LEN) (l := SW_REQ_TYPE_LEN_LF) (g := SW_REQ_TYPE)
    (fun _ _ => rfl) (fun _ _ => rfl) rfl hL1 h1 (by omega) (by simp only; omega)]
  rw [req_run_type rfl (by simp only; omega) h2 (by rw [req_type_fold h2]; exact hty)]
  by_cases h0 : dec_value L2 % 2 ^ 32 = 0
  · have h3' : b.data.drop (p + D.length + 3 + L1.length + 3 + v.length + 2) =
        36 :: (L2 ++ 13 :: (10 :: (K ++ 13 :: 10 :: rest))) := h3
    exact req_run_len_error (s := SW_KEY_LEN) (l := SW_KEY_LEN_LF) (fun _ _ => rfl) rfl hL2 h3'
      (Or.inl h0)
  · have h4 := view_skip3 h3
    rw [req_run_len (s := SW_KEY_LEN) (l := SW_KEY_LEN_LF) (g := SW_KEY)
      (fun _ _ => rfl) (fun _ _ => rfl) rfl hL2 h3 h0 (by simp only; omega)]
    refine req_run_key_reject (c := c) rfl hK h4 ?_ hc ?_
    · simp only
      rw [req_type_fold h2]
      exact hcls
    · have e : dec_value D % 2 ^ 32 - 1 - 1 = dec_value D % 2 ^ 32 - 2 := by omega
      simp only [e]
      exact hbad

theorem long_args_length : long_args.length = 4294967296 := List.length_replicate _ _


/-! ## Names outside the command table -/

theorem stricmp_true : ∀ (cs : List Char) (w rest : List Nat), w.length = cs.length →
    stricmp ⟨w ++ rest, 0⟩ 0 cs = true → w.map tolower = cs.map (fun c => tolower c.toNat)
  | [], w, _, hl, _ => by
    have : w = [] := List.length_eq_zero.mp hl
    subst this
    rfl
  | _ :: _, [], _, hl, _ => by simp at hl
  | c :: cs, a :: w, rest, hl, h => by
    simp only [stricmp, Bool.and_eq_true, beq_iff_eq] at h
    obtain ⟨h1, h2⟩ := h
    rw [stricmp_drop cs _ (0 + 1)] at h2
    have h3 : stricmp ⟨w ++ rest, 0⟩ 0 cs = true := h2
    have ih := stricmp_true cs w rest (by simpa using hl) h3
    have h4 : tolower a = tolower c.toNat := h1
    simp only [List.map_cons, h4, ih]

theorem stricmp_short (w : List Nat) (hl : w.length = 9) :
    stricmp ⟨w ++ [13], 0⟩ 0 ['s', 'r', 'a', 'n', 'd', 'm', 'e', 'm', 'b', 'e', 'r'] = false := by
  rcases w with _ | ⟨a0, _ | ⟨a1, _ | ⟨a2, _ | ⟨a3, _ | ⟨a4, _ | ⟨a5, _ | ⟨a6, _ | ⟨a7, _ |
    ⟨a8, _ | ⟨a9, w⟩⟩⟩⟩⟩⟩⟩⟩⟩⟩ <;> simp at hl
  simp [stricmp, mbuf.at, (by decide : ¬ (tolower 13 = tolower 101))]

theorem map_tolower_idem (v : List Nat) : (v.map tolower).map tolower = v.map tolower := by
  simp [List.map_map, Function.comp_def, tolower_idem]

set_option maxHeartbeats 1600000 in
/-- A name that is not, up to letter case, a name of the command table gets no
tag from the command switch. -/
theorem req_type_unknown (v : List Nat) (hunk : ∀ e ∈ command_table, ¬ same_name v e.name) :
    req_type ⟨v.map tolower ++ [13], 0⟩ 0 v.length = MSG_UNKNOWN := by
  have hl : (v.map tolower).length = v.length := List.length_map _ _
  have neg : ∀ (n : Nat) (cs : List Char), v.length = n →
      ((∃ e ∈ command_table, cs.map (fun c => tolower c.toNat) = (ascii e.name).map tolower) ∧
        cs.length = n) →
      stricmp ⟨v.map tolower ++ [13], 0⟩ 0 cs = false := by
    intro n cs hn ⟨⟨e, he, hname⟩, hcs⟩
    cases hs : stricmp ⟨v.map tolower ++ [13], 0⟩ 0 cs
    · rfl
    · have := stricmp_true cs _ _ (by rw [hl, hn, hcs]) hs
      rw [map_tolower_idem] at this
      exact absurd (this.trans hname) (hunk e he)
  unfold req_type
  split
  all_goals first
    | rfl
    | (rename_i hlen
       simp (disch := decide) only [neg _ _ hlen, stricmp_short _ (hl.trans hlen),
         Bool.false_eq_true, if_false])
    | (rename_i hlen
       simp (disch := decide) only [neg _ _ hlen, Bool.false_eq_true, if_false])

theorem name_pad_length : name_pad.length = 4294967287 := List.length_replicate _ _

theorem long_name_length : long_name.length = 4294967299 := by
  rw [long_name]
  repeat rw [List.length_cons]
  rw [name_pad_length]

theorem long_name_append (X : List Nat) :
    long_name ++ X = ascii "GET" ++ 13 :: 10 :: 36 :: (decimal 1 ++ 13 :: 10 :: (ascii "k" ++
      13 :: (10 :: (name_pad ++ X)))) := by
  rw [long_name]; rfl



/-! ## Letter case of the command name -/

theorem req_run_to_key_len {b : mbuf} {p : Nat} {r : msg} {D L v rest : List Nat}
    (ht : r.token = none) (hD : all_digits D) (hL : all_digits L)
    (h : b.data.drop p = 42 :: (D ++ 13 :: 10 :: 36 :: (L ++ 13 :: 10 :: (v ++ 13 :: 10 :: rest))))
    (hn : dec_value D % 2 ^ 32 ≠ 0)
    (hv : dec_value L % 2 ^ 32 = v.length) (hv0 : v ≠ [])
    (hty : req_type ⟨v.map tolower ++ [13], 0⟩ 0 v.length ≠ MSG_UNKNOWN) :
    req_run b p SW_START r =
      req_run b (p + D.length + L.length + v.length + 8) SW_KEY_LEN
        { r with token := none, narg_start := some (p + 1), narg_end := some (p + 1 + D.length),
                 narg := dec_value D % 2 ^ 32, rnarg := dec_value D % 2 ^ 32 - 1, rlen := 0,
                 type := req_type ⟨v.map tolower ++ [13], 0⟩ 0 v.length }
      ∧ b.data.drop (p + D.length + L.length + v.length + 8) = rest := by
  have h1 := view_skip3 h
  have h2 := view_skip3 h1
  have h3 := view_skip2 h2
  have hvlen : 0 < v.length := List.length_pos.mpr hv0
  refine ⟨?_, by rw [← h3]; congr 1; omega⟩
  rw [req_run_header ht hD h hn]
  rw [req_run_len (s := SW_REQ_TYPE_LEN) (l := SW_REQ_TYPE_LEN_LF) (g := SW_REQ_TYPE)
    (fun _ _ => rfl) (fun _ _ => rfl) rfl hL h1 (by omega) hn]
  rw [req_run_type rfl (by simp only; omega) h2 (by rw [req_type_fold h2]; exact hty)]
  rw [req_type_fold h2]
  congr 1
  omega

theorem label_again_type (b : mbuf) (p s : Nat) (r : msg) :
    (label_again b p s r).type = r.type := by
  unfold label_again
  split
  · split <;> rfl
  · rfl

theorem label_fragment_type (s : Nat) (r : msg) : (label_fragment s r).type = r.type := by
  unfold label_fragment
  split <;> rfl

/-- From the `LF` that ends the first key of a command of class ArgX with
elements left to read and one more byte in the buffer: the call stops at that
byte with the fragment cue. -/
theorem req_run_tail_argx {b : mbuf} {q x : Nat} {r : msg} {rest : List Nat}
    (hcls : arity_of r.type = some .ArgX) (hrn : r.rnarg ≠ 0)
    (h : b.data.drop q = 10 :: x :: rest) :
    req_run b q SW_KEY_LF r =
      { r with pos := q + 1, token := none, state := 23, result := PARSE_FRAGMENT } := by
  obtain ⟨hp, hat, h1⟩ := buf_cons h
  obtain ⟨hp1, _, _⟩ := buf_cons h1
  obtain ⟨_, _, _, _, cx, _⟩ := parse_arg_of_arity r.type
  obtain ⟨x1, x2, x3, xn, xx⟩ := cx hcls
  rw [req_run_eq _ _ hp]
  simp only [req_step, hat, if_true]
  rw [parse_arg1_type, parse_arg2_type, parse_arg3_type, parse_argn_type, parse_argx_type,
    x1, x2, x3, xn, xx]
  simp only [Bool.false_eq_true, if_false, if_true, hrn]
  rw [req_run_eq _ _ hp1]
  rfl

theorem long_pad_cons : long_pad = 0 :: List.replicate 4294967293 0 := by
  rw [long_pad, show (4294967294 : Nat) = 4294967293 + 1 from rfl, List.replicate_succ]



/-! ## Forward execution of the response machine -/

/-- An invariant of the loop of `parse_response` carries over to the message
the call returns. -/
theorem rsp_run_induct {b : mbuf} (P : Nat → rsp_sw → msg → Prop) (Q : msg → Prop)
    (hnext : ∀ p s r p' s' r', P p s r → p < b.last →
      rsp_step b p s r = .next p' s' r' → P p' s' r')
    (hdone : ∀ p s r p' s' r', P p s r → p < b.last →
      rsp_step b p s r = .done p' s' r' → Q (label_done p' r'))
    (hfrag : ∀ p s r p' s' r', P p s r → p < b.last →
      rsp_step b p s r = .fragment p' s' r' → Q (label_fragment s'.to_int r'))
    (herr : ∀ p s r s' r', P p s r → p < b.last →
      rsp_step b p s r = .error s' r' → Q (label_error s'.to_int r'))
    (hend : ∀ p s r, P p s r → b.last ≤ p → Q (label_again b p s.to_int r)) :
    ∀ (n p : Nat) (s : rsp_sw) (r : msg),
      (b.last - p) + (if s = .SW_START then 1 else 0) ≤ n → P p s r →
      Q (rsp_run b p s r) := by
  intro n
  induction n with
  | zero =>
    intro p s r hn hP
    rw [rsp_run_end _ _ (by omega)]
    exact hend p s r hP (by omega)
  | succ n ih =>
    intro p s r hn hP
    by_cases hp : p < b.last
    · rw [rsp_run_eq _ _ hp]
      cases hstep : rsp_step b p s r with
      | next p' s' r' =>
        obtain ⟨h1, h2, h3, h4⟩ := rsp_step_next_bounds hp hstep
        refine ih p' s' r' ?_ (hnext p s r p' s' r' hP hp hstep)
        rw [if_neg h1]
        by_cases hs : s = .SW_START
        · rw [if_pos hs] at hn
          omega
        · have := h3 hs
          rw [if_neg hs] at hn
          omega
      | done p' s' r' => exact hdone p s r p' s' r' hP hp hstep
      | fragment p' s' r' => exact hfrag p s r p' s' r' hP hp hstep
      | error s' r' => exact herr p s r s' r' hP hp hstep
    · rw [rsp_run_end _ _ (by omega)]
      exact hend p s r hP (by omega)

/-- Digits in a state that accumulates them: the run moves over the digit
string. -/
theorem rsp_run_digits {b : mbuf} {s : rsp_sw} {u : msg → Nat → msg} {I : msg → Prop}
    (hstep : ∀ p r d, I r → isdigit d = true → b.at p = d →
      rsp_step b p s r = .next (p + 1) s (u r d))
    (hI : ∀ r d, I r → I (u r d)) :
    ∀ (ds : List Nat) (rest : List Nat) (p : Nat) (r : msg), I r → all_digits ds →
      b.data.drop p = ds ++ rest →
      rsp_run b p s r = rsp_run b (p + ds.length) s (ds.foldl u r) := by
  intro ds
  induction ds with
  | nil => intro rest p r _ _ _; rfl
  | cons d ds ih =>
    intro rest p r hr hd h
    obtain ⟨hp, hat, h'⟩ := buf_cons h
    have hd0 : isdigit d = true := hd d (List.mem_cons_self _ _)
    rw [rsp_run_eq _ _ hp, hstep p r d hr hd0 hat]
    simp only [List.foldl_cons, List.length_cons]
    rw [ih rest (p + 1) (u r d) (hI r d hr) (fun x hx => hd x (List.mem_cons_of_mem _ hx)) h']
    congr 1
    omega

/-- The rest of a line read in `SW_RUNTO_CRLF`: the run skips the bytes before
the first `CR` and frames at the `LF` after it. -/
theorem rsp_run_runto {b : mbuf} {r : msg} {rest : List Nat} : ∀ (t : List Nat) (p : Nat),
    (∀ x ∈ t, x ≠ 13) → b.data.drop p = t ++ 13 :: 10 :: rest →
    rsp_run b p .SW_RUNTO_CRLF r = label_done (p + t.length + 1) r := by
  intro t
  induction t with
  | nil =>
    intro p _ h
    obtain ⟨hp, hat, h1⟩ := buf_cons h
    obtain ⟨hp1, hat1, _⟩ := buf_cons h1
    rw [rsp_run_eq _ _ hp]
    simp only [rsp_step, hat, if_true]
    rw [rsp_run_eq _ _ hp1]
    simp only [rsp_step, hat1, if_true]
    rfl
  | cons x t ih =>
    intro p ht h
    obtain ⟨hp, hat, h1⟩ := buf_cons h
    have hx : x ≠ 13 := ht x (List.mem_cons_self _ _)
    rw [rsp_run_eq _ _ hp]
    simp only [rsp_step, hat, hx, if_false]
    rw [ih (p + 1) (fun y hy => ht y (List.mem_cons_of_mem _ hy)) h1]
    congr 1
    simp only [List.length_cons]
    omega

/-- The first iteration of a call from `SW_START`: the first byte fixes the
type and the state, and the cursor stays on it. -/
theorem rsp_run_start {b : mbuf} {p : Nat} {r : msg} (hp : p < b.last) :
    rsp_run b p .SW_START r =
      if b.at p = 43 then rsp_run b p .SW_STATUS { r with type := MSG_RSP_REDIS_STATUS }
      else if b.at p = 45 then rsp_run b p .SW_ERROR { r with type := MSG_RSP_REDIS_ERROR }
      else if b.at p = 58 then rsp_run b p .SW_INTEGER { r with type := MSG_RSP_REDIS_INTEGER }
      else if b.at p = 36 then rsp_run b p .SW_BULK { r with type := MSG_RSP_REDIS_BULK }
      else if b.at p = 42 then
        rsp_run b p .SW_MULTIBULK { r with type := MSG_RSP_REDIS_MULTIBULK }
      else label_error 0 { r with type := MSG_UNKNOWN } := by
  rw [rsp_run_eq _ _ hp]
  simp only [rsp_step]
  split_ifs <;> rfl


theorem isdigit_ne_45 {d : Nat} (h : isdigit d = true) : d ≠ 45 := by
  intro hd; subst hd; exact absurd h (by decide)

/-- The length header `$<digits>\r\n` of a bulk reply read in `SW_BULK`. -/
theorem rsp_run_bulk_len {b : mbuf} {p : Nat} {r : msg} {L rest : List Nat}
    (ht : r.token = none) (hL : all_digits L) (hn : L ≠ [])
    (h : b.data.drop p = 36 :: (L ++ 13 :: 10 :: rest)) :
    rsp_run b p .SW_BULK r =
      rsp_run b (p + L.length + 3) .SW_BULK_ARG
        { r with rlen := dec_value L % 2 ^ 32, token := none } := by
  obtain ⟨hp, hat, h1⟩ := buf_cons h
  rw [rsp_run_eq _ _ hp]
  simp only [rsp_step, hat, ht]
  simp only [ne_eq, not_true_eq_false, if_false]
  rw [rsp_run_digits (s := .SW_BULK) (I := fun r => r.token = some p)
    (u := fun r d => { r with rlen := accum r.rlen d }) ?_ ?_ L _ (p + 1) _ ?_ hL h1]
  · obtain ⟨hp2, hat2, h2⟩ := buf_jump h1
    obtain ⟨hp3, hat3, h3⟩ := buf_cons h2
    have hlen : 0 < L.length := List.length_pos.mpr hn
    have hle : ¬ (p + 1 + L.length - p ≤ 1) := by omega
    rw [rsp_run_eq _ _ hp2]
    simp only [rsp_step, hat2, foldl_rlen, foldl_accum_zero, isdigit_13]
    simp only [hle, if_false, Bool.false_eq_true, show ¬ ((13 : Nat) = 45) by decide]
    simp only [if_true]
    rw [rsp_run_eq _ _ hp3]
    simp only [rsp_step, hat3, if_true]
    congr 1
    omega
  · intro p' r d hr hd hat
    simp [rsp_step, hat, hr, hd, isdigit_ne_45 hd]
  · intro r d hr; exact hr
  · simp

/-- The payload of a bulk reply skipped in `SW_BULK_ARG`, and the `CR LF` after
it. -/
theorem rsp_run_bulk_arg {b : mbuf} {p : Nat} {r : msg} {a rest : List Nat}
    (hlen : r.rlen = a.length) (h : b.data.drop p = a ++ 13 :: 10 :: rest) :
    rsp_run b p .SW_BULK_ARG r = label_done (p + a.length + 1) { r with rlen := 0 } := by
  obtain ⟨hp2, hat2, h2⟩ := buf_jump h
  obtain ⟨hp3, hat3, _⟩ := buf_cons h2
  have hp : p < b.last := by omega
  rw [rsp_run_eq _ _ hp]
  simp only [rsp_step, hlen, hat2]
  have : ¬ (p + a.length ≥ b.last) := by omega
  simp only [this, if_false, ne_eq, not_true_eq_false]
  rw [rsp_run_eq _ _ hp3]
  simp only [rsp_step, hat3, if_true]

/-- A bulk reply whose length field starts with `-`: the rest of the line is
skipped in `SW_RUNTO_CRLF`. -/
theorem rsp_run_bulk_nil {b : mbuf} {p : Nat} {r : msg} {t rest : List Nat}
    (ht : r.token = none) (hcr : ∀ x ∈ t, x ≠ 13)
    (h : b.data.drop p = 36 :: 45 :: (t ++ 13 :: 10 :: rest)) :
    rsp_run b p .SW_BULK r =
      label_done (p + t.length + 3) { r with token := some p, rlen := 0 } := by
  obtain ⟨hp, hat, h1⟩ := buf_cons h
  obtain ⟨hp1, hat1, h2⟩ := buf_cons h1
  rw [rsp_run_eq _ _ hp]
  simp only [rsp_step, hat, ht]
  simp only [ne_eq, not_true_eq_false, if_false]
  rw [rsp_run_eq _ _ hp1]
  simp only [rsp_step, hat1, if_true]
  rw [rsp_run_runto t (p + 1 + 1) hcr h2]
  congr 1
  omega


/-- The header `*<digits>\r\n` of a multibulk reply read in `SW_MULTIBULK`: a
count of zero frames at the `LF`. -/
theorem rsp_run_mb_header {b : mbuf} {p : Nat} {r : msg} {D rest : List Nat}
    (ht : r.token = none) (hD : all_digits D) (hn : D ≠ [])
    (h : b.data.drop p = 42 :: (D ++ 13 :: 10 :: rest)) :
    rsp_run b p .SW_MULTIBULK r =
      if dec_value D % 2 ^ 32 = 0 then
        label_done (p + D.length + 2)
          { r with token := none, narg_start := some (p + 1), rnarg := dec_value D % 2 ^ 32,
                   narg := dec_value D % 2 ^ 32, narg_end := some (p + 1 + D.length) }
      else
        rsp_run b (p + D.length + 3) .SW_MULTIBULK_ARGN_LEN
          { r with token := none, narg_start := some (p + 1), rnarg := dec_value D % 2 ^ 32,
                   narg := dec_value D % 2 ^ 32, narg_end := some (p + 1 + D.length) } := by
  obtain ⟨hp, hat, h1⟩ := buf_cons h
  rw [rsp_run_eq _ _ hp]
  simp only [rsp_step, hat, ht]
  simp only [ne_eq, not_true_eq_false, if_false]
  rw [rsp_run_digits (s := .SW_MULTIBULK) (I := fun r => r.token = some p)
    (u := fun r d => { r with rnarg := accum r.rnarg d }) ?_ ?_ D _ (p + 1) _ ?_ hD h1]
  · obtain ⟨hp2, hat2, h2⟩ := buf_jump h1
    obtain ⟨hp3, hat3, h3⟩ := buf_cons h2
    have hlen : 0 < D.length := List.length_pos.mpr hn
    have hle : ¬ (p + 1 + D.length - p ≤ 1) := by omega
    rw [rsp_run_eq _ _ hp2]
    simp only [rsp_step, hat2, foldl_rnarg, foldl_accum_zero, isdigit_13]
    simp only [hle, if_false, Bool.false_eq_true]
    simp only [if_true]
    rw [rsp_run_eq _ _ hp3]
    simp only [rsp_step, hat3, if_true]
    by_cases h0 : dec_value D % 2 ^ 32 = 0
    · rw [if_pos h0, if_pos h0]
      simp only
      congr 1
      omega
    · rw [if_neg h0, if_neg h0]
      simp only
      congr 1
      omega
  · intro p' r d hr hd hat
    simp [rsp_step, hat, hr, hd]
  · intro r d hr; exact hr
  · simp

/-- The length header `$<digits>\r\n` of an element of a multibulk reply read
in `SW_MULTIBULK_ARGN_LEN`, when it is not taken for the nil element. -/
theorem rsp_run_mb_len {b : mbuf} {p : Nat} {r : msg} {L rest : List Nat}
    (ht : r.token = none) (hr : r.rnarg ≠ 0) (hL : all_digits L) (hn : L ≠ [])
    (hnil : ¬ (dec_value L % 2 ^ 32 = 1 ∧ L.length = 2))
    (h : b.data.drop p = 36 :: (L ++ 13 :: 10 :: rest)) :
    rsp_run b p .SW_MULTIBULK_ARGN_LEN r =
      rsp_run b (p + L.length + 3) .SW_MULTIBULK_ARGN
        { r with rlen := dec_value L % 2 ^ 32, rnarg := r.rnarg - 1, token := none } := by
  obtain ⟨hp, hat, h1⟩ := buf_cons h
  rw [rsp_run_eq _ _ hp]
  simp only [rsp_step, hat, ht]
  simp only [ne_eq, not_true_eq_false, if_false]
  rw [rsp_run_digits (s := .SW_MULTIBULK_ARGN_LEN) (I := fun r => r.token = some p)
    (u := fun r d => { r with rlen := accum r.rlen d }) ?_ ?_ L _ (p + 1) _ ?_ hL h1]
  · obtain ⟨hp2, hat2, h2⟩ := buf_jump h1
    obtain ⟨hp3, hat3, h3⟩ := buf_cons h2
    have hlen : 0 < L.length := List.length_pos.mpr hn
    have hle : ¬ (p + 1 + L.length - p ≤ 1 ∨ r.rnarg = 0) := by
      intro hc
      rcases hc with hc | hc
      · omega
      · exact hr hc
    have hnil' : ¬ (dec_value L % 2 ^ 32 = 1 ∧ p + 1 + L.length - p = 3) := by
      intro ⟨a1, a2⟩
      exact hnil ⟨a1, by omega⟩
    rw [rsp_run_eq _ _ hp2]
    simp only [rsp_step, hat2, foldl_rlen, foldl_accum_zero, isdigit_13]
    simp only [hle, hnil', if_false, Bool.false_eq_true, show ¬ ((13 : Nat) = 45) by decide]
    simp only [if_true]
    rw [rsp_run_eq _ _ hp3]
    simp only [rsp_step, hat3, if_true]
    congr 1
    omega
  · intro p' r d hr hd hat
    simp [rsp_step, hat, hr, hd]
  · intro r d hr; exact hr
  · simp

/-- The payload of an element of a multibulk reply skipped in
`SW_MULTIBULK_ARGN`, and the `CR LF` after it: the last element frames at the
`LF`. -/
theorem rsp_run_mb_arg {b : mbuf} {p : Nat} {r : msg} {a rest : List Nat}
    (hlen : r.rlen = a.length) (h : b.data.drop p = a ++ 13 :: 10 :: rest) :
    rsp_run b p .SW_MULTIBULK_ARGN r =
      if r.rnarg = 0 then label_done (p + a.length + 1) { r with rlen := 0 }
      else rsp_run b (p + a.length + 2) .SW_MULTIBULK_ARGN_LEN { r with rlen := 0 } := by
  obtain ⟨hp2, hat2, h2⟩ := buf_jump h
  obtain ⟨hp3, hat3, _⟩ := buf_cons h2
  have hp : p < b.last := by omega
  rw [rsp_run_eq _ _ hp]
  simp only [rsp_step, hlen, hat2]
  have : ¬ (p + a.length ≥ b.last) := by omega
  simp only [this, if_false, ne_eq, not_true_eq_false]
  rw [rsp_run_eq _ _ hp3]
  simp only [rsp_step, hat3, if_true]
  by_cases h0 : r.rnarg = 0
  · rw [if_pos h0, if_pos h0]
  · rw [if_neg h0, if_neg h0]

/-- The nil element `$-1\r\n` of a multibulk reply. -/
theorem rsp_run_mb_nil {b : mbuf} {p : Nat} {r : msg} {rest : List Nat}
    (ht : r.token = none) (hr : r.rnarg ≠ 0)
    (h : b.data.drop p = 36 :: 45 :: 49 :: 13 :: 10 :: rest) :
    rsp_run b p .SW_MULTIBULK_ARGN_LEN r =
      if r.rnarg - 1 = 0 then
        label_done (p + 4) { r with rlen := 0, rnarg := r.rnarg - 1, token := none }
      else
        rsp_run b (p + 5) .SW_MULTIBULK_ARGN_LEN
          { r with rlen := 0, rnarg := r.rnarg - 1, token := none } := by
  obtain ⟨hp, hat, h1⟩ := buf_cons h
  obtain ⟨hp1, hat1, h2⟩ := buf_cons h1
  obtain ⟨hp2, hat2, h3⟩ := buf_cons h2
  obtain ⟨hp3, hat3, h4⟩ := buf_cons h3
  obtain ⟨hp4, hat4, _⟩ := buf_cons h4
  have e3 : p + 1 + 1 + 1 - p = 3 := by omega
  rw [rsp_run_eq _ _ hp]
  simp only [rsp_step, hat, ht]
  simp only [ne_eq, not_true_eq_false, if_false]
  rw [rsp_run_eq _ _ hp1]
  simp only [rsp_step, hat1, show isdigit 45 = false by decide, Bool.false_eq_true, if_false,
    if_true]
  rw [rsp_run_eq _ _ hp2]
  simp only [rsp_step, hat2, show isdigit 49 = true by decide, if_true]
  rw [rsp_run_eq _ _ hp3]
  simp only [rsp_step, hat3, isdigit_13, Bool.false_eq_true, if_false,
    show ¬ ((13 : Nat) = 45) by decide, if_true, e3, hr, or_false,
    show ¬ ((3 : Nat) ≤ 1) by decide, show accum 0 49 = 1 by decide, and_self]
  rw [rsp_run_eq _ _ hp4]
  simp only [rsp_step, hat4, if_true]
  by_cases h0 : r.rnarg - 1 = 0
  · rw [if_pos h0, if_pos h0]
  · rw [if_neg h0, if_neg h0]


theorem reply_elem_length_pos (x : Option (List Nat)) : 5 ≤ (reply_elem x).length := by
  cases x with
  | none => decide
  | some B =>
    show 5 ≤ (bulk B).length
    rw [bulk_length]
    omega

/-- One element of a multibulk reply, nil or a payload: the last element
frames at its last `LF`, any other is followed by the next element. -/
theorem rsp_run_mb_elem {b : mbuf} {p : Nat} {r : msg} {rest : List Nat}
    (x : Option (List Nat)) (hx : ∀ B, x = some B → B.length < 2 ^ 32)
    (ht : r.token = none) (hr : r.rnarg ≠ 0)
    (h : b.data.drop p = reply_elem x ++ rest) :
    rsp_run b p .SW_MULTIBULK_ARGN_LEN r =
      if r.rnarg - 1 = 0 then
        label_done (p + (reply_elem x).length - 1)
          { r with rlen := 0, rnarg := r.rnarg - 1, token := none }
      else
        rsp_run b (p + (reply_elem x).length) .SW_MULTIBULK_ARGN_LEN
          { r with rlen := 0, rnarg := r.rnarg - 1, token := none } := by
  cases x with
  | none => exact rsp_run_mb_nil ht hr h
  | some B =>
    have hB := hx B rfl
    have h' : b.data.drop p = 36 :: (decimal B.length ++ 13 :: 10 :: (B ++ 13 :: 10 :: rest)) := by
      rw [h]
      exact bulk_append B rest
    have h1 := view_skip3 h'
    have hnil : ¬ (dec_value (decimal B.length) % 2 ^ 32 = 1 ∧ (decimal B.length).length = 2) := by
      rw [mod_of_lt hB]
      intro ⟨a1, a2⟩
      rw [a1] at a2
      exact absurd a2 (by decide)
    rw [rsp_run_mb_len ht hr (all_digits_decimal _) (decimal_ne_nil _) hnil h']
    rw [rsp_run_mb_arg (by simp only; exact mod_of_lt hB) h1]
    have hl : (reply_elem (some B)).length = (decimal B.length).length + B.length + 5 :=
      bulk_length B
    rw [hl]
    simp only
    by_cases h0 : r.rnarg - 1 = 0
    · rw [if_pos h0, if_pos h0]
      congr 1
      omega
    · rw [if_neg h0, if_neg h0]
      congr 1
      omega

/-- The elements of a multibulk reply, as many as the running count says: the
run frames at the last `LF` of the last one. -/
theorem rsp_run_mb_elems {b : mbuf} (post : List Nat) :
    ∀ (xs : List (Option (List Nat))) (p : Nat) (r : msg),
    r.token = none → r.rnarg = xs.length → xs ≠ [] →
    (∀ B, some B ∈ xs → B.length < 2 ^ 32) → b.data.drop p = reply_elems xs ++ post →
    rsp_run b p .SW_MULTIBULK_ARGN_LEN r =
      label_done (p + (reply_elems xs).length - 1)
        { r with rlen := 0, rnarg := 0, token := none } := by
  intro xs
  induction xs with
  | nil => intro p r _ _ h; exact absurd rfl h
  | cons x xs ih =>
    intro p r ht hr _ hx h
    have h' : b.data.drop p = reply_elem x ++ (reply_elems xs ++ post) := by
      rw [h]
      simp [reply_elems]
    have hr0 : r.rnarg ≠ 0 := by rw [hr]; simp
    have hr1 : r.rnarg - 1 = xs.length := by rw [hr]; simp
    rw [rsp_run_mb_elem x (fun B hB => hx B (by rw [hB]; exact List.mem_cons_self _ _)) ht hr0 h']
    by_cases hxs : xs = []
    · subst hxs
      rw [if_pos (by rw [hr1]; rfl)]
      simp only [reply_elems, List.append_nil, hr1, List.length_nil]
    · have hpos : 0 < xs.length := List.length_pos.mpr hxs
      rw [if_neg (by omega)]
      rw [ih (p + (reply_elem x).length) _ rfl hr1 hxs
        (fun B hB => hx B (List.mem_cons_of_mem _ hB)) (view_append h')]
      have h5 := reply_elem_length_pos x
      have hl : (reply_elems (x :: xs)).length = (reply_elem x).length + (reply_elems xs).length := by
        simp [reply_elems]
      have hne : 0 < (reply_elems xs).length := by
        cases xs with
        | nil => exact absurd rfl hxs
        | cons y ys =>
          have := reply_elem_length_pos y
          simp only [reply_elems, List.length_append]
          omega
      rw [hl]
      congr 1
      omega

theorem rsp_run_mb_arg_error {b : mbuf} {p x : Nat} {r : msg} {rest : List Nat}
    (hlen : r.rlen = 0) (h : b.data.drop p = x :: rest) (hx : x ≠ 13) :
    (rsp_run b p .SW_MULTIBULK_ARGN r).result = PARSE_ERROR := by
  obtain ⟨hp, hat, _⟩ := buf_cons h
  rw [rsp_run_eq _ _ hp]
  simp only [rsp_step, hlen, Nat.add_zero, hat]
  rw [if_neg (by omega), if_pos hx]
  rfl

theorem long_payload_length : long_payload.length = 4294967296 := by
  rw [long_payload, List.length_cons, List.length_cons, long_pad_length]

theorem multibulk_append (xs : List (Option (List Nat))) (post : List Nat) :
    multibulk xs ++ post = 42 :: (decimal xs.length ++ 13 :: 10 :: (reply_elems xs ++ post)) := by
  simp [multibulk]

theorem multibulk_length (xs : List (Option (List Nat))) :
    (multibulk xs).length = (decimal xs.length).length + 3 + (reply_elems xs).length := by
  simp only [multibulk, List.length_cons, List.length_append]
  omega

theorem multibulk_single (B : List Nat) :
    multibulk [some B] =
      42 :: (decimal 1 ++ 13 :: 10 :: 36 :: (decimal B.length ++ 13 :: 10 :: (B ++ [13, 10]))) := by
  simp [multibulk, reply_elems, reply_elem, bulk]

theorem rsp_step_type_frame {b : mbuf} {p : Nat} {s : rsp_sw} {r : msg}
    (hs : s ≠ .SW_START) :
    (∀ p' s' r', rsp_step b p s r = .next p' s' r' → s' ≠ .SW_START ∧ r'.type = r.type) ∧
    (∀ p' s' r', rsp_step b p s r = .done p' s' r' → r'.type = r.type) ∧
    (∀ p' s' r', rsp_step b p s r = .fragment p' s' r' → r'.type = r.type) ∧
    (∀ s' r', rsp_step b p s r = .error s' r' → r'.type = r.type) := by
  refine ⟨?_, ?_, ?_, ?_⟩ <;> intros <;> rename_i h <;> revert hs <;>
    cases s <;> intro hs <;> (try exact absurd rfl hs) <;>
    simp only [rsp_step] at h <;>
    (repeat' split at h) <;> cases h <;> first | exact ⟨by decide, rfl⟩ | rfl

/-- After the first iteration the rest of a call of `parse_response` leaves
`type` as it is. -/
theorem rsp_run_type_frame {b : mbuf} {p : Nat} {s : rsp_sw} {r : msg}
    (hs : s ≠ .SW_START) : (rsp_run b p s r).type = r.type := by
  refine rsp_run_induct (b := b)
    (fun _ s' r' => s' ≠ .SW_START ∧ r'.type = r.type)
    (fun out => out.type = r.type) ?_ ?_ ?_ ?_ ?_
    _ p s r (Nat.le_refl _) ⟨hs, rfl⟩
  · intro p s r1 p' s' r' ⟨h1, h2⟩ _ h
    obtain ⟨e1, e2⟩ := (rsp_step_type_frame h1).1 p' s' r' h
    exact ⟨e1, e2.trans h2⟩
  · intro p s r1 p' s' r' ⟨h1, h2⟩ _ h
    exact ((rsp_step_type_frame h1).2.1 p' s' r' h).trans h2
  · intro p s r1 p' s' r' ⟨h1, h2⟩ _ h
    rw [label_fragment_type]
    exact ((rsp_step_type_frame h1).2.2.1 p' s' r' h).trans h2
  · intro p s r1 s' r' ⟨h1, h2⟩ _ h
    exact ((rsp_step_type_frame h1).2.2.2 s' r' h).trans h2
  · intro p s r1 ⟨_, h2⟩ _
    rw [label_again_type]
    exact h2


/-! ## The end of input -/

/-- The code after the loop does what the spec says of the end of input. -/
theorem label_again_spec (b : mbuf) (s : Nat) (r : msg) :
    end_of_input b s r (label_again b b.last s r) := by
  unfold end_of_input label_again
  cases ht : r.token with
  | none =>
    refine ⟨rfl, ⟨fun h => absurd h (by simp), fun h => absurd rfl h.2⟩, ?_, fun _ => ?_⟩
    · intro _ t h
      cases h
    · cases r
      simp only at ht
      simp [ht]
  | some t =>
    cases hf : b.full with
    | false =>
      refine ⟨rfl, ⟨fun h => absurd h (by simp), fun h => absurd h.1 (by simp)⟩, ?_, fun _ => ?_⟩
      · intro h
        cases h
      · cases r
        simp only at ht
        simp [ht]
    | true =>
      refine ⟨rfl, ⟨fun _ => ⟨rfl, by simp⟩, fun _ => rfl⟩, ?_, fun h => ?_⟩
      · intro _ t' h
        cases h
        rfl
      · exact absurd ⟨rfl, by simp⟩ h

/-- A call of `parse_request` ends at one of the labels `done`, `fragment` and
`error`, or the loop runs up to `last` and the call ends in the code after
it. -/
theorem req_run_exit {b : mbuf} {p0 : Nat} {s0 : req_sw} {r0 : msg} (hpos : p0 ≤ b.last) :
    (req_run b p0 s0 r0).result = PARSE_OK ∨ (req_run b p0 s0 r0).result = PARSE_FRAGMENT ∨
    (req_run b p0 s0 r0).result = PARSE_ERROR ∨
    ∃ s r, req_reach b p0 s0 r0 b.last s r ∧
      req_run b p0 s0 r0 = label_again b b.last s.to_int r := by
  refine req_run_induct (b := b)
    (fun p s r => p ≤ b.last ∧ req_reach b p0 s0 r0 p s r)
    (fun out => out.result = PARSE_OK ∨ out.result = PARSE_FRAGMENT ∨
      out.result = PARSE_ERROR ∨
      ∃ s r, req_reach b p0 s0 r0 b.last s r ∧ out = label_again b b.last s.to_int r)
    ?_ ?_ ?_ ?_ ?_ _ p0 s0 r0 (Nat.le_refl _) ⟨hpos, .start⟩
  · intro p s r p' s' r' ⟨_, h2⟩ hp h
    exact ⟨(req_step_next_bounds hp h).2, .step h2 hp h⟩
  · intro p s r p' s' r' _ _ _
    exact Or.inl rfl
  · intro p s r p' s' r' _ _ _
    refine Or.inr (Or.inl ?_)
    unfold label_fragment
    split <;> rfl
  · intro p s r s' r' _ _ _
    exact Or.inr (Or.inr (Or.inl rfl))
  · intro p s r ⟨h1, h2⟩ hp
    have e : p = b.last := by omega
    subst e
    exact Or.inr (Or.inr (Or.inr ⟨s, r, h2, rfl⟩))

/-- A call of `parse_response` ends at one of the labels `done` and `error`,
or the loop runs up to `last` and the call ends in the code after it. -/
theorem rsp_run_exit {b : mbuf} {p0 : Nat} {s0 : rsp_sw} {r0 : msg} (hpos : p0 ≤ b.last) :
    (rsp_run b p0 s0 r0).result = PARSE_OK ∨ (rsp_run b p0 s0 r0).result = PARSE_FRAGMENT ∨
    (rsp_run b p0 s0 r0).result = PARSE_ERROR ∨
    ∃ s r, rsp_reach b p0 s0 r0 b.last s r ∧
      rsp_run b p0 s0 r0 = label_again b b.last s.to_int r := by
  refine rsp_run_induct (b := b)
    (fun p s r => p ≤ b.last ∧ rsp_reach b p0 s0 r0 p s r)
    (fun out => out.result = PARSE_OK ∨ out.result = PARSE_FRAGMENT ∨
      out.result = PARSE_ERROR ∨
      ∃ s r, rsp_reach b p0 s0 r0 b.last s r ∧ out = label_again b b.last s.to_int r)
    ?_ ?_ ?_ ?_ ?_ _ p0 s0 r0 (Nat.le_refl _) ⟨hpos, .start⟩
  · intro p s r p' s' r' ⟨_, h2⟩ hp h
    exact ⟨(rsp_step_next_bounds hp h).2.2.2, .step h2 hp h⟩
  · intro p s r p' s' r' _ _ _
    exact Or.inl rfl
  · intro p s r p' s' r' _ _ _
    refine Or.inr (Or.inl ?_)
    unfold label_fragment
    split <;> rfl
  · intro p s r s' r' _ _ _
    exact Or.inr (Or.inr (Or.inl rfl))
  · intro p s r ⟨h1, h2⟩ hp
    have e : p = b.last := by omega
    subst e
    exact Or.inr (Or.inr (Or.inr ⟨s, r, h2, rfl⟩))



/-! ## Commands of class Arg4 -/

/-- The arity check of state `SW_KEY_LF` has no branch for class Arg4. -/
theorem req_step_key_lf_arg4 {b : mbuf} {q : Nat} {r : msg}
    (hcls : arity_of r.type = some .Arg4) :
    ∃ s' r', req_step b q SW_KEY_LF r = .error s' r' := by
  obtain ⟨_, _, _, _, _, c4⟩ := parse_arg_of_arity r.type
  obtain ⟨x1, x2, x3, xn, xx⟩ := c4 hcls
  simp only [req_step]
  rw [parse_arg1_type, parse_arg2_type, parse_arg3_type, parse_argn_type, parse_argx_type,
    x1, x2, x3, xn, xx]
  by_cases h10 : b.at q = 10
  · rw [if_pos h10]
    simp only [Bool.false_eq_true, if_false]
    exact ⟨_, _, rfl⟩
  · rw [if_neg h10]
    exact ⟨_, _, rfl⟩

/-- From state `SW_KEY` for a command of class Arg4, with a running length
that does not exceed the length of the key payload: the call ends in an
error. -/
theorem req_run_key_arg4 {b : mbuf} {q : Nat} {r : msg} {K rest : List Nat}
    (ht : r.token = none) (hlen : r.rlen ≤ K.length)
    (h : b.data.drop q = K ++ 13 :: 10 :: rest)
    (hcls : arity_of r.type = some .Arg4) :
    (req_run b q SW_KEY r).result = PARSE_ERROR := by
  have hlast : q + K.length + 2 ≤ b.last := by
    have := congrArg List.length h
    simp only [List.length_drop, List.length_append, List.length_cons] at this
    simp only [mbuf.last]
    omega
  have hq : q < b.last := by omega
  rw [req_run_eq _ _ hq]
  simp only [req_step, ht]
  rw [if_neg (by omega)]
  by_cases h13 : b.at (q + r.rlen) ≠ 13
  · rw [if_pos h13]
    rfl
  · have hq2 : q + r.rlen + 1 < b.last := by omega
    rw [if_neg h13]
    simp only
    rw [req_run_eq _ _ hq2]
    obtain ⟨s', r', he⟩ := req_step_key_lf_arg4 (b := b) (q := q + r.rlen + 1)
      (r := { r with token := none, rlen := 0, key_start := some q,
                     key_end := some (q + r.rlen) }) hcls
    rw [he]
    rfl

theorem req_step_done_type {b : mbuf} {p : Nat} {s : req_sw} {r : msg} {p' : Nat} {s' : req_sw}
    {r' : msg} (h : req_step b p s r = .done p' s' r') :
    r'.type ≠ MSG_REQ_REDIS_LINSERT := by
  cases s <;> simp only [req_step, req_len, req_arg_len, req_arg, req_lf] at h <;>
    (repeat' split at h) <;> cases h <;> intro ht <;>
    simp_all [parse_arg1, parse_arg2, parse_arg3, parse_argn, parse_argx]

/-- A call that returns `PARSE_OK` does not carry the tag of `LINSERT`. -/
theorem req_run_not_linsert {b : mbuf} {p : Nat} {s : req_sw} {r : msg}
    (hok : (req_run b p s r).result = PARSE_OK) :
    (req_run b p s r).type ≠ MSG_REQ_REDIS_LINSERT := by
  refine req_run_induct (b := b) (fun _ _ _ => True)
    (fun out => out.result = PARSE_OK → out.type ≠ MSG_REQ_REDIS_LINSERT)
    ?_ ?_ ?_ ?_ ?_ _ p s r (Nat.le_refl _) True.intro hok
  · intros; exact True.intro
  · intro p s r p' s' r' _ _ h _
    have := req_step_done_type h
    exact this
  · intro p s r p' s' r' _ _ _ h
    exact absurd h (label_fragment_not_ok _ _)
  · intro p s r s' r' _ _ _ h
    exact absurd h (label_error_not_ok _ _)
  · intro p s r _ _ h
    exact absurd h (label_again_not_ok _ _ _ _)


/-! ## The arity predicates and the command table -/

theorem table_tags_nodup : (command_table.map command.tag).Nodup := by
  decide

theorem table_tag_inj {e e' : command} (he : e ∈ command_table) (he' : e' ∈ command_table)
    (h : e.tag = e'.tag) : e = e' :=
  List.inj_on_of_nodup_map table_tags_nodup he he' h

set_option maxHeartbeats 1600000 in
theorem arity_lists (t : msg_type_t) :
    (parse_arg1 (msg_of_type t) = true ↔ ∃ e ∈ command_table, e.tag = t ∧ e.arity = .Arg1) ∧
    (parse_arg2 (msg_of_type t) = true ↔ ∃ e ∈ command_table, e.tag = t ∧ e.arity = .Arg2) ∧
    (parse_arg3 (msg_of_type t) = true ↔ ∃ e ∈ command_table, e.tag = t ∧ e.arity = .Arg3) ∧
    (parse_arg4 (msg_of_type t) = true ↔ ∃ e ∈ command_table, e.tag = t ∧ e.arity = .Arg4) ∧
    (parse_argn (msg_of_type t) = true ↔ ∃ e ∈ command_table, e.tag = t ∧ e.arity = .ArgN) ∧
    (parse_argx (msg_of_type t) = true ↔ ∃ e ∈ command_table, e.tag = t ∧ e.arity = .ArgX) := by
  cases t <;> decide

theorem arity_exact : ∀ e ∈ command_table,
    parse_arg1 (msg_of_type e.tag) = decide (e.arity = .Arg1) ∧
    parse_arg2 (msg_of_type e.tag) = decide (e.arity = .Arg2) ∧
    parse_arg3 (msg_of_type e.tag) = decide (e.arity = .Arg3) ∧
    parse_arg4 (msg_of_type e.tag) = decide (e.arity = .Arg4) ∧
    parse_argn (msg_of_type e.tag) = decide (e.arity = .ArgN) ∧
    parse_argx (msg_of_type e.tag) = decide (e.arity = .ArgX) := by
  decide

theorem table_covers (t : msg_type_t) :
    (∃ e ∈ command_table, e.tag = t) ↔
      (t ≠ MSG_UNKNOWN ∧ t ≠ MSG_RSP_REDIS_STATUS ∧ t ≠ MSG_RSP_REDIS_ERROR ∧
        t ≠ MSG_RSP_REDIS_INTEGER ∧ t ≠ MSG_RSP_REDIS_BULK ∧ t ≠ MSG_RSP_REDIS_MULTIBULK ∧
        t ≠ MSG_SENTINEL) := by
  cases t <;> decide

theorem arity_count (t : msg_type_t) :
    (t = MSG_REQ_REDIS_LINSERT →
      parse_arg4 (msg_of_type t) = true ∧
      [parse_arg1 (msg_of_type t), parse_arg2 (msg_of_type t), parse_arg3 (msg_of_type t),
        parse_argn (msg_of_type t), parse_argx (msg_of_type t)].count true = 0) ∧
    (t ≠ MSG_REQ_REDIS_LINSERT → (∃ e ∈ command_table, e.tag = t) →
      parse_arg4 (msg_of_type t) = false ∧
      [parse_arg1 (msg_of_type t), parse_arg2 (msg_of_type t), parse_arg3 (msg_of_type t),
        parse_argn (msg_of_type t), parse_argx (msg_of_type t)].count true = 1) ∧
    (parse_argx (msg_of_type t) = true ↔ (t = MSG_REQ_REDIS_MGET ∨ t = MSG_REQ_REDIS_DEL)) := by
  cases t <;> decide

/-- The command switch on a name followed by `CR` gives the tag of a row of
the command table exactly when the name is the name of the row up to letter
case. -/
theorem req_type_iff {e : command} (he : e ∈ command_table) {b : mbuf} {p : Nat}
    {v rest : List Nat} (h : b.data.drop p = v ++ 13 :: rest) :
    req_type b p v.length = e.tag ↔ same_name v e.name := by
  rw [req_type_fold h]
  constructor
  · intro ht
    by_contra hne
    by_cases hex : ∃ e' ∈ command_table, same_name v e'.name
    · obtain ⟨e', he', hv'⟩ := hex
      rw [req_type_same_name he' hv'] at ht
      have := table_tag_inj he' he ht
      subst this
      exact hne hv'
    · have hunk : ∀ e' ∈ command_table, ¬ same_name v e'.name :=
        fun e' he' hv' => hex ⟨e', he', hv'⟩
      rw [req_type_unknown v hunk] at ht
      exact (table_facts e he).1 ht.symm
  · exact req_type_same_name he


/-! ## The count of bulk elements -/

theorem arity_of_parse (t : msg_type_t) :
    (parse_arg1 (msg_of_type t) = true → arity_of t = some .Arg1) ∧
    (parse_arg2 (msg_of_type t) = true → arity_of t = some .Arg2) ∧
    (parse_arg3 (msg_of_type t) = true → arity_of t = some .Arg3) ∧
    (parse_argn (msg_of_type t) = true → arity_of t = some .ArgN) ∧
    (parse_argx (msg_of_type t) = true → arity_of t = some .ArgX) := by
  cases t <;> decide

/-- The iterations that jump to the label `done`. -/
theorem req_step_done_cases {b : mbuf} {p : Nat} {s : req_sw} {r : msg} {p' : Nat} {s' : req_sw}
    {r' : msg} (h : req_step b p s r = .done p' s' r') :
    r' = r ∧ r.rnarg = 0 ∧
    ((s = SW_KEY_LF ∧ (parse_arg1 r = true ∨ parse_argx r = true)) ∨
     (s = SW_ARG1_LF ∧ (parse_arg2 r = true ∨ parse_argn r = true)) ∨
     (s = SW_ARG2_LF ∧ (parse_arg3 r = true ∨ parse_argn r = true)) ∨
     (s = SW_ARGN_LF ∧ parse_argn r = true)) := by
  cases s <;> simp only [req_step, req_len, req_arg_len, req_arg, req_lf] at h <;>
    (repeat' split at h) <;> cases h <;> simp_all

theorem req_step_narg_inv {b : mbuf} {p : Nat} {s : req_sw} {r : msg} {p' : Nat} {s' : req_sw}
    {r' : msg} (h : req_step b p s r = .next p' s' r') (hinv : narg_inv s r) :
    narg_inv s' r' := by
  cases s <;> simp only [req_step, req_len, req_arg_len, req_arg, req_lf] at h <;>
    (repeat' split at h) <;> cases h <;> simp_all [narg_inv] <;> omega

/-- A call of `parse_request` entered in `SW_START` that returns `PARSE_OK`
has counted its bulk elements. -/
theorem req_run_ok_count {b : mbuf} {p0 : Nat} {r : msg}
    (hok : (req_run b p0 SW_START r).result = PARSE_OK) :
    (req_run b p0 SW_START r).rnarg = 0 ∧ (req_run b p0 SW_START r).rlen = 0 ∧
    ((arity_of (req_run b p0 SW_START r).type = some .Arg1 ∧
        (req_run b p0 SW_START r).narg = 2) ∨
     (arity_of (req_run b p0 SW_START r).type = some .Arg2 ∧
        (req_run b p0 SW_START r).narg = 3) ∨
     (arity_of (req_run b p0 SW_START r).type = some .Arg3 ∧
        (req_run b p0 SW_START r).narg = 4) ∨
     (arity_of (req_run b p0 SW_START r).type = some .ArgN ∧
        3 ≤ (req_run b p0 SW_START r).narg) ∨
     (arity_of (req_run b p0 SW_START r).type = some .ArgX ∧
        (req_run b p0 SW_START r).narg = 2)) := by
  refine req_run_induct (b := b) (fun _ s m => narg_inv s m)
    (fun out => out.result = PARSE_OK → out.rnarg = 0 ∧ out.rlen = 0 ∧
      ((arity_of out.type = some .Arg1 ∧ out.narg = 2) ∨
       (arity_of out.type = some .Arg2 ∧ out.narg = 3) ∨
       (arity_of out.type = some .Arg3 ∧ out.narg = 4) ∨
       (arity_of out.type = some .ArgN ∧ 3 ≤ out.narg) ∨
       (arity_of out.type = some .ArgX ∧ out.narg = 2)))
    ?_ ?_ ?_ ?_ ?_ (b.last - p0) p0 SW_START r (Nat.le_refl _) True.intro hok
  · intro p s m p' s' m' hinv _ h
    exact req_step_narg_inv h hinv
  · intro p s m p' s' m' hinv _ h _
    obtain ⟨e, h0, hc⟩ := req_step_done_cases h
    subst e
    have hA := arity_of_parse m'.type
    show m'.rnarg = 0 ∧ m'.rlen = 0 ∧ _
    simp only [label_done]
    rcases hc with ⟨rfl, h1 | h1⟩ | ⟨rfl, h1 | h1⟩ | ⟨rfl, h1 | h1⟩ | ⟨rfl, h1⟩ <;>
      simp only [narg_inv] at hinv <;> refine ⟨h0, hinv.2, ?_⟩
    · exact Or.inl ⟨hA.1 h1, by omega⟩
    · exact Or.inr (Or.inr (Or.inr (Or.inr ⟨hA.2.2.2.2 h1, by omega⟩)))
    · exact Or.inr (Or.inl ⟨hA.2.1 h1, by omega⟩)
    · exact Or.inr (Or.inr (Or.inr (Or.inl ⟨hA.2.2.2.1 h1, by omega⟩)))
    · exact Or.inr (Or.inr (Or.inl ⟨hA.2.2.1 h1, by omega⟩))
    · exact Or.inr (Or.inr (Or.inr (Or.inl ⟨hA.2.2.2.1 h1, by omega⟩)))
    · exact Or.inr (Or.inr (Or.inr (Or.inl ⟨hA.2.2.2.1 h1, by omega⟩)))
  · intro p s m p' s' m' _ _ _ h
    exact absurd h (label_fragment_not_ok _ _)
  · intro p s m s' m' _ _ _ h
    exact absurd h (label_error_not_ok _ _)
  · intro p s m _ _ h
    exact absurd h (label_again_not_ok _ _ _ _)

/-! ## The bytes that a framed request is made of -/

theorem req_lf_next {p ch : Nat} {s n : req_sw} {r : msg} {p' : Nat} {s' : req_sw} {r' : msg}
    (h : req_lf p ch s n r = .next p' s' r') : ch = 10 ∧ p' = p + 1 ∧ s' = n ∧ r' = r := by
  unfold req_lf at h
  split at h
  · cases h
    exact ⟨by assumption, rfl, rfl, rfl⟩
  · cases h

theorem req_len_next {p ch : Nat} {s n : req_sw} {r : msg} {p' : Nat} {s' : req_sw} {r' : msg}
    (h : req_len p ch s n r = .next p' s' r') :
    p' = p + 1 ∧
    ((r.token = none ∧ ch = 36 ∧ s' = s ∧ r' = { r with token := some p, rlen := 0 }) ∨
     (∃ t, r.token = some t ∧ isdigit ch = true ∧ s' = s ∧
        r' = { r with rlen := accum r.rlen ch }) ∨
     (∃ t, r.token = some t ∧ ch = 13 ∧ r.rlen ≠ 0 ∧ r.rnarg ≠ 0 ∧ s' = n ∧
        r' = { r with rnarg := r.rnarg - 1, token := none })) := by
  unfold req_len at h
  split at h
  · rename_i h0
    split at h
    · cases h
    · rename_i h1
      cases h
      exact ⟨rfl, Or.inl ⟨h0, by simpa using h1, rfl, rfl⟩⟩
  · rename_i t h0
    split at h
    · rename_i h1
      cases h
      exact ⟨rfl, Or.inr (Or.inl ⟨t, h0, h1, rfl, rfl⟩)⟩
    · split at h
      · rename_i h2
        split at h
        · cases h
        · rename_i h3
          cases h
          exact ⟨rfl, Or.inr (Or.inr ⟨t, h0, h2, fun x => h3 (Or.inl x), fun x => h3 (Or.inr x),
            rfl, rfl⟩)⟩
      · cases h

theorem req_arg_len_next {p ch : Nat} {s n : req_sw} {r : msg} {p' : Nat} {s' : req_sw}
    {r' : msg} (h : req_arg_len p ch s n r = .next p' s' r') :
    p' = p + 1 ∧
    ((r.token = none ∧ ch = 36 ∧ s' = s ∧ r' = { r with rlen := 0, token := some p }) ∨
     (∃ t, r.token = some t ∧ isdigit ch = true ∧ s' = s ∧
        r' = { r with rlen := accum r.rlen ch }) ∨
     (∃ t, r.token = some t ∧ ch = 13 ∧ 1 < p - t ∧ r.rnarg ≠ 0 ∧ s' = n ∧
        r' = { r with rnarg := r.rnarg - 1, token := none })) := by
  unfold req_arg_len at h
  split at h
  · rename_i h0
    split at h
    · cases h
    · rename_i h1
      cases h
      exact ⟨rfl, Or.inl ⟨h0, by simpa using h1, rfl, rfl⟩⟩
  · rename_i t h0
    split at h
    · rename_i h1
      cases h
      exact ⟨rfl, Or.inr (Or.inl ⟨t, h0, h1, rfl, rfl⟩)⟩
    · split at h
      · rename_i h2
        split at h
        · cases h
        · rename_i h3
          cases h
          exact ⟨rfl, Or.inr (Or.inr ⟨t, h0, h2, by omega, fun x => h3 (Or.inr x), rfl, rfl⟩)⟩
      · cases h

theorem req_arg_next {b : mbuf} {p : Nat} {s n : req_sw} {r : msg} {p' : Nat} {s' : req_sw}
    {r' : msg} (h : req_arg b p s n r = .next p' s' r') :
    (b.last ≤ p + r.rlen ∧ p' = b.last - 1 + 1 ∧ s' = s ∧
      r' = { r with rlen := sub32 r.rlen (b.last - p) }) ∨
    (p + r.rlen < b.last ∧ b.at (p + r.rlen) = 13 ∧ p' = p + r.rlen + 1 ∧ s' = n ∧
      r' = { r with rlen := 0 }) := by
  unfold req_arg at h
  simp only at h
  split at h
  · rename_i h0
    cases h
    exact Or.inl ⟨h0, rfl, rfl, rfl⟩
  · rename_i h0
    split at h
    · cases h
    · rename_i h1
      cases h
      exact Or.inr ⟨by omega, by simpa using h1, rfl, rfl, rfl⟩

theorem drop_at {b : mbuf} {p : Nat} (hp : p < b.last) :
    b.data.drop p = b.at p :: b.data.drop (p + 1) := by
  have h : p < b.data.length := hp
  rw [List.drop_eq_getElem_cons h]
  simp [mbuf.at, List.getD_eq_getElem?_getD, List.getElem?_eq_getElem h]

theorem dec_value_nil : dec_value [] = 0 := rfl

theorem accum_dec {x ch : Nat} {L : List Nat} (h : x = dec_value L % 2 ^ 32) :
    accum x ch = dec_value (L ++ [ch]) % 2 ^ 32 := by
  unfold dec_value at h ⊢
  rw [dec_fold_append, h]
  unfold accum
  have e : (2 : Nat) ^ 32 = 4294967296 := by norm_num
  rw [e]
  omega

theorem all_digits_snoc {L : List Nat} {ch : Nat} (hL : all_digits L) (hc : isdigit ch = true) :
    all_digits (L ++ [ch]) := by
  intro d hd
  rcases List.mem_append.mp hd with h | h
  · exact hL d h
  · rw [List.mem_singleton.mp h]
    exact hc

theorem dec_ne_nil {L : List Nat} (h : dec_value L % 2 ^ 32 ≠ 0) : L ≠ [] := by
  intro e
  rw [e] at h
  exact h rfl

theorem read_so_far_snoc {b : mbuf} {pos0 p k narg rnarg : Nat} {part : List Nat}
    (hp : p < b.last) (h : read_so_far b pos0 p k narg rnarg part) :
    read_so_far b pos0 (p + 1) k narg rnarg (part ++ [b.at p]) := by
  obtain ⟨D, es, h1, h2, h3, h4, h5, h6⟩ := h
  refine ⟨D, es, h1, h2, h3, h4, h5, ?_⟩
  rw [h6, drop_at hp]
  simp

theorem elements_snoc (es : List (List Nat × List Nat)) (e : List Nat × List Nat) :
    elements (es ++ [e]) = elements es ++ element e.1 e.2 := by
  induction es with
  | nil => simp [elements]
  | cons a l ih => simp [elements, ih]

/-- From `SW_START` on the `*`. -/
theorem inv_start {b : mbuf} {pos0 p : Nat} {tok : Option Nat} {rlen narg rnarg : Nat}
    (hp : p < b.last) (hat : b.at p = 42)
    (h : phase_inv b pos0 p tok rlen narg rnarg .start) (rlen' narg' : Nat) :
    phase_inv b pos0 (p + 1) (some p) rlen' narg' 0 .narg := by
  obtain ⟨e, _⟩ := h
  subst e
  refine ⟨p, [], rfl, fun d hd => absurd hd (List.not_mem_nil d), rfl, ?_⟩
  rw [drop_at hp, hat]
  rfl

/-- A digit of the header. -/
theorem inv_narg_digit {b : mbuf} {pos0 p : Nat} {tok : Option Nat} {rlen narg rnarg : Nat}
    (hp : p < b.last) (hd : isdigit (b.at p) = true)
    (h : phase_inv b pos0 p tok rlen narg rnarg .narg) (rlen' narg' : Nat) :
    phase_inv b pos0 (p + 1) tok rlen' narg' (accum rnarg (b.at p)) .narg := by
  obtain ⟨t, D, h1, h2, h3, h4⟩ := h
  refine ⟨t, D ++ [b.at p], h1, all_digits_snoc h2 hd, accum_dec h3, ?_⟩
  rw [h4, drop_at hp]
  simp

/-- The `CR` of the header. -/
theorem inv_narg_cr {b : mbuf} {pos0 p : Nat} {tok : Option Nat} {rlen narg rnarg : Nat}
    (hp : p < b.last) (hat : b.at p = 13) (hn : rnarg ≠ 0)
    (h : phase_inv b pos0 p tok rlen narg rnarg .narg) (rlen' : Nat) :
    phase_inv b pos0 (p + 1) none rlen' rnarg rnarg .narg_lf := by
  obtain ⟨t, D, h1, h2, h3, h4⟩ := h
  refine ⟨rfl, D, h2, dec_ne_nil (h3 ▸ hn), h3, rfl, ?_⟩
  rw [h4, drop_at hp, hat]

/-- The `LF` of the header. -/
theorem inv_narg_lf {b : mbuf} {pos0 p : Nat} {tok : Option Nat} {rlen narg rnarg : Nat}
    (hp : p < b.last) (hat : b.at p = 10)
    (h : phase_inv b pos0 p tok rlen narg rnarg .narg_lf) :
    phase_inv b pos0 (p + 1) tok rlen narg rnarg .len := by
  obtain ⟨h0, D, h1, h2, h3, h4, h5⟩ := h
  refine Or.inl ⟨h0, D, [], h1, h2, fun e he => absurd he (List.not_mem_nil e), h3, ?_, ?_⟩
  · simp only [List.length_nil]
    omega
  · rw [h5, drop_at hp, hat]
    simp [header, elements]

/-- The `$` of a length field. -/
theorem inv_len_open {b : mbuf} {pos0 p : Nat} {tok : Option Nat} {rlen narg rnarg : Nat}
    (hp : p < b.last) (hat : b.at p = 36) (ht : tok = none)
    (h : phase_inv b pos0 p tok rlen narg rnarg .len) :
    phase_inv b pos0 (p + 1) (some p) 0 narg rnarg .len := by
  rcases h with ⟨_, h⟩ | ⟨t, L, h1, _⟩
  · refine Or.inr ⟨p, [], rfl, fun d hd => absurd hd (List.not_mem_nil d), rfl, rfl, ?_⟩
    have := read_so_far_snoc hp h
    rw [hat] at this
    exact this
  · rw [ht] at h1
    cases h1

/-- A digit of a length field. -/
theorem inv_len_digit {b : mbuf} {pos0 p t : Nat} {tok : Option Nat} {rlen narg rnarg : Nat}
    (hp : p < b.last) (hd : isdigit (b.at p) = true) (ht : tok = some t)
    (h : phase_inv b pos0 p tok rlen narg rnarg .len) :
    phase_inv b pos0 (p + 1) tok (accum rlen (b.at p)) narg rnarg .len := by
  rcases h with ⟨h0, _⟩ | ⟨t', L, h1, h2, h3, h4, h5⟩
  · rw [ht] at h0
    cases h0
  · refine Or.inr ⟨t', L ++ [b.at p], h1, all_digits_snoc h2 hd, accum_dec h3, ?_, ?_⟩
    · simp only [List.length_append, List.length_singleton]
      omega
    · exact read_so_far_snoc hp h5

/-- The `CR` of a length field that is not empty. -/
theorem inv_len_cr {b : mbuf} {pos0 p t : Nat} {tok : Option Nat} {rlen narg rnarg : Nat}
    (hp : p < b.last) (hat : b.at p = 13) (ht : tok = some t)
    (hne : rlen ≠ 0 ∨ 1 < p - t) (hn : rnarg ≠ 0)
    (h : phase_inv b pos0 p tok rlen narg rnarg .len) :
    phase_inv b pos0 (p + 1) none rlen narg (rnarg - 1) .len_lf := by
  rcases h with ⟨h0, _⟩ | ⟨t', L, h1, h2, h3, h4, h5⟩
  · rw [ht] at h0
    cases h0
  · rw [ht] at h1
    cases h1
    have hL : L ≠ [] := by
      rcases hne with x | x
      · exact dec_ne_nil (h3 ▸ x)
      · intro e
        rw [e] at h4
        simp only [List.length_nil] at h4
        omega
    refine ⟨rfl, L, h2, hL, h3, ?_⟩
    obtain ⟨D, es, g1, g2, g3, g4, g5, g6⟩ := read_so_far_snoc hp h5
    refine ⟨D, es, g1, g2, g3, g4, by omega, ?_⟩
    rw [g6, hat]
    simp

/-- The `LF` of a length field. -/
theorem inv_len_lf {b : mbuf} {pos0 p : Nat} {tok : Option Nat} {rlen narg rnarg : Nat}
    (hp : p < b.last) (hat : b.at p = 10)
    (h : phase_inv b pos0 p tok rlen narg rnarg .len_lf) :
    phase_inv b pos0 (p + 1) tok rlen narg rnarg .payload := by
  obtain ⟨h0, L, h1, h2, h3, h4⟩ := h
  refine ⟨h0, L, h1, h2, h3, ?_⟩
  obtain ⟨D, es, g1, g2, g3, g4, g5, g6⟩ := read_so_far_snoc hp h4
  refine ⟨D, es, g1, g2, g3, g4, g5, ?_⟩
  rw [g6, hat]
  simp

/-- The jump over a payload to its `CR`. -/
theorem inv_payload {b : mbuf} {pos0 p : Nat} {tok : Option Nat} {rlen narg rnarg : Nat}
    (hm : p + rlen < b.last) (hat : b.at (p + rlen) = 13)
    (h : phase_inv b pos0 p tok rlen narg rnarg .payload) (tok' : Option Nat) (ht : tok' = none)
    (rlen' : Nat) :
    phase_inv b pos0 (p + rlen + 1) tok' rlen' narg rnarg .payload_lf := by
  obtain ⟨h0, L, h1, h2, h3, D, es, g1, g2, g3, g4, g5, g6⟩ := h
  have hm' : p + rlen < b.data.length := hm
  refine ⟨ht, L, (b.data.drop p).take rlen, h1, h2, ?_, D, es, g1, g2, g3, g4, g5, ?_⟩
  · rw [take_drop_length hm', h3]
  · have hs := drop_split hm'
    have hat' : b.data.getD (p + rlen) 0 = 13 := hat
    rw [hat'] at hs
    rw [g6]
    conv_lhs => rw [hs]
    simp

/-- The `LF` of a payload after which one more element is read. -/
theorem inv_payload_lf {b : mbuf} {pos0 p : Nat} {tok : Option Nat} {rlen narg rnarg : Nat}
    (hp : p < b.last) (hat : b.at p = 10)
    (h : phase_inv b pos0 p tok rlen narg rnarg .payload_lf) :
    phase_inv b pos0 (p + 1) tok rlen narg rnarg .len := by
  obtain ⟨h0, L, B, h1, h2, h3, D, es, g1, g2, g3, g4, g5, g6⟩ := h
  refine Or.inl ⟨h0, D, es ++ [(L, B)], g1, g2, ?_, g4, ?_, ?_⟩
  · intro e he
    rcases List.mem_append.mp he with x | x
    · exact g3 e x
    · rw [List.mem_singleton.mp x]
      exact ⟨h1, h2, h3⟩
  · simp only [List.length_append, List.length_singleton]
    omega
  · rw [g6, drop_at hp, hat, elements_snoc]
    simp [element]

/-- The iterations in the states that expect the `LF` of a key or of a
trailing argument and go on to one more element. -/
theorem req_step_payload_lf_next {b : mbuf} {p : Nat} {s : req_sw} {r : msg} {p' : Nat}
    {s' : req_sw} {r' : msg} (hs : payload_lf s = true)
    (h : req_step b p s r = .next p' s' r') :
    b.at p = 10 ∧ p' = p + 1 ∧ r' = r ∧ (s'.phase = .len ∨ s'.phase = .off) := by
  cases s <;> first | exact absurd hs (by decide) | skip
  all_goals
    simp only [req_step] at h
    (repeat' split at h) <;> cases h <;>
      first
      | exact ⟨by assumption, rfl, rfl, Or.inl rfl⟩
      | exact ⟨by assumption, rfl, rfl, Or.inr rfl⟩

/-- Every iteration of a call entered in `SW_START` with no token open keeps
`grammar_inv`. -/
theorem req_step_grammar {b : mbuf} {pos0 p : Nat} {s : req_sw} {r : msg} {p' : Nat}
    {s' : req_sw} {r' : msg} (hp : p < b.last) (h : req_step b p s r = .next p' s' r')
    (hinv : grammar_inv b pos0 p s r) : grammar_inv b pos0 p' s' r' := by
  rcases hinv with hle | hinv
  · exact absurd hp (by omega)
  cases s
  case SW_START =>
    have hinv' : phase_inv b pos0 p r.token r.rlen r.narg r.rnarg .start := hinv
    simp only [req_step, hinv'.2] at h
    split at h
    · cases h
    · rename_i hat
      cases h
      exact Or.inr (inv_start hp (by simpa using hat) hinv' _ _)
  case SW_NARG =>
    have hinv' : phase_inv b pos0 p r.token r.rlen r.narg r.rnarg .narg := hinv
    obtain ⟨t, h1⟩ : ∃ t, r.token = some t := by
      obtain ⟨t, _, h1, _⟩ := hinv'
      exact ⟨t, h1⟩
    simp only [req_step, h1] at h
    rw [h1] at hinv'
    split at h
    · rename_i hd
      cases h
      exact Or.inr (inv_narg_digit hp hd hinv' _ _)
    · split at h
      · rename_i hat
        split at h
        · cases h
        · rename_i hn
          cases h
          exact Or.inr (inv_narg_cr hp hat hn hinv' _)
      · cases h
  case SW_NARG_LF =>
    have hinv' : phase_inv b pos0 p r.token r.rlen r.narg r.rnarg .narg_lf := hinv
    simp only [req_step] at h
    obtain ⟨hat, rfl, rfl, rfl⟩ := req_lf_next h
    exact Or.inr (inv_narg_lf hp hat hinv')
  case SW_REQ_TYPE_LEN | SW_KEY_LEN =>
    have hinv' : phase_inv b pos0 p r.token r.rlen r.narg r.rnarg .len := hinv
    simp only [req_step] at h
    obtain ⟨e, hc⟩ := req_len_next h
    subst e
    rcases hc with ⟨h0, hat, rfl, rfl⟩ | ⟨t, h0, hd, rfl, rfl⟩ | ⟨t, h0, hat, hrl, hrn, rfl, rfl⟩
    · exact Or.inr (inv_len_open hp hat h0 hinv')
    · exact Or.inr (inv_len_digit hp hd h0 hinv')
    · exact Or.inr (inv_len_cr hp hat h0 (Or.inl hrl) hrn hinv')
  case SW_ARG1_LEN | SW_ARG2_LEN | SW_ARGN_LEN =>
    have hinv' : phase_inv b pos0 p r.token r.rlen r.narg r.rnarg .len := hinv
    simp only [req_step] at h
    obtain ⟨e, hc⟩ := req_arg_len_next h
    subst e
    rcases hc with ⟨h0, hat, rfl, rfl⟩ | ⟨t, h0, hd, rfl, rfl⟩ | ⟨t, h0, hat, hrl, hrn, rfl, rfl⟩
    · exact Or.inr (inv_len_open hp hat h0 hinv')
    · exact Or.inr (inv_len_digit hp hd h0 hinv')
    · exact Or.inr (inv_len_cr hp hat h0 (Or.inr hrl) hrn hinv')
  case SW_REQ_TYPE_LEN_LF | SW_KEY_LEN_LF | SW_ARG1_LEN_LF | SW_ARG2_LEN_LF | SW_ARGN_LEN_LF =>
    have hinv' : phase_inv b pos0 p r.token r.rlen r.narg r.rnarg .len_lf := hinv
    simp only [req_step] at h
    obtain ⟨hat, rfl, rfl, rfl⟩ := req_lf_next h
    exact Or.inr (inv_len_lf hp hat hinv')
  case SW_REQ_TYPE =>
    have hinv' : phase_inv b pos0 p r.token r.rlen r.narg r.rnarg .payload := hinv
    simp only [req_step] at h
    split at h
    · cases h
      exact Or.inl (by omega)
    · rename_i hm
      split at h
      · cases h
      · rename_i hat
        split at h
        · cases h
        · cases h
          exact Or.inr (inv_payload (by omega) (by simpa using hat) hinv' _ rfl _)
  case SW_KEY =>
    have hinv' : phase_inv b pos0 p r.token r.rlen r.narg r.rnarg .payload := hinv
    simp only [req_step] at h
    split at h
    · cases h
      exact Or.inl (by omega)
    · rename_i hm
      split at h
      · cases h
      · rename_i hat
        cases h
        exact Or.inr (inv_payload (by omega) (by simpa using hat) hinv' _ rfl _)
  case SW_ARG1 | SW_ARG2 | SW_ARGN =>
    have hinv' : phase_inv b pos0 p r.token r.rlen r.narg r.rnarg .payload := hinv
    simp only [req_step] at h
    rcases req_arg_next h with ⟨_, rfl, rfl, rfl⟩ | ⟨hm, hat, rfl, rfl, rfl⟩
    · exact Or.inl (by omega)
    · exact Or.inr (inv_payload hm hat hinv' _ hinv'.1 _)
  case SW_REQ_TYPE_LF =>
    have hinv' : phase_inv b pos0 p r.token r.rlen r.narg r.rnarg .payload_lf := hinv
    simp only [req_step] at h
    obtain ⟨hat, rfl, rfl, rfl⟩ := req_lf_next h
    exact Or.inr (inv_payload_lf hp hat hinv')
  case SW_KEY_LF | SW_ARG1_LF | SW_ARG2_LF | SW_ARGN_LF =>
    have hinv' : phase_inv b pos0 p r.token r.rlen r.narg r.rnarg .payload_lf := hinv
    obtain ⟨hat, rfl, rfl, hs'⟩ := req_step_payload_lf_next (by rfl) h
    right
    rcases hs' with e | e
    · rw [e]
      exact inv_payload_lf hp hat hinv'
    · rw [e]
      exact True.intro
  case SW_FRAGMENT =>
    simp only [req_step] at h
    cases h
  case SW_SENTINEL =>
    simp only [req_step] at h
    cases h
    exact Or.inr True.intro

/-- The iteration that jumps to `done` has read a whole request. -/
theorem req_step_grammar_done {b : mbuf} {pos0 p : Nat} {s : req_sw} {r : msg} {p' : Nat}
    {s' : req_sw} {r' : msg} (hp : p < b.last) (h : req_step b p s r = .done p' s' r')
    (hinv : grammar_inv b pos0 p s r) :
    ∃ D es, all_digits D ∧ D ≠ [] ∧ (∀ e ∈ es, elem_ok e) ∧
      es.length = dec_value D % 2 ^ 32 ∧ r'.narg = es.length ∧
      b.data.drop pos0 = (header D ++ elements es) ++ b.data.drop (p' + 1) := by
  rcases hinv with hle | hinv
  · exact absurd hp (by omega)
  obtain ⟨hs, e, hat⟩ := req_step_done_shape h
  obtain ⟨e', hrn, _⟩ := req_step_done_cases h
  subst e e'
  have hinv' : phase_inv b pos0 p' r'.token r'.rlen r'.narg r'.rnarg .payload_lf := by
    cases s <;> first | exact absurd hs (by decide) | exact hinv
  obtain ⟨h0, L, B, h1, h2, h3, D, es, g1, g2, g3, g4, g5, g6⟩ := hinv'
  refine ⟨D, es ++ [(L, B)], g1, g2, ?_, ?_, ?_, ?_⟩
  · intro e he
    rcases List.mem_append.mp he with x | x
    · exact g3 e x
    · rw [List.mem_singleton.mp x]
      exact ⟨h1, h2, h3⟩
  · simp only [List.length_append, List.length_singleton]
    omega
  · simp only [List.length_append, List.length_singleton]
    omega
  · rw [g6, drop_at hp, hat, elements_snoc]
    simp [element]

/-- A call of `parse_request` entered in `SW_START` with no token open that
returns `PARSE_OK` has read a request of the grammar, with the count and the
lengths taken in 32 bits. -/
theorem req_run_ok_grammar {b : mbuf} {pos0 : Nat} {r : msg} (ht : r.token = none)
    (hok : (req_run b pos0 SW_START r).result = PARSE_OK) :
    ∃ D es, all_digits D ∧ D ≠ [] ∧ (∀ e ∈ es, elem_ok e) ∧
      es.length = dec_value D % 2 ^ 32 ∧ (req_run b pos0 SW_START r).narg = es.length ∧
      (req_run b pos0 SW_START r).pos ≤ b.last ∧
      b.data.drop pos0 =
        (header D ++ elements es) ++ b.data.drop (req_run b pos0 SW_START r).pos := by
  refine req_run_induct (b := b) (fun p s m => grammar_inv b pos0 p s m)
    (fun out => out.result = PARSE_OK →
      ∃ D es, all_digits D ∧ D ≠ [] ∧ (∀ e ∈ es, elem_ok e) ∧
        es.length = dec_value D % 2 ^ 32 ∧ out.narg = es.length ∧ out.pos ≤ b.last ∧
        b.data.drop pos0 = (header D ++ elements es) ++ b.data.drop out.pos)
    ?_ ?_ ?_ ?_ ?_ (b.last - pos0) pos0 SW_START r (Nat.le_refl _) (Or.inr ⟨rfl, ht⟩) hok
  · intro p s m p' s' m' hinv hp h
    exact req_step_grammar hp h hinv
  · intro p s m p' s' m' hinv hp h _
    obtain ⟨D, es, h1, h2, h3, h4, h5, h6⟩ := req_step_grammar_done hp h hinv
    have e := (req_step_done_shape h).2.1
    exact ⟨D, es, h1, h2, h3, h4, h5, by subst e; exact hp, h6⟩
  · intro p s m p' s' m' _ _ _ h
    exact absurd h (label_fragment_not_ok _ _)
  · intro p s m s' m' _ _ _ h
    exact absurd h (label_error_not_ok _ _)
  · intro p s m _ _ h
    exact absurd h (label_again_not_ok _ _ _ _)

theorem slice_of_drop {l X : List Nat} {s e : Nat} (he : e ≤ l.length) (hX : X ≠ [])
    (h : l.drop s = X ++ l.drop e) : s ≤ e ∧ s + X.length = e ∧ slice l s e = X := by
  have hl := congrArg List.length h
  simp only [List.length_drop, List.length_append] at hl
  have hpos : 0 < X.length := List.length_pos.mpr hX
  have h1 : s + X.length = e := by omega
  refine ⟨by omega, h1, ?_⟩
  unfold slice
  rw [h]
  have e1 : e - s = X.length := by omega
  rw [e1]
  exact List.take_left' rfl

/-! ## The loop of `parse_request` iteration by iteration -/

theorem req_iter_succ {b : mbuf} {n p : Nat} {s : req_sw} {r : msg} {x : Nat × req_sw × msg}
    (h : req_iter b (n + 1) p s r = some x) :
    p < b.last ∧ ∃ p' s' r', req_step b p s r = .next p' s' r' ∧ req_iter b n p' s' r' = some x := by
  unfold req_iter at h
  split at h
  · rename_i hp
    refine ⟨hp, ?_⟩
    split at h
    · rename_i p' s' r' hstep
      exact ⟨p', s', r', hstep, h⟩
    · cases h
  · cases h

theorem req_iter_run {b : mbuf} : ∀ (n p : Nat) (s : req_sw) (r : msg) (q : Nat) (s' : req_sw)
    (r' : msg), req_iter b n p s r = some (q, s', r') →
    req_run b p s r = req_run b q s' r' ∧ p ≤ q ∧ req_reach b p s r q s' r' := by
  intro n
  induction n with
  | zero =>
    intro p s r q s' r' h
    simp only [req_iter, Option.some.injEq, Prod.mk.injEq] at h
    obtain ⟨rfl, rfl, rfl⟩ := h
    exact ⟨rfl, Nat.le_refl _, .start⟩
  | succ n ih =>
    intro p s r q s' r' h
    obtain ⟨hp, p1, s1, r1, hstep, hrest⟩ := req_iter_succ h
    obtain ⟨h1, h2, h3⟩ := ih p1 s1 r1 q s' r' hrest
    have hb := req_step_next_bounds hp hstep
    refine ⟨?_, by omega, ?_⟩
    · rw [req_run_eq _ _ hp, hstep]
      exact h1
    · clear h1 h2 ih hrest h
      induction h3 with
      | start => exact .step .start hp hstep
      | step _ h5 h6 ih2 => exact .step ih2 h5 h6

/-- The iterations that jump over a command name, a key or a payload. -/
theorem req_step_skip_next {b : mbuf} {p : Nat} {s : req_sw} {r : msg} {p' : Nat} {s' : req_sw}
    {r' : msg} (hs : s.phase = .payload) (h : req_step b p s r = .next p' s' r') :
    (b.last ≤ p + r.rlen ∧ p' = b.last - 1 + 1) ∨
    (p + r.rlen < b.last ∧ b.at (p + r.rlen) = 13 ∧ p' = p + r.rlen + 1) := by
  cases s <;> first | exact absurd hs (by decide) | skip
  case SW_ARG1 | SW_ARG2 | SW_ARGN =>
    simp only [req_step] at h
    rcases req_arg_next h with ⟨h1, h2, _⟩ | ⟨h1, h2, h3, _⟩
    · exact Or.inl ⟨h1, h2⟩
    · exact Or.inr ⟨h1, h2, h3⟩
  case SW_REQ_TYPE =>
    simp only [req_step] at h
    split at h
    · rename_i hm
      cases h
      exact Or.inl ⟨hm, rfl⟩
    · rename_i hm
      split at h
      · cases h
      · rename_i hat
        split at h
        · cases h
        · cases h
          exact Or.inr ⟨by omega, by simpa using hat, rfl⟩
  case SW_KEY =>
    simp only [req_step] at h
    split at h
    · rename_i hm
      cases h
      exact Or.inl ⟨hm, rfl⟩
    · rename_i hm
      split at h
      · cases h
      · rename_i hat
        cases h
        exact Or.inr ⟨by omega, by simpa using hat, rfl⟩

/-- One iteration on a buffer and on the same buffer with more bytes after
`last`: the same, unless the iteration jumps to or past the end of the shorter
buffer. -/
theorem req_step_ext_skip {d T : List Nat} {x y p : Nat} (s : req_sw) (r : msg)
    (hp : p < d.length) :
    req_step (mbuf.mk (d ++ T) y) p s r = req_step (mbuf.mk d x) p s r ∨
      (s.phase = .payload ∧ d.length ≤ p + r.rlen) := by
  have hat : (mbuf.mk (d ++ T) y).at p = (mbuf.mk d x).at p := at_append_left hp
  have hl1 : (mbuf.mk d x).last = d.length := rfl
  have hl2 : (mbuf.mk (d ++ T) y).last = d.length + T.length := by simp [mbuf.last]
  cases s
  case SW_REQ_TYPE =>
    by_cases hm : p + r.rlen < d.length
    · left
      have hatm : (mbuf.mk (d ++ T) y).at (p + r.rlen) = (mbuf.mk d x).at (p + r.rlen) :=
        at_append_left hm
      simp only [req_step, hl1, hl2, hatm]
      have n1 : ¬ (p + r.rlen ≥ d.length) := by omega
      have n2 : ¬ (p + r.rlen ≥ d.length + T.length) := by omega
      simp only [n1, n2, if_false]
      by_cases hcr : (mbuf.mk d x).at (p + r.rlen) = 13
      · simp only [hcr, ne_eq, not_true_eq_false, if_false]
        rw [req_type_ext (x := x) hm hcr]
      · simp only [hcr, ne_eq, not_false_eq_true, if_true]
    · exact Or.inr ⟨rfl, by omega⟩
  case SW_KEY =>
    by_cases hm : p + r.rlen < d.length
    · left
      have hatm : (mbuf.mk (d ++ T) y).at (p + r.rlen) = (mbuf.mk d x).at (p + r.rlen) :=
        at_append_left hm
      simp only [req_step, hl1, hl2, hatm]
      have n1 : ¬ (p + r.rlen ≥ d.length) := by omega
      have n2 : ¬ (p + r.rlen ≥ d.length + T.length) := by omega
      simp only [n1, n2, if_false]
    · exact Or.inr ⟨rfl, by omega⟩
  case SW_ARG1 | SW_ARG2 | SW_ARGN =>
    by_cases hm : p + r.rlen < d.length
    · left
      have hatm : (mbuf.mk (d ++ T) y).at (p + r.rlen) = (mbuf.mk d x).at (p + r.rlen) :=
        at_append_left hm
      simp only [req_step, req_arg, hl1, hl2, hatm]
      have n1 : ¬ (p + r.rlen ≥ d.length) := by omega
      have n2 : ¬ (p + r.rlen ≥ d.length + T.length) := by omega
      simp only [n1, n2, if_false]
    · exact Or.inr ⟨rfl, by omega⟩
  all_goals (left; simp only [req_step, req_len, req_arg_len, req_lf, hat])

/-- An iteration on the longer buffer that ends at or before the end of the
shorter one is the iteration on the shorter one. -/
theorem req_step_ext_far {d T : List Nat} {x y p : Nat} {s : req_sw} {r : msg} {p' : Nat}
    {s' : req_sw} {r' : msg} (hp : p < d.length) (hT : T ≠ [])
    (h : req_step (mbuf.mk (d ++ T) y) p s r = .next p' s' r') (hle : p' ≤ d.length) :
    req_step (mbuf.mk d x) p s r = .next p' s' r' := by
  rcases req_step_ext_skip (T := T) (x := x) (y := y) s r hp with he | ⟨hs, hm⟩
  · rw [← he]
    exact h
  · exfalso
    have hl2 : (mbuf.mk (d ++ T) y).last = d.length + T.length := by simp [mbuf.last]
    have hT' : 0 < T.length := List.length_pos.mpr hT
    rcases req_step_skip_next hs h with ⟨_, h2⟩ | ⟨_, _, h3⟩
    · rw [hl2] at h2
      omega
    · omega

/-- The iterations of the parse of a buffer that end at or before the end of
a prefix of the buffer are the iterations of the parse of the prefix. -/
theorem req_iter_prefix {d T : List Nat} {x y : Nat} (hT : T ≠ []) :
    ∀ (n p : Nat) (s : req_sw) (r : msg) (q : Nat) (s' : req_sw) (r' : msg),
    req_iter (mbuf.mk (d ++ T) y) n p s r = some (q, s', r') → q ≤ d.length →
    req_iter (mbuf.mk d x) n p s r = some (q, s', r') := by
  intro n
  induction n with
  | zero =>
    intro p s r q s' r' h _
    exact h
  | succ n ih =>
    intro p s r q s' r' h hq
    obtain ⟨hp, p1, s1, r1, hstep, hrest⟩ := req_iter_succ h
    have hb := req_step_next_bounds hp hstep
    have hle := (req_iter_run n p1 s1 r1 q s' r' hrest).2.1
    have hp1 : p < d.length := by omega
    have hstep' := req_step_ext_far (x := x) hp1 hT hstep (by omega)
    have hp2 : p < (mbuf.mk d x).last := hp1
    unfold req_iter
    rw [if_pos hp2, hstep']
    exact ih p1 s1 r1 q s' r' hrest hq

/-- The invariant `grammar_inv` holds along the iterations of a call entered
in `SW_START` with no token open. -/
theorem req_iter_grammar {b : mbuf} {pos0 : Nat} :
    ∀ (n p : Nat) (s : req_sw) (r : msg) (q : Nat) (s' : req_sw) (r' : msg),
    req_iter b n p s r = some (q, s', r') → grammar_inv b pos0 p s r →
    grammar_inv b pos0 q s' r' := by
  intro n
  induction n with
  | zero =>
    intro p s r q s' r' h hinv
    simp only [req_iter, Option.some.injEq, Prod.mk.injEq] at h
    obtain ⟨rfl, rfl, rfl⟩ := h
    exact hinv
  | succ n ih =>
    intro p s r q s' r' h hinv
    obtain ⟨hp, p1, s1, r1, hstep, hrest⟩ := req_iter_succ h
    exact ih p1 s1 r1 q s' r' hrest (req_step_grammar hp hstep hinv)

theorem parse_arg_retag (q r : msg) :
    parse_arg1 { r with pos := q.pos, state := q.state, result := q.result } = parse_arg1 r ∧
    parse_arg2 { r with pos := q.pos, state := q.state, result := q.result } = parse_arg2 r ∧
    parse_arg3 { r with pos := q.pos, state := q.state, result := q.result } = parse_arg3 r ∧
    parse_argn { r with pos := q.pos, state := q.state, result := q.result } = parse_argn r ∧
    parse_argx { r with pos := q.pos, state := q.state, result := q.result } = parse_argx r :=
  ⟨rfl, rfl, rfl, rfl, rfl⟩

theorem req_step_retag (b : mbuf) (p : Nat) (s : req_sw) (q r : msg) :
    req_step b p s (retag q r) = (req_step b p s r).map (retag q) := by
  cases s <;>
    simp only [req_step, req_len, req_arg_len, req_arg, req_lf, retag, (parse_arg_retag q r).1,
      (parse_arg_retag q r).2.1, (parse_arg_retag q r).2.2.1, (parse_arg_retag q r).2.2.2.1,
      (parse_arg_retag q r).2.2.2.2] <;>
    (repeat' split) <;> rfl

/-- The fields `pos`, `state` and `result` of the message on entry do not
matter for a call of `parse_request` that returns `PARSE_OK`. -/
theorem req_run_retag {b : mbuf} (q : msg) : ∀ (n p : Nat) (s : req_sw) (r : msg),
    b.last - p ≤ n → (req_run b p s r).result = PARSE_OK →
    req_run b p s (retag q r) = req_run b p s r := by
  intro n
  induction n with
  | zero =>
    intro p s r hn hok
    rw [req_run_end _ _ (by omega)] at hok
    exact absurd hok (label_again_not_ok _ _ _ _)
  | succ n ih =>
    intro p s r hn hok
    by_cases hp : p < b.last
    · rw [req_run_eq _ _ hp] at hok ⊢
      rw [req_run_eq _ _ hp, req_step_retag]
      cases hstep : req_step b p s r with
      | next p' s' r' =>
        rw [hstep] at hok
        have hb := req_step_next_bounds hp hstep
        exact ih p' s' r' (by omega) hok
      | done => rfl
      | fragment p' s' r' =>
        rw [hstep] at hok
        exact absurd hok (label_fragment_not_ok _ _)
      | error s' r' =>
        rw [hstep] at hok
        cases hok
    · rw [req_run_end _ _ (by omega)] at hok
      exact absurd hok (label_again_not_ok _ _ _ _)

/-- The capacity of the buffer does not matter for a call of `parse_request`
that returns `PARSE_OK`. -/
theorem req_run_size {d : List Nat} {x y p : Nat} {s : req_sw} {r : msg}
    (hok : (req_run (mbuf.mk d x) p s r).result = PARSE_OK) :
    req_run (mbuf.mk d y) p s r = req_run (mbuf.mk d x) p s r := by
  have h := req_run_ext (T := []) (y := y) (d.length - p) p s r (Nat.le_refl _) hok
  rw [List.append_nil] at h
  exact h

/-- A call that stands at the first byte `q` of the payload of a trailing
argument, when the buffer ends inside the payload or right after it: the call
returns `PARSE_AGAIN`, keeps its state and leaves in `rlen` the number of
payload bytes that lie beyond the buffer. -/
theorem req_run_arg_again {S1 : List Nat} {x q : Nat} {s : req_sw} {m : msg}
    (hs : s = SW_ARG1 ∨ s = SW_ARG2 ∨ s = SW_ARGN) (ht : m.token = none)
    (hrl : m.rlen < 2 ^ 32) (hq : q ≤ S1.length) (hcut : S1.length ≤ q + m.rlen) :
    req_run ⟨S1, x⟩ q s m =
      { m with rlen := q + m.rlen - S1.length, pos := S1.length, state := s.to_int,
               result := PARSE_AGAIN } := by
  by_cases hlt : q < S1.length
  · have hp : q < (mbuf.mk S1 x).last := hlt
    have hl : (mbuf.mk S1 x).last = S1.length := rfl
    have hm : q + m.rlen ≥ S1.length := hcut
    have hpin : S1.length - 1 + 1 = S1.length := by omega
    have hsub : sub32 m.rlen (S1.length - q) = q + m.rlen - S1.length := by
      rw [sub32_eq hrl (by omega)]
      omega
    rw [req_run_eq _ _ hp]
    rcases hs with rfl | rfl | rfl
    all_goals
      simp only [req_step, req_arg, hl, hm, if_true, hpin, hsub]
      rw [req_run_end (b := mbuf.mk S1 x) (p := S1.length) _ _ (Nat.le_refl _)]
      simp only [label_again, ht, hl]
  · have e : q = S1.length := by omega
    subst e
    rw [req_run_end (b := mbuf.mk S1 x) (p := S1.length) _ _ (Nat.le_refl _)]
    have e2 : S1.length + m.rlen - S1.length = m.rlen := by omega
    simp only [label_again, ht, e2]

/-- The call after `req_run_arg_again`, on a buffer that holds the bytes of
the first call and more: it ends as the one-call parse does. -/
theorem req_run_arg_resume {S1 S2 : List Nat} {c y q : Nat} {s : req_sw} {m m1 : msg}
    (hs : s = SW_ARG1 ∨ s = SW_ARG2 ∨ s = SW_ARGN)
    (hcut : S1.length ≤ q + m.rlen)
    (hfirst : m1 =
      { m with rlen := q + m.rlen - S1.length, pos := S1.length, state := s.to_int,
               result := PARSE_AGAIN })
    (hok : (req_run ⟨S1 ++ S2, c⟩ q s m).result = PARSE_OK) :
    req_run ⟨S1 ++ S2, y⟩ S1.length s m1 = req_run ⟨S1 ++ S2, c⟩ q s m := by
  have hl : ∀ z, (mbuf.mk (S1 ++ S2) z).last = (S1 ++ S2).length := fun _ => rfl
  have hat : ∀ z k, (mbuf.mk (S1 ++ S2) z).at k = (mbuf.mk (S1 ++ S2) c).at k := fun _ _ => rfl
  have hqlt : q < (S1 ++ S2).length := by
    by_contra hge
    rw [req_run_end _ _ (by rw [hl]; omega)] at hok
    exact absurd hok (label_again_not_ok _ _ _ _)
  have hmlt : q + m.rlen < (S1 ++ S2).length := by
    by_contra hge
    have hge' : q + m.rlen ≥ (S1 ++ S2).length := by omega
    have hpin : (S1 ++ S2).length - 1 + 1 = (S1 ++ S2).length := by omega
    rw [req_run_eq _ _ (by rw [hl]; exact hqlt)] at hok
    rcases hs with rfl | rfl | rfl
    all_goals
      simp only [req_step, req_arg, hl, hge', if_true, hpin] at hok
      rw [req_run_end (b := mbuf.mk (S1 ++ S2) c) (p := (S1 ++ S2).length) _ _ (Nat.le_refl _)] at hok
      exact absurd hok (label_again_not_ok _ _ _ _)
  have hnm : ¬ (q + m.rlen ≥ (S1 ++ S2).length) := by omega
  have hm2 : S1.length + m1.rlen = q + m.rlen := by
    rw [hfirst]
    show S1.length + (q + m.rlen - S1.length) = q + m.rlen
    omega
  have hp2 : S1.length < (S1 ++ S2).length := by omega
  rw [req_run_eq (p := q) _ _ (by rw [hl]; exact hqlt)] at hok ⊢
  rw [req_run_eq (p := S1.length) _ _ (by rw [hl]; exact hp2)]
  rcases hs with rfl | rfl | rfl
  all_goals
    simp only [req_step, req_arg, hl, hm2, hnm, if_false, hat y] at hok ⊢
    by_cases hcr : (mbuf.mk (S1 ++ S2) c).at (q + m.rlen) ≠ 13
    · rw [if_pos hcr] at hok
      cases hok
    · rw [if_neg hcr] at hok ⊢
      rw [if_neg hcr]
      simp only at hok ⊢
      have e : ({ m1 with rlen := 0 } : msg) = retag m1 { m with rlen := 0 } := by
        rw [hfirst]
        rfl
      rw [e, req_run_size (x := c) (y := y) (by rw [req_run_retag _ _ _ _ _ (Nat.le_refl _) hok]; exact hok),
        req_run_retag _ _ _ _ _ (Nat.le_refl _) hok]

/-! ## A call on a proper prefix of a request -/

/-- Outside the states that read a count, a length, a command name or a key
no token is open. -/
theorem req_step_no_token {b : mbuf} {p : Nat} {s : req_sw} {r : msg} {p' : Nat} {s' : req_sw}
    {r' : msg} (h : req_step b p s r = .next p' s' r')
    (hinv : opens_token s = false → r.token = none) :
    opens_token s' = false → r'.token = none := by
  cases s <;> simp only [req_step, req_len, req_arg_len, req_arg, req_lf] at h <;>
    (repeat' split at h) <;> cases h <;> simp_all [opens_token, len_state]

/-- A call from `SW_START` with no token open on a proper prefix of a request
that the one-call parse frames up to its last byte. -/
theorem req_run_prefix {P S2 : List Nat} {c z p0 : Nat} {r : msg} (hS2 : S2 ≠ [])
    (ht : r.token = none)
    (hok : (req_run ⟨P ++ S2, c⟩ p0 SW_START r).result = PARSE_OK)
    (hend : (req_run ⟨P ++ S2, c⟩ p0 SW_START r).pos = (P ++ S2).length) :
    ((req_run ⟨P, z⟩ p0 SW_START r).result = PARSE_AGAIN ∨
      (req_run ⟨P, z⟩ p0 SW_START r).result = PARSE_REPAIR) ∧
    ((req_run ⟨P, z⟩ p0 SW_START r).result = PARSE_REPAIR →
      z = P.length ∧ opens_token (req_sw.of_int (req_run ⟨P, z⟩ p0 SW_START r).state) = true ∧
      (req_run ⟨P, z⟩ p0 SW_START r).pos < P.length) := by
  generalize hone : req_run ⟨P ++ S2, c⟩ p0 SW_START r = one at hok hend
  have hS2' : 0 < S2.length := List.length_pos.mpr hS2
  refine req_run_induct (b := ⟨P, z⟩)
    (fun p s m =>
      (p < P.length → req_run ⟨P ++ S2, c⟩ p s m = one) ∧
      (opens_token s = false → m.token = none) ∧
      (∀ x, m.token = some x → x < P.length))
    (fun out => (out.result = PARSE_AGAIN ∨ out.result = PARSE_REPAIR) ∧
      (out.result = PARSE_REPAIR →
        z = P.length ∧ opens_token (req_sw.of_int out.state) = true ∧ out.pos < P.length))
    ?_ ?_ ?_ ?_ ?_ _ p0 SW_START r (Nat.le_refl _) ⟨fun _ => hone, fun _ => ht, ?_⟩
  · intro p s m p' s' m' ⟨hA, hB, hC⟩ hp hstep
    have hp1 : p < P.length := hp
    have hp2 : p < (mbuf.mk (P ++ S2) c).last := by
      simp only [mbuf.last, List.length_append]
      omega
    refine ⟨fun hp' => ?_, req_step_no_token hstep hB, fun x hx => ?_⟩
    · rcases req_step_ext (T := S2) (x := z) (y := c) s m hp1 with he | ⟨s'', r'', hpin⟩
      · have hrun := hA hp1
        rw [req_run_eq _ _ hp2, he, hstep] at hrun
        exact hrun
      · rw [hstep] at hpin
        cases hpin
        omega
    · rcases req_step_token hstep x hx with ⟨_, h2, _⟩ | ⟨h1, _⟩ | ⟨h1, _⟩
      · omega
      · exact hC x h1
      · exact hC x h1
  · intro p s m p' s' m' ⟨hA, _, _⟩ hp hstep
    exfalso
    have hp1 : p < P.length := hp
    have hp2 : p < (mbuf.mk (P ++ S2) c).last := by
      simp only [mbuf.last, List.length_append]
      omega
    rcases req_step_ext (T := S2) (x := z) (y := c) s m hp1 with he | ⟨s'', r'', hpin⟩
    · have hrun := hA hp1
      rw [req_run_eq _ _ hp2, he, hstep] at hrun
      have e := (req_step_done_shape hstep).2.1
      subst e
      rw [← hrun] at hend
      simp only [label_done, List.length_append] at hend
      omega
    · rw [hstep] at hpin
      cases hpin
  · intro p s m p' s' m' ⟨hA, _, _⟩ hp hstep
    exfalso
    have hp1 : p < P.length := hp
    have hp2 : p < (mbuf.mk (P ++ S2) c).last := by
      simp only [mbuf.last, List.length_append]
      omega
    rcases req_step_ext (T := S2) (x := z) (y := c) s m hp1 with he | ⟨s'', r'', hpin⟩
    · have hrun := hA hp1
      rw [req_run_eq _ _ hp2, he, hstep] at hrun
      rw [← hrun] at hok
      exact absurd hok (label_fragment_not_ok _ _)
    · rw [hstep] at hpin
      cases hpin
  · intro p s m s' m' ⟨hA, _, _⟩ hp hstep
    exfalso
    have hp1 : p < P.length := hp
    have hp2 : p < (mbuf.mk (P ++ S2) c).last := by
      simp only [mbuf.last, List.length_append]
      omega
    rcases req_step_ext (T := S2) (x := z) (y := c) s m hp1 with he | ⟨s'', r'', hpin⟩
    · have hrun := hA hp1
      rw [req_run_eq _ _ hp2, he, hstep] at hrun
      rw [← hrun] at hok
      exact absurd hok (label_error_not_ok _ _)
    · rw [hstep] at hpin
      cases hpin
  · intro p s m ⟨_, hB, hC⟩ hp
    cases htok : m.token with
    | none =>
      have e : label_again ⟨P, z⟩ p s.to_int m =
          { m with pos := p, state := s.to_int, result := PARSE_AGAIN } := by
        simp only [label_again, htok]
      rw [e]
      exact ⟨Or.inl rfl, fun h => absurd (show PARSE_AGAIN = PARSE_REPAIR from h) (by decide)⟩
    | some x =>
      by_cases hfull : (mbuf.mk P z).full = true
      · have e : label_again ⟨P, z⟩ p s.to_int m =
            { m with pos := x, state := s.to_int, token := none, result := PARSE_REPAIR } := by
          simp only [label_again, htok, hfull, if_true]
        rw [e]
        refine ⟨Or.inr rfl, fun _ => ⟨?_, ?_, hC x htok⟩⟩
        · simp only [mbuf.full, mbuf.last, beq_iff_eq] at hfull
          exact hfull.symm
        · show opens_token (req_sw.of_int s.to_int) = true
          rw [req_of_int_to_int]
          by_contra hno
          have := hB (by simpa using hno)
          rw [htok] at this
          cases this
      · have e : label_again ⟨P, z⟩ p s.to_int m =
            { m with pos := p, state := s.to_int, result := PARSE_AGAIN } := by
          simp only [label_again, htok, hfull]
          rfl
        rw [e]
        exact ⟨Or.inl rfl, fun h => absurd (show PARSE_AGAIN = PARSE_REPAIR from h) (by decide)⟩
  · intro x hx
    rw [ht] at hx
    cases hx

/-! ## A multi-key command with one key -/

/-- From the `LF` that ends the key of a command of class ArgX with no element
left to read: the request is framed there, whatever follows. -/
theorem req_run_tail_argx_done {b : mbuf} {q : Nat} {r : msg} {rest : List Nat}
    (hcls : arity_of r.type = some .ArgX) (hrn : r.rnarg = 0)
    (h : b.data.drop q = 10 :: rest) :
    req_run b q SW_KEY_LF r = label_done q r := by
  obtain ⟨hp, hat, _⟩ := buf_cons h
  obtain ⟨_, _, _, _, cx, _⟩ := parse_arg_of_arity r.type
  obtain ⟨x1, x2, x3, xn, xx⟩ := cx hcls
  rw [req_run_eq _ _ hp]
  simp only [req_step, hat, if_true]
  rw [parse_arg1_type, parse_arg2_type, parse_arg3_type, parse_argn_type, parse_argx_type,
    x1, x2, x3, xn, xx]
  simp only [Bool.false_eq_true, if_false, if_true, hrn]

/-! ## A length field without a digit -/

/-- In `SW_ARG1_LEN`, `SW_ARG2_LEN` and `SW_ARGN_LEN` a length field `$\r`
with no digit is rejected at its `CR`. -/
theorem req_run_arg_len_nodigit {b : mbuf} {p : Nat} {s : req_sw} {m : msg} {rest : List Nat}
    (hs : s = SW_ARG1_LEN ∨ s = SW_ARG2_LEN ∨ s = SW_ARGN_LEN) (ht : m.token = none)
    (h : b.data.drop p = 36 :: 13 :: rest) :
    req_run b p s m = label_error s.to_int { m with rlen := 0, token := some p } := by
  obtain ⟨hp, hat, h1⟩ := buf_cons h
  obtain ⟨hp1, hat1, _⟩ := buf_cons h1
  have hle : p + 1 - p ≤ 1 := by omega
  rw [req_run_eq _ _ hp]
  rcases hs with rfl | rfl | rfl
  all_goals
    simp only [req_step, req_arg_len, ht, hat, ne_eq, not_true_eq_false, if_false]
    rw [req_run_eq _ _ hp1]
    simp only [req_step, req_arg_len, hat1, isdigit_13, Bool.false_eq_true, if_false, if_true,
      hle, true_or]

/-! ## A `-` in the length field of a bulk reply -/

/-- A bulk reply whose length field holds a `-` after any digits: the digits
are read, the rest of the line is skipped in `SW_RUNTO_CRLF` and the reply is
framed at the `LF`. -/
theorem rsp_run_bulk_minus {b : mbuf} {p : Nat} {r : msg} {D t rest : List Nat}
    (ht : r.token = none) (hD : all_digits D) (hcr : ∀ x ∈ t, x ≠ 13)
    (h : b.data.drop p = 36 :: (D ++ 45 :: (t ++ 13 :: 10 :: rest))) :
    rsp_run b p .SW_BULK r =
      label_done (p + D.length + t.length + 3)
        { r with token := some p, rlen := dec_value D % 2 ^ 32 } := by
  obtain ⟨hp, hat, h1⟩ := buf_cons h
  rw [rsp_run_eq _ _ hp]
  simp only [rsp_step, hat, ht]
  simp only [ne_eq, not_true_eq_false, if_false]
  rw [rsp_run_digits (s := .SW_BULK) (I := fun r => r.token = some p)
    (u := fun r d => { r with rlen := accum r.rlen d }) ?_ ?_ D _ (p + 1) _ ?_ hD h1]
  · obtain ⟨hp2, hat2, h2⟩ := buf_jump h1
    rw [rsp_run_eq _ _ hp2]
    simp only [rsp_step, hat2, foldl_rlen, foldl_accum_zero, if_true]
    rw [rsp_run_runto t (p + 1 + D.length + 1) hcr h2]
    congr 1
    omega
  · intro p' r d hr hd hat
    simp [rsp_step, hat, hr, hd, isdigit_ne_45 hd]
  · intro r d hr; exact hr
  · simp

/-! ## The test for the nil element of a multibulk reply -/

/-- The four iterations of `SW_MULTIBULK_ARGN_LEN` over an element header
`$xy\r` of two bytes, each a digit or `-`: the header is taken for the nil
sentinel, and the machine goes to `SW_MULTIBULK_ARGN_LF`, exactly when the two
bytes are `-1`, `1-` or `01`. -/
theorem rsp_reach_mb_len_two {b : mbuf} {p x y : Nat} {r : msg} {rest : List Nat}
    (ht : r.token = none) (hr : r.rnarg ≠ 0)
    (h : b.data.drop p = 36 :: x :: y :: 13 :: rest)
    (hx : isdigit x = true ∨ x = 45) (hy : isdigit y = true ∨ y = 45) :
    ∃ r', rsp_reach b p .SW_MULTIBULK_ARGN_LEN r (p + 4)
      (if (x = 45 ∧ y = 49) ∨ (x = 49 ∧ y = 45) ∨ (x = 48 ∧ y = 49)
        then rsp_sw.SW_MULTIBULK_ARGN_LF else rsp_sw.SW_MULTIBULK_ARGN_LEN_LF) r' := by
  obtain ⟨hp0, hat0, h1⟩ := buf_cons h
  obtain ⟨hp1, hat1, h2⟩ := buf_cons h1
  obtain ⟨hp2, hat2, h3⟩ := buf_cons h2
  obtain ⟨hp3, hat3, _⟩ := buf_cons h3
  have e2 : 2 ^ 32 = 4294967296 := by norm_num
  have s0 : rsp_step b p .SW_MULTIBULK_ARGN_LEN r =
      .next (p + 1) .SW_MULTIBULK_ARGN_LEN { r with token := some p, rlen := 0 } := by
    simp [rsp_step, hat0, ht]
  have hle : ¬ (p + 1 + 1 + 1 - p ≤ 1) := by omega
  have h3eq : p + 1 + 1 + 1 - p = 3 := by omega
  have key : ∀ v : Nat, ∃ r', rsp_step b (p + 1 + 1 + 1) .SW_MULTIBULK_ARGN_LEN
      { r with token := some p, rlen := v } =
      .next (p + 1 + 1 + 1 + 1)
        (if v = 1 then rsp_sw.SW_MULTIBULK_ARGN_LF else rsp_sw.SW_MULTIBULK_ARGN_LEN_LF) r' := by
    intro v
    by_cases hv : v = 1
    · refine ⟨{ r with rlen := 0, rnarg := r.rnarg - 1, token := none }, ?_⟩
      simp [rsp_step, hat3, isdigit_13, hr, hv, h3eq]
    · refine ⟨{ r with rlen := v, rnarg := r.rnarg - 1, token := none }, ?_⟩
      simp [rsp_step, hat3, isdigit_13, hr, hv, h3eq]
  have hdig : ∀ (q d v : Nat), b.at q = d → isdigit d = true →
      rsp_step b q .SW_MULTIBULK_ARGN_LEN { r with token := some p, rlen := v } =
      .next (q + 1) .SW_MULTIBULK_ARGN_LEN { r with token := some p, rlen := accum v d } := by
    intro q d v hq hd
    simp [rsp_step, hq, hd]
  have hmin : ∀ (q v : Nat), b.at q = 45 →
      rsp_step b q .SW_MULTIBULK_ARGN_LEN { r with token := some p, rlen := v } =
      .next (q + 1) .SW_MULTIBULK_ARGN_LEN { r with token := some p, rlen := v } := by
    intro q v hq
    simp [rsp_step, hq, show isdigit 45 = false by decide]
  have hdx : ∀ d, isdigit d = true → 48 ≤ d ∧ d ≤ 57 := by
    intro d hd
    simpa [isdigit] using hd
  -- the value of `rlen` at the `CR` and the state that follows
  have main : ∀ v : Nat, (v = 1 ↔ ((x = 45 ∧ y = 49) ∨ (x = 49 ∧ y = 45) ∨ (x = 48 ∧ y = 49))) →
      rsp_reach b p .SW_MULTIBULK_ARGN_LEN r (p + 1 + 1 + 1) .SW_MULTIBULK_ARGN_LEN
        { r with token := some p, rlen := v } →
      ∃ r', rsp_reach b p .SW_MULTIBULK_ARGN_LEN r (p + 4)
        (if (x = 45 ∧ y = 49) ∨ (x = 49 ∧ y = 45) ∨ (x = 48 ∧ y = 49)
          then rsp_sw.SW_MULTIBULK_ARGN_LF else rsp_sw.SW_MULTIBULK_ARGN_LEN_LF) r' := by
    intro v hv hreach
    obtain ⟨r', hstep⟩ := key v
    refine ⟨r', ?_⟩
    have := rsp_reach.step hreach hp3 hstep
    by_cases hc : (x = 45 ∧ y = 49) ∨ (x = 49 ∧ y = 45) ∨ (x = 48 ∧ y = 49)
    · rw [if_pos hc]
      rw [if_pos (hv.mpr hc)] at this
      exact this
    · rw [if_neg hc]
      rw [if_neg (fun e => hc (hv.mp e))] at this
      exact this
  have r0 : rsp_reach b p .SW_MULTIBULK_ARGN_LEN r (p + 1) .SW_MULTIBULK_ARGN_LEN
      { r with token := some p, rlen := 0 } := .step .start hp0 s0
  rcases hx with hx | hx <;> rcases hy with hy | hy
  · have a1 := rsp_reach.step r0 hp1 (hdig (p + 1) x 0 hat1 hx)
    have a2 := rsp_reach.step a1 hp2 (hdig (p + 1 + 1) y _ hat2 hy)
    refine main _ ?_ a2
    have bx := hdx x hx
    have by' := hdx y hy
    unfold accum
    rw [e2]
    have m1 : (0 * 10 + (x - 48)) % 4294967296 = x - 48 := by omega
    have m2 : ((x - 48) * 10 + (y - 48)) % 4294967296 = (x - 48) * 10 + (y - 48) := by omega
    rw [m1, m2]
    constructor
    · intro hv
      omega
    · rintro (⟨a, c⟩ | ⟨a, c⟩ | ⟨a, c⟩) <;> omega
  · have a1 := rsp_reach.step r0 hp1 (hdig (p + 1) x 0 hat1 hx)
    have a2 := rsp_reach.step a1 hp2 (hmin (p + 1 + 1) _ (hat2.trans hy))
    refine main _ ?_ a2
    have bx := hdx x hx
    unfold accum
    rw [e2]
    have m1 : (0 * 10 + (x - 48)) % 4294967296 = x - 48 := by omega
    rw [m1]
    constructor
    · intro hv
      omega
    · rintro (⟨a, c⟩ | ⟨a, c⟩ | ⟨a, c⟩) <;> omega
  · have a1 := rsp_reach.step r0 hp1 (hmin (p + 1) 0 (hat1.trans hx))
    have a2 := rsp_reach.step a1 hp2 (hdig (p + 1 + 1) y _ hat2 hy)
    refine main _ ?_ a2
    have by' := hdx y hy
    unfold accum
    rw [e2]
    have m1 : (0 * 10 + (y - 48)) % 4294967296 = y - 48 := by omega
    rw [m1]
    constructor
    · intro hv
      omega
    · rintro (⟨a, c⟩ | ⟨a, c⟩ | ⟨a, c⟩) <;> omega
  · have a1 := rsp_reach.step r0 hp1 (hmin (p + 1) 0 (hat1.trans hx))
    have a2 := rsp_reach.step a1 hp2 (hmin (p + 1 + 1) _ (hat2.trans hy))
    refine main _ ?_ a2
    constructor
    · intro hv
      omega
    · rintro (⟨a, c⟩ | ⟨a, c⟩ | ⟨a, c⟩) <;> omega

/-! ## The cursor and the counters stay in range -/

/-- Whatever an iteration of `parse_request` leaves in `rlen` fits in 32
bits. -/
theorem req_step_rlen {b : mbuf} {p : Nat} {s : req_sw} {r : msg} {p' : Nat} {s' : req_sw}
    {r' : msg} (hr : r.rlen < 2 ^ 32) (h : req_step b p s r = .next p' s' r') :
    r'.rlen < 2 ^ 32 := by
  cases s <;> simp only [req_step, req_len, req_arg_len, req_arg, req_lf] at h <;>
    (repeat' split at h) <;> cases h <;>
    first | exact hr | exact accum_lt _ _ | exact sub32_lt _ _ | exact Nat.two_pow_pos 32

theorem req_step_rlen_fragment {b : mbuf} {p : Nat} {s : req_sw} {r : msg} {p' : Nat}
    {s' : req_sw} {r' : msg} (hr : r.rlen < 2 ^ 32) (h : req_step b p s r = .fragment p' s' r') :
    r'.rlen < 2 ^ 32 := by
  cases s <;> simp only [req_step, req_len, req_arg_len, req_arg, req_lf] at h <;>
    (repeat' split at h) <;> first | (cases h; exact hr) | cases h

theorem req_step_rlen_error {b : mbuf} {p : Nat} {s : req_sw} {r : msg}
    {s' : req_sw} {r' : msg} (hr : r.rlen < 2 ^ 32) (h : req_step b p s r = .error s' r') :
    r'.rlen < 2 ^ 32 := by
  cases s <;> simp only [req_step, req_len, req_arg_len, req_arg, req_lf] at h <;>
    (repeat' split at h) <;> cases h <;>
    first | exact hr | exact accum_lt _ _ | exact sub32_lt _ _ | exact Nat.two_pow_pos 32

theorem label_again_rlen (b : mbuf) (p s : Nat) (r : msg) :
    (label_again b p s r).rlen = r.rlen := by
  unfold label_again
  split
  · split <;> rfl
  · rfl

theorem label_fragment_rlen (s : Nat) (r : msg) : (label_fragment s r).rlen = r.rlen := by
  unfold label_fragment
  split <;> rfl

/-- A call of `parse_request` keeps `rlen` within 32 bits. -/
theorem req_run_rlen {b : mbuf} {p : Nat} {s : req_sw} {r : msg} (hr : r.rlen < 2 ^ 32) :
    (req_run b p s r).rlen < 2 ^ 32 := by
  refine req_run_induct (b := b) (fun _ _ m => m.rlen < 2 ^ 32) (fun out => out.rlen < 2 ^ 32)
    ?_ ?_ ?_ ?_ ?_ (b.last - p) p s r (Nat.le_refl _) hr
  · intro p s m p' s' m' h _ hstep
    exact req_step_rlen h hstep
  · intro p s m p' s' m' h _ hstep
    obtain ⟨e, _, _⟩ := req_step_done_cases hstep
    subst e
    exact h
  · intro p s m p' s' m' h _ hstep
    rw [label_fragment_rlen]
    exact req_step_rlen_fragment h hstep
  · intro p s m s' m' h _ hstep
    show m'.rlen < 2 ^ 32
    exact req_step_rlen_error h hstep
  · intro p s m h _
    rw [label_again_rlen]
    exact h

/-- Earlier calls keep `rlen` within 32 bits. -/
theorem req_calls_rlen : ∀ (cs : List (mbuf × Nat)) (r : msg), r.rlen < 2 ^ 32 →
    (req_calls r cs).rlen < 2 ^ 32 := by
  intro cs
  induction cs with
  | nil =>
    intro r h
    exact h
  | cons c cs ih =>
    intro r h
    show (req_calls (parse_request { r with pos := c.2 } c.1) cs).rlen < 2 ^ 32
    refine ih _ ?_
    rw [parse_request_eq]
    exact req_run_rlen h

/-- The configurations that the loop of `parse_request` passes through keep
the cursor between the entry position and `last`, and `rlen` within 32
bits. -/
theorem req_reach_bounds {b : mbuf} {p0 : Nat} {s0 : req_sw} {r0 : msg} (hpos : p0 ≤ b.last)
    (h32 : r0.rlen < 2 ^ 32) {q : Nat} {s : req_sw} {m : msg}
    (h : req_reach b p0 s0 r0 q s m) : p0 ≤ q ∧ q ≤ b.last ∧ m.rlen < 2 ^ 32 := by
  induction h with
  | start => exact ⟨Nat.le_refl _, hpos, h32⟩
  | step _ hp hstep ih =>
    have hb := req_step_next_bounds hp hstep
    exact ⟨by omega, hb.2, req_step_rlen ih.2.2 hstep⟩

/-- The skip of `SW_ARG1`, `SW_ARG2` and `SW_ARGN` past the end of the filled
region: the bytes left in the buffer are at most `rlen`, so the subtraction
does not wrap around. -/
theorem req_step_arg_skip {b : mbuf} {q : Nat} {s : req_sw} {m : msg}
    (hs : s = SW_ARG1 ∨ s = SW_ARG2 ∨ s = SW_ARGN) (h32 : m.rlen < 2 ^ 32) (hq : q < b.last)
    (hm : b.last ≤ q + m.rlen) :
    b.last - q ≤ m.rlen ∧ (b.last - q) % 2 ^ 32 ≤ m.rlen ∧
    sub32 m.rlen (b.last - q) = m.rlen - (b.last - q) ∧
    req_step b q s m = .next b.last s { m with rlen := m.rlen - (b.last - q) } := by
  have h1 : b.last - q ≤ m.rlen := by omega
  have h2 : sub32 m.rlen (b.last - q) = m.rlen - (b.last - q) := sub32_eq h32 h1
  have h3 : b.last - 1 + 1 = b.last := by omega
  refine ⟨h1, Nat.le_trans (Nat.mod_le _ _) h1, h2, ?_⟩
  rcases hs with rfl | rfl | rfl <;>
    simp only [req_step, req_arg, ge_iff_le, hm, if_true, h2, h3]

/-- The tags of the command table lie strictly between `MSG_UNKNOWN` and the
first response tag. -/
theorem arity_tag_range (t : msg_type_t) (a : arity_class) (h : arity_of t = some a) :
    MSG_UNKNOWN.to_int < t.to_int ∧ t.to_int < MSG_RSP_REDIS_STATUS.to_int ∧
    t.to_int < MSG_SENTINEL.to_int := by
  cases t <;> first | (cases h; done) | decide

/-- A call of `parse_request` that returns `PARSE_OK` has moved `pos` forward,
not past `last`, and has stored the tag of a command of the table. -/
theorem req_run_ok_range {b : mbuf} {p0 : Nat} {s0 : req_sw} {r0 : msg}
    (hok : (req_run b p0 s0 r0).result = PARSE_OK) :
    p0 < (req_run b p0 s0 r0).pos ∧ (req_run b p0 s0 r0).pos ≤ b.last ∧
    ∃ a, arity_of (req_run b p0 s0 r0).type = some a := by
  refine req_run_induct (b := b) (fun p _ _ => p0 ≤ p)
    (fun out => out.result = PARSE_OK → p0 < out.pos ∧ out.pos ≤ b.last ∧
      ∃ a, arity_of out.type = some a)
    ?_ ?_ ?_ ?_ ?_ (b.last - p0) p0 s0 r0 (Nat.le_refl _) (Nat.le_refl _) hok
  · intro p s m p' s' m' h hp hstep
    have hb := req_step_next_bounds hp hstep
    omega
  · intro p s m p' s' m' h hp hstep _
    obtain ⟨e, _, hc⟩ := req_step_done_cases hstep
    obtain ⟨_, e2, _⟩ := req_step_done_shape hstep
    subst e e2
    have hA := arity_of_parse m'.type
    refine ⟨?_, ?_, ?_⟩
    · show p0 < p' + 1
      omega
    · show p' + 1 ≤ b.last
      omega
    · show ∃ a, arity_of m'.type = some a
      rcases hc with ⟨_, h1 | h1⟩ | ⟨_, h1 | h1⟩ | ⟨_, h1 | h1⟩ | ⟨_, h1⟩
      · exact ⟨_, hA.1 h1⟩
      · exact ⟨_, hA.2.2.2.2 h1⟩
      · exact ⟨_, hA.2.1 h1⟩
      · exact ⟨_, hA.2.2.2.1 h1⟩
      · exact ⟨_, hA.2.2.1 h1⟩
      · exact ⟨_, hA.2.2.2.1 h1⟩
      · exact ⟨_, hA.2.2.2.1 h1⟩
  · intro p s m p' s' m' _ _ _ h
    exact absurd h (label_fragment_not_ok _ _)
  · intro p s m s' m' _ _ _ h
    exact absurd h (label_error_not_ok _ _)
  · intro p s m _ _ h
    exact absurd h (label_again_not_ok _ _ _ _)

/-- The code after the loop stores the cursor when it returns
`PARSE_AGAIN`. -/
theorem label_again_pos {b : mbuf} {p s : Nat} {r : msg}
    (h : (label_again b p s r).result = PARSE_AGAIN) : (label_again b p s r).pos = p := by
  unfold label_again at h ⊢
  cases ht : r.token with
  | none => rfl
  | some t =>
    simp only [ht] at h ⊢
    by_cases hf : b.full = true
    · simp only [hf, if_true] at h
      cases h
    · simp only [hf]
      rfl

/-! ## The loop of `parse_response` iteration by iteration -/

theorem rsp_iter_succ {b : mbuf} {n p : Nat} {s : rsp_sw} {r : msg} {x : Nat × rsp_sw × msg}
    (h : rsp_iter b (n + 1) p s r = some x) :
    p < b.last ∧ ∃ p' s' r', rsp_step b p s r = .next p' s' r' ∧ rsp_iter b n p' s' r' = some x := by
  unfold rsp_iter at h
  split at h
  · rename_i hp
    refine ⟨hp, ?_⟩
    split at h
    · rename_i p' s' r' hstep
      exact ⟨p', s', r', hstep, h⟩
    · cases h
  · cases h

theorem rsp_iter_next {b : mbuf} {n p : Nat} {s : rsp_sw} {r : msg} {p' : Nat} {s' : rsp_sw}
    {r' : msg} (hp : p < b.last) (h : rsp_step b p s r = .next p' s' r') :
    rsp_iter b (n + 1) p s r = rsp_iter b n p' s' r' := by
  simp only [rsp_iter, hp, if_true, h]

/-- An iteration in `SW_START` that ends with `break` has stepped the cursor
back: the next iteration starts at the same byte. -/
theorem rsp_step_start_back {b : mbuf} {p : Nat} {r : msg} {p' : Nat} {s' : rsp_sw} {r' : msg}
    (h : rsp_step b p .SW_START r = .next p' s' r') : p' = p := by
  simp only [rsp_step] at h
  (repeat' split at h) <;> cases h <;> rfl

/-- No iteration of `parse_response` jumps to a label `fragment`. -/
theorem rsp_step_no_fragment {b : mbuf} {p : Nat} {s : rsp_sw} {r : msg} {p' : Nat} {s' : rsp_sw}
    {r' : msg} : rsp_step b p s r ≠ .fragment p' s' r' := by
  intro h
  cases s <;> simp only [rsp_step] at h <;> (repeat' split at h) <;> cases h

/-- The iteration in `SW_START` and the one after it: either the first byte
is none of `+`, `-`, `:`, `$` and `*` and the call ends at `error`, or the
cursor is stepped back, the state is no longer `SW_START`, and the next
iteration consumes the byte (or ends at `error`, which needs a token left open
on entry). -/
theorem rsp_step_start_cases (b : mbuf) (p : Nat) (m : msg) :
    (∃ m', rsp_step b p .SW_START m = .error .SW_START m') ∨
    (∃ s' m', rsp_step b p .SW_START m = .next p s' m' ∧ s' ≠ .SW_START ∧
      (s' = .SW_STATUS ∨ s' = .SW_ERROR ∨ s' = .SW_INTEGER ∨ s' = .SW_BULK ∨
        s' = .SW_MULTIBULK) ∧
      ((∃ s'' m'', rsp_step b p s' m' = .next (p + 1) s'' m'') ∨
        (m.token ≠ none ∧ ∃ s'' m'', rsp_step b p s' m' = .error s'' m''))) := by
  by_cases h43 : b.at p = 43
  · have e : rsp_step b p .SW_START m = .next p .SW_STATUS { m with type := MSG_RSP_REDIS_STATUS } := by
      simp [rsp_step, h43]
    exact Or.inr ⟨_, _, e, by decide, Or.inl rfl, Or.inl ⟨_, _, rfl⟩⟩
  by_cases h45 : b.at p = 45
  · have e : rsp_step b p .SW_START m = .next p .SW_ERROR { m with type := MSG_RSP_REDIS_ERROR } := by
      simp [rsp_step, h45]
    exact Or.inr ⟨_, _, e, by decide, Or.inr (Or.inl rfl), Or.inl ⟨_, _, rfl⟩⟩
  by_cases h58 : b.at p = 58
  · have e : rsp_step b p .SW_START m =
        .next p .SW_INTEGER { m with type := MSG_RSP_REDIS_INTEGER } := by
      simp [rsp_step, h58]
    exact Or.inr ⟨_, _, e, by decide, Or.inr (Or.inr (Or.inl rfl)), Or.inl ⟨_, _, rfl⟩⟩
  by_cases h36 : b.at p = 36
  · have e : rsp_step b p .SW_START m = .next p .SW_BULK { m with type := MSG_RSP_REDIS_BULK } := by
      simp [rsp_step, h36]
    refine Or.inr ⟨_, _, e, by decide, Or.inr (Or.inr (Or.inr (Or.inl rfl))), ?_⟩
    by_cases ht : m.token = none
    · have e2 : rsp_step b p .SW_BULK { m with type := MSG_RSP_REDIS_BULK } =
          .next (p + 1) .SW_BULK
            { m with type := MSG_RSP_REDIS_BULK, token := some p, rlen := 0 } := by
        simp [rsp_step, h36, ht]
      exact Or.inl ⟨_, _, e2⟩
    · obtain ⟨t, ht2⟩ := Option.ne_none_iff_exists'.mp ht
      have e2 : rsp_step b p .SW_BULK { m with type := MSG_RSP_REDIS_BULK } =
          .error .SW_BULK { m with type := MSG_RSP_REDIS_BULK } := by
        simp [rsp_step, h36, ht2, isdigit]
      exact Or.inr ⟨ht, _, _, e2⟩
  by_cases h42 : b.at p = 42
  · have e : rsp_step b p .SW_START m =
        .next p .SW_MULTIBULK { m with type := MSG_RSP_REDIS_MULTIBULK } := by
      simp [rsp_step, h42]
    refine Or.inr ⟨_, _, e, by decide, Or.inr (Or.inr (Or.inr (Or.inr rfl))), ?_⟩
    by_cases ht : m.token = none
    · have e2 : rsp_step b p .SW_MULTIBULK { m with type := MSG_RSP_REDIS_MULTIBULK } =
          .next (p + 1) .SW_MULTIBULK
            { m with type := MSG_RSP_REDIS_MULTIBULK, token := some p,
                     narg_start := some (p + 1), rnarg := 0 } := by
        simp [rsp_step, h42, ht]
      exact Or.inl ⟨_, _, e2⟩
    · obtain ⟨t, ht2⟩ := Option.ne_none_iff_exists'.mp ht
      have e2 : rsp_step b p .SW_MULTIBULK { m with type := MSG_RSP_REDIS_MULTIBULK } =
          .error .SW_MULTIBULK { m with type := MSG_RSP_REDIS_MULTIBULK } := by
        simp [rsp_step, h42, ht2, isdigit]
      exact Or.inr ⟨ht, _, _, e2⟩
  · have e : rsp_step b p .SW_START m = .error .SW_START { m with type := MSG_UNKNOWN } := by
      simp [rsp_step, h43, h45, h58, h36, h42]
    exact Or.inl ⟨_, e⟩

/-- After `k` iterations the cursor has not passed `last`, and `k` is at most
the number of bytes passed, plus one when the loop was entered in
`SW_START`. -/
theorem rsp_iter_bound {b : mbuf} : ∀ (k p : Nat) (s : rsp_sw) (r : msg) (q : Nat) (s' : rsp_sw)
    (m : msg), rsp_iter b k p s r = some (q, s', m) →
    p ≤ q ∧ (p ≤ b.last → q ≤ b.last) ∧
    k ≤ (q - p) + (if s = .SW_START then 1 else 0) ∧
    (0 < k → s' ≠ .SW_START ∧ q ≤ b.last) := by
  intro k
  induction k with
  | zero =>
    intro p s r q s' m h
    simp only [rsp_iter, Option.some.injEq, Prod.mk.injEq] at h
    obtain ⟨rfl, rfl, rfl⟩ := h
    exact ⟨Nat.le_refl _, fun h => h, Nat.zero_le _, fun h => absurd h (Nat.lt_irrefl 0)⟩
  | succ k ih =>
    intro p s r q s' m h
    obtain ⟨hp, p1, s1, r1, hstep, hrest⟩ := rsp_iter_succ h
    obtain ⟨h1, h2, h3, h4⟩ := ih p1 s1 r1 q s' m hrest
    obtain ⟨b1, b2, b3, b4⟩ := rsp_step_next_bounds hp hstep
    rw [if_neg b1] at h3
    have hq : q ≤ b.last := h2 b4
    refine ⟨by omega, fun _ => hq, ?_, fun _ => ⟨?_, hq⟩⟩
    · by_cases hs : s = .SW_START
      · rw [if_pos hs]
        omega
      · rw [if_neg hs]
        have := b3 hs
        omega
    · cases k with
      | zero =>
        simp only [rsp_iter, Option.some.injEq, Prod.mk.injEq] at hrest
        obtain ⟨_, rfl, _⟩ := hrest
        exact b1
      | succ j => exact (h4 (Nat.succ_pos j)).1

/-- The loop of `parse_response` ends: after a number of iterations within
the bound, the cursor is at or past `last` and the code after the loop runs,
or the next iteration jumps to `done` or to `error`. -/
theorem rsp_run_exits {b : mbuf} : ∀ (n p : Nat) (s : rsp_sw) (r : msg),
    (b.last - p) + (if s = .SW_START then 1 else 0) ≤ n →
    ∃ (k q : Nat) (s' : rsp_sw) (m : msg), rsp_iter b k p s r = some (q, s', m) ∧
      ((b.last ≤ q ∧ k ≤ (b.last - p) + (if s = .SW_START then 1 else 0) ∧
          rsp_run b p s r = label_again b q s'.to_int m) ∨
       (q < b.last ∧ k + 1 ≤ (b.last - p) + (if s = .SW_START then 1 else 0) ∧
         ((∃ p' s'' m', rsp_step b q s' m = .done p' s'' m' ∧
            rsp_run b p s r = label_done p' m') ∨
          (∃ s'' m', rsp_step b q s' m = .error s'' m' ∧
            rsp_run b p s r = label_error s''.to_int m')))) := by
  intro n
  induction n with
  | zero =>
    intro p s r hn
    have hp : b.last ≤ p := by omega
    exact ⟨0, p, s, r, rfl, Or.inl ⟨hp, Nat.zero_le _, rsp_run_end s r hp⟩⟩
  | succ n ih =>
    intro p s r hn
    by_cases hp : p < b.last
    · have hrun := rsp_run_eq s r hp
      cases hstep : rsp_step b p s r with
      | next p1 s1 r1 =>
        obtain ⟨b1, b2, b3, b4⟩ := rsp_step_next_bounds hp hstep
        have hm : (b.last - p1) + (if s1 = .SW_START then 1 else 0) + 1 ≤
            (b.last - p) + (if s = .SW_START then 1 else 0) := by
          rw [if_neg b1]
          by_cases hs : s = .SW_START
          · rw [if_pos hs]
            omega
          · rw [if_neg hs]
            have := b3 hs
            omega
        obtain ⟨k, q, s', m, hk, hcase⟩ := ih p1 s1 r1 (by omega)
        rw [hstep] at hrun
        simp only at hrun
        refine ⟨k + 1, q, s', m, (rsp_iter_next hp hstep).trans hk, ?_⟩
        rw [hrun]
        rcases hcase with ⟨c1, c2, c3⟩ | ⟨c1, c2, c3⟩
        · exact Or.inl ⟨c1, by omega, c3⟩
        · exact Or.inr ⟨c1, by omega, c3⟩
      | done p' s'' m' =>
        rw [hstep] at hrun
        exact ⟨0, p, s, r, rfl, Or.inr ⟨hp, by omega, Or.inl ⟨p', s'', m', hstep, hrun⟩⟩⟩
      | fragment p' s'' m' => exact absurd hstep rsp_step_no_fragment
      | error s'' m' =>
        rw [hstep] at hrun
        exact ⟨0, p, s, r, rfl, Or.inr ⟨hp, by omega, Or.inr ⟨s'', m', hstep, hrun⟩⟩⟩
    · have hp' : b.last ≤ p := by omega
      exact ⟨0, p, s, r, rfl, Or.inl ⟨hp', Nat.zero_le _, rsp_run_end s r hp'⟩⟩

/-! ## The element header of a multibulk reply, byte by byte -/

theorem rsp_iter_add {b : mbuf} : ∀ (j k p : Nat) (s : rsp_sw) (r : msg) (q : Nat) (s' : rsp_sw)
    (m : msg), rsp_iter b j p s r = some (q, s', m) →
    rsp_iter b (j + k) p s r = rsp_iter b k q s' m := by
  intro j
  induction j with
  | zero =>
    intro k p s r q s' m h
    simp only [rsp_iter, Option.some.injEq, Prod.mk.injEq] at h
    obtain ⟨rfl, rfl, rfl⟩ := h
    rw [Nat.zero_add]
  | succ j ih =>
    intro k p s r q s' m h
    obtain ⟨hp, p1, s1, r1, hstep, hrest⟩ := rsp_iter_succ h
    have e : j + 1 + k = (j + k) + 1 := by omega
    rw [e, rsp_iter_next hp hstep]
    exact ih k p1 s1 r1 q s' m hrest

/-- The iterations of `SW_MULTIBULK_ARGN_LEN` over the digits and `-` of an
element header whose `$` has been read. -/
theorem rsp_iter_header_bytes {b : mbuf} {rest : List Nat} : ∀ (H : List Nat) (q t : Nat)
    (m : msg), m.token = some t → (∀ x ∈ H, isdigit x = true ∨ x = 45) →
    b.data.drop q = H ++ rest →
    rsp_iter b H.length q .SW_MULTIBULK_ARGN_LEN m =
      some (q + H.length, .SW_MULTIBULK_ARGN_LEN, { m with rlen := header_rlen m.rlen H }) := by
  intro H
  induction H with
  | nil =>
    intro q t m _ _ _
    rfl
  | cons x H ih =>
    intro q t m ht hH h
    obtain ⟨hp, hat, h1⟩ := buf_cons h
    have hstep : rsp_step b q .SW_MULTIBULK_ARGN_LEN m =
        .next (q + 1) .SW_MULTIBULK_ARGN_LEN
          { m with rlen := if isdigit x then accum m.rlen x else m.rlen } := by
      rcases hH x (List.mem_cons_self _ _) with hx | hx
      · simp [rsp_step, hat, ht, hx]
      · subst hx
        simp [rsp_step, hat, ht, show isdigit 45 = false by decide]
        cases m
        simp only at ht
        subst ht
        rfl
    have hih := ih (q + 1) t { m with rlen := if isdigit x then accum m.rlen x else m.rlen } ht
      (fun y hy => hH y (List.mem_cons_of_mem _ hy)) h1
    rw [List.length_cons, rsp_iter_next hp hstep, hih]
    have e : q + 1 + H.length = q + (H.length + 1) := by omega
    rw [e]
    rfl

/-- An element header of digits and `-` passes the test
`rlen == 1 && p - token == 3` exactly when it is `-1`, `1-` or `01`. -/
theorem header_rlen_one (H : List Nat) (hH : ∀ x ∈ H, isdigit x = true ∨ x = 45) :
    (header_rlen 0 H = 1 ∧ H.length = 2) ↔ (H = [45, 49] ∨ H = [49, 45] ∨ H = [48, 49]) := by
  constructor
  · rintro ⟨hv, hl⟩
    match H, hl with
    | [x, y], _ =>
      have hdx : ∀ d, isdigit d = true → 48 ≤ d ∧ d ≤ 57 := by
        intro d hd
        simpa [isdigit] using hd
      have e2 : 2 ^ 32 = 4294967296 := by norm_num
      have hx := hH x (by simp)
      have hy := hH y (by simp)
      simp only [header_rlen, List.foldl_cons, List.foldl_nil] at hv
      rcases hx with hx | hx <;> rcases hy with hy | hy
      · have bx := hdx x hx
        have by' := hdx y hy
        simp only [hx, hy, if_true, accum] at hv
        rw [e2] at hv
        have m1 : (0 * 10 + (x - 48)) % 4294967296 = x - 48 := by omega
        rw [m1] at hv
        have m2 : ((x - 48) * 10 + (y - 48)) % 4294967296 = (x - 48) * 10 + (y - 48) := by omega
        rw [m2] at hv
        have hx' : x = 48 := by omega
        have hy' : y = 49 := by omega
        subst hx' hy'
        exact Or.inr (Or.inr rfl)
      · have bx := hdx x hx
        subst hy
        simp only [hx, if_true, accum, show isdigit 45 = false by decide] at hv
        rw [e2] at hv
        have m1 : (0 * 10 + (x - 48)) % 4294967296 = x - 48 := by omega
        simp only [m1] at hv
        have hx' : x = 49 := by
          simp at hv
          omega
        subst hx'
        exact Or.inr (Or.inl rfl)
      · have by' := hdx y hy
        subst hx
        simp only [hy, if_true, accum, show isdigit 45 = false by decide] at hv
        rw [e2] at hv
        have hy' : y = 49 := by
          simp at hv
          omega
        subst hy'
        exact Or.inl rfl
      · subst hx hy
        exact absurd hv (by decide)
  · rintro (rfl | rfl | rfl) <;> decide

/-- The iterations of `SW_MULTIBULK_ARGN_LEN` over a whole element header
`$` `H` `CR` of digits and `-`: at the `CR` the header is taken for the nil
sentinel exactly when `rlen == 1 && p - token == 3`. -/
theorem rsp_iter_header {b : mbuf} {p : Nat} {r : msg} {H rest : List Nat}
    (ht : r.token = none) (hr : r.rnarg ≠ 0) (hH : ∀ x ∈ H, isdigit x = true ∨ x = 45)
    (hne : H ≠ []) (hb : b.data.drop p = 36 :: (H ++ 13 :: rest)) :
    rsp_iter b (H.length + 2) p .SW_MULTIBULK_ARGN_LEN r =
      some (p + H.length + 2,
        (if header_rlen 0 H = 1 ∧ H.length = 2 then rsp_sw.SW_MULTIBULK_ARGN_LF
          else rsp_sw.SW_MULTIBULK_ARGN_LEN_LF),
        { r with rlen := if header_rlen 0 H = 1 ∧ H.length = 2 then 0 else header_rlen 0 H,
                 rnarg := r.rnarg - 1, token := none }) := by
  obtain ⟨hp0, hat0, h1⟩ := buf_cons hb
  obtain ⟨hpc, hatc, _⟩ := buf_jump h1
  have hlen : 0 < H.length := List.length_pos.mpr hne
  have s0 : rsp_step b p .SW_MULTIBULK_ARGN_LEN r =
      .next (p + 1) .SW_MULTIBULK_ARGN_LEN { r with token := some p, rlen := 0 } := by
    simp [rsp_step, hat0, ht]
  have scan := rsp_iter_header_bytes (b := b) H (p + 1) p { r with token := some p, rlen := 0 }
    rfl hH h1
  have e1 : p + 1 + H.length - p = H.length + 1 := by omega
  have hle : ¬ (H.length + 1 ≤ 1) := by omega
  have e3 : (H.length + 1 = 3) = (H.length = 2) := by
    apply propext
    constructor <;> intro h <;> omega
  have sc : rsp_step b (p + 1 + H.length) .SW_MULTIBULK_ARGN_LEN
      { r with token := some p, rlen := header_rlen 0 H } =
      .next (p + 1 + H.length + 1)
        (if header_rlen 0 H = 1 ∧ H.length = 2 then rsp_sw.SW_MULTIBULK_ARGN_LF
          else rsp_sw.SW_MULTIBULK_ARGN_LEN_LF)
        { r with rlen := if header_rlen 0 H = 1 ∧ H.length = 2 then 0 else header_rlen 0 H,
                 rnarg := r.rnarg - 1, token := none } := by
    by_cases hc : header_rlen 0 H = 1 ∧ H.length = 2
    · have hatc2 : b.at (p + 1 + 2) = 13 := by
        rw [← hc.2]
        exact hatc
      have e12 : p + 1 + 2 - p = 3 := by omega
      simp [rsp_step, hatc2, isdigit_13, hr, e12, hc]
    · simp only [rsp_step, hatc, isdigit_13, hr, e1, hle, e3, hc, if_false, or_self]
      simp
  have e2 : H.length + 2 = (H.length + 1) + 1 := rfl
  rw [e2, rsp_iter_next hp0 s0, rsp_iter_add H.length 1 _ _ _ _ _ _ scan, rsp_iter_next hpc sc]
  have e4 : p + 1 + H.length + 1 = p + H.length + 2 := by omega
  rw [e4]
  rfl

/-! ## C1: well-formed requests of fixed shape frame -/

/-- C1. For every command of the table whose class is Arg1, Arg2, Arg3 or ArgN
(the name in any letter case), every non-empty key `K` and every list `args`
of trailing arguments (arbitrary bytes, each possibly empty) whose count is
what the class admits, with the count of elements and all lengths below
`2 ^ 32`: one call of `parse_request` from state `SW_START` with `token` null
on a buffer that holds exactly the encoding of the request returns
`PARSE_OK` with `type` the tag of the command, `narg` equal to 2 plus the
number of trailing arguments, and `pos` equal to `last`. -/
theorem C1_request_frames (e : command) (v K : List Nat) (args : List (List Nat))
    (r : msg) (b : mbuf)
    (he : e ∈ command_table) (hv : same_name v e.name) (hK : K ≠ [])
    (hadm : arity_admits e.arity args.length = true)
    (hKlen : K.length < 2 ^ 32) (hargs : ∀ a ∈ args, a.length < 2 ^ 32)
    (hn : args.length + 2 < 2 ^ 32)
    (hstate : r.state = 0) (htoken : r.token = none) (hpos : r.pos = 0)
    (hb : b.data = request (v :: K :: args)) :
    (parse_request r b).result = PARSE_OK ∧
    (parse_request r b).type = e.tag ∧
    (parse_request r b).narg = args.length + 2 ∧
    (parse_request r b).pos = b.last := by
  have h : b.data.drop 0 = request (v :: K :: args) ++ [] := by simp [hb]
  have hlen : 0 < (request (v :: K :: args)).length := by simp [request]
  rw [parse_request_eq, hstate, hpos]
  have hrun := req_run_request (b := b) (p := 0) (r := r) he hv hK hadm hKlen hargs hn htoken h
  have h0 : req_sw.of_int 0 = SW_START := rfl
  rw [h0, hrun]
  refine ⟨rfl, rfl, rfl, ?_⟩
  simp only [label_done, mbuf.last, hb]
  omega

/-- C1 at the request `*2\r\n$3\r\nGET\r\n$3\r\nfoo\r\n` of the spec. -/
theorem C1_request_frames_witness :
    (parse_request (msg_of_type MSG_UNKNOWN)
      ⟨request [ascii "GET", ascii "foo"], 64⟩).result = PARSE_OK ∧
    (parse_request (msg_of_type MSG_UNKNOWN)
      ⟨request [ascii "GET", ascii "foo"], 64⟩).type = MSG_REQ_REDIS_GET ∧
    (parse_request (msg_of_type MSG_UNKNOWN)
      ⟨request [ascii "GET", ascii "foo"], 64⟩).narg = 0 + 2 ∧
    (parse_request (msg_of_type MSG_UNKNOWN)
      ⟨request [ascii "GET", ascii "foo"], 64⟩).pos =
        (mbuf.mk (request [ascii "GET", ascii "foo"]) 64).last :=
  C1_request_frames ⟨"GET", MSG_REQ_REDIS_GET, .Arg1⟩ (ascii "GET") (ascii "foo") []
    (msg_of_type MSG_UNKNOWN) ⟨request [ascii "GET", ascii "foo"], 64⟩
    (by decide) (by decide) (by decide) (by decide) (by decide) (by decide) (by decide)
    rfl rfl rfl rfl

/-! ## C2: the key range -/

/-- C2 (amended). For every buffer whose unread bytes begin with a header
`*<digits>\r\n`, a first bulk element `$<len>\r\n` `N` `\r\n` and a second bulk
element `$<len>\r\n` `K` `\r\n` with `K` non-empty (arbitrary bytes, `CR` and
`LF` included), where both length fields hold the length of their payload and
both lengths are below `2 ^ 32`: whenever one call of `parse_request` from
`SW_START` returns `PARSE_OK` (for a command of any class), the bytes in
`[key_start, key_end)` are exactly `K`. -/
theorem C2_key_is_second_payload (b : mbuf) (r : msg) (D L1 N L2 K rest : List Nat)
    (hstate : r.state = 0) (htoken : r.token = none)
    (hD : all_digits D) (hL1 : all_digits L1) (hL2 : all_digits L2)
    (hN : dec_value L1 = N.length) (hK : dec_value L2 = K.length)
    (hNlt : N.length < 2 ^ 32) (hKlt : K.length < 2 ^ 32) (hK0 : K ≠ [])
    (hb : b.data.drop r.pos = header D ++ (element L1 N ++ (element L2 K ++ rest)))
    (hok : (parse_request r b).result = PARSE_OK) :
    key_bytes b.data (parse_request r b) = some K := by
  rw [first_two_append] at hb
  rw [parse_request_eq, hstate] at hok ⊢
  have h0 : req_sw.of_int 0 = SW_START := rfl
  rw [h0] at hok ⊢
  rcases req_run_key_bytes (r := r) htoken hD hL1 hL2
    (by rw [hN]; exact Nat.mod_eq_of_lt hNlt) (by rw [hK]; exact Nat.mod_eq_of_lt hKlt) hK0 hb
    with he | hk
  · rw [he] at hok; cases hok
  · exact hk

/-- C2 (amended) at the request `*2\r\n$3\r\nGET\r\n$3\r\nfoo\r\n` of the
spec. -/
theorem C2_key_is_second_payload_witness :
    key_bytes (request [ascii "GET", ascii "foo"])
      (parse_request (msg_of_type MSG_UNKNOWN) ⟨request [ascii "GET", ascii "foo"], 64⟩) =
        some (ascii "foo") :=
  C2_key_is_second_payload ⟨request [ascii "GET", ascii "foo"], 64⟩ (msg_of_type MSG_UNKNOWN)
    (decimal 2) (decimal 3) (ascii "GET") (decimal 3) (ascii "foo") []
    rfl rfl (all_digits_decimal 2) (all_digits_decimal 3) (all_digits_decimal 3)
    (by decide) (by decide) (by decide) (by decide) (by decide) (by decide) (by decide)

/-- C2 as stated fails when a length field wraps around in 32 bits: the
request `GET` with the key `long_key` of `2 ^ 32 + 1` bytes is well formed, the
call returns `PARSE_OK` for `GET`, a command of class Arg1, and the key range
holds the single byte `k`, not the payload of the second bulk element. -/
theorem C2_counterexample :
    request [ascii "GET", long_key] =
      header (decimal 2) ++ (element (decimal (ascii "GET").length) (ascii "GET") ++
        (element (decimal long_key.length) long_key ++ [])) ∧
    long_key ≠ [] ∧
    (parse_request (msg_of_type MSG_UNKNOWN)
      ⟨request [ascii "GET", long_key], 2 ^ 33⟩).result = PARSE_OK ∧
    arity_of (parse_request (msg_of_type MSG_UNKNOWN)
      ⟨request [ascii "GET", long_key], 2 ^ 33⟩).type = some .Arg1 ∧
    key_bytes (request [ascii "GET", long_key]) (parse_request (msg_of_type MSG_UNKNOWN)
      ⟨request [ascii "GET", long_key], 2 ^ 33⟩) = some [107] ∧
    key_bytes (request [ascii "GET", long_key]) (parse_request (msg_of_type MSG_UNKNOWN)
      ⟨request [ascii "GET", long_key], 2 ^ 33⟩) ≠ some long_key := by
  have hview : (mbuf.mk (request [ascii "GET", long_key]) (2 ^ 33)).data.drop 0 =
      42 :: (decimal 2 ++ 13 :: 10 :: 36 :: (decimal 3 ++ 13 :: 10 :: (ascii "GET" ++ 13 :: 10 ::
        36 :: (decimal 4294967297 ++ 13 :: 10 :: ([107] ++ 13 :: (10 :: (long_pad ++
          13 :: 10 :: (bulks [] ++ [])))))))) := by
    have h := request_append (ascii "GET") long_key [] []
    rw [List.append_nil, long_key_length, long_key_append] at h
    rw [List.drop_zero, h]
    rfl
  obtain ⟨e1, h1⟩ := req_run_to_key_lf (r := msg_of_type MSG_UNKNOWN) rfl (all_digits_decimal _)
    (all_digits_decimal _) (all_digits_decimal _) hview (by decide) (by decide) (by decide)
    (by rw [dec_value_decimal]; decide) (by decide) (by decide)
  have hrun := e1.trans (req_run_tail_arg1 (by decide) rfl rfl rfl h1)
  have hp : parse_request (msg_of_type MSG_UNKNOWN) ⟨request [ascii "GET", long_key], 2 ^ 33⟩ =
      req_run ⟨request [ascii "GET", long_key], 2 ^ 33⟩ 0 SW_START (msg_of_type MSG_UNKNOWN) :=
    parse_request_eq _ _
  rw [hp, hrun]
  have hkb := req_run_key_bytes (r := msg_of_type MSG_UNKNOWN) rfl (all_digits_decimal _)
    (all_digits_decimal _) (all_digits_decimal _) (by decide)
    (by rw [dec_value_decimal]; decide) (by decide) hview
  rw [hrun] at hkb
  rcases hkb with he | hk
  · exact absurd he (by simp [label_done])
  · refine ⟨request_two _ _, long_key_ne, rfl, by decide, hk, ?_⟩
    rw [hk, long_key]
    simp

/-! ## C3: byte-exact framing -/

/-- C3. Whenever one call of `parse_request` from `SW_START` returns
`PARSE_OK`: the stored state is `SW_START`, `token` is null, the
new `pos` lies in the filled region at least two bytes after the old one, and
the two bytes before it are `CR` and `LF` (so `pos` is one past the `LF` that
ends the last bulk element read); and the outcome does not depend on the bytes
after the message: on every buffer that holds the same bytes followed by any
byte string `T`, the call returns the very same message, hence `PARSE_OK` with
the same `pos`, `type`, `narg` and key range. -/
theorem C3_framing (r : msg) (b : mbuf) (T : List Nat) (size : Nat)
    (hstate : r.state = 0) (hok : (parse_request r b).result = PARSE_OK) :
    ((parse_request r b).state = 0 ∧ (parse_request r b).token = none ∧
      r.pos + 2 ≤ (parse_request r b).pos ∧ (parse_request r b).pos ≤ b.last ∧
      b.at ((parse_request r b).pos - 1) = 10 ∧ b.at ((parse_request r b).pos - 2) = 13) ∧
    parse_request r ⟨b.data ++ T, size⟩ = parse_request r b := by
  rw [parse_request_eq, hstate] at hok ⊢
  have h0 : req_sw.of_int 0 = SW_START := rfl
  rw [h0] at hok ⊢
  refine ⟨req_run_ok_shape hok, ?_⟩
  rw [parse_request_eq, hstate, h0]
  exact req_run_ext (d := b.data) (T := T) (x := b.size) (y := size) _ _ _ _
    (Nat.le_refl _) hok

/-- C3 at the request `*2\r\n$3\r\nGET\r\n$3\r\nfoo\r\n` of the spec, followed
by the first bytes of a second request. -/
theorem C3_framing_witness :
    ((parse_request (msg_of_type MSG_UNKNOWN)
        ⟨request [ascii "GET", ascii "foo"], 64⟩).state = 0 ∧
      (parse_request (msg_of_type MSG_UNKNOWN)
        ⟨request [ascii "GET", ascii "foo"], 64⟩).token = none ∧
      (msg_of_type MSG_UNKNOWN).pos + 2 ≤ (parse_request (msg_of_type MSG_UNKNOWN)
        ⟨request [ascii "GET", ascii "foo"], 64⟩).pos ∧
      (parse_request (msg_of_type MSG_UNKNOWN)
        ⟨request [ascii "GET", ascii "foo"], 64⟩).pos ≤
          (mbuf.mk (request [ascii "GET", ascii "foo"]) 64).last ∧
      (mbuf.mk (request [ascii "GET", ascii "foo"]) 64).at ((parse_request (msg_of_type MSG_UNKNOWN)
        ⟨request [ascii "GET", ascii "foo"], 64⟩).pos - 1) = 10 ∧
      (mbuf.mk (request [ascii "GET", ascii "foo"]) 64).at ((parse_request (msg_of_type MSG_UNKNOWN)
        ⟨request [ascii "GET", ascii "foo"], 64⟩).pos - 2) = 13) ∧
    parse_request (msg_of_type MSG_UNKNOWN)
        ⟨(mbuf.mk (request [ascii "GET", ascii "foo"]) 64).data ++ ascii "*3\r\n$3", 128⟩ =
      parse_request (msg_of_type MSG_UNKNOWN) ⟨request [ascii "GET", ascii "foo"], 64⟩ :=
  C3_framing (msg_of_type MSG_UNKNOWN) ⟨request [ascii "GET", ascii "foo"], 64⟩
    (ascii "*3\r\n$3") 128 rfl (by decide)

/-! ## C4: resuming in the same buffer after `PARSE_AGAIN` -/

/-- C4 (the code departs from the claim). The request
`*2\r\n$3\r\nGET\r\n$3\r\nfoo\r\n` frames in one call, but split as
`*2\r\n$3\r\nGE` and `T\r\n$3\r\nfoo\r\n` in a buffer with spare capacity the
first call returns `PARSE_AGAIN` in state `SW_REQ_TYPE` with `token` at the
`G`, and the second call, entered at the `T`, looks for the `CR` of the name
`rlen` bytes after the cursor instead of after `token` and returns
`PARSE_ERROR`. A key split the same way (`fo` and `o\r\n`) leaves the second
call waiting: `PARSE_AGAIN`. -/
theorem C4_resume_inside_token :
    (parse_request (msg_of_type MSG_UNKNOWN)
      ⟨ascii "*2\r\n$3\r\nGET\r\n$3\r\nfoo\r\n", 64⟩).result = PARSE_OK ∧
    (parse_request (msg_of_type MSG_UNKNOWN) ⟨ascii "*2\r\n$3\r\nGE", 64⟩).result = PARSE_AGAIN ∧
    (parse_request (msg_of_type MSG_UNKNOWN) ⟨ascii "*2\r\n$3\r\nGE", 64⟩).state =
      SW_REQ_TYPE.to_int ∧
    (parse_request (msg_of_type MSG_UNKNOWN) ⟨ascii "*2\r\n$3\r\nGE", 64⟩).token = some 8 ∧
    (parse_request (msg_of_type MSG_UNKNOWN) ⟨ascii "*2\r\n$3\r\nGE", 64⟩).pos = 10 ∧
    (parse_request (parse_request (msg_of_type MSG_UNKNOWN) ⟨ascii "*2\r\n$3\r\nGE", 64⟩)
      ⟨ascii "*2\r\n$3\r\nGE" ++ ascii "T\r\n$3\r\nfoo\r\n", 64⟩).result = PARSE_ERROR ∧
    (parse_request (msg_of_type MSG_UNKNOWN)
      ⟨ascii "*2\r\n$3\r\nGET\r\n$3\r\nfo", 64⟩).result = PARSE_AGAIN ∧
    (parse_request (parse_request (msg_of_type MSG_UNKNOWN)
        ⟨ascii "*2\r\n$3\r\nGET\r\n$3\r\nfo", 64⟩)
      ⟨ascii "*2\r\n$3\r\nGET\r\n$3\r\nfo" ++ ascii "o\r\n", 64⟩).result = PARSE_AGAIN := by
  decide

/-! ## C5: a response fed in two chunks -/

/-- C5 (amended). For every response byte string `S1 ++ S2` that `parse_response` frames
with `PARSE_OK` in one call (from `SW_START` or from any other state), with
`pos` one past its end, cut
into a first chunk `S1` and a non-empty second chunk `S2`: the call on a tail
buffer with spare capacity that holds `S1` returns `PARSE_AGAIN`, and after
`S2` is appended to the same buffer the second call returns the message of the
one-call parse, hence `PARSE_OK` with the same `type`, `narg` and final `pos`.
The counter `rlen` of the message on entry is a `uint32_t`. -/
theorem C5_response_chunks (S1 S2 : List Nat) (r : msg) (c c1 : Nat)
    (hpos : r.pos ≤ S1.length) (hrlen : r.rlen < 2 ^ 32)
    (hS2 : S2 ≠ []) (hspare : S1.length < c1)
    (hok : (parse_response r ⟨S1 ++ S2, c⟩).result = PARSE_OK)
    (hend : (parse_response r ⟨S1 ++ S2, c⟩).pos = (S1 ++ S2).length) :
    (parse_response r ⟨S1, c1⟩).result = PARSE_AGAIN ∧
    (parse_response (parse_response r ⟨S1, c1⟩) ⟨S1 ++ S2, c1⟩).result = PARSE_OK ∧
    (parse_response (parse_response r ⟨S1, c1⟩) ⟨S1 ++ S2, c1⟩).type =
      (parse_response r ⟨S1 ++ S2, c⟩).type ∧
    (parse_response (parse_response r ⟨S1, c1⟩) ⟨S1 ++ S2, c1⟩).narg =
      (parse_response r ⟨S1 ++ S2, c⟩).narg ∧
    (parse_response (parse_response r ⟨S1, c1⟩) ⟨S1 ++ S2, c1⟩).pos =
      (parse_response r ⟨S1 ++ S2, c⟩).pos ∧
    parse_response (parse_response r ⟨S1, c1⟩) ⟨S1 ++ S2, c1⟩ =
      parse_response r ⟨S1 ++ S2, c⟩ := by
  have hsz : parse_response r ⟨S1 ++ S2, c1⟩ = parse_response r ⟨S1 ++ S2, c⟩ := by
    rw [parse_response_eq, parse_response_eq]
    rw [parse_response_eq] at hok
    exact rsp_run_size ((S1 ++ S2).length - r.pos + 1) _ _ _ (by split <;> omega) hok
  have hlt : S1.length < (S1 ++ S2).length := by
    have := List.length_pos.mpr hS2
    simp only [List.length_append]
    omega
  rw [← hsz] at hok hend ⊢
  rw [parse_response_eq] at hok hend
  have h := rsp_resume (d := S1) (T := S2) (x := c1) (y := c1) hS2 hspare _ r.pos
    (rsp_sw.of_int r.state) r (Nat.le_refl _) hpos hrlen hok (by rw [hend]; exact hlt)
  have he : parse_response (parse_response r ⟨S1, c1⟩) ⟨S1 ++ S2, c1⟩ =
      parse_response r ⟨S1 ++ S2, c1⟩ := h.2
  rw [he]
  exact ⟨h.1, hok, rfl, rfl, rfl, rfl⟩

/-- C5 at the bulk reply `$3\r\nfoo\r\n` cut inside its payload. -/
theorem C5_response_chunks_witness :
    (parse_response (msg_of_type MSG_UNKNOWN) ⟨ascii "$3\r\nfo", 64⟩).result = PARSE_AGAIN ∧
    (parse_response (parse_response (msg_of_type MSG_UNKNOWN) ⟨ascii "$3\r\nfo", 64⟩)
      ⟨ascii "$3\r\nfo" ++ ascii "o\r\n", 64⟩).result = PARSE_OK ∧
    (parse_response (parse_response (msg_of_type MSG_UNKNOWN) ⟨ascii "$3\r\nfo", 64⟩)
      ⟨ascii "$3\r\nfo" ++ ascii "o\r\n", 64⟩).type =
      (parse_response (msg_of_type MSG_UNKNOWN) ⟨ascii "$3\r\nfo" ++ ascii "o\r\n", 16⟩).type ∧
    (parse_response (parse_response (msg_of_type MSG_UNKNOWN) ⟨ascii "$3\r\nfo", 64⟩)
      ⟨ascii "$3\r\nfo" ++ ascii "o\r\n", 64⟩).narg =
      (parse_response (msg_of_type MSG_UNKNOWN) ⟨ascii "$3\r\nfo" ++ ascii "o\r\n", 16⟩).narg ∧
    (parse_response (parse_response (msg_of_type MSG_UNKNOWN) ⟨ascii "$3\r\nfo", 64⟩)
      ⟨ascii "$3\r\nfo" ++ ascii "o\r\n", 64⟩).pos =
      (parse_response (msg_of_type MSG_UNKNOWN) ⟨ascii "$3\r\nfo" ++ ascii "o\r\n", 16⟩).pos ∧
    parse_response (parse_response (msg_of_type MSG_UNKNOWN) ⟨ascii "$3\r\nfo", 64⟩)
      ⟨ascii "$3\r\nfo" ++ ascii "o\r\n", 64⟩ =
      parse_response (msg_of_type MSG_UNKNOWN) ⟨ascii "$3\r\nfo" ++ ascii "o\r\n", 16⟩ :=
  C5_response_chunks (ascii "$3\r\nfo") (ascii "o\r\n") (msg_of_type MSG_UNKNOWN) 16 64
    (by decide) (by decide) (by decide) (by decide) (by decide) (by decide)

/-- C5 as stated fails for the split with an empty second chunk. The reply
`+OK\r\n` is framed with `PARSE_OK` in one call from `SW_START`, with `pos`
one past its end. Split as `S1 = +OK\r\n` and `S2` empty, the call on a buffer
with spare capacity that holds `S1` returns `PARSE_OK`, not `PARSE_AGAIN`, and
after the empty `S2` is appended the second call returns `PARSE_AGAIN`, not
`PARSE_OK`. -/
theorem C5_counterexample :
    (msg_of_type MSG_UNKNOWN).state = rsp_sw.SW_START.to_int ∧
    (parse_response (msg_of_type MSG_UNKNOWN) ⟨ascii "+OK\r\n", 16⟩).result = PARSE_OK ∧
    (parse_response (msg_of_type MSG_UNKNOWN) ⟨ascii "+OK\r\n", 16⟩).pos =
      (ascii "+OK\r\n").length ∧
    ascii "+OK\r\n" = ascii "+OK\r\n" ++ [] ∧
    (mbuf.mk (ascii "+OK\r\n") 16).full = false ∧
    (parse_response (msg_of_type MSG_UNKNOWN) ⟨ascii "+OK\r\n", 16⟩).result ≠ PARSE_AGAIN ∧
    (parse_response (parse_response (msg_of_type MSG_UNKNOWN) ⟨ascii "+OK\r\n", 16⟩)
      ⟨ascii "+OK\r\n" ++ [], 16⟩).result = PARSE_AGAIN ∧
    (parse_response (parse_response (msg_of_type MSG_UNKNOWN) ⟨ascii "+OK\r\n", 16⟩)
      ⟨ascii "+OK\r\n" ++ [], 16⟩).result ≠ PARSE_OK := by
  decide

/-! ## C6: a request that needs a repair -/

/-- C6. For every request byte string `S1 ++ S2` that `parse_request` frames
with `PARSE_OK` in one call from `SW_START` (with no token open), cut into
`S1` and `S2` so that the call on a full tail buffer holding `S1` returns
`PARSE_REPAIR`: the call on the fresh buffer that holds the bytes
`[pos, last)` of the first buffer followed by `S2`, with `pos` at the start of
that buffer, returns `PARSE_OK` with the `type`, the `narg` and the key bytes
of the one-call parse. The key is read from the buffer that `key_start` and
`key_end` point into: the first buffer when the first call got past the key,
the fresh buffer otherwise. -/
theorem C6_request_repair (S1 S2 : List Nat) (r : msg) (c c2 : Nat)
    (hstate : r.state = 0) (htoken : r.token = none)
    (hok : (parse_request r ⟨S1 ++ S2, c⟩).result = PARSE_OK)
    (hrep : (parse_request r ⟨S1, S1.length⟩).result = PARSE_REPAIR) :
    (parse_request (repair_msg (parse_request r ⟨S1, S1.length⟩))
      (repair_buf S1 (parse_request r ⟨S1, S1.length⟩) S2 c2)).result = PARSE_OK ∧
    (parse_request (repair_msg (parse_request r ⟨S1, S1.length⟩))
      (repair_buf S1 (parse_request r ⟨S1, S1.length⟩) S2 c2)).type =
      (parse_request r ⟨S1 ++ S2, c⟩).type ∧
    (parse_request (repair_msg (parse_request r ⟨S1, S1.length⟩))
      (repair_buf S1 (parse_request r ⟨S1, S1.length⟩) S2 c2)).narg =
      (parse_request r ⟨S1 ++ S2, c⟩).narg ∧
    ∃ K, key_bytes (S1 ++ S2) (parse_request r ⟨S1 ++ S2, c⟩) = some K ∧
      key_bytes
        (if past_key (req_sw.of_int (parse_request r ⟨S1, S1.length⟩).state) = true then S1
          else (repair_buf S1 (parse_request r ⟨S1, S1.length⟩) S2 c2).data)
        (parse_request (repair_msg (parse_request r ⟨S1, S1.length⟩))
          (repair_buf S1 (parse_request r ⟨S1, S1.length⟩) S2 c2)) = some K := by
  rw [parse_request_eq] at hok
  rw [parse_request_eq r ⟨S1, S1.length⟩] at hrep ⊢
  rw [parse_request_eq r ⟨S1 ++ S2, c⟩]
  rw [hstate] at hok hrep ⊢
  have hstart : req_sw.of_int 0 = SW_START := rfl
  rw [hstart] at hok hrep ⊢
  generalize hone : req_run ⟨S1 ++ S2, c⟩ r.pos SW_START r = one at hok ⊢
  refine req_run_induct (b := ⟨S1, S1.length⟩)
    (fun p s m =>
      (p < S1.length → req_run ⟨S1 ++ S2, c⟩ p s m = one) ∧
      (past_key s = true →
        ∃ ks ke, m.key_start = some ks ∧ m.key_end = some ke ∧ ke ≤ p ∧ p ≤ S1.length) ∧
      (∀ x, m.token = some x → x ≤ p ∧ x < S1.length ∧
        ∃ ra, req_run ⟨S1 ++ S2, c⟩ x s ra = one ∧ entry_rel s ra m))
    (fun out => out.result = PARSE_REPAIR →
      (parse_request (repair_msg out) (repair_buf S1 out S2 c2)).result = PARSE_OK ∧
      (parse_request (repair_msg out) (repair_buf S1 out S2 c2)).type = one.type ∧
      (parse_request (repair_msg out) (repair_buf S1 out S2 c2)).narg = one.narg ∧
      ∃ K, key_bytes (S1 ++ S2) one = some K ∧
        key_bytes (if past_key (req_sw.of_int out.state) = true then S1
            else (repair_buf S1 out S2 c2).data)
          (parse_request (repair_msg out) (repair_buf S1 out S2 c2)) = some K)
    ?_ ?_ ?_ ?_ ?_ _ r.pos SW_START r (Nat.le_refl _) ?_ hrep
  · intro p s m p' s' m' ⟨hA, hB, hC⟩ hp hstep
    have hp1 : p < S1.length := hp
    have hbd := req_step_next_bounds hp hstep
    have hp2 : p < (mbuf.mk (S1 ++ S2) c).last := by
      simp only [mbuf.last, List.length_append]
      omega
    have hrun := hA hp1
    refine ⟨?_, fun hs' => ?_, ?_⟩
    · intro hp'
      rcases req_step_ext (T := S2) (x := S1.length) (y := c) s m hp1 with he | ⟨s'', r'', hpin⟩
      · rw [req_run_eq _ _ hp2, he, hstep] at hrun
        exact hrun
      · rw [hstep] at hpin
        cases hpin
        omega
    · obtain ⟨ks, ke, k1, k2, k3⟩ := req_step_key_bound hp hstep (fun y => by
        obtain ⟨ks, ke, k1, k2, k3, _⟩ := hB y
        exact ⟨ks, ke, k1, k2, k3⟩) hs'
      exact ⟨ks, ke, k1, k2, k3, hbd.2⟩
    · intro x hx
      rcases req_step_token hstep x hx with ⟨h1, h2, h3, h4⟩ | ⟨h1, h2, h3⟩ | ⟨h1, h2⟩
      · subst h2
        refine ⟨by omega, hp1, m, ?_, h4⟩
        rcases h3 with rfl | ⟨rfl, rfl⟩
        · exact hrun
        · rw [← hrun] at hok
          rw [req_run_start_narg h1 hok]
          exact hrun
      · subst h2
        obtain ⟨g1, g2, ra, g3, g4⟩ := hC x h1
        exact ⟨by omega, g2, ra, g3, h3 ra g4⟩
      · obtain ⟨_, _, ra, _, g4⟩ := hC x h1
        rw [g4.1] at h2
        exact absurd h2 (by decide)
  · intro p s m p' s' m' _ _ _ h
    exact absurd h (by simp [label_done])
  · intro p s m p' s' m' _ _ _ h
    exact absurd h (by unfold label_fragment; split <;> simp)
  · intro p s m s' m' _ _ _ h
    exact absurd h (by simp [label_error])
  · intro p s m ⟨hA, hB, hC⟩ hp hres
    have hp1 : S1.length ≤ p := hp
    cases htok : m.token with
    | none =>
      simp only [label_again, htok] at hres
      exact absurd hres (by decide)
    | some x =>
      obtain ⟨g1, g2, ra, g3, g4⟩ := hC x htok
      have hout : label_again ⟨S1, S1.length⟩ p s.to_int m =
          { m with pos := x, state := s.to_int, token := none, result := PARSE_REPAIR } := by
        simp [label_again, htok, mbuf.full, mbuf.last]
      rw [hout]
      simp only [parse_request_eq, repair_msg, repair_buf, req_of_int_to_int]
      refine repair_finish (Nat.le_of_lt g2) g3 hok g4 rfl (fun y => ?_)
      obtain ⟨ks, ke, k1, k2, k3, k4⟩ := hB y
      exact ⟨ks, ke, k1, k2, by omega⟩
  · refine ⟨fun _ => hone, fun h => absurd h (by decide), fun x hx => ?_⟩
    rw [htoken] at hx
    cases hx

/-- C6 at `SET k v` cut inside the length field of the value: the first call
returns `PARSE_REPAIR` with the token at the `$` of that field. -/
theorem C6_request_repair_witness :
    (parse_request (repair_msg (parse_request (msg_of_type MSG_UNKNOWN) ⟨ascii "*3\r\n$3\r\nSET\r\n$1\r\nk\r\n$1", (ascii "*3\r\n$3\r\nSET\r\n$1\r\nk\r\n$1").length⟩))
      (repair_buf (ascii "*3\r\n$3\r\nSET\r\n$1\r\nk\r\n$1") (parse_request (msg_of_type MSG_UNKNOWN) ⟨ascii "*3\r\n$3\r\nSET\r\n$1\r\nk\r\n$1", (ascii "*3\r\n$3\r\nSET\r\n$1\r\nk\r\n$1").length⟩) (ascii "\r\nv\r\n") 32)).result = PARSE_OK ∧
    (parse_request (repair_msg (parse_request (msg_of_type MSG_UNKNOWN) ⟨ascii "*3\r\n$3\r\nSET\r\n$1\r\nk\r\n$1", (ascii "*3\r\n$3\r\nSET\r\n$1\r\nk\r\n$1").length⟩))
      (repair_buf (ascii "*3\r\n$3\r\nSET\r\n$1\r\nk\r\n$1") (parse_request (msg_of_type MSG_UNKNOWN) ⟨ascii "*3\r\n$3\r\nSET\r\n$1\r\nk\r\n$1", (ascii "*3\r\n$3\r\nSET\r\n$1\r\nk\r\n$1").length⟩) (ascii "\r\nv\r\n") 32)).type =
      (parse_request (msg_of_type MSG_UNKNOWN) ⟨ascii "*3\r\n$3\r\nSET\r\n$1\r\nk\r\n$1" ++ ascii "\r\nv\r\n", 64⟩).type ∧
    (parse_request (repair_msg (parse_request (msg_of_type MSG_UNKNOWN) ⟨ascii "*3\r\n$3\r\nSET\r\n$1\r\nk\r\n$1", (ascii "*3\r\n$3\r\nSET\r\n$1\r\nk\r\n$1").length⟩))
      (repair_buf (ascii "*3\r\n$3\r\nSET\r\n$1\r\nk\r\n$1") (parse_request (msg_of_type MSG_UNKNOWN) ⟨ascii "*3\r\n$3\r\nSET\r\n$1\r\nk\r\n$1", (ascii "*3\r\n$3\r\nSET\r\n$1\r\nk\r\n$1").length⟩) (ascii "\r\nv\r\n") 32)).narg =
      (parse_request (msg_of_type MSG_UNKNOWN) ⟨ascii "*3\r\n$3\r\nSET\r\n$1\r\nk\r\n$1" ++ ascii "\r\nv\r\n", 64⟩).narg ∧
    ∃ K, key_bytes (ascii "*3\r\n$3\r\nSET\r\n$1\r\nk\r\n$1" ++ ascii "\r\nv\r\n") (parse_request (msg_of_type MSG_UNKNOWN) ⟨ascii "*3\r\n$3\r\nSET\r\n$1\r\nk\r\n$1" ++ ascii "\r\nv\r\n", 64⟩) = some K ∧
      key_bytes
        (if past_key (req_sw.of_int (parse_request (msg_of_type MSG_UNKNOWN) ⟨ascii "*3\r\n$3\r\nSET\r\n$1\r\nk\r\n$1", (ascii "*3\r\n$3\r\nSET\r\n$1\r\nk\r\n$1").length⟩).state) = true then ascii "*3\r\n$3\r\nSET\r\n$1\r\nk\r\n$1"
          else (repair_buf (ascii "*3\r\n$3\r\nSET\r\n$1\r\nk\r\n$1") (parse_request (msg_of_type MSG_UNKNOWN) ⟨ascii "*3\r\n$3\r\nSET\r\n$1\r\nk\r\n$1", (ascii "*3\r\n$3\r\nSET\r\n$1\r\nk\r\n$1").length⟩) (ascii "\r\nv\r\n") 32).data)
        (parse_request (repair_msg (parse_request (msg_of_type MSG_UNKNOWN) ⟨ascii "*3\r\n$3\r\nSET\r\n$1\r\nk\r\n$1", (ascii "*3\r\n$3\r\nSET\r\n$1\r\nk\r\n$1").length⟩))
      (repair_buf (ascii "*3\r\n$3\r\nSET\r\n$1\r\nk\r\n$1") (parse_request (msg_of_type MSG_UNKNOWN) ⟨ascii "*3\r\n$3\r\nSET\r\n$1\r\nk\r\n$1", (ascii "*3\r\n$3\r\nSET\r\n$1\r\nk\r\n$1").length⟩) (ascii "\r\nv\r\n") 32)) = some K :=
  C6_request_repair (ascii "*3\r\n$3\r\nSET\r\n$1\r\nk\r\n$1") (ascii "\r\nv\r\n") (msg_of_type MSG_UNKNOWN) 64 32
    rfl rfl (by decide) (by decide)

/-! ## C7: a response that needs a repair -/

/-- C7. The nil bulk reply `$-1\r\n` is framed with `PARSE_OK` in one call,
and the call on a full tail buffer that holds its first four bytes `$-1\r`
returns `PARSE_REPAIR` in state `SW_ALMOST_DONE` with `pos` at the `$`: state
`SW_BULK` leaves for `SW_RUNTO_CRLF` at the `-` without clearing the token.
The call on the fresh buffer that holds the bytes `[pos, last)` followed by
the `LF` then reads the `$` in state `SW_ALMOST_DONE` and returns
`PARSE_ERROR`. Cut after `$-` or after `$-1` the same reply is repaired to
`PARSE_OK` with the type of the one-call parse. -/
theorem C7_nil_bulk_repair :
    (parse_response (msg_of_type MSG_UNKNOWN) ⟨ascii "$-1\r\n", 16⟩).result = PARSE_OK ∧
    (parse_response (msg_of_type MSG_UNKNOWN) ⟨ascii "$-1\r", 4⟩).result = PARSE_REPAIR ∧
    (parse_response (msg_of_type MSG_UNKNOWN) ⟨ascii "$-1\r", 4⟩).pos = 0 ∧
    rsp_sw.of_int (parse_response (msg_of_type MSG_UNKNOWN) ⟨ascii "$-1\r", 4⟩).state =
      rsp_sw.SW_ALMOST_DONE ∧
    (repair_buf (ascii "$-1\r") (parse_response (msg_of_type MSG_UNKNOWN) ⟨ascii "$-1\r", 4⟩)
      (ascii "\n") 16).data = ascii "$-1\r\n" ∧
    (parse_response (repair_msg (parse_response (msg_of_type MSG_UNKNOWN) ⟨ascii "$-1\r", 4⟩))
      (repair_buf (ascii "$-1\r") (parse_response (msg_of_type MSG_UNKNOWN) ⟨ascii "$-1\r", 4⟩)
        (ascii "\n") 16)).result = PARSE_ERROR ∧
    (parse_response (msg_of_type MSG_UNKNOWN) ⟨ascii "$-", 2⟩).result = PARSE_REPAIR ∧
    (parse_response (repair_msg (parse_response (msg_of_type MSG_UNKNOWN) ⟨ascii "$-", 2⟩))
      (repair_buf (ascii "$-") (parse_response (msg_of_type MSG_UNKNOWN) ⟨ascii "$-", 2⟩)
        (ascii "1\r\n") 16)).result = PARSE_OK ∧
    (parse_response (repair_msg (parse_response (msg_of_type MSG_UNKNOWN) ⟨ascii "$-", 2⟩))
      (repair_buf (ascii "$-") (parse_response (msg_of_type MSG_UNKNOWN) ⟨ascii "$-", 2⟩)
        (ascii "1\r\n") 16)).type = MSG_RSP_REDIS_BULK ∧
    (parse_response (msg_of_type MSG_UNKNOWN) ⟨ascii "$-1", 3⟩).result = PARSE_REPAIR ∧
    (parse_response (repair_msg (parse_response (msg_of_type MSG_UNKNOWN) ⟨ascii "$-1", 3⟩))
      (repair_buf (ascii "$-1") (parse_response (msg_of_type MSG_UNKNOWN) ⟨ascii "$-1", 3⟩)
        (ascii "\r\n") 16)).result = PARSE_OK ∧
    (parse_response (repair_msg (parse_response (msg_of_type MSG_UNKNOWN) ⟨ascii "$-1", 3⟩))
      (repair_buf (ascii "$-1") (parse_response (msg_of_type MSG_UNKNOWN) ⟨ascii "$-1", 3⟩)
        (ascii "\r\n") 16)).type = MSG_RSP_REDIS_BULK := by
  decide


/-! ## C8: arity enforcement -/

/-- C8 (amended). For every command of the table of class Arg1, Arg2, Arg3 or
ArgN (the name in any letter case), every key `K` and every list `args` of
trailing arguments (arbitrary bytes of any length) whose count is not what
the class admits (Arg1: none, Arg2: one, Arg3: two, ArgN: one or more), with
the count of elements `narg` below `2 ^ 32`: one call of `parse_request` from
`SW_START` on a buffer that holds the encoding of the request, followed by
any bytes, returns `PARSE_ERROR`. -/
theorem C8_arity_enforced (e : command) (v K : List Nat) (args : List (List Nat))
    (post : List Nat) (r : msg) (b : mbuf)
    (he : e ∈ command_table) (hv : same_name v e.name)
    (hc : e.arity = .Arg1 ∨ e.arity = .Arg2 ∨ e.arity = .Arg3 ∨ e.arity = .ArgN)
    (hbad : arity_admits e.arity args.length = false)
    (hn : args.length + 2 < 2 ^ 32)
    (hstate : r.state = 0) (htoken : r.token = none)
    (hb : b.data.drop r.pos = request (v :: K :: args) ++ post) :
    (parse_request r b).result = PARSE_ERROR := by
  obtain ⟨htag, hpos, hle⟩ := table_facts e he
  have hvl := same_name_length hv
  have hv0 : v ≠ [] := List.length_pos.mp (by omega)
  have hty := req_type_same_name he hv
  rw [request_append] at hb
  rw [parse_request_eq, hstate]
  have h0 : req_sw.of_int 0 = SW_START := rfl
  rw [h0]
  refine req_run_arity_reject (c := e.arity) htoken (all_digits_decimal _) (all_digits_decimal _)
    (all_digits_decimal _) hb (by rw [mod_of_lt hn]; omega) (mod_of_lt (by omega)) hv0
    (by rw [dec_value_decimal]; exact Nat.mod_le _ _) (by rw [hty]; exact htag)
    (by rw [hty]; exact arity_table e he) hc ?_
  rw [mod_of_lt hn, Nat.add_sub_cancel]
  exact hbad

/-- C8 (amended) at `GET k x`, a request of three elements for a command of
class Arg1. -/
theorem C8_arity_enforced_witness :
    (parse_request (msg_of_type MSG_UNKNOWN)
      ⟨request [ascii "GET", ascii "k", ascii "x"], 64⟩).result = PARSE_ERROR :=
  C8_arity_enforced ⟨"GET", MSG_REQ_REDIS_GET, .Arg1⟩ (ascii "GET") (ascii "k") [ascii "x"] []
    (msg_of_type MSG_UNKNOWN) ⟨request [ascii "GET", ascii "k", ascii "x"], 64⟩
    (by decide) (by decide) (by decide) (by decide) (by decide) rfl rfl (by decide)

/-- C8 as stated fails when the count of elements wraps around in 32 bits: the
request `GET k` followed by `2 ^ 32` empty bulk elements is well formed, its
`narg` is `2 ^ 32 + 2`, not the 2 that class Arg1 requires, and the call
returns `PARSE_OK` for `GET` with `narg` 2. -/
theorem C8_counterexample :
    (⟨"GET", MSG_REQ_REDIS_GET, .Arg1⟩ : command) ∈ command_table ∧
    same_name (ascii "GET") "GET" ∧
    (ascii "GET" :: ascii "k" :: long_args).length = 2 ^ 32 + 2 ∧
    arity_admits .Arg1 long_args.length = false ∧
    (parse_request (msg_of_type MSG_UNKNOWN)
      ⟨request (ascii "GET" :: ascii "k" :: long_args), 2 ^ 40⟩).result = PARSE_OK ∧
    (parse_request (msg_of_type MSG_UNKNOWN)
      ⟨request (ascii "GET" :: ascii "k" :: long_args), 2 ^ 40⟩).type = MSG_REQ_REDIS_GET ∧
    (parse_request (msg_of_type MSG_UNKNOWN)
      ⟨request (ascii "GET" :: ascii "k" :: long_args), 2 ^ 40⟩).narg = 2 := by
  have hview : (mbuf.mk (request (ascii "GET" :: ascii "k" :: long_args)) (2 ^ 40)).data.drop 0 =
      42 :: (decimal 4294967298 ++ 13 :: 10 :: 36 :: (decimal 3 ++ 13 :: 10 :: (ascii "GET" ++
        13 :: 10 :: 36 :: (decimal 1 ++ 13 :: 10 :: (ascii "k" ++ 13 :: (10 ::
          (bulks long_args ++ []))))))) := by
    have h := request_append (ascii "GET") (ascii "k") long_args []
    rw [List.append_nil, long_args_length] at h
    rw [List.drop_zero, h]
    rfl
  obtain ⟨e1, h1⟩ := req_run_to_key_lf (r := msg_of_type MSG_UNKNOWN) rfl (all_digits_decimal _)
    (all_digits_decimal _) (all_digits_decimal _) hview (by rw [dec_value_decimal]; decide)
    (by decide) (by decide) (by decide) (by decide) (by decide)
  have hrun := e1.trans (req_run_tail_arg1 (by decide) rfl rfl
    (by show dec_value (decimal 4294967298) % 2 ^ 32 - 2 = 0; rw [dec_value_decimal]; decide) h1)
  have hp : parse_request (msg_of_type MSG_UNKNOWN)
      ⟨request (ascii "GET" :: ascii "k" :: long_args), 2 ^ 40⟩ =
      req_run ⟨request (ascii "GET" :: ascii "k" :: long_args), 2 ^ 40⟩ 0 SW_START
        (msg_of_type MSG_UNKNOWN) :=
    parse_request_eq _ _
  rw [hp, hrun]
  refine ⟨by decide, by decide, ?_, ?_, rfl, by decide, ?_⟩
  · rw [List.length_cons, List.length_cons, long_args_length]
    decide
  · rw [long_args_length]
    decide
  · show dec_value (decimal 4294967298) % 2 ^ 32 = 2
    rw [dec_value_decimal]
    decide


/-! ## C9: names outside the command table -/

/-- C9 (amended). For every non-empty command name `v` of fewer than `2 ^ 32`
bytes that is not, up to ASCII letter case, one of the names of the command
table, and every count `n`: one call of `parse_request` from `SW_START` on a
buffer that holds `*<n>\r\n$<len>\r\n<name>\r`, with `len` the length of the
name, followed by any bytes, returns `PARSE_ERROR`. -/
theorem C9_unknown_command (v post : List Nat) (n : Nat) (r : msg) (b : mbuf)
    (hv0 : v ≠ []) (hlen : v.length < 2 ^ 32)
    (hunk : ∀ e ∈ command_table, ¬ same_name v e.name)
    (hstate : r.state = 0) (htoken : r.token = none)
    (hb : b.data.drop r.pos =
      header (decimal n) ++ 36 :: (decimal v.length ++ 13 :: 10 :: (v ++ 13 :: post))) :
    (parse_request r b).result = PARSE_ERROR := by
  have hvlen : 0 < v.length := List.length_pos.mpr hv0
  have hb' : b.data.drop r.pos =
      42 :: (decimal n ++ 13 :: 10 :: 36 :: (decimal v.length ++ 13 :: 10 :: (v ++ 13 :: post))) := by
    rw [hb]
    simp [header]
  rw [parse_request_eq, hstate]
  have h0 : req_sw.of_int 0 = SW_START := rfl
  rw [h0]
  by_cases hn : dec_value (decimal n) % 2 ^ 32 = 0
  · exact req_run_header_error htoken (all_digits_decimal _) hb' hn
  · have h1 := view_skip3 hb'
    have h2 := view_skip3 h1
    rw [req_run_header htoken (all_digits_decimal _) hb' hn]
    rw [req_run_len (s := SW_REQ_TYPE_LEN) (l := SW_REQ_TYPE_LEN_LF) (g := SW_REQ_TYPE)
      (fun _ _ => rfl) (fun _ _ => rfl) rfl (all_digits_decimal _) h1
      (by rw [mod_of_lt hlen]; omega) hn]
    refine req_run_type_error rfl (mod_of_lt hlen) h2 ?_
    rw [req_type_fold h2]
    exact req_type_unknown v hunk

/-- C9 (amended) at the request `*2\r\n$4\r\nGETX\r\n$1\r\na\r\n` of the
spec. -/
theorem C9_unknown_command_witness :
    (parse_request (msg_of_type MSG_UNKNOWN)
      ⟨ascii "*2\r\n$4\r\nGETX\r\n$1\r\na\r\n", 64⟩).result = PARSE_ERROR :=
  C9_unknown_command (ascii "GETX") (ascii "\n$1\r\na\r\n") 2 (msg_of_type MSG_UNKNOWN)
    ⟨ascii "*2\r\n$4\r\nGETX\r\n$1\r\na\r\n", 64⟩
    (by decide) (by decide) (by decide) rfl rfl (by decide)

/-- C9 as stated fails when the length field of the name wraps around in 32
bits: `long_name` has `2 ^ 32 + 3` bytes, so it is not a name of the table, its
length field is read as 3, the switch classifies its first three bytes `GET`,
and the call goes on inside the name, which continues with `\r\n$1\r\nk\r\n`,
and returns `PARSE_OK`. -/
theorem C9_counterexample :
    long_name ≠ [] ∧
    (∀ e ∈ command_table, ¬ same_name long_name e.name) ∧
    (parse_request (msg_of_type MSG_UNKNOWN)
      ⟨header (decimal 2) ++ 36 :: (decimal long_name.length ++ 13 :: 10 :: (long_name ++ 13 :: [])),
        2 ^ 40⟩).result = PARSE_OK := by
  have hview : (mbuf.mk (header (decimal 2) ++ 36 :: (decimal long_name.length ++ 13 :: 10 ::
      (long_name ++ 13 :: []))) (2 ^ 40)).data.drop 0 =
      42 :: (decimal 2 ++ 13 :: 10 :: 36 :: (decimal 4294967299 ++ 13 :: 10 :: (ascii "GET" ++
        13 :: 10 :: 36 :: (decimal 1 ++ 13 :: 10 :: (ascii "k" ++ 13 :: (10 ::
          (name_pad ++ 13 :: []))))))) := by
    rw [List.drop_zero, long_name_length, long_name_append]
    rfl
  obtain ⟨e1, h1⟩ := req_run_to_key_lf (r := msg_of_type MSG_UNKNOWN) rfl (all_digits_decimal _)
    (all_digits_decimal _) (all_digits_decimal _) hview (by decide)
    (by rw [dec_value_decimal]; decide) (by decide) (by decide) (by decide) (by decide)
  have hrun := e1.trans (req_run_tail_arg1 (by decide) rfl rfl rfl h1)
  have hp : parse_request (msg_of_type MSG_UNKNOWN)
      ⟨header (decimal 2) ++ 36 :: (decimal long_name.length ++ 13 :: 10 :: (long_name ++ 13 :: [])),
        2 ^ 40⟩ =
      req_run ⟨header (decimal 2) ++ 36 :: (decimal long_name.length ++ 13 :: 10 ::
        (long_name ++ 13 :: [])), 2 ^ 40⟩ 0 SW_START (msg_of_type MSG_UNKNOWN) :=
    parse_request_eq _ _
  rw [hp, hrun]
  refine ⟨?_, ?_, rfl⟩
  · rw [long_name]
    exact List.cons_ne_nil _ _
  · intro e he hs
    have h1 := same_name_length hs
    have h2 := (table_facts e he).2.2
    rw [long_name_length] at h1
    omega


/-! ## C10: letter case of the command name -/

/-- C11 (amended). One call of `parse_request` from `SW_START` on a buffer
that holds `*3\r\n$4\r\nMGET\r\n$1\r\na\r\n$1\r\nb\r\n` returns
`PARSE_FRAGMENT` with `type` `MSG_REQ_REDIS_MGET`, `narg` 3 and `rnarg` 1: the
count read from the header is decremented at the `CR` of the length field of
the name and at the `CR` of the length field of the first key, and one bulk
element lies unread from `pos`, which is at the `$` of the second key. -/
theorem C11_fragment_scenario :
    (parse_request (msg_of_type MSG_UNKNOWN)
      ⟨ascii "*3\r\n$4\r\nMGET\r\n$1\r\na\r\n$1\r\nb\r\n", 64⟩).result = PARSE_FRAGMENT ∧
    (parse_request (msg_of_type MSG_UNKNOWN)
      ⟨ascii "*3\r\n$4\r\nMGET\r\n$1\r\na\r\n$1\r\nb\r\n", 64⟩).type = MSG_REQ_REDIS_MGET ∧
    (parse_request (msg_of_type MSG_UNKNOWN)
      ⟨ascii "*3\r\n$4\r\nMGET\r\n$1\r\na\r\n$1\r\nb\r\n", 64⟩).narg = 3 ∧
    (parse_request (msg_of_type MSG_UNKNOWN)
      ⟨ascii "*3\r\n$4\r\nMGET\r\n$1\r\na\r\n$1\r\nb\r\n", 64⟩).rnarg = 1 ∧
    (parse_request (msg_of_type MSG_UNKNOWN)
      ⟨ascii "*3\r\n$4\r\nMGET\r\n$1\r\na\r\n$1\r\nb\r\n", 64⟩).pos = 21 ∧
    (ascii "*3\r\n$4\r\nMGET\r\n$1\r\na\r\n$1\r\nb\r\n").drop 21 = ascii "$1\r\nb\r\n" := by
  decide

/-- C11 as stated fails on its own input: the call returns `PARSE_FRAGMENT`
for `MGET` with `narg` 3, and `rnarg` is not 2. -/
theorem C11_counterexample :
    (parse_request (msg_of_type MSG_UNKNOWN)
      ⟨ascii "*3\r\n$4\r\nMGET\r\n$1\r\na\r\n$1\r\nb\r\n", 64⟩).result = PARSE_FRAGMENT ∧
    (parse_request (msg_of_type MSG_UNKNOWN)
      ⟨ascii "*3\r\n$4\r\nMGET\r\n$1\r\na\r\n$1\r\nb\r\n", 64⟩).rnarg ≠ 2 := by
  decide


/-! ## C12: the fragment cue -/

/-- C12 (amended). For every `MGET` or `DEL` request (the name in any letter
case) with a non-empty first key `K1` of fewer than `2 ^ 32` bytes, a second
key `K2` and any further keys `more` (arbitrary bytes of any length), with
`narg` below `2 ^ 32`, held in one buffer and followed by any bytes: one call
of `parse_request` from `SW_START` returns `PARSE_FRAGMENT` with
`state = SW_FRAGMENT`, `token` null, `type` the tag of the command, `narg` as
given in the header, the bytes in `[key_start, key_end)` equal to `K1`, `pos`
at the `$` that opens the second key (the unread bytes from `pos` on are the
encodings of `K2` and of the further keys, then the bytes after the request),
and `rnarg` the number of those unread elements. -/
theorem C12_fragment_cue (e : command) (v K1 K2 : List Nat) (more : List (List Nat))
    (post : List Nat) (r : msg) (b : mbuf)
    (he : e ∈ command_table)
    (hx : e.tag = MSG_REQ_REDIS_MGET ∨ e.tag = MSG_REQ_REDIS_DEL)
    (hv : same_name v e.name) (hK : K1 ≠ []) (hKlen : K1.length < 2 ^ 32)
    (hn : more.length + 3 < 2 ^ 32)
    (hstate : r.state = 0) (htoken : r.token = none)
    (hb : b.data.drop r.pos = request (v :: K1 :: K2 :: more) ++ post) :
    (parse_request r b).result = PARSE_FRAGMENT ∧
    req_sw.of_int (parse_request r b).state = SW_FRAGMENT ∧
    (parse_request r b).token = none ∧
    (parse_request r b).type = e.tag ∧
    (parse_request r b).narg = more.length + 3 ∧
    key_bytes b.data (parse_request r b) = some K1 ∧
    b.at (parse_request r b).pos = 36 ∧
    b.data.drop (parse_request r b).pos = bulks (K2 :: more) ++ post ∧
    (parse_request r b).rnarg = (K2 :: more).length := by
  obtain ⟨htag, hpos, hle⟩ := table_facts e he
  have hvl := same_name_length hv
  have hv0 : v ≠ [] := List.length_pos.mp (by omega)
  have hty := req_type_same_name he hv
  have hcls : arity_of e.tag = some .ArgX := by
    rcases hx with h | h <;> rw [h] <;> decide
  have hn' : (K2 :: more).length + 2 < 2 ^ 32 := by
    simp only [List.length_cons]; omega
  rw [request_append, bulks_cons_append] at hb
  rw [parse_request_eq, hstate]
  have h0 : req_sw.of_int 0 = SW_START := rfl
  rw [h0]
  have hkb := req_run_key_bytes (r := r) htoken (all_digits_decimal _) (all_digits_decimal _)
    (all_digits_decimal _) (mod_of_lt (by omega)) (mod_of_lt hKlen) hK hb
  obtain ⟨e1, h1⟩ := req_run_to_key_lf (r := r) htoken (all_digits_decimal _)
    (all_digits_decimal _) (all_digits_decimal _) hb (by rw [mod_of_lt hn']; omega)
    (mod_of_lt (by omega)) hv0 (mod_of_lt hKlen) hK (by rw [hty]; exact htag)
  rw [hty, mod_of_lt hn'] at e1
  have hrun := e1.trans (req_run_tail_argx (by exact hcls) (by simp) h1)
  rw [hrun] at hkb ⊢
  obtain ⟨_, _, h2⟩ := buf_cons h1
  obtain ⟨_, h36, _⟩ := buf_cons h2
  refine ⟨rfl, rfl, rfl, rfl, ?_, ?_, h36, ?_, ?_⟩
  · show (K2 :: more).length + 2 = more.length + 3
    simp only [List.length_cons]
  · rcases hkb with hk | hk
    · cases hk
    · exact hk
  · rw [bulks_cons_append]
    exact h2
  · show (K2 :: more).length + 2 - 2 = (K2 :: more).length
    omega

/-- C12 (amended) at the request `*3\r\n$4\r\nMGET\r\n$1\r\na\r\n$1\r\nb\r\n`
of the spec. -/
theorem C12_fragment_cue_witness :
    (parse_request (msg_of_type MSG_UNKNOWN)
      ⟨request [ascii "MGET", ascii "a", ascii "b"], 64⟩).result = PARSE_FRAGMENT ∧
    req_sw.of_int (parse_request (msg_of_type MSG_UNKNOWN)
      ⟨request [ascii "MGET", ascii "a", ascii "b"], 64⟩).state = SW_FRAGMENT ∧
    (parse_request (msg_of_type MSG_UNKNOWN)
      ⟨request [ascii "MGET", ascii "a", ascii "b"], 64⟩).token = none ∧
    (parse_request (msg_of_type MSG_UNKNOWN)
      ⟨request [ascii "MGET", ascii "a", ascii "b"], 64⟩).type = MSG_REQ_REDIS_MGET ∧
    (parse_request (msg_of_type MSG_UNKNOWN)
      ⟨request [ascii "MGET", ascii "a", ascii "b"], 64⟩).narg = ([] : List (List Nat)).length + 3 ∧
    key_bytes (mbuf.mk (request [ascii "MGET", ascii "a", ascii "b"]) 64).data
      (parse_request (msg_of_type MSG_UNKNOWN)
        ⟨request [ascii "MGET", ascii "a", ascii "b"], 64⟩) = some (ascii "a") ∧
    (mbuf.mk (request [ascii "MGET", ascii "a", ascii "b"]) 64).at
      (parse_request (msg_of_type MSG_UNKNOWN)
        ⟨request [ascii "MGET", ascii "a", ascii "b"], 64⟩).pos = 36 ∧
    (mbuf.mk (request [ascii "MGET", ascii "a", ascii "b"]) 64).data.drop
      (parse_request (msg_of_type MSG_UNKNOWN)
        ⟨request [ascii "MGET", ascii "a", ascii "b"], 64⟩).pos = bulks (ascii "b" :: []) ++ [] ∧
    (parse_request (msg_of_type MSG_UNKNOWN)
      ⟨request [ascii "MGET", ascii "a", ascii "b"], 64⟩).rnarg = (ascii "b" :: []).length :=
  C12_fragment_cue ⟨"MGET", MSG_REQ_REDIS_MGET, .ArgX⟩ (ascii "MGET") (ascii "a") (ascii "b") []
    [] (msg_of_type MSG_UNKNOWN) ⟨request [ascii "MGET", ascii "a", ascii "b"], 64⟩
    (by decide) (by decide) (by decide) (by decide) (by decide) (by decide) rfl rfl (by decide)

/-- C12 as stated fails for an empty first key and for a first key whose
length wraps around in 32 bits. The request `MGET` with the keys `` (empty)
and `b` has two keys and `narg` 3, and the call returns `PARSE_ERROR` at the
`CR` of the length field `$0`. The request `MGET` with the keys `long_key`, of
`2 ^ 32 + 1` bytes, and `b` returns `PARSE_FRAGMENT` with the single byte `k`
as the key and `pos` inside the first key. -/
theorem C12_counterexample :
    (parse_request (msg_of_type MSG_UNKNOWN)
      ⟨request [ascii "MGET", [], ascii "b"], 64⟩).result = PARSE_ERROR ∧
    (parse_request (msg_of_type MSG_UNKNOWN)
      ⟨request [ascii "MGET", long_key, ascii "b"], 2 ^ 33⟩).result = PARSE_FRAGMENT ∧
    key_bytes (request [ascii "MGET", long_key, ascii "b"])
      (parse_request (msg_of_type MSG_UNKNOWN)
        ⟨request [ascii "MGET", long_key, ascii "b"], 2 ^ 33⟩) = some [107] ∧
    key_bytes (request [ascii "MGET", long_key, ascii "b"])
      (parse_request (msg_of_type MSG_UNKNOWN)
        ⟨request [ascii "MGET", long_key, ascii "b"], 2 ^ 33⟩) ≠ some long_key ∧
    (mbuf.mk (request [ascii "MGET", long_key, ascii "b"]) (2 ^ 33)).at
      (parse_request (msg_of_type MSG_UNKNOWN)
        ⟨request [ascii "MGET", long_key, ascii "b"], 2 ^ 33⟩).pos ≠ 36 := by
  have hview : (mbuf.mk (request [ascii "MGET", long_key, ascii "b"]) (2 ^ 33)).data.drop 0 =
      42 :: (decimal 3 ++ 13 :: 10 :: 36 :: (decimal 4 ++ 13 :: 10 :: (ascii "MGET" ++ 13 :: 10 ::
        36 :: (decimal 4294967297 ++ 13 :: 10 :: ([107] ++ 13 :: (10 :: (0 ::
          (List.replicate 4294967293 0 ++ 13 :: 10 :: (bulks [ascii "b"] ++ []))))))))) := by
    have h := request_append (ascii "MGET") long_key [ascii "b"] []
    rw [List.append_nil, long_key_length, long_key_append, long_pad_cons] at h
    rw [List.drop_zero, h]
    rfl
  obtain ⟨e1, h1⟩ := req_run_to_key_lf (r := msg_of_type MSG_UNKNOWN) rfl (all_digits_decimal _)
    (all_digits_decimal _) (all_digits_decimal _) hview (by decide) (by decide) (by decide)
    (by rw [dec_value_decimal]; decide) (by decide) (by decide)
  have hrun := e1.trans (req_run_tail_argx (by decide) (by decide) h1)
  have hp : parse_request (msg_of_type MSG_UNKNOWN)
      ⟨request [ascii "MGET", long_key, ascii "b"], 2 ^ 33⟩ =
      req_run ⟨request [ascii "MGET", long_key, ascii "b"], 2 ^ 33⟩ 0 SW_START
        (msg_of_type MSG_UNKNOWN) :=
    parse_request_eq _ _
  have hkb := req_run_key_bytes (r := msg_of_type MSG_UNKNOWN) rfl (all_digits_decimal _)
    (all_digits_decimal _) (all_digits_decimal _) (by decide)
    (by rw [dec_value_decimal]; decide) (by decide) hview
  obtain ⟨_, _, h2⟩ := buf_cons h1
  obtain ⟨_, h0, _⟩ := buf_cons h2
  rw [hp, hrun]
  rw [hrun] at hkb
  rcases hkb with he | hk
  · cases he
  · refine ⟨by decide, rfl, hk, ?_, ?_⟩
    · rw [hk, long_key]
      simp
    · show (mbuf.mk (request [ascii "MGET", long_key, ascii "b"]) (2 ^ 33)).at
        (0 + (decimal 3).length + (decimal 4).length + (ascii "MGET").length +
          (decimal 4294967297).length + [107].length + 12 + 1) ≠ 36
      rw [h0]
      decide


/-! ## C13: single-line replies -/

/-- C13. For every first byte `c` among `+`, `-` and `:` and every text `t`
without a `CR` byte (possibly empty): one call of `parse_response` from
`SW_START` on a buffer whose unread bytes are `c`, `t`, `CR`, `LF`, followed
by any bytes, returns `PARSE_OK` with `type` `MSG_RSP_REDIS_STATUS`,
`MSG_RSP_REDIS_ERROR` or `MSG_RSP_REDIS_INTEGER` respectively and `pos` one
past the `LF`. -/
theorem C13_single_line (c : Nat) (t post : List Nat) (r : msg) (b : mbuf)
    (hc : c = 43 ∨ c = 45 ∨ c = 58) (ht : ∀ x ∈ t, x ≠ 13)
    (hstate : r.state = 0)
    (hb : b.data.drop r.pos = c :: (t ++ 13 :: 10 :: post)) :
    (parse_response r b).result = PARSE_OK ∧
    (parse_response r b).type =
      (if c = 43 then MSG_RSP_REDIS_STATUS
        else if c = 45 then MSG_RSP_REDIS_ERROR else MSG_RSP_REDIS_INTEGER) ∧
    (parse_response r b).pos = r.pos + 1 + t.length + 2 ∧
    b.data.drop (parse_response r b).pos = post := by
  obtain ⟨hp, hat, h1⟩ := buf_cons hb
  have hpost : b.data.drop (r.pos + 1 + t.length + 2) = post := view_skip2 h1
  rw [parse_response_eq, hstate]
  have h0 : rsp_sw.of_int 0 = .SW_START := rfl
  rw [h0, rsp_run_start hp, hat]
  rcases hc with rfl | rfl | rfl
  · simp only [if_true]
    rw [rsp_run_eq _ _ hp]
    simp only [rsp_step]
    rw [rsp_run_runto t (r.pos + 1) ht h1]
    exact ⟨rfl, rfl, rfl, hpost⟩
  · simp only [if_true, if_false, show ¬ ((45 : Nat) = 43) by decide]
    rw [rsp_run_eq _ _ hp]
    simp only [rsp_step]
    rw [rsp_run_runto t (r.pos + 1) ht h1]
    exact ⟨rfl, rfl, rfl, hpost⟩
  · simp only [if_true, if_false, show ¬ ((58 : Nat) = 43) by decide,
      show ¬ ((58 : Nat) = 45) by decide]
    rw [rsp_run_eq _ _ hp]
    simp only [rsp_step]
    rw [rsp_run_runto t (r.pos + 1) ht h1]
    exact ⟨rfl, rfl, rfl, hpost⟩

/-- C13 at the reply `:1234\r\n` of the spec: `PARSE_OK` with type
`MSG_RSP_REDIS_INTEGER`. -/
theorem C13_single_line_witness :
    (parse_response (msg_of_type MSG_UNKNOWN) ⟨ascii ":1234\r\n", 64⟩).result = PARSE_OK ∧
    (parse_response (msg_of_type MSG_UNKNOWN) ⟨ascii ":1234\r\n", 64⟩).type =
      (if (58 : Nat) = 43 then MSG_RSP_REDIS_STATUS
        else if (58 : Nat) = 45 then MSG_RSP_REDIS_ERROR else MSG_RSP_REDIS_INTEGER) ∧
    (parse_response (msg_of_type MSG_UNKNOWN) ⟨ascii ":1234\r\n", 64⟩).pos =
      (msg_of_type MSG_UNKNOWN).pos + 1 + (ascii "1234").length + 2 ∧
    (mbuf.mk (ascii ":1234\r\n") 64).data.drop
      (parse_response (msg_of_type MSG_UNKNOWN) ⟨ascii ":1234\r\n", 64⟩).pos = [] :=
  C13_single_line 58 (ascii "1234") [] (msg_of_type MSG_UNKNOWN) ⟨ascii ":1234\r\n", 64⟩
    (by decide) (by decide) rfl (by decide)


/-! ## C14: bulk replies -/

/-- C14. For every element `x`, either nil (encoded `$-1\r\n`) or a payload
`B` of fewer than `2 ^ 32` bytes (arbitrary bytes, `CR` and `LF` included,
possibly none; encoded `$<|B|>\r\n` `B` `\r\n`): one call of `parse_response`
from `SW_START` with `token` null on a buffer whose unread bytes are the
encoding of `x`, followed by any bytes, returns `PARSE_OK` with `type`
`MSG_RSP_REDIS_BULK` and `pos` one past the last `LF` of the encoding; for the
nil element that is five bytes on, no payload being skipped. -/
theorem C14_bulk_reply (x : Option (List Nat)) (post : List Nat) (r : msg) (b : mbuf)
    (hx : ∀ B, x = some B → B.length < 2 ^ 32)
    (hstate : r.state = 0) (htoken : r.token = none)
    (hb : b.data.drop r.pos = reply_elem x ++ post) :
    (parse_response r b).result = PARSE_OK ∧
    (parse_response r b).type = MSG_RSP_REDIS_BULK ∧
    (parse_response r b).pos = r.pos + (reply_elem x).length ∧
    b.data.drop (parse_response r b).pos = post ∧
    (reply_elem none).length = 5 := by
  have hpost : b.data.drop (r.pos + (reply_elem x).length) = post := view_append hb
  rw [parse_response_eq, hstate]
  have h0 : rsp_sw.of_int 0 = .SW_START := rfl
  rw [h0]
  cases x with
  | none =>
    have h : b.data.drop r.pos = 36 :: 45 :: ([49] ++ 13 :: 10 :: post) := hb
    obtain ⟨hp, hat, _⟩ := buf_cons h
    rw [rsp_run_start hp, hat]
    simp only [if_true, if_false, show ¬ ((36 : Nat) = 43) by decide,
      show ¬ ((36 : Nat) = 45) by decide, show ¬ ((36 : Nat) = 58) by decide]
    rw [rsp_run_bulk_nil (r := { r with type := MSG_RSP_REDIS_BULK }) htoken (by decide) h]
    exact ⟨rfl, rfl, rfl, hpost, rfl⟩
  | some B =>
    have hB := hx B rfl
    have h : b.data.drop r.pos = 36 :: (decimal B.length ++ 13 :: 10 :: (B ++ 13 :: 10 :: post)) := by
      rw [hb]
      exact bulk_append B post
    obtain ⟨hp, hat, _⟩ := buf_cons h
    have h1 := view_skip3 h
    rw [rsp_run_start hp, hat]
    simp only [if_true, if_false, show ¬ ((36 : Nat) = 43) by decide,
      show ¬ ((36 : Nat) = 45) by decide, show ¬ ((36 : Nat) = 58) by decide]
    rw [rsp_run_bulk_len (r := { r with type := MSG_RSP_REDIS_BULK }) htoken (all_digits_decimal _)
      (decimal_ne_nil _) h]
    rw [rsp_run_bulk_arg (by simp only; exact mod_of_lt hB) h1]
    have hpos : r.pos + (decimal B.length).length + 3 + B.length + 1 + 1 =
        r.pos + (reply_elem (some B)).length := by
      show _ = r.pos + (bulk B).length
      rw [bulk_length]
      omega
    refine ⟨rfl, rfl, hpos, ?_, rfl⟩
    show b.data.drop (r.pos + (decimal B.length).length + 3 + B.length + 1 + 1) = post
    rw [hpos]
    exact hpost

/-- C14 at a payload that holds `CR LF`: the reply `$8\r\nfoo\r\nbar\r\n`. -/
theorem C14_bulk_reply_witness :
    (parse_response (msg_of_type MSG_UNKNOWN)
      ⟨reply_elem (some (ascii "foo\r\nbar")), 64⟩).result = PARSE_OK ∧
    (parse_response (msg_of_type MSG_UNKNOWN)
      ⟨reply_elem (some (ascii "foo\r\nbar")), 64⟩).type = MSG_RSP_REDIS_BULK ∧
    (parse_response (msg_of_type MSG_UNKNOWN)
      ⟨reply_elem (some (ascii "foo\r\nbar")), 64⟩).pos =
        (msg_of_type MSG_UNKNOWN).pos + (reply_elem (some (ascii "foo\r\nbar"))).length ∧
    (mbuf.mk (reply_elem (some (ascii "foo\r\nbar"))) 64).data.drop
      (parse_response (msg_of_type MSG_UNKNOWN)
        ⟨reply_elem (some (ascii "foo\r\nbar")), 64⟩).pos = [] ∧
    (reply_elem none).length = 5 :=
  C14_bulk_reply (some (ascii "foo\r\nbar")) [] (msg_of_type MSG_UNKNOWN)
    ⟨reply_elem (some (ascii "foo\r\nbar")), 64⟩
    (fun B h => Option.some.inj h ▸ (by decide)) rfl rfl (by decide)


/-! ## C15: multibulk replies -/

/-- C15 (amended). For every list `xs` of fewer than `2 ^ 32` elements, each
either nil (encoded `$-1\r\n`) or a payload of fewer than `2 ^ 32` arbitrary
bytes (encoded `$<len>\r\n<bytes>\r\n`, `len` in decimal without leading
zeros): one call of `parse_response` from `SW_START` with `token` null on a
buffer whose unread bytes are `*<n>\r\n` and the encodings of the elements,
followed by any bytes, returns `PARSE_OK` with `type`
`MSG_RSP_REDIS_MULTIBULK`, `narg` the number of elements, `rnarg` 0 and `pos`
one past the last `LF`; for no elements that is the `LF` of `*0\r\n`. -/
theorem C15_multibulk_reply (xs : List (Option (List Nat))) (post : List Nat) (r : msg)
    (b : mbuf) (hn : xs.length < 2 ^ 32) (hx : ∀ B, some B ∈ xs → B.length < 2 ^ 32)
    (hstate : r.state = 0) (htoken : r.token = none)
    (hb : b.data.drop r.pos = multibulk xs ++ post) :
    (parse_response r b).result = PARSE_OK ∧
    (parse_response r b).type = MSG_RSP_REDIS_MULTIBULK ∧
    (parse_response r b).narg = xs.length ∧
    (parse_response r b).rnarg = 0 ∧
    (parse_response r b).pos = r.pos + (multibulk xs).length ∧
    b.data.drop (parse_response r b).pos = post := by
  have hpost : b.data.drop (r.pos + (multibulk xs).length) = post := view_append hb
  rw [multibulk_append] at hb
  obtain ⟨hp, hat, _⟩ := buf_cons hb
  have h1 := view_skip3 hb
  rw [parse_response_eq, hstate]
  have h0 : rsp_sw.of_int 0 = .SW_START := rfl
  rw [h0, rsp_run_start hp, hat]
  simp only [if_true, if_false, show ¬ ((42 : Nat) = 43) by decide,
    show ¬ ((42 : Nat) = 45) by decide, show ¬ ((42 : Nat) = 58) by decide,
    show ¬ ((42 : Nat) = 36) by decide]
  rw [rsp_run_mb_header (r := { r with type := MSG_RSP_REDIS_MULTIBULK }) htoken
    (all_digits_decimal _) (decimal_ne_nil _) hb, mod_of_lt hn]
  by_cases hxs : xs = []
  · subst hxs
    rw [if_pos List.length_nil]
    have hpos : r.pos + (decimal ([] : List (Option (List Nat))).length).length + 2 + 1 =
        r.pos + (multibulk []).length := by
      rw [multibulk_length]
      simp only [reply_elems, List.length_nil]
      omega
    refine ⟨rfl, rfl, rfl, rfl, hpos, ?_⟩
    show b.data.drop (r.pos + (decimal ([] : List (Option (List Nat))).length).length + 2 + 1) =
      post
    rw [hpos]
    exact hpost
  · have hlen : 0 < xs.length := List.length_pos.mpr hxs
    rw [if_neg (by omega)]
    rw [rsp_run_mb_elems post xs _ _ rfl rfl hxs hx h1]
    have h5 : 0 < (reply_elems xs).length := by
      cases xs with
      | nil => exact absurd rfl hxs
      | cons y ys =>
        have := reply_elem_length_pos y
        simp only [reply_elems, List.length_append]
        omega
    have hpos : r.pos + (decimal xs.length).length + 3 + (reply_elems xs).length - 1 + 1 =
        r.pos + (multibulk xs).length := by
      rw [multibulk_length]
      omega
    refine ⟨rfl, rfl, rfl, rfl, hpos, ?_⟩
    show b.data.drop (r.pos + (decimal xs.length).length + 3 + (reply_elems xs).length - 1 + 1) =
      post
    rw [hpos]
    exact hpost

/-- C15 (amended) at a reply of three elements: nil, the empty payload and
the payload `CR LF`. -/
theorem C15_multibulk_reply_witness :
    (parse_response (msg_of_type MSG_UNKNOWN)
      ⟨multibulk [none, some [], some [13, 10]] ++ [], 64⟩).result = PARSE_OK ∧
    (parse_response (msg_of_type MSG_UNKNOWN)
      ⟨multibulk [none, some [], some [13, 10]] ++ [], 64⟩).type = MSG_RSP_REDIS_MULTIBULK ∧
    (parse_response (msg_of_type MSG_UNKNOWN)
      ⟨multibulk [none, some [], some [13, 10]] ++ [], 64⟩).narg =
        [none, some [], some [13, 10]].length ∧
    (parse_response (msg_of_type MSG_UNKNOWN)
      ⟨multibulk [none, some [], some [13, 10]] ++ [], 64⟩).rnarg = 0 ∧
    (parse_response (msg_of_type MSG_UNKNOWN)
      ⟨multibulk [none, some [], some [13, 10]] ++ [], 64⟩).pos =
        (msg_of_type MSG_UNKNOWN).pos + (multibulk [none, some [], some [13, 10]]).length ∧
    (mbuf.mk (multibulk [none, some [], some [13, 10]] ++ []) 64).data.drop
      (parse_response (msg_of_type MSG_UNKNOWN)
        ⟨multibulk [none, some [], some [13, 10]] ++ [], 64⟩).pos = [] :=
  C15_multibulk_reply [none, some [], some [13, 10]] [] (msg_of_type MSG_UNKNOWN)
    ⟨multibulk [none, some [], some [13, 10]] ++ [], 64⟩ (by decide)
    (by intro B hB; simp at hB; rcases hB with rfl | rfl <;> decide) rfl rfl rfl

/-- C15 as stated fails when the length field of an element wraps around in
32 bits: the multibulk reply with the single element `long_payload`, of
`2 ^ 32` bytes, is well formed, its length field is read as 0, and the call
returns `PARSE_ERROR` at the first byte of the payload, where it expects the
`CR`. -/
theorem C15_counterexample :
    [some long_payload].length < 2 ^ 32 ∧
    (parse_response (msg_of_type MSG_UNKNOWN)
      ⟨multibulk [some long_payload], 2 ^ 33⟩).result = PARSE_ERROR := by
  have hview : (mbuf.mk (multibulk [some long_payload]) (2 ^ 33)).data.drop 0 =
      42 :: (decimal 1 ++ 13 :: 10 :: 36 :: (decimal 4294967296 ++ 13 :: 10 ::
        (0 :: (0 :: long_pad ++ [13, 10])))) := by
    have h := multibulk_single long_payload
    rw [long_payload_length] at h
    rw [List.drop_zero]
    show multibulk [some long_payload] = _
    rw [h, long_payload]
    rfl
  obtain ⟨hp, hat, _⟩ := buf_cons hview
  have h1 := view_skip3 hview
  have h2 := view_skip3 h1
  have hp' : parse_response (msg_of_type MSG_UNKNOWN) ⟨multibulk [some long_payload], 2 ^ 33⟩ =
      rsp_run ⟨multibulk [some long_payload], 2 ^ 33⟩ 0 .SW_START (msg_of_type MSG_UNKNOWN) :=
    parse_response_eq _ _
  refine ⟨by decide, ?_⟩
  rw [hp', rsp_run_start hp, hat]
  simp only [if_true, if_false, show ¬ ((42 : Nat) = 43) by decide,
    show ¬ ((42 : Nat) = 45) by decide, show ¬ ((42 : Nat) = 58) by decide,
    show ¬ ((42 : Nat) = 36) by decide]
  rw [rsp_run_mb_header (r := { msg_of_type MSG_UNKNOWN with type := MSG_RSP_REDIS_MULTIBULK })
    rfl (all_digits_decimal _) (decimal_ne_nil _) hview]
  rw [if_neg (by decide)]
  rw [rsp_run_mb_len rfl (by decide) (all_digits_decimal _) (decimal_ne_nil _)
    (by rw [dec_value_decimal]; decide) h1]
  exact rsp_run_mb_arg_error (by show dec_value (decimal 4294967296) % 2 ^ 32 = 0
                                 rw [dec_value_decimal]; decide) h2 (by decide)


/-! ## C16: the first byte of a reply -/

/-- C16. For one call of `parse_response` from `SW_START`: when the buffer
has an unread byte and the first is none of `+`, `-`, `:`, `$` and `*`, the
call returns `PARSE_ERROR`; and whenever the call returns `PARSE_OK`, the
buffer has an unread byte and `type` is `MSG_RSP_REDIS_STATUS`,
`MSG_RSP_REDIS_ERROR`, `MSG_RSP_REDIS_INTEGER`, `MSG_RSP_REDIS_BULK` or
`MSG_RSP_REDIS_MULTIBULK` according to whether the first unread byte is `+`,
`-`, `:`, `$` or `*`. -/
theorem C16_first_byte (r : msg) (b : mbuf) (hstate : r.state = 0) :
    (r.pos < b.last → b.at r.pos ≠ 43 → b.at r.pos ≠ 45 → b.at r.pos ≠ 58 →
      b.at r.pos ≠ 36 → b.at r.pos ≠ 42 → (parse_response r b).result = PARSE_ERROR) ∧
    ((parse_response r b).result = PARSE_OK →
      r.pos < b.last ∧
      ((b.at r.pos = 43 ∧ (parse_response r b).type = MSG_RSP_REDIS_STATUS) ∨
       (b.at r.pos = 45 ∧ (parse_response r b).type = MSG_RSP_REDIS_ERROR) ∨
       (b.at r.pos = 58 ∧ (parse_response r b).type = MSG_RSP_REDIS_INTEGER) ∨
       (b.at r.pos = 36 ∧ (parse_response r b).type = MSG_RSP_REDIS_BULK) ∨
       (b.at r.pos = 42 ∧ (parse_response r b).type = MSG_RSP_REDIS_MULTIBULK))) := by
  rw [parse_response_eq, hstate]
  have h0 : rsp_sw.of_int 0 = .SW_START := rfl
  rw [h0]
  constructor
  · intro hp c1 c2 c3 c4 c5
    rw [rsp_run_start hp, if_neg c1, if_neg c2, if_neg c3, if_neg c4, if_neg c5]
    rfl
  · intro hok
    have hp : r.pos < b.last := by
      by_contra hge
      rw [rsp_run_end _ _ (by omega)] at hok
      exact absurd hok (label_again_not_ok _ _ _ _)
    refine ⟨hp, ?_⟩
    rw [rsp_run_start hp] at hok ⊢
    by_cases c1 : b.at r.pos = 43
    · rw [if_pos c1]
      exact Or.inl ⟨c1, rsp_run_type_frame (by decide)⟩
    rw [if_neg c1] at hok ⊢
    by_cases c2 : b.at r.pos = 45
    · rw [if_pos c2]
      exact Or.inr (Or.inl ⟨c2, rsp_run_type_frame (by decide)⟩)
    rw [if_neg c2] at hok ⊢
    by_cases c3 : b.at r.pos = 58
    · rw [if_pos c3]
      exact Or.inr (Or.inr (Or.inl ⟨c3, rsp_run_type_frame (by decide)⟩))
    rw [if_neg c3] at hok ⊢
    by_cases c4 : b.at r.pos = 36
    · rw [if_pos c4]
      exact Or.inr (Or.inr (Or.inr (Or.inl ⟨c4, rsp_run_type_frame (by decide)⟩)))
    rw [if_neg c4] at hok ⊢
    by_cases c5 : b.at r.pos = 42
    · rw [if_pos c5]
      exact Or.inr (Or.inr (Or.inr (Or.inr ⟨c5, rsp_run_type_frame (by decide)⟩)))
    rw [if_neg c5] at hok
    exact absurd hok (label_error_not_ok _ _)

/-- C16 at the reply `-ERR\r\n`. -/
theorem C16_first_byte_witness :
    ((msg_of_type MSG_UNKNOWN).pos < (mbuf.mk (ascii "-ERR\r\n") 8).last →
      (mbuf.mk (ascii "-ERR\r\n") 8).at (msg_of_type MSG_UNKNOWN).pos ≠ 43 →
      (mbuf.mk (ascii "-ERR\r\n") 8).at (msg_of_type MSG_UNKNOWN).pos ≠ 45 →
      (mbuf.mk (ascii "-ERR\r\n") 8).at (msg_of_type MSG_UNKNOWN).pos ≠ 58 →
      (mbuf.mk (ascii "-ERR\r\n") 8).at (msg_of_type MSG_UNKNOWN).pos ≠ 36 →
      (mbuf.mk (ascii "-ERR\r\n") 8).at (msg_of_type MSG_UNKNOWN).pos ≠ 42 →
      (parse_response (msg_of_type MSG_UNKNOWN) ⟨ascii "-ERR\r\n", 8⟩).result = PARSE_ERROR) ∧
    ((parse_response (msg_of_type MSG_UNKNOWN) ⟨ascii "-ERR\r\n", 8⟩).result = PARSE_OK →
      (msg_of_type MSG_UNKNOWN).pos < (mbuf.mk (ascii "-ERR\r\n") 8).last ∧
      (((mbuf.mk (ascii "-ERR\r\n") 8).at (msg_of_type MSG_UNKNOWN).pos = 43 ∧
          (parse_response (msg_of_type MSG_UNKNOWN) ⟨ascii "-ERR\r\n", 8⟩).type = MSG_RSP_REDIS_STATUS) ∨
       ((mbuf.mk (ascii "-ERR\r\n") 8).at (msg_of_type MSG_UNKNOWN).pos = 45 ∧
          (parse_response (msg_of_type MSG_UNKNOWN) ⟨ascii "-ERR\r\n", 8⟩).type = MSG_RSP_REDIS_ERROR) ∨
       ((mbuf.mk (ascii "-ERR\r\n") 8).at (msg_of_type MSG_UNKNOWN).pos = 58 ∧
          (parse_response (msg_of_type MSG_UNKNOWN) ⟨ascii "-ERR\r\n", 8⟩).type = MSG_RSP_REDIS_INTEGER) ∨
       ((mbuf.mk (ascii "-ERR\r\n") 8).at (msg_of_type MSG_UNKNOWN).pos = 36 ∧
          (parse_response (msg_of_type MSG_UNKNOWN) ⟨ascii "-ERR\r\n", 8⟩).type = MSG_RSP_REDIS_BULK) ∨
       ((mbuf.mk (ascii "-ERR\r\n") 8).at (msg_of_type MSG_UNKNOWN).pos = 42 ∧
          (parse_response (msg_of_type MSG_UNKNOWN) ⟨ascii "-ERR\r\n", 8⟩).type = MSG_RSP_REDIS_MULTIBULK))) :=
  C16_first_byte (msg_of_type MSG_UNKNOWN) ⟨ascii "-ERR\r\n", 8⟩ rfl


/-! ## C17: the end of input -/

/-- C17. For `parse_request` and for `parse_response`, called with `pos` in
the filled region of the buffer: the call returns `PARSE_OK`,
`PARSE_FRAGMENT` or `PARSE_ERROR`, or else the loop has run up to `last` with
some local state `s` and message `m`, and the call returns what the spec says
of the end of input (`end_of_input`): the state `s` is stored, the verdict is
`PARSE_REPAIR` exactly when the buffer is full and the token of `m` is
non-null, in which case `pos` is that token and the token is cleared, and
`PARSE_AGAIN` in every other case, with `pos = last` and the token left as it
was. -/
theorem C17_end_of_input (r : msg) (b : mbuf) (hpos : r.pos ≤ b.last) :
    ((parse_request r b).result = PARSE_OK ∨ (parse_request r b).result = PARSE_FRAGMENT ∨
      (parse_request r b).result = PARSE_ERROR ∨
      ∃ s m, req_reach b r.pos (req_sw.of_int r.state) r b.last s m ∧
        end_of_input b s.to_int m (parse_request r b)) ∧
    ((parse_response r b).result = PARSE_OK ∨ (parse_response r b).result = PARSE_FRAGMENT ∨
      (parse_response r b).result = PARSE_ERROR ∨
      ∃ s m, rsp_reach b r.pos (rsp_sw.of_int r.state) r b.last s m ∧
        end_of_input b s.to_int m (parse_response r b)) := by
  constructor
  · rw [parse_request_eq]
    rcases @req_run_exit b r.pos (req_sw.of_int r.state) r hpos with h | h | h | ⟨s, m, h1, h2⟩
    · exact Or.inl h
    · exact Or.inr (Or.inl h)
    · exact Or.inr (Or.inr (Or.inl h))
    · refine Or.inr (Or.inr (Or.inr ⟨s, m, h1, ?_⟩))
      rw [h2]
      exact label_again_spec b s.to_int m
  · rw [parse_response_eq]
    rcases @rsp_run_exit b r.pos (rsp_sw.of_int r.state) r hpos with h | h | h | ⟨s, m, h1, h2⟩
    · exact Or.inl h
    · exact Or.inr (Or.inl h)
    · exact Or.inr (Or.inr (Or.inl h))
    · refine Or.inr (Or.inr (Or.inr ⟨s, m, h1, ?_⟩))
      rw [h2]
      exact label_again_spec b s.to_int m

/-- C17 at the full buffer `*2\r\n$3`, which ends inside a length field:
both functions return `PARSE_REPAIR` with `pos` at the `$`. -/
theorem C17_end_of_input_witness :
    (((parse_request (msg_of_type MSG_UNKNOWN) ⟨ascii "*2\r\n$3", 6⟩).result = PARSE_OK ∨
      (parse_request (msg_of_type MSG_UNKNOWN) ⟨ascii "*2\r\n$3", 6⟩).result = PARSE_FRAGMENT ∨
      (parse_request (msg_of_type MSG_UNKNOWN) ⟨ascii "*2\r\n$3", 6⟩).result = PARSE_ERROR ∨
      ∃ s m, req_reach ⟨ascii "*2\r\n$3", 6⟩ (msg_of_type MSG_UNKNOWN).pos
          (req_sw.of_int (msg_of_type MSG_UNKNOWN).state) (msg_of_type MSG_UNKNOWN)
          (mbuf.mk (ascii "*2\r\n$3") 6).last s m ∧
        end_of_input ⟨ascii "*2\r\n$3", 6⟩ s.to_int m
          (parse_request (msg_of_type MSG_UNKNOWN) ⟨ascii "*2\r\n$3", 6⟩)) ∧
    ((parse_response (msg_of_type MSG_UNKNOWN) ⟨ascii "*2\r\n$3", 6⟩).result = PARSE_OK ∨
      (parse_response (msg_of_type MSG_UNKNOWN) ⟨ascii "*2\r\n$3", 6⟩).result = PARSE_FRAGMENT ∨
      (parse_response (msg_of_type MSG_UNKNOWN) ⟨ascii "*2\r\n$3", 6⟩).result = PARSE_ERROR ∨
      ∃ s m, rsp_reach ⟨ascii "*2\r\n$3", 6⟩ (msg_of_type MSG_UNKNOWN).pos
          (rsp_sw.of_int (msg_of_type MSG_UNKNOWN).state) (msg_of_type MSG_UNKNOWN)
          (mbuf.mk (ascii "*2\r\n$3") 6).last s m ∧
        end_of_input ⟨ascii "*2\r\n$3", 6⟩ s.to_int m
          (parse_response (msg_of_type MSG_UNKNOWN) ⟨ascii "*2\r\n$3", 6⟩))) ∧
    (parse_request (msg_of_type MSG_UNKNOWN) ⟨ascii "*2\r\n$3", 6⟩).result = PARSE_REPAIR ∧
    (parse_request (msg_of_type MSG_UNKNOWN) ⟨ascii "*2\r\n$3", 6⟩).pos = 4 ∧
    (parse_response (msg_of_type MSG_UNKNOWN) ⟨ascii "*2\r\n$3", 6⟩).result = PARSE_REPAIR ∧
    (parse_response (msg_of_type MSG_UNKNOWN) ⟨ascii "*2\r\n$3", 6⟩).pos = 4 :=
  ⟨C17_end_of_input (msg_of_type MSG_UNKNOWN) ⟨ascii "*2\r\n$3", 6⟩ (by decide), by decide⟩


/-! ## C18: counts and lengths of zero -/

/-- C18. For every digit string `Z` of value zero (the empty string, `0`,
`00`, ...): one call of `parse_request` from `SW_START` returns `PARSE_ERROR`
on a buffer whose unread bytes are `*` `Z` `CR` (the header count), or a
header `*<digits>\r\n` and `$` `Z` `CR` (the length of the command name), or a
header, a first bulk element and `$` `Z` `CR` (the length of the key),
followed in each case by any bytes or by none, so that the call does not
depend on what comes after the `CR`. -/
theorem C18_zero_fields (Z D L v post : List Nat) (r : msg) (b : mbuf)
    (hZ : all_digits Z) (hz : dec_value Z = 0) (hD : all_digits D) (hL : all_digits L)
    (hv : dec_value L % 2 ^ 32 = v.length)
    (hstate : r.state = 0) (htoken : r.token = none)
    (hb : b.data.drop r.pos = 42 :: (Z ++ 13 :: post) ∨
      b.data.drop r.pos = header D ++ 36 :: (Z ++ 13 :: post) ∨
      b.data.drop r.pos = header D ++ (element L v ++ 36 :: (Z ++ 13 :: post))) :
    (parse_request r b).result = PARSE_ERROR := by
  have hz' : dec_value Z % 2 ^ 32 = 0 := by rw [hz]; rfl
  rw [parse_request_eq, hstate]
  have h0 : req_sw.of_int 0 = SW_START := rfl
  rw [h0]
  rcases hb with hb | hb | hb
  · exact req_run_header_error htoken hZ hb hz'
  · have h : b.data.drop r.pos = 42 :: (D ++ 13 :: 10 :: 36 :: (Z ++ 13 :: post)) := by
      rw [hb]; simp [header]
    by_cases hn : dec_value D % 2 ^ 32 = 0
    · exact req_run_header_error htoken hD h hn
    · have h1 := view_skip3 h
      rw [req_run_header htoken hD h hn]
      exact req_run_len_error (s := SW_REQ_TYPE_LEN) (l := SW_REQ_TYPE_LEN_LF) (fun _ _ => rfl)
        rfl hZ h1 (Or.inl hz')
  · have h : b.data.drop r.pos = 42 :: (D ++ 13 :: 10 :: 36 :: (L ++ 13 :: 10 ::
        (v ++ 13 :: 10 :: 36 :: (Z ++ 13 :: post)))) := by
      rw [hb]; simp [header, element]
    by_cases hn : dec_value D % 2 ^ 32 = 0
    · exact req_run_header_error htoken hD h hn
    · have h1 := view_skip3 h
      rw [req_run_header htoken hD h hn]
      by_cases hl : dec_value L % 2 ^ 32 = 0
      · exact req_run_len_error (s := SW_REQ_TYPE_LEN) (l := SW_REQ_TYPE_LEN_LF)
          (fun _ _ => rfl) rfl hL h1 (Or.inl hl)
      · have h2 := view_skip3 h1
        rw [req_run_len (s := SW_REQ_TYPE_LEN) (l := SW_REQ_TYPE_LEN_LF) (g := SW_REQ_TYPE)
          (fun _ _ => rfl) (fun _ _ => rfl) rfl hL h1 hl hn]
        by_cases hty : req_type b (r.pos + D.length + 3 + L.length + 3) v.length = MSG_UNKNOWN
        · exact req_run_type_error rfl hv h2 hty
        · have h3 := view_skip2 h2
          rw [req_run_type rfl hv h2 hty]
          exact req_run_len_error (s := SW_KEY_LEN) (l := SW_KEY_LEN_LF) (fun _ _ => rfl)
            rfl hZ h3 (Or.inl hz')

/-- C18 at `*2\r\n$3\r\nGET\r\n$0\r`, a key length of zero, with nothing after
the `CR`. -/
theorem C18_zero_fields_witness :
    (parse_request (msg_of_type MSG_UNKNOWN) ⟨ascii "*2\r\n$3\r\nGET\r\n$0\r", 64⟩).result =
      PARSE_ERROR :=
  C18_zero_fields (decimal 0) (decimal 2) (decimal 3) (ascii "GET") []
    (msg_of_type MSG_UNKNOWN) ⟨ascii "*2\r\n$3\r\nGET\r\n$0\r", 64⟩
    (all_digits_decimal 0) (by decide) (all_digits_decimal 2) (all_digits_decimal 3)
    (by decide) rfl rfl
    (Or.inr (Or.inr (by decide)))



/-! ## C19: `LINSERT` -/

/-- C19. For every request whose command name `v` is `LINSERT` in any letter
case, with any header count `n` and any key `K` (arbitrary bytes of any
length): one call of `parse_request` from `SW_START` on a buffer that holds
the request through the `LF` that follows the key, followed by any bytes,
returns `PARSE_ERROR`. And no call of `parse_request`, from any state on any
buffer, returns `PARSE_OK` with the tag of `LINSERT`. -/
theorem C19_linsert (v K post : List Nat) (n : Nat) (r : msg) (b : mbuf)
    (hv : same_name v "LINSERT") (hstate : r.state = 0) (htoken : r.token = none)
    (hb : b.data.drop r.pos =
      header (decimal n) ++ (element (decimal v.length) v ++ (element (decimal K.length) K ++
        post))) :
    (parse_request r b).result = PARSE_ERROR ∧
    ∀ (m : msg) (c : mbuf), (parse_request m c).result = PARSE_OK →
      (parse_request m c).type ≠ MSG_REQ_REDIS_LINSERT := by
  constructor
  · have he : (⟨"LINSERT", MSG_REQ_REDIS_LINSERT, .Arg4⟩ : command) ∈ command_table := by decide
    have hvl : v.length = 7 := same_name_length hv
    have hv0 : v ≠ [] := List.length_pos.mp (by omega)
    have hty : req_type ⟨v.map tolower ++ [13], 0⟩ 0 v.length = MSG_REQ_REDIS_LINSERT :=
      req_type_same_name he hv
    rw [first_two_append] at hb
    rw [parse_request_eq, hstate]
    have h0 : req_sw.of_int 0 = SW_START := rfl
    rw [h0]
    by_cases hn : dec_value (decimal n) % 2 ^ 32 = 0
    · exact req_run_header_error htoken (all_digits_decimal _) hb hn
    · obtain ⟨e1, h1⟩ := req_run_to_key_len (r := r) htoken (all_digits_decimal _)
        (all_digits_decimal _) hb hn (mod_of_lt (by omega)) hv0 (by rw [hty]; decide)
      rw [e1, hty]
      by_cases hz : dec_value (decimal K.length) % 2 ^ 32 = 0 ∨
          dec_value (decimal n) % 2 ^ 32 - 1 = 0
      · exact req_run_len_error (s := SW_KEY_LEN) (l := SW_KEY_LEN_LF) (fun _ _ => rfl) rfl
          (all_digits_decimal _) h1 hz
      · have hz1 : dec_value (decimal K.length) % 2 ^ 32 ≠ 0 := fun h => hz (Or.inl h)
        have hz2 : dec_value (decimal n) % 2 ^ 32 - 1 ≠ 0 := fun h => hz (Or.inr h)
        rw [req_run_len (s := SW_KEY_LEN) (l := SW_KEY_LEN_LF) (g := SW_KEY)
          (fun _ _ => rfl) (fun _ _ => rfl) rfl (all_digits_decimal _) h1 hz1 hz2]
        refine req_run_key_arg4 rfl ?_ (view_skip3 h1) (arity_table _ he)
        show dec_value (decimal K.length) % 2 ^ 32 ≤ K.length
        rw [dec_value_decimal]
        exact Nat.mod_le _ _
  · intro m c hok
    rw [parse_request_eq] at hok ⊢
    exact req_run_not_linsert hok

/-- C19 at the request `*4\r\n$7\r\nlinsert\r\n$1\r\nk\r\n`, up to the `LF`
after the key. -/
theorem C19_linsert_witness :
    (parse_request (msg_of_type MSG_UNKNOWN)
      ⟨ascii "*4\r\n$7\r\nlinsert\r\n$1\r\nk\r\n", 64⟩).result = PARSE_ERROR ∧
    ∀ (m : msg) (c : mbuf), (parse_request m c).result = PARSE_OK →
      (parse_request m c).type ≠ MSG_REQ_REDIS_LINSERT :=
  C19_linsert (ascii "linsert") (ascii "k") [] 4 (msg_of_type MSG_UNKNOWN)
    ⟨ascii "*4\r\n$7\r\nlinsert\r\n$1\r\nk\r\n", 64⟩ (by decide) rfl rfl (by decide)


/-! ## C20: the arity predicates -/

/-- C20. The command table of the spec has 56 rows with 56 distinct tags,
which are exactly the tags of `msg_type_t` other than `MSG_UNKNOWN`, the five
response tags and `MSG_SENTINEL`. For every message, each of `parse_arg1`,
`parse_arg2`, `parse_arg3`, `parse_arg4`, `parse_argn`, `parse_argx` holds
exactly when the type of the message is a tag that the table lists under the
class of that predicate. A message whose type is a request tag other than
`LINSERT` satisfies exactly one of `parse_arg1`, `parse_arg2`, `parse_arg3`,
`parse_argn`, `parse_argx` and not `parse_arg4`; a message of type `LINSERT`
satisfies `parse_arg4` and none of the five. `SISMEMBER` is Arg2,
`SRANDMEMBER` is Arg1, `HMSET` is ArgN, and `parse_argx` holds for `MGET` and
`DEL` only. The command switch, on a name followed by `CR`, gives the tag of
a row exactly when the name is the name of that row up to letter case. -/
theorem C20_arity_partition :
    command_table.length = 56 ∧
    (command_table.map command.tag).Nodup ∧
    (∀ t : msg_type_t, (∃ e ∈ command_table, e.tag = t) ↔
      (t ≠ MSG_UNKNOWN ∧ t ≠ MSG_RSP_REDIS_STATUS ∧ t ≠ MSG_RSP_REDIS_ERROR ∧
        t ≠ MSG_RSP_REDIS_INTEGER ∧ t ≠ MSG_RSP_REDIS_BULK ∧ t ≠ MSG_RSP_REDIS_MULTIBULK ∧
        t ≠ MSG_SENTINEL)) ∧
    (∀ r : msg,
      (parse_arg1 r = true ↔ ∃ e ∈ command_table, e.tag = r.type ∧ e.arity = .Arg1) ∧
      (parse_arg2 r = true ↔ ∃ e ∈ command_table, e.tag = r.type ∧ e.arity = .Arg2) ∧
      (parse_arg3 r = true ↔ ∃ e ∈ command_table, e.tag = r.type ∧ e.arity = .Arg3) ∧
      (parse_arg4 r = true ↔ ∃ e ∈ command_table, e.tag = r.type ∧ e.arity = .Arg4) ∧
      (parse_argn r = true ↔ ∃ e ∈ command_table, e.tag = r.type ∧ e.arity = .ArgN) ∧
      (parse_argx r = true ↔ ∃ e ∈ command_table, e.tag = r.type ∧ e.arity = .ArgX)) ∧
    (∀ r : msg, r.type ≠ MSG_REQ_REDIS_LINSERT → (∃ e ∈ command_table, e.tag = r.type) →
      parse_arg4 r = false ∧
      [parse_arg1 r, parse_arg2 r, parse_arg3 r, parse_argn r, parse_argx r].count true = 1) ∧
    (∀ r : msg, r.type = MSG_REQ_REDIS_LINSERT →
      parse_arg4 r = true ∧
      [parse_arg1 r, parse_arg2 r, parse_arg3 r, parse_argn r, parse_argx r].count true = 0) ∧
    (∀ r : msg, r.type = MSG_REQ_REDIS_SISMEMBER → parse_arg2 r = true) ∧
    (∀ r : msg, r.type = MSG_REQ_REDIS_SRANDMEMBER → parse_arg1 r = true) ∧
    (∀ r : msg, r.type = MSG_REQ_REDIS_HMSET → parse_argn r = true) ∧
    (∀ r : msg, parse_argx r = true ↔
      (r.type = MSG_REQ_REDIS_MGET ∨ r.type = MSG_REQ_REDIS_DEL)) ∧
    (∀ e ∈ command_table, ∀ (b : mbuf) (p : Nat) (v rest : List Nat),
      b.data.drop p = v ++ 13 :: rest →
      (req_type b p v.length = e.tag ↔ same_name v e.name)) := by
  refine ⟨rfl, table_tags_nodup, table_covers, fun r => arity_lists r.type,
    fun r h1 h2 => ((arity_count r.type).2.1 h1 h2), fun r h => (arity_count r.type).1 h,
    ?_, ?_, ?_, fun r => (arity_count r.type).2.2, fun e he b p v rest h => req_type_iff he h⟩
  · intro r h
    show parse_arg2 (msg_of_type r.type) = true
    rw [h]
    rfl
  · intro r h
    show parse_arg1 (msg_of_type r.type) = true
    rw [h]
    rfl
  · intro r h
    show parse_argn (msg_of_type r.type) = true
    rw [h]
    rfl


/-! ## C21: a call with nothing to read -/

/-- C21. For every message with `state = SW_START` and `token` null whose
`pos` is at `last` of its tail buffer, `parse_request` sets `result` to
`PARSE_AGAIN` and leaves every other field of the message as it is; a second
call on the outcome changes nothing. -/
theorem C21_idle_call (r : msg) (b : mbuf) (hstate : r.state = 0) (htoken : r.token = none)
    (hpos : r.pos = b.last) :
    parse_request r b = { r with result := PARSE_AGAIN } ∧
    (parse_request r b).result = PARSE_AGAIN ∧
    (parse_request r b).state = r.state ∧ (parse_request r b).pos = r.pos ∧
    (parse_request r b).token = r.token ∧ (parse_request r b).type = r.type ∧
    (parse_request r b).narg = r.narg ∧ (parse_request r b).narg_start = r.narg_start ∧
    (parse_request r b).narg_end = r.narg_end ∧ (parse_request r b).rnarg = r.rnarg ∧
    (parse_request r b).rlen = r.rlen ∧ (parse_request r b).key_start = r.key_start ∧
    (parse_request r b).key_end = r.key_end ∧
    parse_request (parse_request r b) b = parse_request r b := by
  have h : parse_request r b = { r with result := PARSE_AGAIN } := by
    rw [parse_request_eq, req_run_end _ _ (Nat.le_of_eq hpos.symm), hstate]
    cases r
    simp only at htoken hstate
    subst htoken
    simp [label_again, req_sw.of_int, req_sw.to_int]
  have h2 : parse_request { r with result := PARSE_AGAIN } b = { r with result := PARSE_AGAIN } := by
    rw [parse_request_eq, req_run_end _ _ (Nat.le_of_eq hpos.symm)]
    simp only [hstate]
    cases r
    simp only at htoken hstate
    subst htoken
    simp [label_again, req_sw.of_int, req_sw.to_int]
  rw [h, h2]
  exact ⟨rfl, rfl, rfl, rfl, rfl, rfl, rfl, rfl, rfl, rfl, rfl, rfl, rfl, rfl⟩

/-- C21 at a message in `SW_START` whose `pos` is at the end of a buffer of
three read bytes. -/
theorem C21_idle_call_witness :
    parse_request { msg_of_type MSG_REQ_REDIS_GET with pos := 3, result := PARSE_OK, narg := 2 }
        ⟨ascii "abc", 16⟩ =
      { msg_of_type MSG_REQ_REDIS_GET with pos := 3, narg := 2, result := PARSE_AGAIN } ∧
    (parse_request { msg_of_type MSG_REQ_REDIS_GET with pos := 3, result := PARSE_OK, narg := 2 }
        ⟨ascii "abc", 16⟩).result = PARSE_AGAIN :=
  ⟨(C21_idle_call { msg_of_type MSG_REQ_REDIS_GET with pos := 3, result := PARSE_OK, narg := 2 }
      ⟨ascii "abc", 16⟩ rfl rfl rfl).1,
   (C21_idle_call { msg_of_type MSG_REQ_REDIS_GET with pos := 3, result := PARSE_OK, narg := 2 }
      ⟨ascii "abc", 16⟩ rfl rfl rfl).2.1⟩

/-! ## C22: the argument count of a framed request -/

/-- C22. Whenever one call of `parse_request` from `SW_START` returns
`PARSE_OK`, the stored `narg` agrees with the arity predicate that the stored
`type` satisfies: `narg = 2` under `parse_arg1`, `narg = 3` under
`parse_arg2`, `narg = 4` under `parse_arg3`, `narg >= 3` under `parse_argn`
and `narg = 2` under `parse_argx`; one of the five predicates holds; and
`rnarg = 0` and `rlen = 0`. -/
theorem C22_narg_of_class (r : msg) (b : mbuf) (hstate : r.state = 0)
    (hok : (parse_request r b).result = PARSE_OK) :
    (parse_arg1 (parse_request r b) = true → (parse_request r b).narg = 2) ∧
    (parse_arg2 (parse_request r b) = true → (parse_request r b).narg = 3) ∧
    (parse_arg3 (parse_request r b) = true → (parse_request r b).narg = 4) ∧
    (parse_argn (parse_request r b) = true → 3 ≤ (parse_request r b).narg) ∧
    (parse_argx (parse_request r b) = true → (parse_request r b).narg = 2) ∧
    (parse_arg1 (parse_request r b) = true ∨ parse_arg2 (parse_request r b) = true ∨
      parse_arg3 (parse_request r b) = true ∨ parse_argn (parse_request r b) = true ∨
      parse_argx (parse_request r b) = true) ∧
    (parse_request r b).rnarg = 0 ∧ (parse_request r b).rlen = 0 := by
  rw [parse_request_eq, hstate] at hok ⊢
  have h0 : req_sw.of_int 0 = SW_START := rfl
  rw [h0] at hok ⊢
  obtain ⟨h1, h2, h3⟩ := req_run_ok_count hok
  generalize req_run b r.pos SW_START r = out at h1 h2 h3
  have hA := arity_of_parse out.type
  have hB := parse_arg_of_arity out.type
  rw [parse_arg1_type out, parse_arg2_type out, parse_arg3_type out, parse_argn_type out,
    parse_argx_type out]
  refine ⟨fun x => ?_, fun x => ?_, fun x => ?_, fun x => ?_, fun x => ?_, ?_, h1, h2⟩
  · have hx := hA.1 x
    rcases h3 with ⟨a, n⟩ | ⟨a, n⟩ | ⟨a, n⟩ | ⟨a, n⟩ | ⟨a, n⟩ <;> rw [hx] at a <;>
      first | exact n | cases a
  · have hx := hA.2.1 x
    rcases h3 with ⟨a, n⟩ | ⟨a, n⟩ | ⟨a, n⟩ | ⟨a, n⟩ | ⟨a, n⟩ <;> rw [hx] at a <;>
      first | exact n | cases a
  · have hx := hA.2.2.1 x
    rcases h3 with ⟨a, n⟩ | ⟨a, n⟩ | ⟨a, n⟩ | ⟨a, n⟩ | ⟨a, n⟩ <;> rw [hx] at a <;>
      first | exact n | cases a
  · have hx := hA.2.2.2.1 x
    rcases h3 with ⟨a, n⟩ | ⟨a, n⟩ | ⟨a, n⟩ | ⟨a, n⟩ | ⟨a, n⟩ <;> rw [hx] at a <;>
      first | exact n | cases a
  · have hx := hA.2.2.2.2 x
    rcases h3 with ⟨a, n⟩ | ⟨a, n⟩ | ⟨a, n⟩ | ⟨a, n⟩ | ⟨a, n⟩ <;> rw [hx] at a <;>
      first | exact n | cases a
  · rcases h3 with ⟨a, _⟩ | ⟨a, _⟩ | ⟨a, _⟩ | ⟨a, _⟩ | ⟨a, _⟩
    · exact Or.inl (hB.1 a)
    · exact Or.inr (Or.inl (hB.2.1 a).2)
    · exact Or.inr (Or.inr (Or.inl (hB.2.2.1 a).2.2))
    · exact Or.inr (Or.inr (Or.inr (Or.inl (hB.2.2.2.1 a).2.2.2)))
    · exact Or.inr (Or.inr (Or.inr (Or.inr (hB.2.2.2.2.1 a).2.2.2.2)))

/-- C22 at `HMSET h f1 v1 f2 v2`, a command of class ArgN with `narg = 6`. -/
theorem C22_narg_of_class_witness :
    (parse_request (msg_of_type MSG_UNKNOWN)
      ⟨request [ascii "HMSET", ascii "h", ascii "f1", ascii "v1", ascii "f2", ascii "v2"],
        128⟩).result = PARSE_OK ∧
    3 ≤ (parse_request (msg_of_type MSG_UNKNOWN)
      ⟨request [ascii "HMSET", ascii "h", ascii "f1", ascii "v1", ascii "f2", ascii "v2"],
        128⟩).narg ∧
    (parse_request (msg_of_type MSG_UNKNOWN)
      ⟨request [ascii "HMSET", ascii "h", ascii "f1", ascii "v1", ascii "f2", ascii "v2"],
        128⟩).rnarg = 0 :=
  ⟨by decide,
   (C22_narg_of_class (msg_of_type MSG_UNKNOWN)
      ⟨request [ascii "HMSET", ascii "h", ascii "f1", ascii "v1", ascii "f2", ascii "v2"], 128⟩
      rfl (by decide)).2.2.2.1 (by decide),
   (C22_narg_of_class (msg_of_type MSG_UNKNOWN)
      ⟨request [ascii "HMSET", ascii "h", ascii "f1", ascii "v1", ascii "f2", ascii "v2"], 128⟩
      rfl (by decide)).2.2.2.2.2.2.1⟩

/-! ## C23: a framed request follows the request grammar -/

/-- C23. Whenever one call of `parse_request` from `SW_START` with no token
open, entered at `pos0 = r.pos`, returns `PARSE_OK`, the consumed bytes
`[pos0, pos)` are `*` `D` `CR` `LF` followed by bulk elements `$` `L` `CR`
`LF` `B` `CR` `LF`, where `D` and every `L` are non-empty strings of ASCII
digits, the number of elements is the value of `D` modulo 2^32 (and is the
stored `narg`), and every `B` has as many bytes as the value of its `L` modulo
2^32. Hence when every decimal field has a value below 2^32, the number of
elements is the value of `D` and every `B` has exactly as many bytes as the
value of its `L`. -/
theorem C23_request_grammar (r : msg) (b : mbuf) (hstate : r.state = 0)
    (htoken : r.token = none) (hok : (parse_request r b).result = PARSE_OK) :
    ∃ (D : List Nat) (es : List (List Nat × List Nat)),
      r.pos ≤ (parse_request r b).pos ∧ (parse_request r b).pos ≤ b.last ∧
      slice b.data r.pos (parse_request r b).pos = header D ++ elements es ∧
      all_digits D ∧ D ≠ [] ∧
      (∀ e ∈ es, all_digits e.1 ∧ e.1 ≠ [] ∧ e.2.length = dec_value e.1 % 2 ^ 32) ∧
      es.length = dec_value D % 2 ^ 32 ∧
      (parse_request r b).narg = es.length ∧
      ((dec_value D < 2 ^ 32 ∧ ∀ e ∈ es, dec_value e.1 < 2 ^ 32) →
        es.length = dec_value D ∧ ∀ e ∈ es, e.2.length = dec_value e.1) := by
  rw [parse_request_eq, hstate] at hok ⊢
  have h0 : req_sw.of_int 0 = SW_START := rfl
  rw [h0] at hok ⊢
  obtain ⟨D, es, h1, h2, h3, h4, h5, h6, h7⟩ := req_run_ok_grammar htoken hok
  have hX : header D ++ elements es ≠ [] := by simp [header]
  obtain ⟨g1, _, g3⟩ := slice_of_drop h6 hX h7
  refine ⟨D, es, g1, h6, g3, h1, h2, h3, h4, h5, fun ⟨a1, a2⟩ => ⟨?_, fun e he => ?_⟩⟩
  · rw [h4]
    exact Nat.mod_eq_of_lt a1
  · rw [(h3 e he).2.2]
    exact Nat.mod_eq_of_lt (a2 e he)

/-- C23 at the request `*3\r\n$3\r\nSET\r\n$1\r\nk\r\n$0\r\n\r\n` followed by
other bytes. -/
theorem C23_request_grammar_witness :
    ∃ (D : List Nat) (es : List (List Nat × List Nat)),
      (msg_of_type MSG_UNKNOWN).pos ≤ (parse_request (msg_of_type MSG_UNKNOWN)
        ⟨ascii "*3\r\n$3\r\nSET\r\n$1\r\nk\r\n$0\r\n\r\n*1", 64⟩).pos ∧
      (parse_request (msg_of_type MSG_UNKNOWN)
        ⟨ascii "*3\r\n$3\r\nSET\r\n$1\r\nk\r\n$0\r\n\r\n*1", 64⟩).pos ≤
        (mbuf.mk (ascii "*3\r\n$3\r\nSET\r\n$1\r\nk\r\n$0\r\n\r\n*1") 64).last ∧
      slice (mbuf.mk (ascii "*3\r\n$3\r\nSET\r\n$1\r\nk\r\n$0\r\n\r\n*1") 64).data
        (msg_of_type MSG_UNKNOWN).pos (parse_request (msg_of_type MSG_UNKNOWN)
          ⟨ascii "*3\r\n$3\r\nSET\r\n$1\r\nk\r\n$0\r\n\r\n*1", 64⟩).pos =
        header D ++ elements es ∧
      all_digits D ∧ D ≠ [] ∧
      (∀ e ∈ es, all_digits e.1 ∧ e.1 ≠ [] ∧ e.2.length = dec_value e.1 % 2 ^ 32) ∧
      es.length = dec_value D % 2 ^ 32 ∧
      (parse_request (msg_of_type MSG_UNKNOWN)
        ⟨ascii "*3\r\n$3\r\nSET\r\n$1\r\nk\r\n$0\r\n\r\n*1", 64⟩).narg = es.length ∧
      ((dec_value D < 2 ^ 32 ∧ ∀ e ∈ es, dec_value e.1 < 2 ^ 32) →
        es.length = dec_value D ∧ ∀ e ∈ es, e.2.length = dec_value e.1) :=
  C23_request_grammar (msg_of_type MSG_UNKNOWN)
    ⟨ascii "*3\r\n$3\r\nSET\r\n$1\r\nk\r\n$0\r\n\r\n*1", 64⟩ rfl rfl (by decide)

/-! ## C24: the input ends inside a trailing argument -/

/-- C24. Take a request `S1 ++ S2` that one call of `parse_request` from
`SW_START` (no token open) frames with `PARSE_OK`, cut so that the available
bytes `S1` end inside the payload of a trailing argument or right after it,
before its `CR`: after `n` iterations the one-call parse stands in `SW_ARG1`,
`SW_ARG2` or `SW_ARGN` at the first byte `q` of a payload of `m.rlen` bytes,
right after a length field `$<L>\r\n` with `m.rlen` the value of `L` in 32
bits, and `q <= |S1| <= q + m.rlen`. Then the call on a buffer that holds
`S1`, full or not, returns `PARSE_AGAIN` (never `PARSE_REPAIR`), keeps that
state, leaves `pos` at the end of `S1` and `rlen` equal to the number of
payload bytes not yet seen. The following call on the same buffer with `S2`
appended returns the message of the one-call parse; the following call on a
new tail buffer that holds `S2`, with `pos` at its start, returns `PARSE_OK`
with the `type`, the `narg`, the `key_start` and the `key_end` of the one-call
parse. -/
theorem C24_resume_in_argument (S1 S2 : List Nat) (r : msg) (c c1 c2 c3 n q : Nat)
    (s : req_sw) (m : msg) (hstate : r.state = 0) (htoken : r.token = none)
    (hok : (parse_request r ⟨S1 ++ S2, c⟩).result = PARSE_OK)
    (hiter : req_iter ⟨S1 ++ S2, c⟩ n r.pos SW_START r = some (q, s, m))
    (hs : s = SW_ARG1 ∨ s = SW_ARG2 ∨ s = SW_ARGN)
    (hq : q ≤ S1.length) (hcut : S1.length ≤ q + m.rlen) :
    (∃ (D : List Nat) (es : List (List Nat × List Nat)) (L : List Nat),
      slice (S1 ++ S2) r.pos q = header D ++ (elements es ++ 36 :: (L ++ [13, 10])) ∧
      all_digits L ∧ L ≠ [] ∧ m.rlen = dec_value L % 2 ^ 32) ∧
    (parse_request r ⟨S1, c1⟩).result = PARSE_AGAIN ∧
    (parse_request r ⟨S1, c1⟩).state = s.to_int ∧
    (parse_request r ⟨S1, c1⟩).pos = S1.length ∧
    (parse_request r ⟨S1, c1⟩).rlen = q + m.rlen - S1.length ∧
    parse_request (parse_request r ⟨S1, c1⟩) ⟨S1 ++ S2, c2⟩ = parse_request r ⟨S1 ++ S2, c⟩ ∧
    (parse_request { parse_request r ⟨S1, c1⟩ with pos := 0 } ⟨S2, c3⟩).result = PARSE_OK ∧
    (parse_request { parse_request r ⟨S1, c1⟩ with pos := 0 } ⟨S2, c3⟩).type =
      (parse_request r ⟨S1 ++ S2, c⟩).type ∧
    (parse_request { parse_request r ⟨S1, c1⟩ with pos := 0 } ⟨S2, c3⟩).narg =
      (parse_request r ⟨S1 ++ S2, c⟩).narg ∧
    (parse_request { parse_request r ⟨S1, c1⟩ with pos := 0 } ⟨S2, c3⟩).key_start =
      (parse_request r ⟨S1 ++ S2, c⟩).key_start ∧
    (parse_request { parse_request r ⟨S1, c1⟩ with pos := 0 } ⟨S2, c3⟩).key_end =
      (parse_request r ⟨S1 ++ S2, c⟩).key_end := by
  rw [parse_request_eq r ⟨S1 ++ S2, c⟩, hstate] at hok ⊢
  rw [parse_request_eq r ⟨S1, c1⟩, hstate]
  have h0 : req_sw.of_int 0 = SW_START := rfl
  rw [h0] at hok ⊢
  obtain ⟨hrun, _, _⟩ := req_iter_run n r.pos SW_START r q s m hiter
  rw [hrun] at hok ⊢
  have hl : (mbuf.mk (S1 ++ S2) c).last = (S1 ++ S2).length := rfl
  have hqlt : q < (S1 ++ S2).length := by
    by_contra hge
    rw [req_run_end _ _ (by rw [hl]; omega)] at hok
    exact absurd hok (label_again_not_ok _ _ _ _)
  -- what the one-call parse has read when it stands at `q`
  have hinv : grammar_inv ⟨S1 ++ S2, c⟩ r.pos q s m :=
    req_iter_grammar n r.pos SW_START r q s m hiter (Or.inr ⟨rfl, htoken⟩)
  have hinv' : phase_inv ⟨S1 ++ S2, c⟩ r.pos q m.token m.rlen m.narg m.rnarg .payload := by
    rcases hinv with hle | hinv
    · rw [hl] at hle
      omega
    · rcases hs with rfl | rfl | rfl <;> exact hinv
  obtain ⟨ht, L, hL, hL0, hrl, D, es, _, _, _, _, _, hdrop⟩ := hinv'
  have hrl32 : m.rlen < 2 ^ 32 := by
    rw [hrl]
    exact Nat.mod_lt _ (by decide)
  -- the cut lies before the `CR` of the payload, so `S2` is not empty
  have hmlt : q + m.rlen < (S1 ++ S2).length := by
    by_contra hge
    have hge' : q + m.rlen ≥ (S1 ++ S2).length := by omega
    have hpin : (S1 ++ S2).length - 1 + 1 = (S1 ++ S2).length := by omega
    rw [req_run_eq _ _ (by rw [hl]; exact hqlt)] at hok
    rcases hs with rfl | rfl | rfl
    all_goals
      simp only [req_step, req_arg, hl, hge', if_true, hpin] at hok
      rw [req_run_end (b := mbuf.mk (S1 ++ S2) c) (p := (S1 ++ S2).length) _ _
        (Nat.le_refl _)] at hok
      exact absurd hok (label_again_not_ok _ _ _ _)
  have hS2 : S2 ≠ [] := by
    intro e
    rw [e, List.append_nil] at hmlt
    omega
  -- the first call
  have hpre := req_iter_prefix (x := c1) hS2 n r.pos SW_START r q s m hiter hq
  obtain ⟨hrun1, _, _⟩ := req_iter_run n r.pos SW_START r q s m hpre
  have hfirst := req_run_arg_again (x := c1) hs ht hrl32 hq hcut
  rw [hrun1, hfirst]
  -- the second call on the same buffer
  have hsecond := req_run_arg_resume (y := c2) hs hcut rfl hok
  have hsec : parse_request
      { m with rlen := q + m.rlen - S1.length, pos := S1.length, state := s.to_int,
               result := PARSE_AGAIN } ⟨S1 ++ S2, c2⟩ = req_run ⟨S1 ++ S2, c⟩ q s m := by
    rw [parse_request_eq]
    show req_run ⟨S1 ++ S2, c2⟩ S1.length (req_sw.of_int s.to_int) _ = _
    rw [req_of_int_to_int]
    exact hsecond
  -- the second call on a new tail buffer
  have hb : (mbuf.mk S2 c3).data = (mbuf.mk (S1 ++ S2) c2).data.drop S1.length := by
    show S2 = (S1 ++ S2).drop S1.length
    simp
  have hpk : past_key s = true := by
    rcases hs with rfl | rfl | rfl <;> rfl
  have hok2 : (req_run ⟨S1 ++ S2, c2⟩ (0 + S1.length) s
      { m with rlen := q + m.rlen - S1.length, pos := S1.length, state := s.to_int,
               result := PARSE_AGAIN }).result = PARSE_OK := by
    rw [Nat.zero_add, hsecond]
    exact hok
  have hsim := @repair_run_sim ⟨S1 ++ S2, c2⟩ ⟨S2, c3⟩ S1.length hb
    (by simp [mbuf.last]) true S2.length 0 s
    { m with rlen := q + m.rlen - S1.length, pos := S1.length, state := s.to_int,
             result := PARSE_AGAIN }
    { m with rlen := q + m.rlen - S1.length, pos := 0, state := s.to_int,
             result := PARSE_AGAIN }
    (by simp [mbuf.last])
    ⟨rfl, rfl, rfl, rfl, by rw [ht]; exact True.intro, by unfold key_rel; rw [if_pos rfl]; exact ⟨rfl, rfl⟩⟩
    (fun _ => hpk) hok2
  rw [Nat.zero_add, hsecond] at hsim
  obtain ⟨g1, g2, g3, _, _, _, g7⟩ := hsim
  unfold key_rel at g7
  rw [if_pos rfl] at g7
  have hnew : parse_request
      { m with rlen := q + m.rlen - S1.length, pos := 0, state := s.to_int,
               result := PARSE_AGAIN } ⟨S2, c3⟩ =
      req_run ⟨S2, c3⟩ 0 s
        { m with rlen := q + m.rlen - S1.length, pos := 0, state := s.to_int,
                 result := PARSE_AGAIN } := by
    rw [parse_request_eq]
    show req_run ⟨S2, c3⟩ 0 (req_sw.of_int s.to_int) _ = _
    rw [req_of_int_to_int]
  refine ⟨⟨D, es, L, ?_, hL, hL0, hrl⟩, rfl, rfl, rfl, rfl, hsec, ?_⟩
  · have hd : (S1 ++ S2).drop r.pos =
        (header D ++ (elements es ++ 36 :: (L ++ [13, 10]))) ++ (S1 ++ S2).drop q := by
      have : (mbuf.mk (S1 ++ S2) c).data.drop r.pos = _ := hdrop
      rw [this]
      simp
    exact (slice_of_drop (Nat.le_of_lt hqlt) (by simp [header]) hd).2.2
  · show (parse_request
      { m with rlen := q + m.rlen - S1.length, pos := 0, state := s.to_int,
               result := PARSE_AGAIN } ⟨S2, c3⟩).result = PARSE_OK ∧ _
    rw [hnew]
    exact ⟨g1, g2, g3, g7.1, g7.2⟩

/-- C24 at `SET k value` in a full buffer of 27 bytes that ends after `val`. -/
theorem C24_resume_in_argument_witness :
    (parse_request (msg_of_type MSG_UNKNOWN)
      ⟨ascii "*3\r\n$3\r\nSET\r\n$1\r\nk\r\n$5\r\nval", 27⟩).result = PARSE_AGAIN ∧
    (parse_request (msg_of_type MSG_UNKNOWN)
      ⟨ascii "*3\r\n$3\r\nSET\r\n$1\r\nk\r\n$5\r\nval", 27⟩).state = SW_ARG1.to_int ∧
    (parse_request (msg_of_type MSG_UNKNOWN)
      ⟨ascii "*3\r\n$3\r\nSET\r\n$1\r\nk\r\n$5\r\nval", 27⟩).rlen = 2 ∧
    parse_request (parse_request (msg_of_type MSG_UNKNOWN)
        ⟨ascii "*3\r\n$3\r\nSET\r\n$1\r\nk\r\n$5\r\nval", 27⟩)
      ⟨ascii "*3\r\n$3\r\nSET\r\n$1\r\nk\r\n$5\r\nval" ++ ascii "ue\r\n", 64⟩ =
      parse_request (msg_of_type MSG_UNKNOWN)
        ⟨ascii "*3\r\n$3\r\nSET\r\n$1\r\nk\r\n$5\r\nval" ++ ascii "ue\r\n", 32⟩ ∧
    (parse_request { parse_request (msg_of_type MSG_UNKNOWN)
        ⟨ascii "*3\r\n$3\r\nSET\r\n$1\r\nk\r\n$5\r\nval", 27⟩ with pos := 0 }
      ⟨ascii "ue\r\n", 16⟩).result = PARSE_OK :=
  have h := C24_resume_in_argument (ascii "*3\r\n$3\r\nSET\r\n$1\r\nk\r\n$5\r\nval")
    (ascii "ue\r\n") (msg_of_type MSG_UNKNOWN) 32 27 64 16 20 24 SW_ARG1
    { state := 0, pos := 0, token := none, result := PARSE_OK, type := MSG_REQ_REDIS_SET,
      key_start := some 17, key_end := some 18, narg_start := some 1, narg_end := some 2,
      narg := 3, rnarg := 0, rlen := 5 }
    rfl rfl (by decide) (by decide) (Or.inl rfl) (by decide) (by decide)
  ⟨h.2.1, h.2.2.1, h.2.2.2.2.1, h.2.2.2.2.2.1, h.2.2.2.2.2.2.1⟩

/-! ## C25: every proper prefix of a request -/

/-- C25 (amended). For every request `P ++ S2` that one call of `parse_request` from
`SW_START` (no token open) frames with `PARSE_OK` up to its last byte, and
every proper prefix `P` of it (`S2` not empty, `P` possibly empty): one call
on a buffer that holds exactly `P` returns `PARSE_AGAIN` or `PARSE_REPAIR`,
never `PARSE_OK`, `PARSE_FRAGMENT` or `PARSE_ERROR`. It returns
`PARSE_REPAIR` only if the buffer is full and the call stopped in a state that
reads the header count or a length field (`SW_NARG`, `SW_REQ_TYPE_LEN`,
`SW_KEY_LEN`, `SW_ARG1_LEN`, `SW_ARG2_LEN`, `SW_ARGN_LEN`), the command name
(`SW_REQ_TYPE`) or the key (`SW_KEY`), with the first byte of that token,
which lies in `P`, stored in `pos`. -/
theorem C25_proper_prefix (P S2 : List Nat) (r : msg) (c c1 : Nat)
    (hstate : r.state = 0) (htoken : r.token = none) (hS2 : S2 ≠ [])
    (hok : (parse_request r ⟨P ++ S2, c⟩).result = PARSE_OK)
    (hend : (parse_request r ⟨P ++ S2, c⟩).pos = (P ++ S2).length) :
    ((parse_request r ⟨P, c1⟩).result = PARSE_AGAIN ∨
      (parse_request r ⟨P, c1⟩).result = PARSE_REPAIR) ∧
    (parse_request r ⟨P, c1⟩).result ≠ PARSE_OK ∧
    (parse_request r ⟨P, c1⟩).result ≠ PARSE_FRAGMENT ∧
    (parse_request r ⟨P, c1⟩).result ≠ PARSE_ERROR ∧
    ((parse_request r ⟨P, c1⟩).result = PARSE_REPAIR →
      c1 = P.length ∧
      (parse_request r ⟨P, c1⟩).pos < P.length ∧
      opens_token (req_sw.of_int (parse_request r ⟨P, c1⟩).state) = true ∧
      ((parse_request r ⟨P, c1⟩).state = SW_NARG.to_int ∨
       (parse_request r ⟨P, c1⟩).state = SW_REQ_TYPE_LEN.to_int ∨
       (parse_request r ⟨P, c1⟩).state = SW_KEY_LEN.to_int ∨
       (parse_request r ⟨P, c1⟩).state = SW_ARG1_LEN.to_int ∨
       (parse_request r ⟨P, c1⟩).state = SW_ARG2_LEN.to_int ∨
       (parse_request r ⟨P, c1⟩).state = SW_ARGN_LEN.to_int ∨
       (parse_request r ⟨P, c1⟩).state = SW_REQ_TYPE.to_int ∨
       (parse_request r ⟨P, c1⟩).state = SW_KEY.to_int)) := by
  rw [parse_request_eq r ⟨P ++ S2, c⟩, hstate] at hok hend
  rw [parse_request_eq r ⟨P, c1⟩, hstate]
  have h0 : req_sw.of_int 0 = SW_START := rfl
  rw [h0] at hok hend ⊢
  obtain ⟨h1, h2⟩ := req_run_prefix (z := c1) hS2 htoken hok hend
  generalize req_run ⟨P, c1⟩ r.pos SW_START r = out at h1 h2
  refine ⟨h1, ?_, ?_, ?_, fun hrep => ?_⟩
  · rcases h1 with h | h <;> rw [h] <;> decide
  · rcases h1 with h | h <;> rw [h] <;> decide
  · rcases h1 with h | h <;> rw [h] <;> decide
  · obtain ⟨g1, g2, g3⟩ := h2 hrep
    refine ⟨g1, g3, g2, ?_⟩
    have key : ∀ n : Nat, opens_token (req_sw.of_int n) = true →
        n = SW_NARG.to_int ∨ n = SW_REQ_TYPE_LEN.to_int ∨ n = SW_KEY_LEN.to_int ∨
        n = SW_ARG1_LEN.to_int ∨ n = SW_ARG2_LEN.to_int ∨ n = SW_ARGN_LEN.to_int ∨
        n = SW_REQ_TYPE.to_int ∨ n = SW_KEY.to_int := by
      intro n hn
      by_cases hlt : n < 25
      · revert hn
        revert n
        decide
      · exfalso
        have e : req_sw.of_int n = SW_SENTINEL := by
          unfold req_sw.of_int
          split <;> first | omega | rfl
        rw [e] at hn
        exact absurd hn (by decide)
    exact key _ g2

/-- C25 at the prefix `*2\r\n$3\r\nGE` of `*2\r\n$3\r\nGET\r\n$3\r\nfoo\r\n`
in a full buffer: the call returns `PARSE_REPAIR` in `SW_REQ_TYPE`. -/
theorem C25_proper_prefix_witness :
    (parse_request (msg_of_type MSG_UNKNOWN) ⟨ascii "*2\r\n$3\r\nGE", 10⟩).result =
      PARSE_REPAIR ∧
    (parse_request (msg_of_type MSG_UNKNOWN) ⟨ascii "*2\r\n$3\r\nGE", 10⟩).result ≠
      PARSE_ERROR ∧
    (10 = (ascii "*2\r\n$3\r\nGE").length ∧
      (parse_request (msg_of_type MSG_UNKNOWN) ⟨ascii "*2\r\n$3\r\nGE", 10⟩).pos <
        (ascii "*2\r\n$3\r\nGE").length ∧
      opens_token (req_sw.of_int
        (parse_request (msg_of_type MSG_UNKNOWN) ⟨ascii "*2\r\n$3\r\nGE", 10⟩).state) = true) :=
  have h := C25_proper_prefix (ascii "*2\r\n$3\r\nGE") (ascii "T\r\n$3\r\nfoo\r\n")
    (msg_of_type MSG_UNKNOWN) 64 10 rfl rfl (by decide) (by decide) (by decide)
  ⟨by decide, h.2.2.2.1, (h.2.2.2.2 (by decide)).1, (h.2.2.2.2 (by decide)).2.1,
    (h.2.2.2.2 (by decide)).2.2.1⟩

/-- C25 as stated fails for a prefix that ends inside the header count. The
request `*2\r\n$3\r\nGET\r\n$3\r\nfoo\r\n`, of class Arg1, is framed with
`PARSE_OK` up to its last byte. Its proper prefix `*2`, which ends after the
digit of the header `*2\r\n` and so before any length field, the command name
and the key, in a full buffer of two bytes: the call returns `PARSE_REPAIR`
with `SW_NARG` stored, which is none of the states that read a length field,
the command name or the key, and with `pos` at the `*`. -/
theorem C25_counterexample :
    (parse_request (msg_of_type MSG_UNKNOWN)
      ⟨ascii "*2\r\n$3\r\nGET\r\n$3\r\nfoo\r\n", 64⟩).result = PARSE_OK ∧
    (parse_request (msg_of_type MSG_UNKNOWN)
      ⟨ascii "*2\r\n$3\r\nGET\r\n$3\r\nfoo\r\n", 64⟩).pos =
      (ascii "*2\r\n$3\r\nGET\r\n$3\r\nfoo\r\n").length ∧
    parse_arg1 (parse_request (msg_of_type MSG_UNKNOWN)
      ⟨ascii "*2\r\n$3\r\nGET\r\n$3\r\nfoo\r\n", 64⟩) = true ∧
    ascii "*2\r\n$3\r\nGET\r\n$3\r\nfoo\r\n" =
      ascii "*2" ++ ascii "\r\n$3\r\nGET\r\n$3\r\nfoo\r\n" ∧
    ascii "\r\n$3\r\nGET\r\n$3\r\nfoo\r\n" ≠ [] ∧
    (ascii "*2").length < (header (decimal 2)).length ∧
    (mbuf.mk (ascii "*2") 2).full = true ∧
    (parse_request (msg_of_type MSG_UNKNOWN) ⟨ascii "*2", 2⟩).result = PARSE_REPAIR ∧
    (parse_request (msg_of_type MSG_UNKNOWN) ⟨ascii "*2", 2⟩).state = SW_NARG.to_int ∧
    (parse_request (msg_of_type MSG_UNKNOWN) ⟨ascii "*2", 2⟩).pos = 0 ∧
    len_state SW_NARG = false ∧ SW_NARG ≠ SW_REQ_TYPE ∧ SW_NARG ≠ SW_KEY := by
  decide

/-! ## C26: `MGET` and `DEL` with one key -/

/-- C26 (amended). For every `MGET` or `DEL` request (the name in any letter
case) with exactly one key `K`, non-empty and shorter than `2 ^ 32` bytes,
followed by any bytes: one call of `parse_request` from `SW_START` returns
`PARSE_OK`, not `PARSE_FRAGMENT`, with `type` the tag of the command,
`narg = 2`, the bytes in `[key_start, key_end)` equal to `K` and `pos` one
past the `LF` of the key. -/
theorem C26_single_key (e : command) (v K post : List Nat) (r : msg) (b : mbuf)
    (he : e ∈ command_table)
    (hx : e.tag = MSG_REQ_REDIS_MGET ∨ e.tag = MSG_REQ_REDIS_DEL)
    (hv : same_name v e.name) (hK : K ≠ []) (hKlen : K.length < 2 ^ 32)
    (hstate : r.state = 0) (htoken : r.token = none)
    (hb : b.data.drop r.pos = request [v, K] ++ post) :
    (parse_request r b).result = PARSE_OK ∧
    (parse_request r b).result ≠ PARSE_FRAGMENT ∧
    (parse_request r b).type = e.tag ∧
    (parse_request r b).narg = 2 ∧
    key_bytes b.data (parse_request r b) = some K ∧
    (parse_request r b).pos = r.pos + (request [v, K]).length ∧
    b.at ((parse_request r b).pos - 1) = 10 ∧
    b.data.drop (parse_request r b).pos = post := by
  obtain ⟨htag, hpos, hle⟩ := table_facts e he
  have hvl := same_name_length hv
  have hv0 : v ≠ [] := List.length_pos.mp (by omega)
  have hty := req_type_same_name he hv
  have hcls : arity_of e.tag = some .ArgX := by
    rcases hx with h | h <;> rw [h] <;> decide
  have hlen := request_length v K []
  rw [request_append] at hb
  simp only [bulks, List.nil_append, List.length_nil, Nat.zero_add, Nat.add_zero] at hb hlen
  rw [parse_request_eq, hstate]
  have h0 : req_sw.of_int 0 = SW_START := rfl
  rw [h0]
  have hkb := req_run_key_bytes (r := r) htoken (all_digits_decimal _) (all_digits_decimal _)
    (all_digits_decimal _) (mod_of_lt (by omega)) (mod_of_lt hKlen) hK hb
  obtain ⟨e1, h1⟩ := req_run_to_key_lf (r := r) htoken (all_digits_decimal _)
    (all_digits_decimal _) (all_digits_decimal _) hb (by decide)
    (mod_of_lt (by omega)) hv0 (mod_of_lt hKlen) hK (by rw [hty]; exact htag)
  rw [hty] at e1
  have hrn : dec_value (decimal 2) % 2 ^ 32 - 2 = 0 := by decide
  have hna : dec_value (decimal 2) % 2 ^ 32 = 2 := by decide
  have hrun := e1.trans (req_run_tail_argx_done (by exact hcls) hrn h1)
  rw [hrun] at hkb ⊢
  obtain ⟨_, h10, h2⟩ := buf_cons h1
  have hposeq : r.pos + (decimal 2).length + (decimal v.length).length + v.length +
      (decimal K.length).length + K.length + 12 + 1 = r.pos + (request [v, K]).length := by
    rw [hlen]
    omega
  refine ⟨rfl, fun h => ?_, rfl, hna, ?_, hposeq, ?_, h2⟩
  · cases h
  · rcases hkb with hk | hk
    · cases hk
    · exact hk
  · show b.at (r.pos + (decimal 2).length + (decimal v.length).length + v.length +
      (decimal K.length).length + K.length + 12 + 1 - 1) = 10
    rw [Nat.add_sub_cancel]
    exact h10

/-- C26 (amended) at the request `*2\r\n$3\r\ndel\r\n$3\r\nfoo\r\n`. -/
theorem C26_single_key_witness :
    (parse_request (msg_of_type MSG_UNKNOWN)
      ⟨request [ascii "del", ascii "foo"], 64⟩).result = PARSE_OK ∧
    (parse_request (msg_of_type MSG_UNKNOWN)
      ⟨request [ascii "del", ascii "foo"], 64⟩).result ≠ PARSE_FRAGMENT ∧
    (parse_request (msg_of_type MSG_UNKNOWN)
      ⟨request [ascii "del", ascii "foo"], 64⟩).type = MSG_REQ_REDIS_DEL ∧
    (parse_request (msg_of_type MSG_UNKNOWN)
      ⟨request [ascii "del", ascii "foo"], 64⟩).narg = 2 ∧
    key_bytes (mbuf.mk (request [ascii "del", ascii "foo"]) 64).data
      (parse_request (msg_of_type MSG_UNKNOWN)
        ⟨request [ascii "del", ascii "foo"], 64⟩) = some (ascii "foo") ∧
    (parse_request (msg_of_type MSG_UNKNOWN)
      ⟨request [ascii "del", ascii "foo"], 64⟩).pos =
      (msg_of_type MSG_UNKNOWN).pos + (request [ascii "del", ascii "foo"]).length ∧
    (mbuf.mk (request [ascii "del", ascii "foo"]) 64).at
      ((parse_request (msg_of_type MSG_UNKNOWN)
        ⟨request [ascii "del", ascii "foo"], 64⟩).pos - 1) = 10 ∧
    (mbuf.mk (request [ascii "del", ascii "foo"]) 64).data.drop
      (parse_request (msg_of_type MSG_UNKNOWN)
        ⟨request [ascii "del", ascii "foo"], 64⟩).pos = [] :=
  C26_single_key ⟨"DEL", MSG_REQ_REDIS_DEL, .ArgX⟩ (ascii "del") (ascii "foo") []
    (msg_of_type MSG_UNKNOWN) ⟨request [ascii "del", ascii "foo"], 64⟩
    (by decide) (by decide) (by decide) (by decide) (by decide) rfl rfl (by decide)

/-- C26 as stated fails when the length of the key wraps around in 32 bits:
the request `MGET` with the single key `long_key`, of `2 ^ 32 + 1` bytes, is
well formed and the call returns `PARSE_OK` with the single byte `k` as the
key and `pos = 30`, inside the key, while the request has more than `2 ^ 32`
bytes. -/
theorem C26_counterexample :
    long_key ≠ [] ∧
    (parse_request (msg_of_type MSG_UNKNOWN)
      ⟨request [ascii "MGET", long_key], 2 ^ 33⟩).result = PARSE_OK ∧
    key_bytes (request [ascii "MGET", long_key]) (parse_request (msg_of_type MSG_UNKNOWN)
      ⟨request [ascii "MGET", long_key], 2 ^ 33⟩) = some [107] ∧
    key_bytes (request [ascii "MGET", long_key]) (parse_request (msg_of_type MSG_UNKNOWN)
      ⟨request [ascii "MGET", long_key], 2 ^ 33⟩) ≠ some long_key ∧
    (parse_request (msg_of_type MSG_UNKNOWN)
      ⟨request [ascii "MGET", long_key], 2 ^ 33⟩).pos = 30 ∧
    (request [ascii "MGET", long_key]).length = 4294967326 := by
  have hview : (mbuf.mk (request [ascii "MGET", long_key]) (2 ^ 33)).data.drop 0 =
      42 :: (decimal 2 ++ 13 :: 10 :: 36 :: (decimal 4 ++ 13 :: 10 :: (ascii "MGET" ++ 13 :: 10 ::
        36 :: (decimal 4294967297 ++ 13 :: 10 :: ([107] ++ 13 :: (10 :: (long_pad ++
          13 :: 10 :: (bulks [] ++ [])))))))) := by
    have h := request_append (ascii "MGET") long_key [] []
    rw [List.append_nil, long_key_length, long_key_append] at h
    rw [List.drop_zero, h]
    rfl
  obtain ⟨e1, h1⟩ := req_run_to_key_lf (r := msg_of_type MSG_UNKNOWN) rfl (all_digits_decimal _)
    (all_digits_decimal _) (all_digits_decimal _) hview (by decide) (by decide) (by decide)
    (by rw [dec_value_decimal]; decide) (by decide) (by decide)
  have hrun := e1.trans (req_run_tail_argx_done (by decide) (by decide) h1)
  have hp : parse_request (msg_of_type MSG_UNKNOWN) ⟨request [ascii "MGET", long_key], 2 ^ 33⟩ =
      req_run ⟨request [ascii "MGET", long_key], 2 ^ 33⟩ 0 SW_START (msg_of_type MSG_UNKNOWN) :=
    parse_request_eq _ _
  rw [hp, hrun]
  have hkb := req_run_key_bytes (r := msg_of_type MSG_UNKNOWN) rfl (all_digits_decimal _)
    (all_digits_decimal _) (all_digits_decimal _) (by decide)
    (by rw [dec_value_decimal]; decide) (by decide) hview
  rw [hrun] at hkb
  rcases hkb with he | hk
  · exact absurd he (by simp [label_done])
  · refine ⟨long_key_ne, rfl, hk, ?_, by decide, ?_⟩
    · rw [hk, long_key]
      simp
    · rw [request_length, long_key_length]
      decide

/-! ## C27: an empty trailing argument -/

/-- C27 (amended). A trailing argument may be empty but its length field may
not. For every request of a command of the table (the name in any letter
case) with a non-empty key shorter than `2 ^ 32` bytes and as many trailing
arguments as the class of the command admits, each shorter than `2 ^ 32`
bytes, one of them of length zero and so encoded `$0\r\n\r\n`, followed by any
bytes: the class is Arg2, Arg3 or ArgN and one call of `parse_request` from
`SW_START` returns `PARSE_OK` with `pos` one past the request. And whenever
a call from `SW_START` stands, after some iterations, in `SW_ARG1_LEN`,
`SW_ARG2_LEN` or `SW_ARGN_LEN` with no token open at a length field `$\r`
with no digit, the call returns `PARSE_ERROR` with that state stored: the
error is raised at the `CR`. -/
theorem C27_empty_argument (e : command) (v K : List Nat) (pre post : List (List Nat))
    (tail : List Nat) (r : msg) (b : mbuf)
    (he : e ∈ command_table)
    (hv : same_name v e.name) (hK : K ≠ []) (hKlen : K.length < 2 ^ 32)
    (hadm : arity_admits e.arity (pre ++ [] :: post).length = true)
    (hargs : ∀ a ∈ pre ++ [] :: post, a.length < 2 ^ 32)
    (hn : (pre ++ [] :: post).length + 2 < 2 ^ 32)
    (hstate : r.state = 0) (htoken : r.token = none)
    (hb : b.data.drop r.pos = request (v :: K :: (pre ++ [] :: post)) ++ tail) :
    ((e.arity = .Arg2 ∨ e.arity = .Arg3 ∨ e.arity = .ArgN) ∧
      (parse_request r b).result = PARSE_OK ∧
      (parse_request r b).type = e.tag ∧
      (parse_request r b).narg = (pre ++ [] :: post).length + 2 ∧
      (parse_request r b).pos = r.pos + (request (v :: K :: (pre ++ [] :: post))).length ∧
      bulk [] = ascii "$0\r\n\r\n") ∧
    ∀ (b' : mbuf) (r' : msg) (n p : Nat) (s : req_sw) (m : msg) (rest : List Nat),
      r'.state = 0 → req_iter b' n r'.pos SW_START r' = some (p, s, m) →
      (s = SW_ARG1_LEN ∨ s = SW_ARG2_LEN ∨ s = SW_ARGN_LEN) → m.token = none →
      b'.data.drop p = 36 :: 13 :: rest →
      (parse_request r' b').result = PARSE_ERROR ∧
      (parse_request r' b').state = s.to_int := by
  constructor
  · rw [parse_request_eq, hstate]
    have h0 : req_sw.of_int 0 = SW_START := rfl
    rw [h0, req_run_request he hv hK hadm hKlen hargs hn htoken hb]
    have hpos : 0 < (request (v :: K :: (pre ++ [] :: post))).length := by
      rw [request_length]
      omega
    refine ⟨?_, rfl, rfl, rfl, ?_, by decide⟩
    · have hl : (pre ++ [] :: post).length = pre.length + post.length + 1 := by
        simp only [List.length_append, List.length_cons]
        omega
      rw [hl] at hadm
      cases hc : e.arity <;> rw [hc] at hadm <;> simp [arity_admits] at hadm ⊢
    · show r.pos + (request (v :: K :: (pre ++ [] :: post))).length - 1 + 1 = _
      omega
  · intro b' r' n p s m rest hst hiter hs ht hdrop
    rw [parse_request_eq, hst]
    have h0 : req_sw.of_int 0 = SW_START := rfl
    rw [h0, (req_iter_run n r'.pos SW_START r' p s m hiter).1,
      req_run_arg_len_nodigit hs ht hdrop]
    exact ⟨rfl, rfl⟩

/-- C27 (amended) at `SET k` with an empty value, and at the same request
with the length field of the value left without a digit. -/
theorem C27_empty_argument_witness :
    ((parse_request (msg_of_type MSG_UNKNOWN)
        ⟨ascii "*3\r\n$3\r\nSET\r\n$1\r\nk\r\n$0\r\n\r\n", 64⟩).result = PARSE_OK ∧
      (parse_request (msg_of_type MSG_UNKNOWN)
        ⟨ascii "*3\r\n$3\r\nSET\r\n$1\r\nk\r\n$0\r\n\r\n", 64⟩).pos = 26) ∧
    ((parse_request (msg_of_type MSG_UNKNOWN)
        ⟨ascii "*3\r\n$3\r\nSET\r\n$1\r\nk\r\n$\r\n\r\n", 64⟩).result = PARSE_ERROR ∧
      (parse_request (msg_of_type MSG_UNKNOWN)
        ⟨ascii "*3\r\n$3\r\nSET\r\n$1\r\nk\r\n$\r\n\r\n", 64⟩).state = SW_ARG1_LEN.to_int) :=
  have h := C27_empty_argument ⟨"SET", MSG_REQ_REDIS_SET, .Arg2⟩ (ascii "SET") (ascii "k")
    [] [] [] (msg_of_type MSG_UNKNOWN) ⟨ascii "*3\r\n$3\r\nSET\r\n$1\r\nk\r\n$0\r\n\r\n", 64⟩
    (by decide) (by decide) (by decide) (by decide) (by decide) (by decide) (by decide)
    rfl rfl (by decide)
  ⟨⟨h.1.2.1, h.1.2.2.2.2.1⟩,
    h.2 ⟨ascii "*3\r\n$3\r\nSET\r\n$1\r\nk\r\n$\r\n\r\n", 64⟩ (msg_of_type MSG_UNKNOWN) 16 20
      SW_ARG1_LEN
      { state := 0, pos := 0, token := none, result := PARSE_OK, type := MSG_REQ_REDIS_SET,
        key_start := some 17, key_end := some 18, narg_start := some 1, narg_end := some 2,
        narg := 3, rnarg := 1, rlen := 0 }
      (ascii "\n\r\n") rfl (by decide) (Or.inl rfl) rfl (by decide)⟩

/-- C27 as stated fails for a request whose key is empty: `SET` with an empty
key and an empty value is a request of class Arg2 with a trailing argument
encoded `$0\r\n\r\n`, and the call returns `PARSE_ERROR` in `SW_KEY_LEN`, at
the `CR` of the length field of the key. -/
theorem C27_counterexample :
    request [ascii "SET", [], []] = ascii "*3\r\n$3\r\nSET\r\n$0\r\n\r\n$0\r\n\r\n" ∧
    arity_of MSG_REQ_REDIS_SET = some .Arg2 ∧
    (parse_request (msg_of_type MSG_UNKNOWN)
      ⟨request [ascii "SET", [], []], 64⟩).result = PARSE_ERROR ∧
    (parse_request (msg_of_type MSG_UNKNOWN)
      ⟨request [ascii "SET", [], []], 64⟩).state = SW_KEY_LEN.to_int := by
  decide

/-! ## C28: a `-` after digits in a bulk reply -/

/-- C28. The code does not reject a `-` that follows digits. For every
response that begins with `$`, a string `D` of digits (one or more, or none)
and then `-`, followed by any bytes `t` without `CR` and by `CR LF`: one call
of `parse_response` from `SW_START` with no token open reads the `-` in
`SW_BULK`, goes on in `SW_RUNTO_CRLF` and returns `PARSE_OK` with `type`
`MSG_RSP_REDIS_BULK` and `pos` one past that `LF`; no payload is read. -/
theorem C28_minus_after_digits (D t post : List Nat) (r : msg) (b : mbuf)
    (hD : all_digits D) (hcr : ∀ x ∈ t, x ≠ 13)
    (hstate : r.state = 0) (htoken : r.token = none)
    (hb : b.data.drop r.pos = 36 :: (D ++ 45 :: (t ++ 13 :: 10 :: post))) :
    (parse_response r b).result = PARSE_OK ∧
    (parse_response r b).result ≠ PARSE_ERROR ∧
    (parse_response r b).type = MSG_RSP_REDIS_BULK ∧
    (parse_response r b).pos = r.pos + D.length + t.length + 4 ∧
    b.data.drop (parse_response r b).pos = post := by
  have hpost : b.data.drop (r.pos + D.length + t.length + 4) = post := by
    have h1 : b.data.drop r.pos = ([36] ++ D ++ [45] ++ t ++ [13, 10]) ++ post := by
      rw [hb]
      simp
    have h2 := view_append h1
    simp only [List.length_append, List.length_cons, List.length_nil] at h2
    have e : r.pos + (0 + 1 + D.length + (0 + 1) + t.length + (0 + 1 + 1)) =
        r.pos + D.length + t.length + 4 := by omega
    rw [e] at h2
    exact h2
  rw [parse_response_eq, hstate]
  have h0 : rsp_sw.of_int 0 = .SW_START := rfl
  rw [h0]
  obtain ⟨hp, hat, _⟩ := buf_cons hb
  rw [rsp_run_start hp, hat]
  simp only [if_true, if_false, show ¬ ((36 : Nat) = 43) by decide,
    show ¬ ((36 : Nat) = 45) by decide, show ¬ ((36 : Nat) = 58) by decide]
  rw [rsp_run_bulk_minus (r := { r with type := MSG_RSP_REDIS_BULK }) htoken hD hcr hb]
  refine ⟨rfl, fun h => ?_, rfl, rfl, hpost⟩
  cases h

/-- C28 at the response `$3-\r\n` followed by `foo\r\n`: the call frames the
first five bytes. -/
theorem C28_minus_after_digits_witness :
    (parse_response (msg_of_type MSG_UNKNOWN) ⟨ascii "$3-\r\nfoo\r\n", 16⟩).result =
      PARSE_OK ∧
    (parse_response (msg_of_type MSG_UNKNOWN) ⟨ascii "$3-\r\nfoo\r\n", 16⟩).result ≠
      PARSE_ERROR ∧
    (parse_response (msg_of_type MSG_UNKNOWN) ⟨ascii "$3-\r\nfoo\r\n", 16⟩).type =
      MSG_RSP_REDIS_BULK ∧
    (parse_response (msg_of_type MSG_UNKNOWN) ⟨ascii "$3-\r\nfoo\r\n", 16⟩).pos =
      (msg_of_type MSG_UNKNOWN).pos + (decimal 3).length + ([] : List Nat).length + 4 ∧
    (mbuf.mk (ascii "$3-\r\nfoo\r\n") 16).data.drop
      (parse_response (msg_of_type MSG_UNKNOWN) ⟨ascii "$3-\r\nfoo\r\n", 16⟩).pos =
      ascii "foo\r\n" :=
  C28_minus_after_digits (decimal 3) [] (ascii "foo\r\n") (msg_of_type MSG_UNKNOWN)
    ⟨ascii "$3-\r\nfoo\r\n", 16⟩ (all_digits_decimal 3) (by decide) rfl rfl (by decide)

/-! ## C29: the nil element of a multibulk reply -/

/-- C29 (amended). In a multibulk reply, take an element header `$` `H` `CR`
whose bytes `H` between `$` and `CR` are one or more digits or `-`, read in
`SW_MULTIBULK_ARGN_LEN` with no token open and a non-zero `rnarg`. After the
`H.length + 2` iterations that read it the machine has consumed the `CR` and
stands either in `SW_MULTIBULK_ARGN_LF`, the state that expects the last `LF`
of the element, with `rlen = 0` (the header is taken for the nil sentinel and
no payload is read), or in `SW_MULTIBULK_ARGN_LEN_LF` with `rlen` the value
read from `H`. It is taken for the nil sentinel if and only if the test
`rlen == 1 && p - token == 3` holds at the `CR`, that is, if and only if `H`
is `-1`, `1-` or `01`. -/
theorem C29_nil_sentinel (b : mbuf) (p : Nat) (r : msg) (H rest : List Nat)
    (htoken : r.token = none) (hrnarg : r.rnarg ≠ 0)
    (hH : ∀ x ∈ H, isdigit x = true ∨ x = 45) (hne : H ≠ [])
    (hb : b.data.drop p = 36 :: (H ++ 13 :: rest)) :
    ∃ (s : rsp_sw) (r' : msg),
      rsp_iter b (H.length + 2) p .SW_MULTIBULK_ARGN_LEN r = some (p + H.length + 2, s, r') ∧
      b.at (p + H.length + 1) = 13 ∧
      (s = .SW_MULTIBULK_ARGN_LF ∨ s = .SW_MULTIBULK_ARGN_LEN_LF) ∧
      (s = .SW_MULTIBULK_ARGN_LF ↔ (header_rlen 0 H = 1 ∧ H.length = 2)) ∧
      (s = .SW_MULTIBULK_ARGN_LF ↔ (H = [45, 49] ∨ H = [49, 45] ∨ H = [48, 49])) ∧
      (s = .SW_MULTIBULK_ARGN_LF → r'.rlen = 0) ∧
      (s = .SW_MULTIBULK_ARGN_LEN_LF → r'.rlen = header_rlen 0 H) ∧
      r'.rnarg = r.rnarg - 1 ∧ r'.token = none := by
  have hrun := rsp_iter_header htoken hrnarg hH hne hb
  have hone := header_rlen_one H hH
  have hcr : b.at (p + H.length + 1) = 13 := by
    obtain ⟨_, _, h1⟩ := buf_cons hb
    obtain ⟨_, hat, _⟩ := buf_jump h1
    have e : p + H.length + 1 = p + 1 + H.length := by omega
    rw [e]
    exact hat
  by_cases hc : header_rlen 0 H = 1 ∧ H.length = 2
  · rw [if_pos hc, if_pos hc] at hrun
    refine ⟨_, _, hrun, hcr, Or.inl rfl, ⟨fun _ => hc, fun _ => rfl⟩,
      ⟨fun _ => hone.mp hc, fun _ => rfl⟩, fun _ => rfl, ?_, rfl, rfl⟩
    intro h
    cases h
  · rw [if_neg hc, if_neg hc] at hrun
    refine ⟨_, _, hrun, hcr, Or.inr rfl, ⟨?_, fun h => absurd h hc⟩,
      ⟨?_, fun h => absurd (hone.mpr h) hc⟩, ?_, fun _ => rfl, rfl, rfl⟩ <;>
    (intro h; cases h)

/-- C29 at the element header `$-1\r` of the reply `*1\r\n$-1\r\n`, read at
offset 4 with `rnarg = 1`. -/
theorem C29_nil_sentinel_witness :
    ∃ (s : rsp_sw) (r' : msg),
      rsp_iter ⟨ascii "*1\r\n$-1\r\n", 16⟩ ([45, 49].length + 2) 4 .SW_MULTIBULK_ARGN_LEN
        { msg_of_type MSG_RSP_REDIS_MULTIBULK with narg := 1, rnarg := 1 } =
        some (4 + [45, 49].length + 2, s, r') ∧
      (mbuf.mk (ascii "*1\r\n$-1\r\n") 16).at (4 + [45, 49].length + 1) = 13 ∧
      (s = .SW_MULTIBULK_ARGN_LF ∨ s = .SW_MULTIBULK_ARGN_LEN_LF) ∧
      (s = .SW_MULTIBULK_ARGN_LF ↔ (header_rlen 0 [45, 49] = 1 ∧ [45, 49].length = 2)) ∧
      (s = .SW_MULTIBULK_ARGN_LF ↔
        (([45, 49] : List Nat) = [45, 49] ∨ ([45, 49] : List Nat) = [49, 45] ∨
          ([45, 49] : List Nat) = [48, 49])) ∧
      (s = .SW_MULTIBULK_ARGN_LF → r'.rlen = 0) ∧
      (s = .SW_MULTIBULK_ARGN_LEN_LF → r'.rlen = header_rlen 0 [45, 49]) ∧
      r'.rnarg = 1 - 1 ∧ r'.token = none :=
  C29_nil_sentinel ⟨ascii "*1\r\n$-1\r\n", 16⟩ 4
    { msg_of_type MSG_RSP_REDIS_MULTIBULK with narg := 1, rnarg := 1 } [45, 49] [10]
    rfl (by decide) (by decide) (by decide) (by decide)

/-- C29 as stated fails for the element headers `01` and `1-`, which are not
`-1` and are taken for the nil sentinel. In the call on `*1\r\n$01\r\nx\r\n`
the ninth iteration reads the `CR` of the header and leaves the machine in
`SW_MULTIBULK_ARGN_LF` with `rlen = 0`; the payload is not read, and with the
`LF` the call returns `PARSE_OK` with `pos = 9`, before the payload `x`, where
the same element with the header `$1` is framed at `pos = 11`. With a second
element after it the call returns `PARSE_ERROR` at the payload `x`. The reply
`*1\r\n$1-\r\n` is framed in the same way as `*1\r\n$-1\r\n`. -/
theorem C29_counterexample :
    ascii "01" ≠ ascii "-1" ∧ ascii "1-" ≠ ascii "-1" ∧
    (rsp_iter ⟨ascii "*1\r\n$01\r\nx\r\n", 16⟩ 8 0 .SW_START (msg_of_type MSG_UNKNOWN)).map
      (fun x => (x.1, x.2.1)) = some (7, rsp_sw.SW_MULTIBULK_ARGN_LEN) ∧
    (mbuf.mk (ascii "*1\r\n$01\r\nx\r\n") 16).at 7 = 13 ∧
    (rsp_iter ⟨ascii "*1\r\n$01\r\nx\r\n", 16⟩ 9 0 .SW_START (msg_of_type MSG_UNKNOWN)).map
      (fun x => (x.1, x.2.1, x.2.2.rlen)) = some (8, rsp_sw.SW_MULTIBULK_ARGN_LF, 0) ∧
    (rsp_iter ⟨ascii "*1\r\n$1-\r\n", 16⟩ 9 0 .SW_START (msg_of_type MSG_UNKNOWN)).map
      (fun x => (x.1, x.2.1, x.2.2.rlen)) = some (8, rsp_sw.SW_MULTIBULK_ARGN_LF, 0) ∧
    (rsp_iter ⟨ascii "*1\r\n$-1\r\n", 16⟩ 9 0 .SW_START (msg_of_type MSG_UNKNOWN)).map
      (fun x => (x.1, x.2.1, x.2.2.rlen)) = some (8, rsp_sw.SW_MULTIBULK_ARGN_LF, 0) ∧
    (parse_response (msg_of_type MSG_UNKNOWN) ⟨ascii "*1\r\n$01\r\nx\r\n", 16⟩).result =
      PARSE_OK ∧
    (parse_response (msg_of_type MSG_UNKNOWN) ⟨ascii "*1\r\n$01\r\nx\r\n", 16⟩).pos = 9 ∧
    (mbuf.mk (ascii "*1\r\n$01\r\nx\r\n") 16).data.drop
      (parse_response (msg_of_type MSG_UNKNOWN) ⟨ascii "*1\r\n$01\r\nx\r\n", 16⟩).pos =
      ascii "x\r\n" ∧
    (parse_response (msg_of_type MSG_UNKNOWN) ⟨ascii "*1\r\n$1\r\nx\r\n", 16⟩).result =
      PARSE_OK ∧
    (parse_response (msg_of_type MSG_UNKNOWN) ⟨ascii "*1\r\n$1\r\nx\r\n", 16⟩).pos = 11 ∧
    (parse_response (msg_of_type MSG_UNKNOWN)
      ⟨ascii "*2\r\n$01\r\nx\r\n$1\r\ny\r\n", 32⟩).result = PARSE_ERROR ∧
    rsp_sw.of_int (parse_response (msg_of_type MSG_UNKNOWN)
      ⟨ascii "*2\r\n$01\r\nx\r\n$1\r\ny\r\n", 32⟩).state = rsp_sw.SW_MULTIBULK_ARGN_LEN ∧
    (parse_response (msg_of_type MSG_UNKNOWN) ⟨ascii "*1\r\n$1-\r\n", 16⟩).result = PARSE_OK ∧
    (parse_response (msg_of_type MSG_UNKNOWN) ⟨ascii "*1\r\n$1-\r\n", 16⟩).pos = 9 ∧
    (parse_response (msg_of_type MSG_UNKNOWN) ⟨ascii "*1\r\n$-1\r\n", 16⟩).result = PARSE_OK ∧
    (parse_response (msg_of_type MSG_UNKNOWN) ⟨ascii "*1\r\n$-1\r\n", 16⟩).pos = 9 ∧
    (parse_response (msg_of_type MSG_UNKNOWN) ⟨ascii "*1\r\n$-01\r\n", 32⟩).result =
      PARSE_AGAIN ∧
    rsp_sw.of_int (parse_response (msg_of_type MSG_UNKNOWN) ⟨ascii "*1\r\n$-01\r\n", 32⟩).state =
      rsp_sw.SW_MULTIBULK_ARGN := by
  decide

/-! ## C30: the counters are 32 bits wide -/

/-- C30. The argument count and the bulk lengths are accumulated in a
`uint32_t`. Whenever a call of `parse_request` from `SW_START` with no token
open stands, after some iterations, at the first byte `q` of a command name,
a key or a trailing argument (state `SW_REQ_TYPE`, `SW_KEY`, `SW_ARG1`,
`SW_ARG2` or `SW_ARGN`), the bytes read so far are a header `*<D>\r\n`, whole
bulk elements and a length field `$<L>\r\n`, and then `narg` is the value of
`D` modulo 2^32 and `rlen` the value of `L` modulo 2^32. A call on a buffer
that ends with the header `*<D>\r\n` returns `PARSE_AGAIN` with `narg` the
value of `D` modulo 2^32 when that is not zero, and `PARSE_ERROR` when it is
zero. Consequently the request with the header `*4294967298` followed by the
two elements of `GET a` is framed with `PARSE_OK` and `narg = 2`. -/
theorem C30_uint32_counters (r : msg) (b : mbuf) (n q : Nat) (s : req_sw) (m : msg)
    (hstate : r.state = 0) (htoken : r.token = none)
    (hiter : req_iter b n r.pos SW_START r = some (q, s, m))
    (hs : s = SW_REQ_TYPE ∨ s = SW_KEY ∨ s = SW_ARG1 ∨ s = SW_ARG2 ∨ s = SW_ARGN)
    (hq : q < b.last) :
    (parse_request r b = req_run b q s m ∧
      ∃ (D : List Nat) (es : List (List Nat × List Nat)) (L : List Nat),
        slice b.data r.pos q = header D ++ (elements es ++ 36 :: (L ++ [13, 10])) ∧
        all_digits D ∧ D ≠ [] ∧ all_digits L ∧ L ≠ [] ∧
        (∀ e ∈ es, all_digits e.1 ∧ e.1 ≠ [] ∧ e.2.length = dec_value e.1 % 2 ^ 32) ∧
        m.narg = dec_value D % 2 ^ 32 ∧ m.rlen = dec_value L % 2 ^ 32) ∧
    (∀ (D : List Nat) (r' : msg) (b' : mbuf), all_digits D → r'.state = 0 →
      r'.token = none → b'.data.drop r'.pos = header D →
      (dec_value D % 2 ^ 32 ≠ 0 →
        (parse_request r' b').result = PARSE_AGAIN ∧
        (parse_request r' b').state = SW_REQ_TYPE_LEN.to_int ∧
        (parse_request r' b').narg = dec_value D % 2 ^ 32 ∧
        (parse_request r' b').rnarg = dec_value D % 2 ^ 32) ∧
      (dec_value D % 2 ^ 32 = 0 → (parse_request r' b').result = PARSE_ERROR)) ∧
    ((parse_request (msg_of_type MSG_UNKNOWN)
        ⟨ascii "*4294967298\r\n$3\r\nGET\r\n$1\r\na\r\n", 64⟩).result = PARSE_OK ∧
      (parse_request (msg_of_type MSG_UNKNOWN)
        ⟨ascii "*4294967298\r\n$3\r\nGET\r\n$1\r\na\r\n", 64⟩).narg = 2 ∧
      (parse_request (msg_of_type MSG_UNKNOWN)
        ⟨ascii "*4294967298\r\n$3\r\nGET\r\n$1\r\na\r\n", 64⟩).pos = 29 ∧
      4294967298 % 2 ^ 32 = 2) := by
  have h0 : req_sw.of_int 0 = SW_START := rfl
  refine ⟨⟨?_, ?_⟩, ?_, by decide⟩
  · rw [parse_request_eq, hstate, h0]
    exact (req_iter_run n r.pos SW_START r q s m hiter).1
  · have hinv : grammar_inv b r.pos q s m :=
      req_iter_grammar n r.pos SW_START r q s m hiter (Or.inr ⟨rfl, htoken⟩)
    have hinv' : phase_inv b r.pos q m.token m.rlen m.narg m.rnarg .payload := by
      rcases hinv with hle | hinv
      · omega
      · rcases hs with rfl | rfl | rfl | rfl | rfl <;> exact hinv
    obtain ⟨_, L, hL, hL0, hrl, D, es, hD, hD0, hes, hna, _, hdrop⟩ := hinv'
    refine ⟨D, es, L, ?_, hD, hD0, hL, hL0, hes, hna, hrl⟩
    have hd : b.data.drop r.pos =
        (header D ++ (elements es ++ 36 :: (L ++ [13, 10]))) ++ b.data.drop q := by
      rw [hdrop]
      simp
    exact (slice_of_drop (Nat.le_of_lt hq) (by simp [header]) hd).2.2
  · intro D r' b' hD hst htk hb
    have hview : b'.data.drop r'.pos = 42 :: (D ++ 13 :: 10 :: []) := hb
    have hend : b'.last ≤ r'.pos + D.length + 3 := by
      have := view_skip3 hview
      have hl := congrArg List.length this
      simp only [List.length_drop, List.length_nil] at hl
      show b'.data.length ≤ _
      omega
    rw [parse_request_eq, hst, h0]
    constructor
    · intro hn
      rw [req_run_header htk hD hview hn, req_run_end _ _ hend]
      exact ⟨rfl, rfl, rfl, rfl⟩
    · intro hn
      have hview' : b'.data.drop r'.pos = 42 :: (D ++ 13 :: [10]) := hb
      exact req_run_header_error htk hD hview' hn

/-- C30 at the request `*4294967298\r\n$3\r\nGET\r\n$1\r\na\r\n`, where the
call stands at the key `a` after 23 iterations. -/
theorem C30_uint32_counters_witness :
    (∃ (D : List Nat) (es : List (List Nat × List Nat)) (L : List Nat),
      slice (ascii "*4294967298\r\n$3\r\nGET\r\n$1\r\na\r\n") 0 26 =
        header D ++ (elements es ++ 36 :: (L ++ [13, 10])) ∧
      all_digits D ∧ D ≠ [] ∧ all_digits L ∧ L ≠ [] ∧
      (∀ e ∈ es, all_digits e.1 ∧ e.1 ≠ [] ∧ e.2.length = dec_value e.1 % 2 ^ 32) ∧
      2 = dec_value D % 2 ^ 32 ∧ 1 = dec_value L % 2 ^ 32) ∧
    (parse_request (msg_of_type MSG_UNKNOWN)
      ⟨ascii "*4294967298\r\n$3\r\nGET\r\n$1\r\na\r\n", 64⟩).narg = 2 :=
  have h := C30_uint32_counters (msg_of_type MSG_UNKNOWN)
    ⟨ascii "*4294967298\r\n$3\r\nGET\r\n$1\r\na\r\n", 64⟩ 23 26 SW_KEY
    { state := 0, pos := 0, token := none, result := PARSE_OK, type := MSG_REQ_REDIS_GET,
      key_start := none, key_end := none, narg_start := some 1, narg_end := some 11,
      narg := 2, rnarg := 0, rlen := 1 }
    rfl rfl (by decide) (Or.inr (Or.inl rfl)) (by decide)
  ⟨h.1.2, h.2.2.2.1⟩

/-! ## C31: the cursor stays inside the filled region -/

/-- C31. Take a message `r0` whose `rlen` fits in 32 bits (the initial
message, in `SW_START` with no token, is one), any sequence of earlier calls
of `parse_request` on it, and one more call entered with `pos <= last` in the
tail buffer `b`. Then `rlen` still fits in 32 bits on entry; at the head of
every iteration of the loop the cursor lies between the entry position and
`last`; whenever `SW_ARG1`, `SW_ARG2` or `SW_ARGN` takes the skip past the end
of the filled region, `last - p` is at most `rlen`, so `rlen -= last - p` does
not wrap around and the iteration leaves the cursor at `last`; a call that
does not leave through `done`, `fragment` or `error` reaches the code after
the loop with the cursor equal to `last`, and a call that returns
`PARSE_AGAIN` stores `pos = last`; and a call that returns `PARSE_OK` has
moved `pos` forward with `pos <= last` and has stored the tag of a command of
the table, a request tag strictly between `MSG_UNKNOWN` and `MSG_SENTINEL`. -/
theorem C31_cursor_in_bounds (r0 : msg) (calls : List (mbuf × Nat)) (b : mbuf) (pos : Nat)
    (r : msg) (hr : r = { req_calls r0 calls with pos := pos })
    (h32 : r0.rlen < 2 ^ 32) (hpos : pos ≤ b.last) :
    r.rlen < 2 ^ 32 ∧
    (∀ (q : Nat) (s : req_sw) (m : msg),
      req_reach b r.pos (req_sw.of_int r.state) r q s m →
      r.pos ≤ q ∧ q ≤ b.last ∧ m.rlen < 2 ^ 32 ∧
      ((s = SW_ARG1 ∨ s = SW_ARG2 ∨ s = SW_ARGN) → q < b.last → b.last ≤ q + m.rlen →
        b.last - q ≤ m.rlen ∧ (b.last - q) % 2 ^ 32 ≤ m.rlen ∧
        sub32 m.rlen (b.last - q) = m.rlen - (b.last - q) ∧
        req_step b q s m = .next b.last s { m with rlen := m.rlen - (b.last - q) })) ∧
    ((parse_request r b).result = PARSE_OK ∨ (parse_request r b).result = PARSE_FRAGMENT ∨
      (parse_request r b).result = PARSE_ERROR ∨
      ∃ s m, req_reach b r.pos (req_sw.of_int r.state) r b.last s m ∧
        parse_request r b = label_again b b.last s.to_int m) ∧
    ((parse_request r b).result = PARSE_AGAIN → (parse_request r b).pos = b.last) ∧
    ((parse_request r b).result = PARSE_OK →
      r.pos < (parse_request r b).pos ∧ (parse_request r b).pos ≤ b.last ∧
      (∃ a, arity_of (parse_request r b).type = some a) ∧
      MSG_UNKNOWN.to_int < (parse_request r b).type.to_int ∧
      (parse_request r b).type.to_int < MSG_RSP_REDIS_STATUS.to_int ∧
      (parse_request r b).type.to_int < MSG_SENTINEL.to_int) := by
  have hrl : r.rlen < 2 ^ 32 := by
    rw [hr]
    exact req_calls_rlen calls r0 h32
  have hp : r.pos ≤ b.last := by
    rw [hr]
    exact hpos
  have hexit := @req_run_exit b r.pos (req_sw.of_int r.state) r hp
  rw [parse_request_eq]
  refine ⟨hrl, ?_, hexit, ?_, ?_⟩
  · intro q s m hreach
    obtain ⟨h1, h2, h3⟩ := req_reach_bounds hp hrl hreach
    exact ⟨h1, h2, h3, fun hs hq hm => req_step_arg_skip hs h3 hq hm⟩
  · intro hagain
    rcases hexit with h | h | h | ⟨s, m, _, e⟩
    · rw [h] at hagain
      cases hagain
    · rw [h] at hagain
      cases hagain
    · rw [h] at hagain
      cases hagain
    · rw [e] at hagain ⊢
      exact label_again_pos hagain
  · intro hok
    obtain ⟨h1, h2, a, h3⟩ := req_run_ok_range hok
    obtain ⟨h4, h5, h6⟩ := arity_tag_range _ a h3
    exact ⟨h1, h2, ⟨a, h3⟩, h4, h5, h6⟩

/-- C31 at the `SET` request `*3\r\n$3\r\nSET\r\n$1\r\nk\r\n$5\r\nvalue\r\n`
read in two calls, the first on the bytes up to `va`. A call that stands in
`SW_ARG1` at the payload (offset 24) with `rlen = 5` and two bytes left takes
the skip and leaves `rlen = 3` and the cursor at `last`; the second call,
entered where the first one stopped, returns `PARSE_OK` with `pos` at `last`
and a request tag. -/
theorem C31_cursor_in_bounds_witness :
    (26 - 24 ≤ 5 ∧ (26 - 24) % 2 ^ 32 ≤ 5 ∧ sub32 5 (26 - 24) = 5 - (26 - 24) ∧
      req_step ⟨ascii "*3\r\n$3\r\nSET\r\n$1\r\nk\r\n$5\r\nva", 64⟩ 24 SW_ARG1
        { msg_of_type MSG_REQ_REDIS_SET with pos := 24, rlen := 5, state := 13 } =
        .next 26 SW_ARG1
          { msg_of_type MSG_REQ_REDIS_SET with pos := 24, rlen := 5 - (26 - 24), state := 13 }) ∧
    (parse_request
      { req_calls (msg_of_type MSG_UNKNOWN)
          [(⟨ascii "*3\r\n$3\r\nSET\r\n$1\r\nk\r\n$5\r\nva", 64⟩, 0)] with pos := 26 }
      ⟨ascii "*3\r\n$3\r\nSET\r\n$1\r\nk\r\n$5\r\nvalue\r\n", 64⟩).pos ≤ 31 ∧
    (parse_request
      { req_calls (msg_of_type MSG_UNKNOWN)
          [(⟨ascii "*3\r\n$3\r\nSET\r\n$1\r\nk\r\n$5\r\nva", 64⟩, 0)] with pos := 26 }
      ⟨ascii "*3\r\n$3\r\nSET\r\n$1\r\nk\r\n$5\r\nvalue\r\n", 64⟩).type.to_int <
      MSG_SENTINEL.to_int :=
  have h1 := C31_cursor_in_bounds
    { msg_of_type MSG_REQ_REDIS_SET with pos := 24, rlen := 5, state := 13 } []
    ⟨ascii "*3\r\n$3\r\nSET\r\n$1\r\nk\r\n$5\r\nva", 64⟩ 24
    { msg_of_type MSG_REQ_REDIS_SET with pos := 24, rlen := 5, state := 13 } rfl
    (by decide) (by decide)
  have h2 := C31_cursor_in_bounds (msg_of_type MSG_UNKNOWN)
    [(⟨ascii "*3\r\n$3\r\nSET\r\n$1\r\nk\r\n$5\r\nva", 64⟩, 0)]
    ⟨ascii "*3\r\n$3\r\nSET\r\n$1\r\nk\r\n$5\r\nvalue\r\n", 64⟩ 26 _ rfl
    (by decide) (by decide)
  ⟨(h1.2.1 24 SW_ARG1 _ .start).2.2.2 (Or.inl rfl) (by decide) (by decide),
    (h2.2.2.2.2 (by decide)).2.1, (h2.2.2.2.2 (by decide)).2.2.2.2.2⟩

/-! ## C32: `parse_response` terminates -/

/-- C32. The loop of `parse_response` ends on every message `r` and buffer
`b`. (1) An iteration in `SW_START` ends at `error` or steps the cursor back
(`p = p - 1`, so that after the `p++` of the loop header the next iteration
starts at the same byte) and changes the state to `SW_STATUS`, `SW_ERROR`,
`SW_INTEGER`, `SW_BULK` or `SW_MULTIBULK`; the next iteration then consumes
that byte (or ends at `error`, which needs a token left open on entry).
(2) Every iteration that ends with `break` leaves a state other than
`SW_START` and a cursor not past `last`; outside `SW_START` it moves the
cursor forward. (3) If the loop stands at cursor `q` after `k` iterations,
then `q` is not before the entry position and not past `last`, and `k` is at
most `n + 1` for a call entered in `SW_START` over `n = last - pos` unread
bytes (at most `n` from any other state); if one more iteration runs
(`q < last`), it is still within that bound. (4) The call returns: after some
`k` iterations within the bound either the cursor has reached `last` and the
code after the loop gives the result, or the next iteration, within the bound
too, jumps to `done` or to `error` and that label gives the result. (5) The
bound on the iterations in `rsp_loop` is never what ends the loop. (6) The
bound is attained: the five bytes `+OK\r\n` take six iterations. -/
theorem C32_response_terminates (r : msg) (b : mbuf) :
    (∀ (p : Nat) (m : msg),
      (∃ m', rsp_step b p .SW_START m = .error .SW_START m') ∨
      (∃ s' m', rsp_step b p .SW_START m = .next p s' m' ∧ s' ≠ .SW_START ∧
        (s' = .SW_STATUS ∨ s' = .SW_ERROR ∨ s' = .SW_INTEGER ∨ s' = .SW_BULK ∨
          s' = .SW_MULTIBULK) ∧
        ((∃ s'' m'', rsp_step b p s' m' = .next (p + 1) s'' m'') ∨
          (m.token ≠ none ∧ ∃ s'' m'', rsp_step b p s' m' = .error s'' m'')))) ∧
    (∀ (p : Nat) (s : rsp_sw) (m : msg) (p' : Nat) (s' : rsp_sw) (m' : msg), p < b.last →
      rsp_step b p s m = .next p' s' m' →
      s' ≠ .SW_START ∧ p' ≤ b.last ∧ (s = .SW_START → p' = p) ∧ (s ≠ .SW_START → p < p')) ∧
    (∀ (k q : Nat) (s : rsp_sw) (m : msg),
      rsp_iter b k r.pos (rsp_sw.of_int r.state) r = some (q, s, m) →
      r.pos ≤ q ∧ (r.pos ≤ b.last → q ≤ b.last) ∧
      k ≤ (b.last - r.pos) + (if rsp_sw.of_int r.state = .SW_START then 1 else 0) ∧
      (q < b.last →
        k + 1 ≤ (b.last - r.pos) + (if rsp_sw.of_int r.state = .SW_START then 1 else 0))) ∧
    (∃ (k q : Nat) (s : rsp_sw) (m : msg),
      rsp_iter b k r.pos (rsp_sw.of_int r.state) r = some (q, s, m) ∧
      ((b.last ≤ q ∧
          k ≤ (b.last - r.pos) + (if rsp_sw.of_int r.state = .SW_START then 1 else 0) ∧
          parse_response r b = label_again b q s.to_int m) ∨
       (q < b.last ∧
          k + 1 ≤ (b.last - r.pos) + (if rsp_sw.of_int r.state = .SW_START then 1 else 0) ∧
          ((∃ p' s' m', rsp_step b q s m = .done p' s' m' ∧
              parse_response r b = label_done p' m') ∨
           (∃ s' m', rsp_step b q s m = .error s' m' ∧
              parse_response r b = label_error s'.to_int m'))))) ∧
    (∀ fuel : Nat, b.last - r.pos + 1 ≤ fuel →
      rsp_loop fuel b r.pos (rsp_sw.of_int r.state) r = parse_response r b) ∧
    ((ascii "+OK\r\n").length = 5 ∧
      rsp_iter ⟨ascii "+OK\r\n", 16⟩ 5 0 .SW_START (msg_of_type MSG_UNKNOWN) =
        some (4, .SW_ALMOST_DONE, msg_of_type MSG_RSP_REDIS_STATUS) ∧
      rsp_step ⟨ascii "+OK\r\n", 16⟩ 4 .SW_ALMOST_DONE (msg_of_type MSG_RSP_REDIS_STATUS) =
        .done 4 .SW_ALMOST_DONE (msg_of_type MSG_RSP_REDIS_STATUS) ∧
      (parse_response (msg_of_type MSG_UNKNOWN) ⟨ascii "+OK\r\n", 16⟩).result = PARSE_OK) := by
  refine ⟨fun p m => rsp_step_start_cases b p m, ?_, ?_, ?_, ?_, ?_⟩
  · intro p s m p' s' m' hp h
    obtain ⟨b1, _, b3, b4⟩ := rsp_step_next_bounds hp h
    refine ⟨b1, b4, fun hs => ?_, b3⟩
    subst hs
    exact rsp_step_start_back h
  · intro k q s m h
    obtain ⟨h1, h2, h3, h4⟩ := rsp_iter_bound k r.pos _ r q s m h
    refine ⟨h1, h2, ?_, fun hq => ?_⟩
    · cases k with
      | zero => exact Nat.zero_le _
      | succ j =>
        have := (h4 (Nat.succ_pos j)).2
        omega
    · omega
  · exact rsp_run_exits _ r.pos (rsp_sw.of_int r.state) r (Nat.le_refl _)
  · intro fuel h
    exact rsp_loop_fuel fuel b r.pos _ r h
  · exact ⟨by decide, by decide, rfl, by decide⟩

end NcParse
